import Mathlib

/-!
# DirectFB2: surface pools, window stack input, event buffer, clipping and updates

A shallow embedding of `src/core/surface_pool.c`, of the input reactions of
`src/core/windowstack.c`, of the queue and the statistics of
`src/input/idirectfbeventbuffer.c`, of the line, rectangle, triangle and blit
clipping of `src/gfx/clip.c` and of the update aggregator of `src/misc/util.c`,
with the properties of the specification stated over it.

Conventions of the embedding.

* The process-local tables `pool_count`, `pool_funcs`, `pool_locals`,
  `pool_array`, `pool_order` form the record `Registry`; a table is a
  function from the slot index, `none` is the C `NULL`.
* A function whose C original can dereference `NULL` or index out of bounds
  returns an `Option`; `none` is that fault.
* Callbacks of a pool and services of collaborators that are not part of the
  sources are oracles: fields of `SurfacePoolFuncs` or of an environment
  record, indexed by a call counter where the outcome may change over time.
* Flag words are natural numbers with bitwise operations on 32 bits.
* An `int` computation is the mathematical one wrapped to 32 bits; a loop
  whose number of rounds is not fixed takes its bound as `fuel` and has no
  result when the fuel runs out.
* Inline helpers of `directfb_util.h`, which is not part of the sources, are
  written out from the specification and marked as such.
* An array in use up to a count, such as `regions` of `DFBUpdates`, is the list
  of its entries in use; where the indices matter, as for `edges[3]` and `p[6]`
  of `dfb_clip_triangle`, a second embedding checks every access.
-/

namespace DirectFB

/-! ## Result codes and flag words -/

/-- Result codes (`DFBResult`) that the modelled functions produce or classify. -/
inductive DFBResult where
  | DFB_OK
  | DFB_FAILURE
  | DFB_BUG
  | DFB_DEAD
  | DFB_UNSUPPORTED
  | DFB_UNIMPLEMENTED
  | DFB_INVARG
  | DFB_INVAREA
  | DFB_NOLOCALMEMORY
  | DFB_NOSHAREDMEMORY
  | DFB_LOCKED
  | DFB_BUFFEREMPTY
  | DFB_TIMEOUT
  | DFB_IDNOTFOUND
  | DFB_DESTROYED
  | DFB_FUSION
  | DFB_INTERRUPTED
  | DFB_LIMITEXCEEDED
  | DFB_ITEMNOTFOUND
  | DFB_NOVIDEOMEMORY
  deriving DecidableEq, Repr, Inhabited

open DFBResult

/-- The C test `if (ret)`: a result other than `DFB_OK`. -/
def DFBResult.isError (r : DFBResult) : Bool := r != DFB_OK

/-- The macro `D_OOM()`: reports and yields the local out-of-memory code. -/
def D_OOM : DFBResult := DFB_NOLOCALMEMORY

/-- The macro `D_OOSHM()`: reports and yields the shared out-of-memory code. -/
def D_OOSHM : DFBResult := DFB_NOSHAREDMEMORY

/-- The macro `D_FLAGS_ARE_SET( flags, f )`, that is `((flags & f) == f)`. -/
def D_FLAGS_ARE_SET (flags f : Nat) : Bool := (flags &&& f) == f

/-- The C expression `flags & ~f` on a 32 bit flag word. -/
def flagsWithout (flags f : Nat) : Nat := flags &&& (0xFFFFFFFF ^^^ f)

/-- Upper bound of the pool tables, `MAX_SURFACE_POOLS` (its header is not among
the sources; the value only bounds the tables). -/
def MAX_SURFACE_POOLS : Nat := 8

/-- Access flag `CSAF_SHARED` of `CoreSurfaceAccessFlags` (header not among the sources). -/
def CSAF_SHARED : Nat := 0x10

/-- Access flag `CSAF_READ`. -/
def CSAF_READ : Nat := 0x01

/-- Access flag `CSAF_WRITE`. -/
def CSAF_WRITE : Nat := 0x02

/-- Type flag `CSTF_LAYER` of `CoreSurfaceTypeFlags` (header not among the sources). -/
def CSTF_LAYER : Nat := 0x001

/-- Type flag `CSTF_WINDOW`. -/
def CSTF_WINDOW : Nat := 0x002

/-- Type flag `CSTF_CURSOR`. -/
def CSTF_CURSOR : Nat := 0x004

/-- Type flag `CSTF_FONT`. -/
def CSTF_FONT : Nat := 0x008

/-- Type flag `CSTF_SHARED`. -/
def CSTF_SHARED : Nat := 0x010

/-- Type flag `CSTF_INTERNAL`. -/
def CSTF_INTERNAL : Nat := 0x100

/-- Type flag `CSTF_EXTERNAL`. -/
def CSTF_EXTERNAL : Nat := 0x200

/-- Type flag `CSTF_PREALLOCATED`. -/
def CSTF_PREALLOCATED : Nat := 0x400

/-- Accessor `CSAID_CPU` of `CoreSurfaceAccessorID` (header not among the sources). -/
def CSAID_CPU : Int := 1

/-- Accessor `CSAID_GPU`. -/
def CSAID_GPU : Int := 2

/-- The number of statically assigned accessor IDs, `_CSAID_NUM`: the length of
the per-accessor tables. -/
def CSAID_NUM : Int := 0x18

/-- First ID of dynamically registered accessors, `CSAID_ANY`. -/
def CSAID_ANY : Int := 0x100

/-- Fusion ID of the master process, `FUSION_ID_MASTER`. -/
def FUSION_ID_MASTER : Nat := 1

/-- Pool capability `CSPCAPS_READ`, from `surface_pool.h`. -/
def CSPCAPS_READ : Nat := 0x4

/-- Pool capability `CSPCAPS_WRITE`, from `surface_pool.h`. -/
def CSPCAPS_WRITE : Nat := 0x8

/-- Pool priority `CSPP_DEFAULT`, from `surface_pool.h`. -/
def CSPP_DEFAULT : Nat := 0

/-- Pool priority `CSPP_PREFERED`, from `surface_pool.h`. -/
def CSPP_PREFERED : Nat := 1

/-- Pool priority `CSPP_ULTIMATE`, from `surface_pool.h`. -/
def CSPP_ULTIMATE : Nat := 2

/-- Buffer policies (`CoreSurfacePolicy`). -/
inductive CoreSurfacePolicy where
  | CSP_SYSTEMONLY
  | CSP_VIDEOLOW
  | CSP_VIDEOHIGH
  | CSP_VIDEOONLY
  deriving DecidableEq, Repr, Inhabited

/-! ## Data model of the pool registry -/

/-- The struct `CoreSurfacePoolDescription` of `surface_pool.h`; `access` is the
table `access[_CSAID_NUM]`. -/
structure CoreSurfacePoolDescription where
  caps : Nat
  access : Nat → Nat
  types : Nat
  priority : Nat
  name : String

/-- The part of `struct __DFB_CoreSurfacePool` that the registry reads. The vector
`allocs` of the struct is kept in `World.pool_allocs`, keyed by `pool_id`; `data`
is the shared blob (its size) and `backup` the ID of the backup pool. -/
structure CoreSurfacePool where
  pool_id : Nat
  desc : CoreSurfacePoolDescription
  pool_data_size : Int
  pool_local_data_size : Int
  alloc_data_size : Int
  data : Option Int
  backup : Option Nat

/-- A surface as far as the pool engine reads it: identity, `type`, `config.size`. -/
structure CoreSurface where
  id : Nat
  type : Nat
  width : Int
  height : Int
  deriving DecidableEq, Repr, Inhabited

/-- A surface buffer as far as the pool engine reads it. -/
structure CoreSurfaceBuffer where
  id : Nat
  surface : CoreSurface
  policy : CoreSurfacePolicy
  type : Nat
  deriving DecidableEq, Repr, Inhabited

/-- What `InitPool` hands back: its result, the description it filled in and the
backup pool it may have set on the pool. -/
structure InitPoolResult where
  ret : DFBResult
  desc : CoreSurfacePoolDescription
  backup : Option Nat

/-- The function table `SurfacePoolFuncs` of `surface_pool.h`. An optional callback
is `none` when the table holds `NULL`. Callbacks whose outcome may differ from
call to call take the call counter of the world. `MuckOut` yields its result and
the set of allocations it marks. -/
structure SurfacePoolFuncs where
  PoolDataSize : Option Int
  PoolLocalDataSize : Option Int
  AllocationDataSize : Option Int
  InitPool : InitPoolResult
  JoinPool : Option DFBResult
  DestroyPool : Bool
  LeavePool : Bool
  TestConfig : Option (CoreSurfacePool → CoreSurfaceBuffer → DFBResult)
  AllocateBuffer : Nat → DFBResult × Nat
  DeallocateBuffer : Nat → DFBResult
  MuckOut : Option (Nat → DFBResult × (Nat → Bool))
  Read : Bool
  Write : Bool

/-- The static tables at the top of `surface_pool.c`. -/
structure Registry where
  pool_count : Nat
  pool_funcs : Nat → Option SurfacePoolFuncs
  pool_locals : Nat → Option Int
  pool_array : Nat → Option CoreSurfacePool
  pool_order : Nat → Nat

/-- Outcome of the memory allocators during one registration: whether `SHCALLOC`
of the pool struct, `SHCALLOC` of the shared data and `D_CALLOC` of the local
data succeed. -/
structure MemEnv where
  shcalloc_pool : Bool
  shcalloc_data : Bool
  dcalloc_local : Bool
  deriving DecidableEq, Repr, Inhabited

/-! ## Negotiation (`dfb_surface_pools_negotiate`) -/

/-- The type mask computed at the start of `dfb_surface_pools_negotiate`:
`surface->type & ~(CSTF_INTERNAL | CSTF_EXTERNAL)` with the bit of the buffer
policy added by the `switch`. -/
def negotiate_type (buffer : CoreSurfaceBuffer) : Nat :=
  let type := flagsWithout buffer.surface.type (CSTF_INTERNAL ||| CSTF_EXTERNAL)
  match buffer.policy with
  | .CSP_SYSTEMONLY => type ||| CSTF_INTERNAL
  | .CSP_VIDEOONLY => type ||| CSTF_EXTERNAL
  | _ => type

/-- The main loop of `dfb_surface_pools_negotiate`, `for (i = 0; i < pool_count; i++)`,
with `n` iterations left at index `i`; `free` and `oom` are the arrays
`free_pools`, `oom_pools` filled so far. -/
def negotiate_scan (r : Registry) (identity : Nat) (buffer : CoreSurfaceBuffer)
    (accessor : Nat) (access type : Nat) :
    Nat → Nat → List CoreSurfacePool → List CoreSurfacePool →
      Option (List CoreSurfacePool × List CoreSurfacePool)
  | 0, _, free, oom => some (free, oom)
  | n + 1, i, free, oom =>
    match r.pool_array (r.pool_order i) with
    | none => none
    | some pool =>
      if identity != FUSION_ID_MASTER && (pool.desc.access accessor &&& CSAF_SHARED) == 0 then
        negotiate_scan r identity buffer accessor access type n (i + 1) free oom
      else if D_FLAGS_ARE_SET (pool.desc.access accessor) access &&
          D_FLAGS_ARE_SET pool.desc.types (flagsWithout type CSTF_PREALLOCATED) then
        match r.pool_funcs pool.pool_id with
        | none => none
        | some funcs =>
          let ret := match funcs.TestConfig with
            | some test => test pool buffer
            | none => DFB_OK
          match ret with
          | DFB_OK =>
            negotiate_scan r identity buffer accessor access type n (i + 1) (free ++ [pool]) oom
          | DFB_NOVIDEOMEMORY =>
            negotiate_scan r identity buffer accessor access type n (i + 1) free (oom ++ [pool])
          | _ => negotiate_scan r identity buffer accessor access type n (i + 1) free oom
      else negotiate_scan r identity buffer accessor access type n (i + 1) free oom

/-- The copy loops `for (i = 0; i < count && num < max_pools; i++) ret_pools[num++] = src[i]`;
`dst` is `ret_pools[0..num)`. -/
def copy_pools (max_pools : Nat) : List CoreSurfacePool → List CoreSurfacePool → List CoreSurfacePool
  | [], dst => dst
  | p :: rest, dst => if dst.length < max_pools then copy_pools max_pools rest (dst ++ [p]) else dst

/-- The function `dfb_surface_pools_negotiate`: the result code and `ret_pools[0..*ret_num)`
(empty where the C function returns before writing them). -/
def dfb_surface_pools_negotiate (r : Registry) (identity : Nat) (buffer : CoreSurfaceBuffer)
    (accessor : Int) (access : Nat) (max_pools : Nat) :
    Option (DFBResult × List CoreSurfacePool) :=
  if accessor ≥ CSAID_ANY then some (DFB_UNIMPLEMENTED, [])
  else if accessor < 0 ∨ accessor ≥ CSAID_NUM then some (DFB_INVARG, [])
  else
    let type := negotiate_type buffer
    match negotiate_scan r identity buffer accessor.toNat access type r.pool_count 0 [] [] with
    | none => none
    | some (free_pools, oom_pools) =>
      let ret_pools := copy_pools max_pools oom_pools (copy_pools max_pools free_pools [])
      some (if free_pools.length != 0 then DFB_OK
            else if oom_pools.length != 0 then DFB_NOVIDEOMEMORY else DFB_UNSUPPORTED,
            ret_pools)

/-- The pools of the registry in priority order: the pools behind `pool_order[0..pool_count)`. -/
def pools_in_priority_order (r : Registry) : List CoreSurfacePool :=
  (List.range r.pool_count).filterMap (fun i => r.pool_array (r.pool_order i))

/-- The probe of a candidate: the result of its `TestConfig`, `DFB_OK` when the pool
has no `TestConfig`. -/
def probe (r : Registry) (buffer : CoreSurfaceBuffer) (pool : CoreSurfacePool) : DFBResult :=
  match r.pool_funcs pool.pool_id with
  | some funcs =>
    (match funcs.TestConfig with
     | some test => test pool buffer
     | none => DFB_OK)
  | none => DFB_UNSUPPORTED

/-- The required type mask in the words of the specification: the surface type with
INTERNAL and EXTERNAL stripped, the bit of the buffer policy applied again. -/
def required_type (buffer : CoreSurfaceBuffer) : Nat :=
  let stripped := flagsWithout buffer.surface.type (CSTF_INTERNAL ||| CSTF_EXTERNAL)
  if buffer.policy = .CSP_SYSTEMONLY then stripped ||| CSTF_INTERNAL
  else if buffer.policy = .CSP_VIDEOONLY then stripped ||| CSTF_EXTERNAL
  else stripped

/-- The candidates of a negotiation in the words of the specification: walking the
pools in priority order, refusing for a slave the pools whose accessor mask lacks
SHARED, keeping those whose access mask contains `access` and whose type mask
contains the required type without PREALLOCATED. -/
def negotiate_candidates (r : Registry) (identity : Nat) (buffer : CoreSurfaceBuffer)
    (accessor : Nat) (access : Nat) : List CoreSurfacePool :=
  ((pools_in_priority_order r).filter
      (fun pool => identity == FUSION_ID_MASTER || (pool.desc.access accessor &&& CSAF_SHARED) != 0)).filter
    (fun pool => (pool.desc.access accessor &&& access) == access &&
      (pool.desc.types &&& flagsWithout (required_type buffer) CSTF_PREALLOCATED)
        == flagsWithout (required_type buffer) CSTF_PREALLOCATED)

/-- The result of a negotiation in the words of the specification: the candidates
probed OK first, the candidates probed out of memory after them, at most
`max_pools` of them; OK if a candidate probed OK, out of memory if only such
candidates exist, unsupported otherwise. -/
def negotiate_spec (r : Registry) (identity : Nat) (buffer : CoreSurfaceBuffer)
    (accessor : Nat) (access : Nat) (max_pools : Nat) : DFBResult × List CoreSurfacePool :=
  let candidates := negotiate_candidates r identity buffer accessor access
  let ok := candidates.filter (fun pool => probe r buffer pool = DFB_OK)
  let oom := candidates.filter (fun pool => probe r buffer pool = DFB_NOVIDEOMEMORY)
  (if !ok.isEmpty then DFB_OK else if !oom.isEmpty then DFB_NOVIDEOMEMORY else DFB_UNSUPPORTED,
   (ok ++ oom).take max_pools)

/-! ## Pool registration (`dfb_surface_pool_initialize2`, `dfb_surface_pool_join2`) -/

/-- First loop of `insert_pool_local`: `for (i = 0; i < pool_count - 1; i++)`, leaving at
the first entry whose pool has a lower priority than the new pool; `n` iterations
are left at index `i`. A vacated slot behind `pool_order[i]` is a `NULL` dereference. -/
def insert_scan (r : Registry) (priority : Nat) : Nat → Nat → Option Nat
  | 0, i => some i
  | n + 1, i =>
    match r.pool_array (r.pool_order i) with
    | none => none
    | some other =>
      if other.desc.priority < priority then some i
      else insert_scan r priority n (i + 1)

/-- Second loop of `insert_pool_local`: `for (n = pool_count - 1; n > i; n--)
pool_order[n] = pool_order[n-1]`, entered with `n`; yields the table and the final `n`. -/
def insert_shift (i : Nat) : Nat → (Nat → Nat) → (Nat → Nat) × Nat
  | 0, order => (order, 0)
  | n + 1, order =>
    if n + 1 > i then insert_shift i n (Function.update order (n + 1) (order n))
    else (order, n + 1)

/-- The function `insert_pool_local`: the new pool, whose ID is `pool_count - 1`, is put
into `pool_order` behind the pools of higher or equal priority. -/
def insert_pool_local (r : Registry) (pool : CoreSurfacePool) : Option Registry :=
  if r.pool_count = 0 then none
  else
    match insert_scan r pool.desc.priority (r.pool_count - 1) 0 with
    | none => none
    | some i =>
      let shifted := insert_shift i (r.pool_count - 1) r.pool_order
      some { r with pool_order := Function.update shifted.1 shifted.2 (r.pool_count - 1) }

/-- The assignment `pool_locals[pool_id] = value`. -/
def set_local (r : Registry) (pool_id : Nat) (value : Option Int) : Registry :=
  { r with pool_locals := Function.update r.pool_locals pool_id value }

/-- The idiom `if (pool_locals[pool_id]) { D_FREE( pool_locals[pool_id] ); pool_locals[pool_id] = NULL; }`. -/
def free_local (r : Registry) (pool_id : Nat) : Registry :=
  if (r.pool_locals pool_id).isSome then set_local r pool_id none else r

/-- The size queries at the start of `init_pool`: each size callback that is present
sets its field of the pool. -/
def init_pool_sizes (pool : CoreSurfacePool) (funcs : SurfacePoolFuncs) : CoreSurfacePool :=
  { pool with
    pool_data_size := match funcs.PoolDataSize with
      | some size => size
      | none => pool.pool_data_size,
    pool_local_data_size := match funcs.PoolLocalDataSize with
      | some size => size
      | none => pool.pool_local_data_size,
    alloc_data_size := match funcs.AllocationDataSize with
      | some size => size
      | none => pool.alloc_data_size }

/-- The end of `init_pool`, from the call of `InitPool` on: on failure the blobs are
released, on success the read and write capabilities are derived from the table. -/
def init_pool_call (r : Registry) (pool : CoreSurfacePool) (funcs : SurfacePoolFuncs) :
    DFBResult × CoreSurfacePool × Registry :=
  let out := funcs.InitPool
  if out.ret ≠ DFB_OK then
    (out.ret, { pool with desc := out.desc, backup := out.backup, data := none },
      free_local r pool.pool_id)
  else
    let caps := flagsWithout out.desc.caps (CSPCAPS_READ ||| CSPCAPS_WRITE)
    let caps := if funcs.Read then caps ||| CSPCAPS_READ else caps
    let caps := if funcs.Write then caps ||| CSPCAPS_WRITE else caps
    (DFB_OK, { pool with desc := { out.desc with caps := caps }, backup := out.backup }, r)

/-- The function `init_pool`: sizes the blobs, allocates them, calls `InitPool` and
releases the blobs again when it fails. Yields the result, the pool struct and
the registry (of which it writes `pool_locals[pool_id]`). -/
def init_pool (mem : MemEnv) (r : Registry) (pool : CoreSurfacePool) (funcs : SurfacePoolFuncs) :
    DFBResult × CoreSurfacePool × Registry :=
  let pool := init_pool_sizes pool funcs
  if pool.pool_data_size ≠ 0 ∧ mem.shcalloc_data = false then
    (D_OOSHM, { pool with data := none }, r)
  else
    let pool := if pool.pool_data_size ≠ 0 then { pool with data := some pool.pool_data_size } else pool
    if pool.pool_local_data_size ≠ 0 ∧ mem.dcalloc_local = false then
      (D_OOM, pool, set_local r pool.pool_id none)
    else
      let r := if pool.pool_local_data_size ≠ 0 then
          set_local r pool.pool_id (some pool.pool_local_data_size)
        else r
      init_pool_call r pool funcs

/-- The zeroed pool struct that `SHCALLOC` hands to `dfb_surface_pool_initialize2`,
with the pool ID assigned. -/
def fresh_pool (pool_id : Nat) : CoreSurfacePool :=
  { pool_id := pool_id,
    desc := { caps := 0, access := fun _ => 0, types := 0, priority := 0, name := "" },
    pool_data_size := 0, pool_local_data_size := 0, alloc_data_size := 0,
    data := none, backup := none }

/-- The function `dfb_surface_pool_initialize2`: result, `*ret_pool` and the registry
afterwards. `pool_array` holds a pointer to the pool struct, so after `init_pool`
the slot shows the struct as initialised. -/
def dfb_surface_pool_initialize2 (mem : MemEnv) (r : Registry) (funcs : SurfacePoolFuncs) :
    Option (DFBResult × Option CoreSurfacePool × Registry) :=
  if r.pool_count = MAX_SURFACE_POOLS then some (DFB_LIMITEXCEEDED, none, r)
  else if mem.shcalloc_pool = false then some (D_OOSHM, none, r)
  else
    let pool := fresh_pool r.pool_count
    let r := { r with
      pool_count := r.pool_count + 1,
      pool_funcs := Function.update r.pool_funcs pool.pool_id (some funcs),
      pool_array := Function.update r.pool_array pool.pool_id (some pool) }
    match init_pool mem r pool funcs with
    | (ret, pool, r) =>
      if ret ≠ DFB_OK then
        some (ret, none, { r with
          pool_funcs := Function.update r.pool_funcs pool.pool_id none,
          pool_array := Function.update r.pool_array pool.pool_id none,
          pool_count := r.pool_count - 1 })
      else
        let pool := if pool.backup.isNone ∧ r.pool_count > 1 then
            { pool with backup := (r.pool_array 0).map (fun first => first.pool_id) }
          else pool
        let r := { r with pool_array := Function.update r.pool_array pool.pool_id (some pool) }
        match insert_pool_local r pool with
        | none => none
        | some r => some (DFB_OK, some pool, r)

/-- The function `dfb_surface_pool_join2`: result and the registry afterwards. The
error path of `JoinPool` assigns `pool_array[pool->pool_id] = NULL` twice, as the
source does, and leaves `pool_funcs[pool->pool_id]` as set. -/
def dfb_surface_pool_join2 (mem : MemEnv) (r : Registry) (pool : CoreSurfacePool)
    (funcs : SurfacePoolFuncs) : Option (DFBResult × Registry) :=
  if pool.pool_id ≠ r.pool_count then some (DFB_BUG, r)
  else if pool.pool_id ≥ MAX_SURFACE_POOLS then none
  else if pool.pool_local_data_size ≠ 0 ∧ mem.dcalloc_local = false then
    some (D_OOM, set_local r pool.pool_id none)
  else
    let r := if pool.pool_local_data_size ≠ 0 then
        set_local r pool.pool_id (some pool.pool_local_data_size)
      else r
    let r := { r with
      pool_funcs := Function.update r.pool_funcs pool.pool_id (some funcs),
      pool_array := Function.update r.pool_array pool.pool_id (some pool) }
    let r := if r.pool_count < pool.pool_id + 1 then { r with pool_count := pool.pool_id + 1 } else r
    match r.pool_funcs pool.pool_id with
    | none => none
    | some funcs =>
      match funcs.JoinPool with
      | some ret =>
        if ret ≠ DFB_OK then
          let r := free_local r pool.pool_id
          let r := { r with pool_array := Function.update r.pool_array pool.pool_id none }
          let r := { r with pool_array := Function.update r.pool_array pool.pool_id none }
          some (ret, { r with pool_count := r.pool_count - 1 })
        else (insert_pool_local r pool).map (fun r => (DFB_OK, r))
      | none => (insert_pool_local r pool).map (fun r => (DFB_OK, r))

/-! ## Pool removal (`dfb_surface_pool_leave`, `dfb_surface_pool_destroy`) -/

/-- The search `for (i = 0; i < pool_count; i++) if (pool_order[i] == pool_count)` of
`remove_pool_local`, with `n` iterations left at index `i`. -/
def remove_find (order : Nat → Nat) (target : Nat) : Nat → Nat → Option Nat
  | 0, _ => none
  | n + 1, i => if order i = target then some i else remove_find order target n (i + 1)

/-- The call `direct_memmove( &pool_order[i], &pool_order[i+1], sizeof(pool_order[0]) * (pool_count - i) )`. -/
def order_memmove (order : Nat → Nat) (i pool_count : Nat) : Nat → Nat :=
  fun k => if i ≤ k ∧ k < i + (pool_count - i) then order (k + 1) else order k

/-- One round of the loop `while (pool_count > 0 && !pool_array[pool_count-1])` of
`remove_pool_local`: the count is lowered and the entry of the vacated top slot is
taken out of the first `pool_count` entries of `pool_order`. -/
def remove_trim_round (r : Registry) : Registry :=
  let pool_count := r.pool_count - 1
  let order := match remove_find r.pool_order pool_count pool_count 0 with
    | some i => order_memmove r.pool_order i pool_count
    | none => r.pool_order
  { r with pool_count := pool_count, pool_order := order }

/-- The loop `while (pool_count > 0 && !pool_array[pool_count-1])` of `remove_pool_local`;
the first argument bounds the number of rounds (each round lowers `pool_count`). -/
def remove_trim : Nat → Registry → Registry
  | 0, r => r
  | fuel + 1, r =>
    if r.pool_count > 0 ∧ (r.pool_array (r.pool_count - 1)).isNone then
      remove_trim fuel (remove_trim_round r)
    else r

/-- The function `remove_pool_local`. -/
def remove_pool_local (r : Registry) (pool_id : Nat) : Registry :=
  let r := free_local r pool_id
  let r := { r with
    pool_array := Function.update r.pool_array pool_id none,
    pool_funcs := Function.update r.pool_funcs pool_id none }
  remove_trim r.pool_count r

/-- The function `dfb_surface_pool_leave`; `get_funcs` dereferences the function table
of the pool. -/
def dfb_surface_pool_leave (r : Registry) (pool : CoreSurfacePool) : Option (DFBResult × Registry) :=
  match r.pool_funcs pool.pool_id with
  | none => none
  | some _ => some (DFB_OK, remove_pool_local r pool.pool_id)

/-- The function `dfb_surface_pool_destroy`, as far as it touches the registry: after
`DestroyPool` and the release of the shared data it removes the pool like a leave. -/
def dfb_surface_pool_destroy (r : Registry) (pool : CoreSurfacePool) : Option (DFBResult × Registry) :=
  match r.pool_funcs pool.pool_id with
  | none => none
  | some _ => some (DFB_OK, remove_pool_local r pool.pool_id)

/-- The registry of a process before any pool is registered: the zeroed static tables. -/
def Registry.empty : Registry :=
  { pool_count := 0, pool_funcs := fun _ => none, pool_locals := fun _ => none,
    pool_array := fun _ => none, pool_order := fun _ => 0 }

/-- An operation on the pool registry. A leave or destroy names the slot of the pool
it is called for. -/
inductive RegistryOp where
  | init (mem : MemEnv) (funcs : SurfacePoolFuncs)
  | join (mem : MemEnv) (pool : CoreSurfacePool) (funcs : SurfacePoolFuncs)
  | leave (pool_id : Nat)
  | destroy (pool_id : Nat)

/-- The registry after one operation, whatever its result code; `none` when the
operation faults or when a leave or destroy names a slot that holds no pool. -/
def RegistryOp.apply (op : RegistryOp) (r : Registry) : Option Registry :=
  match op with
  | .init mem funcs => (dfb_surface_pool_initialize2 mem r funcs).map (fun out => out.2.2)
  | .join mem pool funcs => (dfb_surface_pool_join2 mem r pool funcs).map (fun out => out.2)
  | .leave pool_id =>
    match r.pool_array pool_id with
    | none => none
    | some pool => (dfb_surface_pool_leave r pool).map (fun out => out.2)
  | .destroy pool_id =>
    match r.pool_array pool_id with
    | none => none
    | some pool => (dfb_surface_pool_destroy r pool).map (fun out => out.2)

/-- The registry after a sequence of operations. -/
def run_ops : List RegistryOp → Registry → Option Registry
  | [], r => some r
  | op :: rest, r =>
    match op.apply r with
    | none => none
    | some r => run_ops rest r

/-- The first `pool_count` entries of `pool_order`. -/
def order_view (r : Registry) : List Nat := (List.range r.pool_count).map r.pool_order

/-- Whether slot `pool_id` of `pool_array` holds a pool. -/
def alive (r : Registry) (pool_id : Nat) : Bool := (r.pool_array pool_id).isSome

/-- The priority `desc.priority` of the pool in slot `pool_id` (0 for a vacated slot). -/
def priority_of (r : Registry) (pool_id : Nat) : Nat :=
  match r.pool_array pool_id with
  | some pool => pool.desc.priority
  | none => 0

/-- The number of non-null slots of `pool_array`. -/
def count_non_null (r : Registry) : Nat :=
  ((List.range MAX_SURFACE_POOLS).filter (fun i => (r.pool_array i).isSome)).length

/-- The order the specification asks of two consecutive entries of the priority view:
higher priority first, equal priorities in increasing ID order. -/
def before (r : Registry) (a b : Nat) : Prop :=
  priority_of r a > priority_of r b ∨ (priority_of r a = priority_of r b ∧ a < b)

/-! ## Sample pools and registries (scenario S1 of the specification) -/

/-- Description of sample pool A: default priority, CPU read, write and shared,
accepts layer, window, cursor, font, shared and internal surfaces. -/
def sample_desc_A : CoreSurfacePoolDescription :=
  { caps := 2,
    access := fun accessor => if accessor = 1 then CSAF_READ ||| CSAF_WRITE ||| CSAF_SHARED else 0,
    types := CSTF_LAYER ||| CSTF_WINDOW ||| CSTF_CURSOR ||| CSTF_FONT ||| CSTF_SHARED ||| CSTF_INTERNAL,
    priority := CSPP_DEFAULT,
    name := "A" }

/-- Description of sample pool B: preferred priority, CPU and GPU access, accepts
internal and external surfaces. -/
def sample_desc_B : CoreSurfacePoolDescription :=
  { caps := 2,
    access := fun accessor =>
      if accessor = 1 ∨ accessor = 2 then CSAF_READ ||| CSAF_WRITE ||| CSAF_SHARED else 0,
    types := CSTF_LAYER ||| CSTF_WINDOW ||| CSTF_CURSOR ||| CSTF_FONT ||| CSTF_SHARED |||
      CSTF_INTERNAL ||| CSTF_EXTERNAL,
    priority := CSPP_PREFERED,
    name := "B" }

/-- A function table whose `InitPool` succeeds with the given description, whose
allocator answers `alloc` and whose other optional callbacks are absent. -/
def sample_funcs (desc : CoreSurfacePoolDescription) (alloc : Nat → DFBResult × Nat) :
    SurfacePoolFuncs :=
  { PoolDataSize := some 8, PoolLocalDataSize := some 16, AllocationDataSize := some 32,
    InitPool := { ret := DFB_OK, desc := desc, backup := none },
    JoinPool := none, DestroyPool := true, LeavePool := true, TestConfig := none,
    AllocateBuffer := alloc, DeallocateBuffer := fun _ => DFB_OK, MuckOut := none,
    Read := false, Write := false }

/-- Every allocator succeeds. -/
def sample_mem : MemEnv := { shcalloc_pool := true, shcalloc_data := true, dcalloc_local := true }

/-- The registry after pool A and then pool B were registered. -/
def registry_AB : Registry :=
  (run_ops [.init sample_mem (sample_funcs sample_desc_A (fun _ => (DFB_OK, 0))),
            .init sample_mem (sample_funcs sample_desc_B (fun _ => (DFB_OK, 0)))]
    Registry.empty).getD Registry.empty

/-- A buffer of a 320x240 window surface with policy `CSP_VIDEOLOW`. -/
def sample_buffer : CoreSurfaceBuffer :=
  { id := 0, surface := { id := 0, type := CSTF_WINDOW ||| CSTF_SHARED, width := 320, height := 240 },
    policy := .CSP_VIDEOLOW, type := CSTF_WINDOW ||| CSTF_SHARED }

/-! ## Invariants of the registry -/

/-- Invariant of `pool_array` and `pool_count`: the count stays within the tables, a
slot holds the pool with that ID, no slot at or above `pool_count` is used and the
slot below `pool_count` is used. -/
structure ArrayInv (r : Registry) : Prop where
  count_le : r.pool_count ≤ MAX_SURFACE_POOLS
  id_eq : ∀ i pool, r.pool_array i = some pool → pool.pool_id = i
  above : ∀ i, r.pool_count ≤ i → r.pool_array i = none
  top : 0 < r.pool_count → alive r (r.pool_count - 1) = true

/-- Invariant of `pool_order`: its first `pool_count` entries are the IDs below
`pool_count`, each once, and those of them that are registered pools stand in the
order `before`. -/
structure OrderInv (r : Registry) : Prop where
  lt : ∀ k, k < r.pool_count → r.pool_order k < r.pool_count
  inj : ∀ j k, j < r.pool_count → k < r.pool_count → r.pool_order j = r.pool_order k → j = k
  surj : ∀ id, id < r.pool_count → ∃ k, k < r.pool_count ∧ r.pool_order k = id
  sorted : ∀ j k, j < k → k < r.pool_count → alive r (r.pool_order j) = true →
    alive r (r.pool_order k) = true → before r (r.pool_order j) (r.pool_order k)

/-- Invariant of `pool_funcs` and `pool_locals`: a registered pool has its function
table, a vacated slot has no local data. -/
structure TableInv (r : Registry) : Prop where
  funcs : ∀ i, alive r i = true → (r.pool_funcs i).isSome = true
  locals : ∀ i, r.pool_array i = none → r.pool_locals i = none

/-- The invariant of the registry that every operation keeps. -/
def RegistryInv (r : Registry) : Prop := ArrayInv r ∧ OrderInv r ∧ TableInv r

/-- No slot below `pool_count` is vacated. -/
def Dense (r : Registry) : Prop := ∀ i, i < r.pool_count → alive r i = true

/-- An operation within the bounds that the source asserts and that does not vacate
a slot below the highest one: a registration (a join of a pool whose ID lies within
the tables), or a leave or destroy of the pool in slot `pool_count - 1`. -/
def RegistryOp.in_order (op : RegistryOp) (r : Registry) : Prop :=
  match op with
  | .init _ _ => True
  | .join _ pool _ => pool.pool_id < MAX_SURFACE_POOLS
  | .leave pool_id => pool_id + 1 = r.pool_count
  | .destroy pool_id => pool_id + 1 = r.pool_count

/-- Every operation of a sequence is `in_order` in the registry that it meets. -/
def ops_in_order : List RegistryOp → Registry → Prop
  | [], _ => True
  | op :: rest, r =>
    op.in_order r ∧ (match op.apply r with
      | none => True
      | some r => ops_in_order rest r)

/-- The registry after pools A, B and a third pool with the description of A were
registered, in this order. -/
def registry_ABC : Registry :=
  (run_ops [.init sample_mem (sample_funcs sample_desc_A (fun _ => (DFB_OK, 0))),
            .init sample_mem (sample_funcs sample_desc_B (fun _ => (DFB_OK, 0))),
            .init sample_mem (sample_funcs sample_desc_A (fun _ => (DFB_OK, 0)))]
    Registry.empty).getD Registry.empty

/-- A function table whose `InitPool` and `JoinPool` fail with `DFB_FAILURE`. -/
def failing_funcs : SurfacePoolFuncs :=
  { sample_funcs sample_desc_A (fun _ => (DFB_OK, 0)) with
    InitPool := { ret := DFB_FAILURE, desc := sample_desc_A, backup := none },
    JoinPool := some DFB_FAILURE }

/-- The registry that a failed registration of `failing_funcs` leaves behind, called
on the registry of pools A and B. -/
def registry_after_failed_init : Registry :=
  ((dfb_surface_pool_initialize2 sample_mem registry_AB failing_funcs).map
    (fun out => out.2.2)).getD Registry.empty

/-- The pool struct with ID 2 that a slave process is handed to join. -/
def joining_pool : CoreSurfacePool :=
  { fresh_pool 2 with desc := sample_desc_A, pool_local_data_size := 16 }

/-! ## Allocations: the world of buffers, pools and allocation objects -/

/-- Allocation flag `CSALF_INITIALIZING` (the header of the allocations is not among
the sources). -/
def CSALF_INITIALIZING : Nat := 0x0001

/-- Allocation flag `CSALF_VOLATILE`. -/
def CSALF_VOLATILE : Nat := 0x0002

/-- Allocation flag `CSALF_MUCKOUT`: marked for eviction. -/
def CSALF_MUCKOUT : Nat := 0x1000

/-- Allocation flag `CSALF_DEALLOCATED`. -/
def CSALF_DEALLOCATED : Nat := 0x2000

/-- The fields of `CoreSurfaceAllocation` that the pool engine reads and writes; `pool`
and `buffer` are the back references, as pool ID and buffer ID, `accessed_cpu` is
`accessed[CSAID_CPU]`. -/
structure CoreSurfaceAllocation where
  pool : Nat
  buffer : Nat
  surface : Nat
  flags : Nat
  serial : Nat
  accessed_cpu : Nat
  deriving DecidableEq, Repr, Inhabited

/-- The shared state that allocation, deallocation and displacement work on.
Allocation objects live in `allocations`, keyed by their handle (the pointer);
`pool_allocs` is the vector `pool->allocs` of each pool, `buffer_allocs` the vector
`buffer->allocs` of each buffer, `buffers` resolves `allocation->buffer`, and
`tick` counts the calls into the environment. -/
structure World where
  allocations : Nat → Option CoreSurfaceAllocation
  next_allocation : Nat
  pool_allocs : Nat → List Nat
  buffer_allocs : Nat → List Nat
  buffer_serial : Nat → Nat
  buffers : Nat → Option CoreSurfaceBuffer
  tick : Nat

/-- Outcomes of the collaborators that are not part of the sources, each as a function
of the call counter: the creation of an allocation object, the pool skirmish
(`true` when `fusion_skirmish_prevail` fails), `dfb_surface_trylock` of a surface
and `dfb_surface_allocation_update` of an allocation. -/
structure WorldEnv where
  allocation_create : Nat → DFBResult
  skirmish_fails : Nat → Bool
  trylock : Nat → Nat → DFBResult
  allocation_update : Nat → Nat → DFBResult

/-- One more call into the environment. -/
def World.step (w : World) : World := { w with tick := w.tick + 1 }

/-- The assignment of fields of the allocation object behind a handle. -/
def World.set_allocation (w : World) (handle : Nat) (a : Option CoreSurfaceAllocation) : World :=
  { w with allocations := Function.update w.allocations handle a }

/-- Modelled from the spec: `direct_serial_check` is declared in a header that is not
among the sources. An allocation is up to date iff its serial matches the serial
of the buffer. -/
def direct_serial_check (serial source : Nat) : Bool := serial == source

/-- Modelled from the spec: `dfb_surface_allocation_create` is not among the sources.
It creates the allocation object of a buffer in a pool: a fresh handle whose object
points back at the pool and the buffer and is flagged as initializing. -/
def dfb_surface_allocation_create (env : WorldEnv) (pool : CoreSurfacePool)
    (buffer : CoreSurfaceBuffer) (w : World) : (DFBResult × Option Nat) × World :=
  let ret := env.allocation_create w.tick
  let w := w.step
  if ret ≠ DFB_OK then ((ret, none), w)
  else
    let handle := w.next_allocation
    let w := w.set_allocation handle (some
      { pool := pool.pool_id, buffer := buffer.id, surface := buffer.surface.id,
        flags := CSALF_INITIALIZING, serial := 0, accessed_cpu := 0 })
    ((DFB_OK, some handle), { w with next_allocation := handle + 1 })

/-- Modelled from the spec: `dfb_surface_allocation_unref` is not among the sources.
On the error path of `dfb_surface_pool_allocate` it drops the only reference of an
allocation that was never published, so the object is gone. -/
def dfb_surface_allocation_unref (w : World) (handle : Nat) : World :=
  w.set_allocation handle none

/-- Modelled from the spec: `dfb_surface_allocation_decouple` is not among the sources.
Decouple removes the allocation from both vectors, that of its buffer and that of
its pool, and drops the reference. -/
def dfb_surface_allocation_decouple (w : World) (handle : Nat) : World :=
  match w.allocations handle with
  | none => w
  | some a =>
    { w with
      buffer_allocs := Function.update w.buffer_allocs a.buffer ((w.buffer_allocs a.buffer).erase handle),
      pool_allocs := Function.update w.pool_allocs a.pool ((w.pool_allocs a.pool).erase handle),
      allocations := Function.update w.allocations handle none }

/-- Modelled from the spec: `dfb_surface_allocation_update` is not among the sources.
The environment decides whether the refresh succeeds; a refreshed allocation
carries the serial of its buffer. -/
def dfb_surface_allocation_update (env : WorldEnv) (handle : Nat) (w : World) :
    Option (DFBResult × World) :=
  match w.allocations handle with
  | none => none
  | some a =>
    let ret := env.allocation_update w.tick handle
    let w := w.step
    if ret = DFB_OK then
      some (DFB_OK, w.set_allocation handle (some { a with serial := w.buffer_serial a.buffer }))
    else some (ret, w)

/-- The function `dfb_surface_pool_allocate` with `key == NULL`: result, `*ret_allocation`
and the world afterwards. -/
def dfb_surface_pool_allocate (env : WorldEnv) (r : Registry) (pool : CoreSurfacePool)
    (buffer : CoreSurfaceBuffer) (w : World) : Option ((DFBResult × Option Nat) × World) :=
  match r.pool_funcs pool.pool_id with
  | none => none
  | some funcs =>
    match dfb_surface_allocation_create env pool buffer w with
    | ((ret, none), w) => if ret ≠ DFB_OK then some ((ret, none), w) else none
    | ((ret, some handle), w) =>
      if ret ≠ DFB_OK then some ((ret, none), w)
      else if env.skirmish_fails w.tick then
        some ((DFB_FUSION, none), dfb_surface_allocation_unref w.step handle)
      else
        let w := w.step
        let out := funcs.AllocateBuffer w.tick
        let w := w.step
        match w.allocations handle with
        | none => none
        | some a =>
          if out.1 ≠ DFB_OK then
            let w := w.set_allocation handle (some { a with flags := out.2 ||| CSALF_DEALLOCATED })
            some ((out.1, none), dfb_surface_allocation_unref w handle)
          else
            let a := { a with
              flags := flagsWithout out.2 CSALF_INITIALIZING,
              accessed_cpu := a.accessed_cpu ||| (CSAF_READ ||| CSAF_WRITE) }
            let w := { w with
              buffer_allocs := Function.update w.buffer_allocs buffer.id (w.buffer_allocs buffer.id ++ [handle]),
              pool_allocs := Function.update w.pool_allocs pool.pool_id (w.pool_allocs pool.pool_id ++ [handle]) }
            some ((DFB_OK, some handle), w.set_allocation handle (some a))

/-- The function `remove_allocation`: the allocation is looked up in `pool->allocs` and
removed at that index; an allocation that is not in the vector has no index. -/
def remove_allocation (w : World) (pool : CoreSurfacePool) (handle : Nat) : Option World :=
  if handle ∈ w.pool_allocs pool.pool_id then
    some { w with
      pool_allocs := Function.update w.pool_allocs pool.pool_id ((w.pool_allocs pool.pool_id).erase handle) }
  else none

/-- The function `dfb_surface_pool_deallocate`. -/
def dfb_surface_pool_deallocate (env : WorldEnv) (r : Registry) (pool : CoreSurfacePool)
    (handle : Nat) (w : World) : Option (DFBResult × World) :=
  match w.allocations handle with
  | none => none
  | some a =>
    if a.flags &&& CSALF_DEALLOCATED ≠ 0 then some (DFB_OK, w)
    else
      match r.pool_funcs pool.pool_id with
      | none => none
      | some funcs =>
        if env.skirmish_fails w.tick then some (DFB_FUSION, w.step)
        else
          let w := w.step
          let ret := funcs.DeallocateBuffer w.tick
          let w := w.step
          if ret ≠ DFB_OK then some (ret, w)
          else
            match remove_allocation w pool handle with
            | none => none
            | some w =>
              some (DFB_OK, w.set_allocation handle (some { a with flags := a.flags ||| CSALF_DEALLOCATED }))

/-! ## Backup and displacement (`backup_allocation`, `dfb_surface_pool_displace`) -/

/-- First loop of `backup_allocation` over `buffer->allocs`: whether an allocation in
another pool is up to date. A handle without object is a dangling pointer. -/
def backup_find_current (w : World) (pool_id : Nat) (serial : Nat) : List Nat → Option Bool
  | [] => some false
  | handle :: rest =>
    match w.allocations handle with
    | none => none
    | some a =>
      if a.pool ≠ pool_id && direct_serial_check a.serial serial then some true
      else backup_find_current w pool_id serial rest

/-- Second loop of `backup_allocation` over `buffer->allocs`: the allocations in other
pools are updated in turn until one update succeeds. -/
def backup_update_existing (env : WorldEnv) (pool_id : Nat) : List Nat → World → Option (Bool × World)
  | [], w => some (false, w)
  | handle :: rest, w =>
    match w.allocations handle with
    | none => none
    | some a =>
      if a.pool ≠ pool_id then
        match dfb_surface_allocation_update env handle w with
        | none => none
        | some (ret, w) =>
          if ret = DFB_OK then some (true, w)
          else backup_update_existing env pool_id rest w
      else backup_update_existing env pool_id rest w

/-- The function `backup_allocation`. The result starts as `DFB_OK` and is only
assigned in the branch of the designated backup pool. -/
def backup_allocation (env : WorldEnv) (r : Registry) (handle : Nat) (w : World) :
    Option (DFBResult × World) :=
  match w.allocations handle with
  | none => none
  | some allocation =>
    match r.pool_array allocation.pool, w.buffers allocation.buffer with
    | some pool, some buffer =>
      if direct_serial_check allocation.serial (w.buffer_serial buffer.id) then
        match backup_find_current w pool.pool_id (w.buffer_serial buffer.id) (w.buffer_allocs buffer.id) with
        | none => none
        | some true => some (DFB_OK, w)
        | some false =>
          match backup_update_existing env pool.pool_id (w.buffer_allocs buffer.id) w with
          | none => none
          | some (true, w) => some (DFB_OK, w)
          | some (false, w) =>
            match pool.backup with
            | none => some (DFB_OK, w)
            | some backup_id =>
              match r.pool_array backup_id with
              | none => none
              | some backup_pool =>
                match dfb_surface_pool_allocate env r backup_pool buffer w with
                | none => none
                | some ((ret, created), w) =>
                  if ret = DFB_OK then
                    match created with
                    | none => none
                    | some fresh =>
                      match dfb_surface_allocation_update env fresh w with
                      | none => none
                      | some (ret, w) =>
                        if ret ≠ DFB_OK then some (ret, dfb_surface_allocation_decouple w fresh)
                        else some (DFB_OK, w)
                  else some (ret, w)
      else some (DFB_OK, w)
    | _, _ => none

/-- How a scan of `pool->allocs` in `dfb_surface_pool_displace` ends: the loop ran off
the vector, with `ret_lock` as it stands, or `backup_allocation` failed and the
function jumps to `error`. -/
inductive ScanEnd where
  | finished (ret_lock : DFBResult)
  | backup_failed (ret : DFBResult)
  deriving DecidableEq, Repr

/-- The loop `fusion_vector_foreach (allocation, i, pool->allocs)` of
`dfb_surface_pool_displace` at index `i`; the first argument bounds the number
of iterations, `none` also when the bound is used up. -/
def displace_scan (env : WorldEnv) (r : Registry) (pool : CoreSurfacePool) :
    Nat → Nat → DFBResult → World → Option (ScanEnd × World)
  | 0, i, ret_lock, w =>
    if i < (w.pool_allocs pool.pool_id).length then none else some (.finished ret_lock, w)
  | fuel + 1, i, ret_lock, w =>
    match (w.pool_allocs pool.pool_id)[i]? with
    | none => some (.finished ret_lock, w)
    | some handle =>
      match w.allocations handle with
      | none => none
      | some allocation =>
        if allocation.flags &&& CSALF_MUCKOUT ≠ 0 then
          let ret := env.trylock w.tick allocation.surface
          let w := w.step
          if ret ≠ DFB_OK then displace_scan env r pool fuel (i + 1) ret w
          else
            match backup_allocation env r handle w with
            | none => none
            | some (ret, w) =>
              if ret ≠ DFB_OK then some (.backup_failed ret, w)
              else displace_scan env r pool fuel i ret_lock (dfb_surface_allocation_decouple w handle)
        else displace_scan env r pool fuel (i + 1) ret_lock w

/-- The loop at the label `error` of `dfb_surface_pool_displace`: the flag
`CSALF_MUCKOUT` is cleared on the allocations of `pool->allocs`. -/
def clear_muckout (w : World) : List Nat → Option World
  | [] => some w
  | handle :: rest =>
    match w.allocations handle with
    | none => none
    | some a =>
      if a.flags &&& CSALF_MUCKOUT ≠ 0 then
        clear_muckout (w.set_allocation handle (some { a with flags := flagsWithout a.flags CSALF_MUCKOUT })) rest
      else clear_muckout w rest

/-- The part of `dfb_surface_pool_displace` from the label `retry` on, with `retries`
and `ret_lock` as they stand. The variable `ret_lock` is handed from round to
round as the source hands it: no statement resets it. -/
def displace_retry (env : WorldEnv) (r : Registry) (pool : CoreSurfacePool)
    (buffer : CoreSurfaceBuffer) :
    Nat → DFBResult → World → Option ((DFBResult × Option Nat) × World)
  | retries, ret_lock, w =>
    match displace_scan env r pool ((w.pool_allocs pool.pool_id).length + 1) 0 ret_lock w with
    | none => none
    | some (.backup_failed ret, w) =>
      (clear_muckout w (w.pool_allocs pool.pool_id)).map (fun w => ((ret, none), w))
    | some (.finished ret_lock, w) =>
      if ret_lock ≠ DFB_OK then
        match retries with
        | retries + 1 => displace_retry env r pool buffer retries ret_lock w
        | 0 => (clear_muckout w (w.pool_allocs pool.pool_id)).map (fun w => ((DFB_LOCKED, none), w))
      else dfb_surface_pool_allocate env r pool buffer w

/-- The marks of `MuckOut`: the flag `CSALF_MUCKOUT` is set on the allocations of the
pool that the callback chose. -/
def apply_muckout (w : World) (marks : Nat → Bool) : List Nat → World
  | [] => w
  | handle :: rest =>
    match w.allocations handle with
    | some a =>
      if marks handle then
        apply_muckout (w.set_allocation handle (some { a with flags := a.flags ||| CSALF_MUCKOUT })) marks rest
      else apply_muckout w marks rest
    | none => apply_muckout w marks rest

/-- The function `dfb_surface_pool_displace`: result, `*ret_allocation` and the world
afterwards. -/
def dfb_surface_pool_displace (env : WorldEnv) (r : Registry) (pool : CoreSurfacePool)
    (buffer : CoreSurfaceBuffer) (w : World) : Option ((DFBResult × Option Nat) × World) :=
  match r.pool_funcs pool.pool_id with
  | none => none
  | some funcs =>
    if env.skirmish_fails w.tick then some ((DFB_FUSION, none), w.step)
    else
      let w := w.step
      match funcs.MuckOut with
      | some muck =>
        let out := muck w.tick
        let w := apply_muckout w.step out.2 (w.pool_allocs pool.pool_id)
        if out.1 ≠ DFB_OK then some ((out.1, none), w)
        else displace_retry env r pool buffer 3 DFB_OK w
      | none => displace_retry env r pool buffer 3 DFB_OK w

/-! ## Allocation over the negotiated pools (`dfb_surface_pools_allocate`) -/

/-- A call that `dfb_surface_pools_allocate` makes for one of the negotiated pools; the
list of these calls, in order, is the trace of a run. -/
inductive PoolCall where
  | allocate (pool_id : Nat)
  | displace (pool_id : Nat)
  deriving DecidableEq, Repr

/-- First loop of `dfb_surface_pools_allocate` over `pools[0..num_pools)`: yields the
array `pools` with the slots of the pools that failed for another reason than out
of video memory set to `NULL`, the variable `allocation`, the calls made and the
world. -/
def pools_allocate_first (env : WorldEnv) (r : Registry) (buffer : CoreSurfaceBuffer) :
    List CoreSurfacePool → World →
      Option (List (Option CoreSurfacePool) × Option Nat × List PoolCall × World)
  | [], w => some ([], none, [], w)
  | pool :: rest, w =>
    match dfb_surface_pool_allocate env r pool buffer w with
    | none => none
    | some ((ret, allocation), w) =>
      if ret = DFB_OK then
        some (some pool :: rest.map some, allocation, [.allocate pool.pool_id], w)
      else
        match pools_allocate_first env r buffer rest w with
        | none => none
        | some (slots, later, calls, w) =>
          some ((if ret ≠ DFB_NOVIDEOMEMORY then none else some pool) :: slots,
            (match later with
             | some handle => some handle
             | none => allocation),
            .allocate pool.pool_id :: calls, w)

/-- Second loop of `dfb_surface_pools_allocate` over the array `pools`, entered when
`allocation` is `NULL`: a `NULL` slot is skipped, the loop leaves at the first
displacement that returns `DFB_OK`. -/
def pools_allocate_second (env : WorldEnv) (r : Registry) (buffer : CoreSurfaceBuffer) :
    List (Option CoreSurfacePool) → World → Option (Option Nat × List PoolCall × World)
  | [], w => some (none, [], w)
  | none :: rest, w => pools_allocate_second env r buffer rest w
  | some pool :: rest, w =>
    match dfb_surface_pool_displace env r pool buffer w with
    | none => none
    | some ((ret, allocation), w) =>
      if ret = DFB_OK then some (allocation, [.displace pool.pool_id], w)
      else
        match pools_allocate_second env r buffer rest w with
        | none => none
        | some (later, calls, w) =>
          some ((match later with
             | some handle => some handle
             | none => allocation),
            .displace pool.pool_id :: calls, w)

/-- The function `dfb_surface_pools_allocate`: result, `*ret_allocation`, the calls it
made for the negotiated pools and the world afterwards. -/
def dfb_surface_pools_allocate (env : WorldEnv) (r : Registry) (identity : Nat)
    (buffer : CoreSurfaceBuffer) (accessor : Int) (access : Nat) (w : World) :
    Option ((DFBResult × Option Nat) × List PoolCall × World) :=
  if accessor ≥ CSAID_ANY then some ((DFB_UNIMPLEMENTED, none), [], w)
  else if accessor < 0 ∨ accessor ≥ CSAID_NUM then some ((DFB_INVARG, none), [], w)
  else
    match dfb_surface_pools_negotiate r identity buffer accessor access r.pool_count with
    | none => none
    | some (ret, pools) =>
      if ret ≠ DFB_OK ∧ ret ≠ DFB_NOVIDEOMEMORY then some ((ret, none), [], w)
      else
        match pools_allocate_first env r buffer pools w with
        | none => none
        | some (slots, allocation, calls, w) =>
          match allocation with
          | some handle => some ((DFB_OK, some handle), calls, w)
          | none =>
            match pools_allocate_second env r buffer slots w with
            | none => none
            | some (some handle, more, w) => some ((DFB_OK, some handle), calls ++ more, w)
            | some (none, more, w) => some ((DFB_FAILURE, none), calls ++ more, w)

/-- The allocation attempts in the words of the specification: each pool in turn is
tried until one attempt succeeds; yields every attempted pool with its result, the
allocation of the successful attempt and the world. -/
def spec_attempts (env : WorldEnv) (r : Registry) (buffer : CoreSurfaceBuffer) :
    List CoreSurfacePool → World → Option (List (CoreSurfacePool × DFBResult) × Option Nat × World)
  | [], w => some ([], none, w)
  | pool :: rest, w =>
    match dfb_surface_pool_allocate env r pool buffer w with
    | none => none
    | some ((ret, allocation), w) =>
      if ret = DFB_OK then some ([(pool, ret)], allocation, w)
      else
        match spec_attempts env r buffer rest w with
        | none => none
        | some (log, found, w) => some ((pool, ret) :: log, found, w)

/-- The displacements in the words of the specification: `pool_displace` runs on the
given pools in order until one returns an allocation; yields the pools it ran on,
the allocation and the world. -/
def spec_displacements (env : WorldEnv) (r : Registry) (buffer : CoreSurfaceBuffer) :
    List CoreSurfacePool → World → Option (List CoreSurfacePool × Option Nat × World)
  | [], w => some ([], none, w)
  | pool :: rest, w =>
    match dfb_surface_pool_displace env r pool buffer w with
    | none => none
    | some ((ret, allocation), w) =>
      if ret = DFB_OK then some ([pool], allocation, w)
      else
        match spec_displacements env r buffer rest w with
        | none => none
        | some (ran, found, w) => some (pool :: ran, found, w)

/-- The behaviour of `dfb_surface_pools_allocate` on the negotiated pools in the words
of the specification: the first successful attempt wins and nothing is displaced;
if every attempt fails, exactly the pools whose attempt failed with out of video
memory are displaced, in the same order, and the first allocation so obtained is
returned, a failure when there is none. -/
def pools_allocate_spec (env : WorldEnv) (r : Registry) (buffer : CoreSurfaceBuffer)
    (pools : List CoreSurfacePool) (w : World) :
    Option ((DFBResult × Option Nat) × List PoolCall × World) :=
  match spec_attempts env r buffer pools w with
  | none => none
  | some (log, some handle, w) =>
    some ((DFB_OK, some handle), log.map (fun entry => PoolCall.allocate entry.1.pool_id), w)
  | some (log, none, w) =>
    let remaining := (log.filter (fun entry => entry.2 = DFB_NOVIDEOMEMORY)).map (fun entry => entry.1)
    match spec_displacements env r buffer remaining w with
    | none => none
    | some (ran, some handle, w) =>
      some ((DFB_OK, some handle),
        log.map (fun entry => PoolCall.allocate entry.1.pool_id) ++
          ran.map (fun pool => PoolCall.displace pool.pool_id), w)
    | some (ran, none, w) =>
      some ((DFB_FAILURE, none),
        log.map (fun entry => PoolCall.allocate entry.1.pool_id) ++
          ran.map (fun pool => PoolCall.displace pool.pool_id), w)

/-- An environment in which every collaborator succeeds. -/
def sample_env : WorldEnv :=
  { allocation_create := fun _ => DFB_OK, skirmish_fails := fun _ => false,
    trylock := fun _ _ => DFB_OK, allocation_update := fun _ _ => DFB_OK }

/-- The world before any allocation. -/
def World.empty : World :=
  { allocations := fun _ => none, next_allocation := 0, pool_allocs := fun _ => [],
    buffer_allocs := fun _ => [], buffer_serial := fun _ => 0, buffers := fun _ => none, tick := 0 }

/-- The registry of a pool A whose allocator always fails with `DFB_FAILURE` and a
pool B whose allocator is out of video memory during the first five calls into
the environment and succeeds afterwards. -/
def registry_oom : Registry :=
  (run_ops [.init sample_mem (sample_funcs sample_desc_A (fun _ => (DFB_FAILURE, 0))),
            .init sample_mem (sample_funcs sample_desc_B
              (fun tick => if tick < 5 then (DFB_NOVIDEOMEMORY, 0) else (DFB_OK, CSALF_VOLATILE)))]
    Registry.empty).getD Registry.empty

/-- What the negotiation over `registry_oom` yields for the sample buffer. -/
def negotiated_oom : DFBResult × List CoreSurfacePool :=
  (dfb_surface_pools_negotiate registry_oom FUSION_ID_MASTER sample_buffer CSAID_CPU
    (CSAF_READ ||| CSAF_WRITE) registry_oom.pool_count).getD (DFB_FAILURE, [])

/-! ## Allocation ownership -/

/-- Allocation ownership: every live allocation (an allocation object that is not
flagged `CSALF_DEALLOCATED`) is held once by the vector of its own pool and by no
other pool vector, once by the vector of its own buffer and by no other buffer
vector. -/
def Ownership (w : World) : Prop :=
  ∀ handle a, w.allocations handle = some a → a.flags &&& CSALF_DEALLOCATED = 0 →
    (∀ pool_id, (w.pool_allocs pool_id).count handle = if pool_id = a.pool then 1 else 0) ∧
    (∀ buffer_id, (w.buffer_allocs buffer_id).count handle = if buffer_id = a.buffer then 1 else 0)

/-- Handles that were not handed out yet name no allocation object and stand in no
vector. -/
def FreshHandles (w : World) : Prop :=
  ∀ handle, w.next_allocation ≤ handle →
    w.allocations handle = none ∧ (∀ pool_id, handle ∉ w.pool_allocs pool_id) ∧
    (∀ buffer_id, handle ∉ w.buffer_allocs buffer_id)

/-- A call of `dfb_surface_pool_allocate` or of `dfb_surface_pool_deallocate`. -/
inductive AllocOp where
  | allocate (pool : CoreSurfacePool) (buffer : CoreSurfaceBuffer)
  | deallocate (pool : CoreSurfacePool) (handle : Nat)

/-- The world after one call, whatever its result code; `none` when the call faults. -/
def AllocOp.apply (env : WorldEnv) (r : Registry) (op : AllocOp) (w : World) : Option World :=
  match op with
  | .allocate pool buffer => (dfb_surface_pool_allocate env r pool buffer w).map (fun out => out.2)
  | .deallocate pool handle => (dfb_surface_pool_deallocate env r pool handle w).map (fun out => out.2)

/-- The world after a sequence of calls. -/
def run_alloc_ops (env : WorldEnv) (r : Registry) : List AllocOp → World → Option World
  | [], w => some w
  | op :: rest, w =>
    match op.apply env r w with
    | none => none
    | some w => run_alloc_ops env r rest w

/-- Pool A of `registry_AB`, as its slot holds it. -/
def sample_pool_A : CoreSurfacePool := (registry_AB.pool_array 0).getD (fresh_pool 0)

/-- Pool B of `registry_AB`, as its slot holds it. -/
def sample_pool_B : CoreSurfacePool := (registry_AB.pool_array 1).getD (fresh_pool 1)

/-- Two allocations of the sample buffer, in pool B and in pool A, and the
deallocation of the first. -/
def sample_alloc_ops : List AllocOp :=
  [.allocate sample_pool_B sample_buffer, .allocate sample_pool_A sample_buffer,
   .deallocate sample_pool_B 0]

/-- The world after `sample_alloc_ops`. -/
def world_after_sample_ops : World :=
  (run_alloc_ops sample_env registry_AB sample_alloc_ops World.empty).getD World.empty

/-! ## Sample worlds for backup and displacement -/

/-- The function table of a pool whose allocator succeeds and whose `MuckOut` marks
every allocation of the pool. -/
def mucking_funcs (desc : CoreSurfacePoolDescription) : SurfacePoolFuncs :=
  { sample_funcs desc (fun _ => (DFB_OK, 0)) with
    MuckOut := some (fun _ => (DFB_OK, fun _ => true)) }

/-- The registry with the single pool 0, which has `MuckOut` and, being the first
pool, no backup pool. -/
def registry_single : Registry :=
  (run_ops [.init sample_mem (mucking_funcs sample_desc_A)] Registry.empty).getD Registry.empty

/-- The registry with pool 0 and pool 1, of which pool 1 has `MuckOut` and pool 0 as
its backup pool. -/
def registry_muck : Registry :=
  (run_ops [.init sample_mem (sample_funcs sample_desc_A (fun _ => (DFB_OK, 0))),
            .init sample_mem (mucking_funcs sample_desc_B)] Registry.empty).getD Registry.empty

/-- A second buffer, of another surface. -/
def other_buffer : CoreSurfaceBuffer :=
  { id := 1, surface := { id := 1, type := CSTF_WINDOW ||| CSTF_SHARED, width := 320, height := 240 },
    policy := .CSP_VIDEOLOW, type := CSTF_WINDOW ||| CSTF_SHARED }

/-- The world in which the two sample buffers exist and nothing is allocated. -/
def world_two_buffers : World :=
  { World.empty with
    buffers := fun id => if id = 0 then some sample_buffer else if id = 1 then some other_buffer else none }

/-- The world in which buffer 0 has its only allocation, handle 0, in pool 0 of
`registry_single`. -/
def world_single : World :=
  ((dfb_surface_pool_allocate sample_env registry_single
      ((registry_single.pool_array 0).getD (fresh_pool 0)) sample_buffer world_two_buffers).map
    (fun out => out.2)).getD World.empty

/-- The world in which buffer 0 has its only allocation, handle 0, in pool 1 of
`registry_muck`. -/
def world_muck : World :=
  ((dfb_surface_pool_allocate sample_env registry_muck
      ((registry_muck.pool_array 1).getD (fresh_pool 1)) sample_buffer world_two_buffers).map
    (fun out => out.2)).getD World.empty

/-- An environment in which `dfb_surface_trylock` is contended during the first six
calls into the environment and succeeds afterwards. -/
def contended_env : WorldEnv :=
  { sample_env with trylock := fun tick _ => if tick < 6 then DFB_LOCKED else DFB_OK }

/-! ## Window stack: coalescing of pointer motion (`windowstack.c`) -/

/-- Input event type `DIET_UNKNOWN` of `DFBInputEventType` (the public header is not
among the sources); an event slot with this type is empty. -/
def DIET_UNKNOWN : Nat := 0

/-- Input event type `DIET_AXISMOTION`. -/
def DIET_AXISMOTION : Nat := 5

/-- Axis `DIAI_X` of `DFBInputDeviceAxisIdentifier`. -/
def DIAI_X : Nat := 0

/-- Axis `DIAI_Y`. -/
def DIAI_Y : Nat := 1

/-- Event flag `DIEF_AXISABS` of `DFBInputEventFlags`: the event carries an absolute
axis position. -/
def DIEF_AXISABS : Nat := 0x0002

/-- Event flag `DIEF_AXISREL`. -/
def DIEF_AXISREL : Nat := 0x0004

/-- Event flag `DIEF_FOLLOW`: another event follows that completes this one. -/
def DIEF_FOLLOW : Nat := 0x0800

/-- The struct `DFBInputEvent`, with the fields that the window stack reads and the
further payload of an axis, key or button event. -/
structure DFBInputEvent where
  type : Nat
  device_id : Nat
  flags : Nat
  timestamp : Int
  key_code : Int
  button : Nat
  buttons : Nat
  axis : Nat
  axisabs : Int
  axisrel : Int
  min : Int
  max : Int
  deriving DecidableEq, Repr, Inhabited

/-- The value of a C `int` computation: the mathematical result wrapped to 32 bits,
two's complement. -/
def wrap_int32 (x : Int) : Int := (x + 2147483648) % 4294967296 - 2147483648

/-- The values of a C `int`. -/
def in_int_range (x : Int) : Prop := -2147483648 ≤ x ∧ x < 2147483648

/-- The fields of `CoreWindowStack` that the coalescing of pointer motion works on.
`motion_cleanup` tells whether the dispatch cleanup is registered, `dispatched`
lists the events handed to `dfb_wm_process_input` so far, and `tick` counts the
calls into the environment. -/
structure CoreWindowStack where
  motion_x : DFBInputEvent
  motion_y : DFBInputEvent
  motion_ts : Int
  motion_cleanup : Bool
  dispatched : List DFBInputEvent
  tick : Nat
  deriving DecidableEq, Repr, Inhabited

/-- Outcomes of the collaborators of the window stack, each as a function of the call
counter: the monotonic clock in microseconds, whether `dfb_windowstack_lock`
fails, whether the layer context is active. -/
structure StackEnv where
  clock : Nat → Int
  lock_fails : Nat → Bool
  context_active : Nat → Bool

/-- One more call into the environment. -/
def CoreWindowStack.step (stack : CoreWindowStack) : CoreWindowStack :=
  { stack with tick := stack.tick + 1 }

/-- The events that `WindowStack_Input_Flush` hands to the window manager, in order:
the pending X event, with `DIEF_FOLLOW` set when a Y event is pending as well,
then the pending Y event. -/
def flush_events (stack : CoreWindowStack) : List DFBInputEvent :=
  let motion_x := if stack.motion_x.type ≠ 0 ∧ stack.motion_y.type ≠ 0 then
      { stack.motion_x with flags := stack.motion_x.flags ||| DIEF_FOLLOW }
    else stack.motion_x
  (if motion_x.type ≠ 0 then [motion_x] else []) ++
    (if stack.motion_y.type ≠ 0 then [stack.motion_y] else [])

/-- The function `WindowStack_Input_Flush`. -/
def WindowStack_Input_Flush (env : StackEnv) (stack : CoreWindowStack) : CoreWindowStack :=
  if stack.motion_x.type = 0 ∧ stack.motion_y.type = 0 then stack
  else if env.lock_fails stack.tick then stack.step
  else
    let stack := stack.step
    let active := env.context_active stack.tick
    let stack := stack.step
    let stack := if active then
        { stack with
          motion_x := if stack.motion_x.type ≠ 0 ∧ stack.motion_y.type ≠ 0 then
              { stack.motion_x with flags := stack.motion_x.flags ||| DIEF_FOLLOW }
            else stack.motion_x,
          dispatched := stack.dispatched ++ flush_events stack }
      else stack
    { stack with
      motion_x := { stack.motion_x with type := DIET_UNKNOWN },
      motion_y := { stack.motion_y with type := DIET_UNKNOWN },
      motion_cleanup := false,
      motion_ts := 0 }

/-- The function `WindowStack_Input_AddAbsolute`: the new content of the slot `target`. -/
def WindowStack_Input_AddAbsolute (_target event : DFBInputEvent) : DFBInputEvent :=
  { event with flags := flagsWithout event.flags DIEF_FOLLOW }

/-- The function `WindowStack_Input_AddRelative`: the new content of the slot `target`. -/
def WindowStack_Input_AddRelative (target event : DFBInputEvent) : DFBInputEvent :=
  let axisrel := if target.type ≠ 0 then target.axisrel else 0
  { event with
    axisrel := wrap_int32 (event.axisrel + axisrel),
    flags := flagsWithout event.flags DIEF_FOLLOW }

/-- The condition under which `WindowStack_Input_Add` flushes before it stores an event
that arrives at time `ts`. -/
def flush_due (stack : CoreWindowStack) (event : DFBInputEvent) (ts : Int) : Prop :=
  (stack.motion_x.type ≠ 0 ∧ stack.motion_x.device_id ≠ event.device_id) ∨
  (stack.motion_y.type ≠ 0 ∧ stack.motion_y.device_id ≠ event.device_id) ∨
  ts - stack.motion_ts > 10000

instance (stack : CoreWindowStack) (event : DFBInputEvent) (ts : Int) :
    Decidable (flush_due stack event ts) := by
  unfold flush_due
  exact inferInstance

/-- The function `WindowStack_Input_Add`. -/
def WindowStack_Input_Add (env : StackEnv) (stack : CoreWindowStack) (event : DFBInputEvent) :
    CoreWindowStack :=
  let ts := env.clock stack.tick
  let stack := stack.step
  let stack := if flush_due stack event ts then WindowStack_Input_Flush env stack else stack
  let stack := if stack.motion_ts = 0 then { stack with motion_ts := ts } else stack
  if event.type = DIET_AXISMOTION then
    if event.axis = DIAI_X then
      if event.flags &&& DIEF_AXISABS ≠ 0 then
        { stack with motion_x := WindowStack_Input_AddAbsolute stack.motion_x event }
      else { stack with motion_x := WindowStack_Input_AddRelative stack.motion_x event }
    else if event.axis = DIAI_Y then
      if event.flags &&& DIEF_AXISABS ≠ 0 then
        { stack with motion_y := WindowStack_Input_AddAbsolute stack.motion_y event }
      else { stack with motion_y := WindowStack_Input_AddRelative stack.motion_y event }
    else stack
  else stack

/-- The pending slot of an axis: `motion_x` for `DIAI_X`, `motion_y` otherwise. -/
def pending_slot (stack : CoreWindowStack) (axis : Nat) : DFBInputEvent :=
  if axis = DIAI_X then stack.motion_x else stack.motion_y

/-- The stack after the events of a list arrived one after the other. -/
def add_all (env : StackEnv) (stack : CoreWindowStack) : List DFBInputEvent → CoreWindowStack
  | [] => stack
  | event :: rest => add_all env (WindowStack_Input_Add env stack event) rest

/-- No event of the list triggers the flush of `WindowStack_Input_Add` when it arrives. -/
def no_flush_between (env : StackEnv) (stack : CoreWindowStack) : List DFBInputEvent → Prop
  | [] => True
  | event :: rest =>
    ¬ flush_due stack.step event (env.clock stack.tick) ∧
      no_flush_between env (WindowStack_Input_Add env stack event) rest

/-- A relative motion event on the given axis: an axis motion without `DIEF_AXISABS`. -/
def relative_on (axis : Nat) (event : DFBInputEvent) : Prop :=
  event.type = DIET_AXISMOTION ∧ event.axis = axis ∧ event.flags &&& DIEF_AXISABS = 0

/-- An empty stack: no motion pending, nothing dispatched. -/
def CoreWindowStack.empty : CoreWindowStack :=
  { motion_x := default, motion_y := default, motion_ts := 0, motion_cleanup := false,
    dispatched := [], tick := 0 }

/-- A relative motion of the sample device 1. -/
def sample_motion (axis : Nat) (axisrel : Int) : DFBInputEvent :=
  { type := DIET_AXISMOTION, device_id := 1, flags := DIEF_AXISREL, timestamp := 0, key_code := 0,
    button := 0, buttons := 0, axis := axis, axisabs := 0, axisrel := axisrel, min := 0, max := 0 }

/-- An environment whose clock advances by one millisecond per call, with the stack
lock available and the layer context active. -/
def sample_stack_env : StackEnv :=
  { clock := fun tick => 1000000 + 1000 * tick, lock_fails := fun _ => false,
    context_active := fun _ => true }

instance (axis : Nat) (event : DFBInputEvent) : Decidable (relative_on axis event) := by
  unfold relative_on
  exact inferInstance

/-- Whether no event of a list triggers the flush can be computed. -/
def no_flush_between_decidable (env : StackEnv) :
    (stack : CoreWindowStack) → (events : List DFBInputEvent) →
      Decidable (no_flush_between env stack events)
  | _, [] => isTrue trivial
  | stack, event :: rest =>
    @instDecidableAnd _ _ _ (no_flush_between_decidable env (WindowStack_Input_Add env stack event) rest)

instance (env : StackEnv) (stack : CoreWindowStack) (events : List DFBInputEvent) :
    Decidable (no_flush_between env stack events) :=
  no_flush_between_decidable env stack events

/-- The content of a slot after relative motions were coalesced in it: the fields of the
last event, with `DIEF_FOLLOW` cleared and the given accumulated `axisrel`. -/
def coalesced (last : DFBInputEvent) (axisrel : Int) : DFBInputEvent :=
  { last with axisrel := axisrel, flags := flagsWithout last.flags DIEF_FOLLOW }

/-- The sum of the `axisrel` values of a list of events. -/
def axisrel_sum (events : List DFBInputEvent) : Int := (events.map (fun event => event.axisrel)).sum

instance (x : Int) : Decidable (in_int_range x) := by
  unfold in_int_range
  exact inferInstance

/-! ## Window stack: the input device listener (`windowstack.c`) -/

/-- The reaction results `RS_OK` and `RS_REMOVE` of a fusion reaction. -/
inductive ReactionResult where
  | RS_OK
  | RS_REMOVE
  deriving DecidableEq, Repr, Inhabited

open ReactionResult

/-- Outcomes of the collaborators of the listener, each as a function of the call
counter of the stack: those of the window stack itself, whether
`dfb_layer_context_ref_stat` fails, whether `dfb_layer_context_ref` fails, whether
`fusion_dispatch_cleanup_add` fails. -/
structure ListenerEnv where
  stack_env : StackEnv
  ref_stat_fails : Nat → Bool
  ref_fails : Nat → Bool
  cleanup_add_fails : Nat → Bool

/-- The window stack together with what the listener shares with the rest of the core:
the reference count of the layer context of the stack and the number of dispatch
cleanups that are registered with fusion and have not run yet. -/
structure InputWorld where
  stack : CoreWindowStack
  context_refs : Int
  cleanups : Nat
  deriving DecidableEq, Repr, Inhabited

/-- Modelled from the spec: `dfb_layer_context_unref` releases one reference of the
layer context. -/
def dfb_layer_context_unref (w : InputWorld) : InputWorld :=
  { w with context_refs := w.context_refs - 1 }

/-- The function `WindowStack_Input_DispatchCleanup`: the body of a registered cleanup. -/
def WindowStack_Input_DispatchCleanup (env : ListenerEnv) (w : InputWorld) : InputWorld :=
  dfb_layer_context_unref { w with stack := WindowStack_Input_Flush env.stack_env w.stack }

/-- The dispatch of an event that is not a motion on the X or Y axis, after the pending
motion was flushed: the second half of `_dfb_windowstack_inputdevice_listener`. -/
def listener_dispatch (env : ListenerEnv) (w : InputWorld) (event : DFBInputEvent) :
    ReactionResult × InputWorld :=
  let stack := WindowStack_Input_Flush env.stack_env w.stack
  let lock_fails := env.stack_env.lock_fails stack.tick
  let stack := stack.step
  if lock_fails then (RS_REMOVE, dfb_layer_context_unref { w with stack := stack })
  else
    let active := env.stack_env.context_active stack.tick
    let stack := stack.step
    let stack := if active then { stack with dispatched := stack.dispatched ++ [event] } else stack
    if ¬ stack.motion_cleanup then (RS_OK, dfb_layer_context_unref { w with stack := stack })
    else (RS_OK, { w with stack := stack })

/-- The storing of a motion on the X or Y axis: the first half of
`_dfb_windowstack_inputdevice_listener`. The call of `fusion_dispatch_cleanup_add`
is modelled from the spec: on success the cleanup is registered and
`motion_cleanup` is set, on failure nothing changes. -/
def listener_motion (env : ListenerEnv) (w : InputWorld) (event : DFBInputEvent) :
    ReactionResult × InputWorld :=
  let stack := WindowStack_Input_Add env.stack_env w.stack event
  if ¬ stack.motion_cleanup then
    let add_fails := env.cleanup_add_fails stack.tick
    let stack := stack.step
    if add_fails then (RS_OK, dfb_layer_context_unref { w with stack := stack })
    else (RS_OK, { w with stack := { stack with motion_cleanup := true },
                          cleanups := w.cleanups + 1 })
  else (RS_OK, dfb_layer_context_unref { w with stack := stack })

/-- The function `_dfb_windowstack_inputdevice_listener` (named without the leading
underscore). `dfb_layer_context_ref_stat` reports the reference count of the
world, `dfb_layer_context_ref` adds one reference. -/
def dfb_windowstack_inputdevice_listener (env : ListenerEnv) (w : InputWorld)
    (event : DFBInputEvent) : ReactionResult × InputWorld :=
  let stat_fails := env.ref_stat_fails w.stack.tick
  let w := { w with stack := w.stack.step }
  if stat_fails ∨ w.context_refs = 0 then (RS_REMOVE, w)
  else
    let ref_fails := env.ref_fails w.stack.tick
    let w := { w with stack := w.stack.step }
    if ref_fails then (RS_REMOVE, w)
    else
      let w := { w with context_refs := w.context_refs + 1 }
      if event.type = DIET_AXISMOTION ∧ (event.axis = DIAI_X ∨ event.axis = DIAI_Y) then
        listener_motion env w event
      else listener_dispatch env w event

/-- One step of the input reactions on a window stack: an event reaches the listener,
or fusion runs one of the registered cleanups. -/
inductive InputOp where
  | event (e : DFBInputEvent)
  | cleanup
  deriving DecidableEq, Repr

/-- The effect of one step; a cleanup runs only when one is registered. -/
def InputOp.apply (env : ListenerEnv) (w : InputWorld) : InputOp → InputWorld
  | .event e => (dfb_windowstack_inputdevice_listener env w e).2
  | .cleanup =>
    if w.cleanups = 0 then w
    else WindowStack_Input_DispatchCleanup env { w with cleanups := w.cleanups - 1 }

/-- The world after a sequence of steps. -/
def run_input_ops (env : ListenerEnv) (w : InputWorld) : List InputOp → InputWorld
  | [] => w
  | op :: rest => run_input_ops env (InputOp.apply env w op) rest

/-- The world of a freshly created stack (`SHCALLOC` zeroes it) whose layer context has
the given number of references. -/
def InputWorld.initial (refs : Int) : InputWorld :=
  { stack := CoreWindowStack.empty, context_refs := refs, cleanups := 0 }

/-- An environment in which every collaborator of the listener succeeds and the clock
advances by one millisecond per call. -/
def sample_listener_env : ListenerEnv :=
  { stack_env := sample_stack_env, ref_stat_fails := fun _ => false, ref_fails := fun _ => false,
    cleanup_add_fails := fun _ => false }

/-- An absolute motion of the sample device 1. -/
def sample_absolute (axis : Nat) (axisabs : Int) : DFBInputEvent :=
  { type := DIET_AXISMOTION, device_id := 1, flags := DIEF_AXISABS, timestamp := 0, key_code := 0,
    button := 0, buttons := 0, axis := axis, axisabs := axisabs, axisrel := 0, min := 0, max := 0 }

/-- Event type `DIET_KEYPRESS`. -/
def DIET_KEYPRESS : Nat := 1

/-- A key press of the sample device 1. -/
def sample_key (key_code : Int) : DFBInputEvent :=
  { type := DIET_KEYPRESS, device_id := 1, flags := 0, timestamp := 0, key_code := key_code,
    button := 0, buttons := 0, axis := 0, axisabs := 0, axisrel := 0, min := 0, max := 0 }

/-- A pending slot never carries `DIEF_FOLLOW`. -/
def FollowClean (stack : CoreWindowStack) : Prop :=
  (stack.motion_x.type ≠ 0 → stack.motion_x.flags &&& DIEF_FOLLOW = 0) ∧
  (stack.motion_y.type ≠ 0 → stack.motion_y.flags &&& DIEF_FOLLOW = 0)

/-- The events that a flush hands to the window manager, written out slot by slot: the
pending X event, carrying `DIEF_FOLLOW` in addition when a Y event is pending too,
then the pending Y event. -/
def pending_events (stack : CoreWindowStack) : List DFBInputEvent :=
  (if stack.motion_x.type ≠ 0 then
    [{ stack.motion_x with
      flags := if stack.motion_y.type ≠ 0 then stack.motion_x.flags ||| DIEF_FOLLOW
        else stack.motion_x.flags }]
  else []) ++
  (if stack.motion_y.type ≠ 0 then [stack.motion_y] else [])

/-- What `WindowStack_Input_AddAbsolute` or `WindowStack_Input_AddRelative` stores for an
event in an empty slot: the event with `DIEF_FOLLOW` cleared, the `axisrel` of a
relative motion being the result of the `int` addition to 0. -/
def stored_alone (event : DFBInputEvent) : DFBInputEvent :=
  if event.flags &&& DIEF_AXISABS ≠ 0 then
    { event with flags := flagsWithout event.flags DIEF_FOLLOW }
  else coalesced event (wrap_int32 event.axisrel)

/-- An environment like the sample one in which `dfb_windowstack_lock` always fails. -/
def locked_stack_env : StackEnv :=
  { sample_stack_env with lock_fails := fun _ => true }

/-- The stack after a relative X motion (+3) and a relative Y motion (-1) of device 1
arrived one millisecond apart. -/
def stack_pending_pair (env : StackEnv) : CoreWindowStack :=
  add_all env CoreWindowStack.empty [sample_motion DIAI_X 3, sample_motion DIAI_Y (-1)]

/-- A relative X motion (+4) of device 2. -/
def motion_device_2 : DFBInputEvent :=
  { sample_motion DIAI_X 4 with device_id := 2 }

/-- The world after a relative X motion (+3) and a relative Y motion (-1) of device 1
reached the listener of a fresh stack whose context has one reference. -/
def world_pending_pair (env : ListenerEnv) : InputWorld :=
  run_input_ops env (InputWorld.initial 1)
    [InputOp.event (sample_motion DIAI_X 3), InputOp.event (sample_motion DIAI_Y (-1))]

/-- An environment like the sample one in which `dfb_layer_context_ref` fails from call
8 on, which is the call made for the third event that reaches the listener of a
fresh stack after two motions. -/
def unreferenced_env : ListenerEnv :=
  { sample_listener_env with ref_fails := fun tick => decide (8 ≤ tick) }

/-- An environment like the sample one in which `dfb_windowstack_lock` fails in call 6
only, which is the call made by the flush for the second event that reaches the
listener of a fresh stack after one motion. -/
def lock_once_env : ListenerEnv :=
  { sample_listener_env with
    stack_env := { sample_stack_env with lock_fails := fun tick => decide (tick = 6) } }

/-- Some motion is pending. -/
def motion_pending (stack : CoreWindowStack) : Prop :=
  stack.motion_x.type ≠ 0 ∨ stack.motion_y.type ≠ 0

/-- The references of the layer context are accounted for: the count is the count at
the start plus one for each registered cleanup that has not run, and a recorded
cleanup goes with pending motion. -/
def Balanced (refs : Int) (w : InputWorld) : Prop :=
  w.context_refs = refs + w.cleanups ∧ (w.stack.motion_cleanup = true → motion_pending w.stack)

/-! ## The event buffer (`idirectfbeventbuffer.c`) -/

/-- Event class `DFEC_INPUT` of `DFBEventClass` (the public header is not among the
sources). -/
def DFEC_INPUT : Nat := 1

/-- Event class `DFEC_WINDOW`. -/
def DFEC_WINDOW : Nat := 2

/-- Event class `DFEC_USER`. -/
def DFEC_USER : Nat := 3

/-- Event class `DFEC_UNIVERSAL`. -/
def DFEC_UNIVERSAL : Nat := 4

/-- Event class `DFEC_VIDEOPROVIDER`. -/
def DFEC_VIDEOPROVIDER : Nat := 5

/-- Event class `DFEC_SURFACE`. -/
def DFEC_SURFACE : Nat := 6

/-- The input event types that `CollectEventStatistics` has a case and a counter for:
`DIET_KEYPRESS`, `DIET_KEYRELEASE`, `DIET_BUTTONPRESS`, `DIET_BUTTONRELEASE`,
`DIET_AXISMOTION`. -/
def input_types_counted : List Nat := [1, 2, 3, 4, 5]

/-- The window event types that `CollectEventStatistics` has a case and a counter for:
`DWET_POSITION`, `DWET_SIZE`, `DWET_CLOSE`, `DWET_DESTROYED`, `DWET_GOTFOCUS`,
`DWET_LOSTFOCUS`, `DWET_KEYDOWN`, `DWET_KEYUP`, `DWET_BUTTONDOWN`, `DWET_BUTTONUP`,
`DWET_MOTION`, `DWET_ENTER`, `DWET_LEAVE`, `DWET_WHEEL`, `DWET_POSITION_SIZE`. -/
def window_types_counted : List Nat :=
  [0x1, 0x2, 0x4, 0x8, 0x10, 0x20, 0x100, 0x200, 0x10000, 0x20000, 0x40000, 0x80000, 0x100000,
    0x200000, 0x3]

/-- The video provider event types that `CollectEventStatistics` has a case and a
counter for: `DVPET_STARTED`, `DVPET_STOPPED`, `DVPET_SPEEDCHANGE`,
`DVPET_STREAMCHANGE`, `DVPET_FATALERROR`, `DVPET_FINISHED`, `DVPET_SURFACECHANGE`,
`DVPET_FRAMEDECODED`, `DVPET_FRAMEDISPLAYED`, `DVPET_DATAEXHAUSTED`,
`DVPET_VIDEOACTION`, `DVPET_DATALOW`, `DVPET_DATAHIGH`, `DVPET_BUFFERTIMELOW`,
`DVPET_BUFFERTIMEHIGH`. -/
def videoprovider_types_counted : List Nat :=
  [0x1, 0x2, 0x4, 0x8, 0x10, 0x20, 0x40, 0x80, 0x100, 0x200, 0x400, 0x800, 0x1000, 0x2000, 0x4000]

/-- The union `DFBEvent`, seen through the member that `clazz` selects: `type` is the
field `type` of that member, `size` the field `universal.size` (an
`unsigned int`), `data` the bytes of the member after these fields. -/
structure DFBEvent where
  clazz : Nat
  type : Nat
  size : Nat
  data : List Nat
  deriving DecidableEq, Repr, Inhabited

/-- The sizes that the event buffer takes from the headers:
`sizeof(DFBUniversalEvent)` and `sizeof(DFBEvent)`. -/
structure EventLayout where
  universal_size : Nat
  event_size : Nat
  deriving DecidableEq, Repr

/-- The struct `DFBEventBufferStats`: the total, the counters per event class that have
a field (input, window, user, universal, video provider) and the counters per
input, window and video provider event type, each an `unsigned int`. -/
structure DFBEventBufferStats where
  num_events : Nat
  by_class : Nat → Nat
  input_type : Nat → Nat
  window_type : Nat → Nat
  videoprovider_type : Nat → Nat

/-- The statistics after `memset` to 0. -/
def DFBEventBufferStats.zero : DFBEventBufferStats :=
  { num_events := 0, by_class := fun _ => 0, input_type := fun _ => 0,
    window_type := fun _ => 0, videoprovider_type := fun _ => 0 }

/-- The private data `IDirectFBEventBuffer_data`: the filter callback, the queue of
items (head first), the pipe mode flag and the statistics. -/
structure IDirectFBEventBuffer_data where
  filter : Option (DFBEvent → Bool)
  events : List DFBEvent
  pipe : Bool
  stats : DFBEventBufferStats
  stats_enabled : Bool

/-- The C statement `counter += incdec` on an `unsigned int` counter. -/
def add_incdec (counter : Nat) (incdec : Int) : Nat :=
  (((counter : Int) + incdec) % 4294967296).toNat

/-- The function `CollectEventStatistics`. An event class or type without a case only
hits `D_BUG`. -/
def CollectEventStatistics (stats : DFBEventBufferStats) (event : DFBEvent) (incdec : Int) :
    DFBEventBufferStats :=
  let stats := { stats with num_events := add_incdec stats.num_events incdec }
  if event.clazz = DFEC_INPUT then
    let stats := { stats with
      by_class := Function.update stats.by_class DFEC_INPUT
        (add_incdec (stats.by_class DFEC_INPUT) incdec) }
    if event.type ∈ input_types_counted then
      { stats with
        input_type := Function.update stats.input_type event.type
          (add_incdec (stats.input_type event.type) incdec) }
    else stats
  else if event.clazz = DFEC_WINDOW then
    let stats := { stats with
      by_class := Function.update stats.by_class DFEC_WINDOW
        (add_incdec (stats.by_class DFEC_WINDOW) incdec) }
    if event.type ∈ window_types_counted then
      { stats with
        window_type := Function.update stats.window_type event.type
          (add_incdec (stats.window_type event.type) incdec) }
    else stats
  else if event.clazz = DFEC_USER then
    { stats with
      by_class := Function.update stats.by_class DFEC_USER
        (add_incdec (stats.by_class DFEC_USER) incdec) }
  else if event.clazz = DFEC_VIDEOPROVIDER then
    let stats := { stats with
      by_class := Function.update stats.by_class DFEC_VIDEOPROVIDER
        (add_incdec (stats.by_class DFEC_VIDEOPROVIDER) incdec) }
    if event.type ∈ videoprovider_types_counted then
      { stats with
        videoprovider_type := Function.update stats.videoprovider_type event.type
          (add_incdec (stats.videoprovider_type event.type) incdec) }
    else stats
  else if event.clazz = DFEC_UNIVERSAL then
    { stats with
      by_class := Function.update stats.by_class DFEC_UNIVERSAL
        (add_incdec (stats.by_class DFEC_UNIVERSAL) incdec) }
  else stats

/-- The function `IDirectFBEventBuffer_Construct`: the data is allocated zeroed, only the
filter is set. -/
def IDirectFBEventBuffer_Construct (filter : Option (DFBEvent → Bool)) :
    IDirectFBEventBuffer_data :=
  { filter := filter, events := [], pipe := false, stats := DFBEventBufferStats.zero,
    stats_enabled := false }

/-- The function `IDirectFBEventBuffer_AddItem`. -/
def IDirectFBEventBuffer_AddItem (data : IDirectFBEventBuffer_data) (item : DFBEvent) :
    IDirectFBEventBuffer_data :=
  if (match data.filter with
      | some filter => filter item
      | none => false) then data
  else
    let stats := if data.stats_enabled then CollectEventStatistics data.stats item 1
      else data.stats
    { data with stats := stats, events := data.events ++ [item] }

/-- Whether the switches of `IDirectFBEventBuffer_PostEvent`, `_GetEvent` and `_PeekEvent`
have a case for the class. -/
def known_class (clazz : Nat) : Bool :=
  clazz = DFEC_INPUT ∨ clazz = DFEC_WINDOW ∨ clazz = DFEC_USER ∨ clazz = DFEC_VIDEOPROVIDER ∨
    clazz = DFEC_SURFACE ∨ clazz = DFEC_UNIVERSAL

/-- What the switch over the class copies from `src` to `dst`: the member that the class
selects, which for a universal event is the first `universal.size` bytes; nothing
for a class without a case. -/
def copy_event (layout : EventLayout) (dst src : DFBEvent) : DFBEvent :=
  if src.clazz = DFEC_UNIVERSAL then
    { src with data := src.data.take (src.size - layout.universal_size) }
  else if known_class src.clazz then src
  else dst

/-- The conversion of an `int` to `size_t` (64 bit) in a comparison with `sizeof`. -/
def size_t_of_int (x : Int) : Nat := (x % 18446744073709551616).toNat

/-- The function `IDirectFBEventBuffer_PostEvent`; `alloc_fails` tells whether `D_CALLOC`
returns NULL. -/
def IDirectFBEventBuffer_PostEvent (layout : EventLayout) (alloc_fails : Bool)
    (data : IDirectFBEventBuffer_data) (event : DFBEvent) :
    DFBResult × IDirectFBEventBuffer_data :=
  let store : DFBResult × IDirectFBEventBuffer_data :=
    if alloc_fails then (D_OOM, data)
    else (DFB_OK, IDirectFBEventBuffer_AddItem data (copy_event layout default event))
  if event.clazz = DFEC_INPUT ∨ event.clazz = DFEC_WINDOW ∨ event.clazz = DFEC_USER ∨
      event.clazz = DFEC_VIDEOPROVIDER ∨ event.clazz = DFEC_SURFACE then store
  else if event.clazz = DFEC_UNIVERSAL then
    let size : Int := wrap_int32 event.size
    if size_t_of_int size < layout.universal_size then (DFB_INVARG, data)
    else if size_t_of_int size > layout.event_size then (DFB_INVARG, data)
    else store
  else (DFB_INVARG, data)

/-- The function `IDirectFBEventBuffer_GetEvent`; `ret_event` is the content of the
caller's event before the call, the result holds its content after it. -/
def IDirectFBEventBuffer_GetEvent (layout : EventLayout) (data : IDirectFBEventBuffer_data)
    (ret_event : DFBEvent) : DFBResult × DFBEvent × IDirectFBEventBuffer_data :=
  if data.pipe then (DFB_UNSUPPORTED, ret_event, data)
  else
    match data.events with
    | [] => (DFB_BUFFEREMPTY, ret_event, data)
    | item :: rest =>
      let stats := if data.stats_enabled then CollectEventStatistics data.stats item (-1)
        else data.stats
      (DFB_OK, copy_event layout ret_event item, { data with stats := stats, events := rest })

/-- The function `IDirectFBEventBuffer_PeekEvent`. -/
def IDirectFBEventBuffer_PeekEvent (layout : EventLayout) (data : IDirectFBEventBuffer_data)
    (ret_event : DFBEvent) : DFBResult × DFBEvent × IDirectFBEventBuffer_data :=
  if data.pipe then (DFB_UNSUPPORTED, ret_event, data)
  else
    match data.events with
    | [] => (DFB_BUFFEREMPTY, ret_event, data)
    | item :: _ => (DFB_OK, copy_event layout ret_event item, data)

/-- The function `IDirectFBEventBuffer_Reset`. -/
def IDirectFBEventBuffer_Reset (data : IDirectFBEventBuffer_data) :
    DFBResult × IDirectFBEventBuffer_data :=
  if data.pipe then (DFB_UNSUPPORTED, data) else (DFB_OK, { data with events := [] })

/-- The function `IDirectFBEventBuffer_EnableStatistics`; `enable` is the `DFBBoolean`
argument, which the code compares with the stored flag. -/
def IDirectFBEventBuffer_EnableStatistics (data : IDirectFBEventBuffer_data) (enable : Nat) :
    DFBResult × IDirectFBEventBuffer_data :=
  if (if data.stats_enabled then 1 else 0) = enable then (DFB_OK, data)
  else if enable ≠ 0 then
    (DFB_OK, { data with
      stats := data.events.foldl (fun stats item => CollectEventStatistics stats item 1) data.stats,
      stats_enabled := true })
  else (DFB_OK, { data with stats := DFBEventBufferStats.zero, stats_enabled := false })

/-- The function `IDirectFBEventBuffer_GetStatistics`, called with a non-NULL
`ret_stats`. -/
def IDirectFBEventBuffer_GetStatistics (data : IDirectFBEventBuffer_data) :
    DFBResult × Option DFBEventBufferStats :=
  if ¬ data.stats_enabled then (DFB_UNSUPPORTED, none) else (DFB_OK, some data.stats)

/-- The state change of a successful `IDirectFBEventBuffer_CreateFileDescriptor`: the
buffer enters pipe mode. -/
def enter_pipe_mode (data : IDirectFBEventBuffer_data) : IDirectFBEventBuffer_data :=
  { data with pipe := true }

/-- One round of the inner loop of `IDirectFBEventBuffer_Feed`: in pipe mode the head of
the queue is taken out and written to the pipe. -/
def feed_round (data : IDirectFBEventBuffer_data) : IDirectFBEventBuffer_data :=
  match data.events with
  | [] => data
  | item :: rest =>
    if data.pipe then
      let stats := if data.stats_enabled then CollectEventStatistics data.stats item (-1)
        else data.stats
      { data with stats := stats, events := rest }
    else data

/-- One step in the life of an event buffer: a call of the interface, an event handed to
`IDirectFBEventBuffer_AddItem` by one of the reactions, or a round of the feeding
thread. -/
inductive BufferOp where
  | post (event : DFBEvent) (alloc_fails : Bool)
  | react (item : DFBEvent)
  | get (ret_event : DFBEvent)
  | peek (ret_event : DFBEvent)
  | reset
  | enable (flag : Nat)
  | create_fd
  | feed

/-- The effect of one step on the data of the buffer. -/
def BufferOp.apply (layout : EventLayout) (data : IDirectFBEventBuffer_data) :
    BufferOp → IDirectFBEventBuffer_data
  | .post event alloc_fails => (IDirectFBEventBuffer_PostEvent layout alloc_fails data event).2
  | .react item => IDirectFBEventBuffer_AddItem data item
  | .get ret_event => (IDirectFBEventBuffer_GetEvent layout data ret_event).2.2
  | .peek ret_event => (IDirectFBEventBuffer_PeekEvent layout data ret_event).2.2
  | .reset => (IDirectFBEventBuffer_Reset data).2
  | .enable flag => (IDirectFBEventBuffer_EnableStatistics data flag).2
  | .create_fd => if data.pipe then data else enter_pipe_mode data
  | .feed => feed_round data

/-- The results of posting the events of a list one after the other, with memory
available, and the data afterwards. -/
def post_all (layout : EventLayout) (data : IDirectFBEventBuffer_data) :
    List DFBEvent → List DFBResult × IDirectFBEventBuffer_data
  | [] => ([], data)
  | event :: rest =>
    let posted := IDirectFBEventBuffer_PostEvent layout false data event
    let others := post_all layout posted.2 rest
    (posted.1 :: others.1, others.2)

/-- The results of `n` successive `IDirectFBEventBuffer_GetEvent` calls into the same
event variable, and the data afterwards. -/
def get_all (layout : EventLayout) (data : IDirectFBEventBuffer_data) (ret_event : DFBEvent) :
    Nat → List (DFBResult × DFBEvent) × DFBEvent × IDirectFBEventBuffer_data
  | 0 => ([], ret_event, data)
  | n + 1 =>
    let got := IDirectFBEventBuffer_GetEvent layout data ret_event
    let others := get_all layout got.2.2 got.2.1 n
    ((got.1, got.2.1) :: others.1, others.2)

/-- The condition under which `IDirectFBEventBuffer_PostEvent` is said to reject an
event: a class other than the six known ones, or a universal event whose size is
below `sizeof(DFBUniversalEvent)` or above `sizeof(DFBEvent)`. -/
def malformed (layout : EventLayout) (event : DFBEvent) : Prop :=
  (event.clazz ≠ DFEC_INPUT ∧ event.clazz ≠ DFEC_WINDOW ∧ event.clazz ≠ DFEC_USER ∧
    event.clazz ≠ DFEC_VIDEOPROVIDER ∧ event.clazz ≠ DFEC_SURFACE ∧
    event.clazz ≠ DFEC_UNIVERSAL) ∨
  (event.clazz = DFEC_UNIVERSAL ∧
    (event.size < layout.universal_size ∨ event.size > layout.event_size))

instance (layout : EventLayout) (event : DFBEvent) : Decidable (malformed layout event) := by
  unfold malformed
  exact inferInstance

/-- Sample sizes: 8 bytes for the universal header, 144 bytes for the union. -/
def sample_layout : EventLayout := { universal_size := 8, event_size := 144 }

/-- Sizes that fit the types of the code: the universal header is not larger than the
union and the size of the union is a positive value of `int`. -/
def EventLayout.sane (layout : EventLayout) : Prop :=
  layout.universal_size ≤ layout.event_size ∧ layout.event_size < 2147483648

instance (layout : EventLayout) : Decidable layout.sane := by
  unfold EventLayout.sane
  exact inferInstance

/-- A key press as an event of class `DFEC_INPUT`. -/
def sample_input_event (key : Nat) : DFBEvent :=
  { clazz := DFEC_INPUT, type := DIET_KEYPRESS, size := 0, data := [key] }

/-- A universal event with the given size field and payload. -/
def sample_universal_event (size : Nat) (data : List Nat) : DFBEvent :=
  { clazz := DFEC_UNIVERSAL, type := 0, size := size, data := data }

/-- The counters of `DFBEventBufferStats`: the total, one per event class, one per
input, window and video provider event type. -/
inductive StatKey where
  | total
  | clazz (c : Nat)
  | input (t : Nat)
  | window (t : Nat)
  | videoprovider (t : Nat)
  deriving DecidableEq, Repr

/-- The value of a counter. -/
def DFBEventBufferStats.counter (stats : DFBEventBufferStats) : StatKey → Nat
  | .total => stats.num_events
  | .clazz c => stats.by_class c
  | .input t => stats.input_type t
  | .window t => stats.window_type t
  | .videoprovider t => stats.videoprovider_type t

/-- The struct `DFBRegion`: the corners `x1, y1` and `x2, y2`, both inclusive; also used
for a line from `(x1, y1)` to `(x2, y2)`. -/
structure DFBRegion where
  x1 : Int
  y1 : Int
  x2 : Int
  y2 : Int
  deriving DecidableEq, Repr, Inhabited

/-- The struct `DFBRectangle`. -/
structure DFBRectangle where
  x : Int
  y : Int
  w : Int
  h : Int
  deriving DecidableEq, Repr, Inhabited

/-- The struct `DFBPoint`. -/
structure DFBPoint where
  x : Int
  y : Int
  deriving DecidableEq, Repr, Inhabited

/-- The struct `DFBTriangle`. -/
structure DFBTriangle where
  x1 : Int
  y1 : Int
  x2 : Int
  y2 : Int
  x3 : Int
  y3 : Int
  deriving DecidableEq, Repr, Inhabited

/-- The C expression `a + b` on `int`. -/
def int_add (a b : Int) : Int := wrap_int32 (a + b)

/-- The C expression `a - b` on `int`. -/
def int_sub (a b : Int) : Int := wrap_int32 (a - b)

/-- The C expression `a * b` on `int`. -/
def int_mul (a b : Int) : Int := wrap_int32 (a * b)

/-- The C expression `a / b` on `int`, which truncates towards zero; a division by zero
has no result. -/
def int_div (a b : Int) : Option Int :=
  if b = 0 then none else some (wrap_int32 (Int.tdiv a b))

/-- The macro `REGION_CODE`. -/
def REGION_CODE (x y cx1 cx2 cy1 cy2 : Int) : Nat :=
  (if y > cy2 then 8 else 0) ||| (if y < cy1 then 4 else 0) |||
    (if x > cx2 then 2 else 0) ||| (if x < cx1 then 1 else 0)

/-- The C expression `line->x1 + (line->x2 - line->x1) * (y - line->y1) /
(line->y2 - line->y1)` of `dfb_clip_line`. -/
def line_x_at (line : DFBRegion) (y : Int) : Option Int :=
  (int_div (int_mul (int_sub line.x2 line.x1) (int_sub y line.y1)) (int_sub line.y2 line.y1)).map
    (fun q => int_add line.x1 q)

/-- The C expression `line->y1 + (line->y2 - line->y1) * (x - line->x1) /
(line->x2 - line->x1)` of `dfb_clip_line`. -/
def line_y_at (line : DFBRegion) (x : Int) : Option Int :=
  (int_div (int_mul (int_sub line.y2 line.y1) (int_sub x line.x1)) (int_sub line.x2 line.x1)).map
    (fun q => int_add line.y1 q)

/-- The branch `if (region_code1)` of the loop of `dfb_clip_line`: the first end point is
moved to the clip edge of the highest bit of its code. -/
def divide_first (clip line : DFBRegion) (region_code1 : Nat) : Option DFBRegion :=
  if region_code1 &&& 8 ≠ 0 then
    (line_x_at line clip.y2).map (fun x => { line with x1 := x, y1 := clip.y2 })
  else if region_code1 &&& 4 ≠ 0 then
    (line_x_at line clip.y1).map (fun x => { line with x1 := x, y1 := clip.y1 })
  else if region_code1 &&& 2 ≠ 0 then
    (line_y_at line clip.x2).map (fun y => { line with y1 := y, x1 := clip.x2 })
  else if region_code1 &&& 1 ≠ 0 then
    (line_y_at line clip.x1).map (fun y => { line with y1 := y, x1 := clip.x1 })
  else some line

/-- The `else` branch of the loop of `dfb_clip_line`: the second end point is moved. -/
def divide_second (clip line : DFBRegion) (region_code2 : Nat) : Option DFBRegion :=
  if region_code2 &&& 8 ≠ 0 then
    (line_x_at line clip.y2).map (fun x => { line with x2 := x, y2 := clip.y2 })
  else if region_code2 &&& 4 ≠ 0 then
    (line_x_at line clip.y1).map (fun x => { line with x2 := x, y2 := clip.y1 })
  else if region_code2 &&& 2 ≠ 0 then
    (line_y_at line clip.x2).map (fun y => { line with y2 := y, x2 := clip.x2 })
  else if region_code2 &&& 1 ≠ 0 then
    (line_y_at line clip.x1).map (fun y => { line with y2 := y, x2 := clip.x1 })
  else some line

/-- The loop of `dfb_clip_line`, with the number of divisions bounded by `fuel`; the
result is whether the line is visible and the line as the loop leaves it, or
nothing when a division by zero occurs or the fuel runs out. -/
def clip_line_loop (clip : DFBRegion) :
    Nat → DFBRegion → Nat → Nat → Option (Bool × DFBRegion)
  | fuel, line, region_code1, region_code2 =>
    if region_code1 ||| region_code2 = 0 then some (true, line)
    else if region_code1 &&& region_code2 ≠ 0 then some (false, line)
    else
      match fuel with
      | 0 => none
      | fuel + 1 =>
        if region_code1 ≠ 0 then
          match divide_first clip line region_code1 with
          | none => none
          | some line =>
            clip_line_loop clip fuel line
              (REGION_CODE line.x1 line.y1 clip.x1 clip.x2 clip.y1 clip.y2) region_code2
        else
          match divide_second clip line region_code2 with
          | none => none
          | some line =>
            clip_line_loop clip fuel line region_code1
              (REGION_CODE line.x2 line.y2 clip.x1 clip.x2 clip.y1 clip.y2)

/-- The function `dfb_clip_line`. -/
def dfb_clip_line (fuel : Nat) (clip line : DFBRegion) : Option (Bool × DFBRegion) :=
  clip_line_loop clip fuel line
    (REGION_CODE line.x1 line.y1 clip.x1 clip.x2 clip.y1 clip.y2)
    (REGION_CODE line.x2 line.y2 clip.x1 clip.x2 clip.y1 clip.y2)

/-- The function `dfb_clip_rectangle`. -/
def dfb_clip_rectangle (clip : DFBRegion) (rect : DFBRectangle) : Bool × DFBRectangle :=
  if clip.x1 ≥ int_add rect.x rect.w ∨ clip.x2 < rect.x ∨
      clip.y1 ≥ int_add rect.y rect.h ∨ clip.y2 < rect.y then (false, rect)
  else
    let rect := if clip.x1 > rect.x then
        { rect with w := int_add rect.w (int_sub rect.x clip.x1), x := clip.x1 }
      else rect
    let rect := if clip.y1 > rect.y then
        { rect with h := int_add rect.h (int_sub rect.y clip.y1), y := clip.y1 }
      else rect
    let rect := if clip.x2 < int_sub (int_add rect.x rect.w) 1 then
        { rect with w := int_add (int_sub clip.x2 rect.x) 1 }
      else rect
    let rect := if clip.y2 < int_sub (int_add rect.y rect.h) 1 then
        { rect with h := int_add (int_sub clip.y2 rect.y) 1 }
      else rect
    (true, rect)

/-- The start that `dfb_clip_rectangle` leaves on one axis, for the clip edge `c1` and
the start `p` of the rectangle. -/
def clip_axis_start (c1 p : Int) : Int := if c1 > p then c1 else p

/-- The length that `dfb_clip_rectangle` leaves on one axis, for the clip edges `c1`,
`c2` and the start `p` and length `len` of the rectangle. -/
def clip_axis_length (c1 c2 p len : Int) : Int :=
  let len1 := if c1 > p then int_add len (int_sub p c1) else len
  if c2 < int_sub (int_add (clip_axis_start c1 p) len1) 1 then
    int_add (int_sub c2 (clip_axis_start c1 p)) 1
  else len1

/-- The fields of a region are values of `int`. -/
def DFBRegion.is_int (region : DFBRegion) : Prop :=
  in_int_range region.x1 ∧ in_int_range region.y1 ∧ in_int_range region.x2 ∧
    in_int_range region.y2

instance (region : DFBRegion) : Decidable region.is_int := by
  unfold DFBRegion.is_int
  exact inferInstance

/-- The clip region from (0, 0) to (10, 10). -/
def sample_clip : DFBRegion := { x1 := 0, y1 := 0, x2 := 10, y2 := 10 }

/-- A point lies inside a clip region, whose corners are inclusive. -/
def inside_clip (clip : DFBRegion) (x y : ℚ) : Prop :=
  (clip.x1 : ℚ) ≤ x ∧ x ≤ clip.x2 ∧ (clip.y1 : ℚ) ≤ y ∧ y ≤ clip.y2

/-- A point lies inside a clip region or at most half a pixel away from it: in one of the
pixel squares of the region. -/
def near_clip (clip : DFBRegion) (x y : ℚ) : Prop :=
  (clip.x1 : ℚ) - 1 / 2 ≤ x ∧ x ≤ clip.x2 + 1 / 2 ∧ (clip.y1 : ℚ) - 1 / 2 ≤ y ∧
    y ≤ clip.y2 + 1 / 2

/-- The segment of a line is entirely outside the clip region: none of its points lies
inside it. -/
def segment_outside (clip line : DFBRegion) : Prop :=
  ∀ t : ℚ, 0 ≤ t → t ≤ 1 →
    ¬ inside_clip clip (line.x1 + t * (line.x2 - line.x1)) (line.y1 + t * (line.y2 - line.y1))

/-- Both end points of a line lie beyond the same edge of the clip region: both left of
it, both right of it, both above it or both below it. -/
def beyond_common_edge (clip line : DFBRegion) : Prop :=
  (line.x1 < clip.x1 ∧ line.x2 < clip.x1) ∨ (line.x1 > clip.x2 ∧ line.x2 > clip.x2) ∨
  (line.y1 < clip.y1 ∧ line.y2 < clip.y1) ∨ (line.y1 > clip.y2 ∧ line.y2 > clip.y2)

instance (clip line : DFBRegion) : Decidable (beyond_common_edge clip line) := by
  unfold beyond_common_edge
  exact inferInstance

/-- The line from (-16, 1) to (4, -1), which passes the corner (0, 0) of the sample clip
region at a distance of more than half a pixel. -/
def line_past_corner : DFBRegion := { x1 := -16, y1 := 1, x2 := 4, y2 := -1 }

/-- A coordinate of at most 16384 in absolute value; with such coordinates no `int`
computation of `dfb_clip_line` overflows. -/
def small_coordinate (v : Int) : Prop := -16384 ≤ v ∧ v ≤ 16384

instance (v : Int) : Decidable (small_coordinate v) := by
  unfold small_coordinate
  exact inferInstance

/-- All coordinates of a region or line are small. -/
def DFBRegion.small (region : DFBRegion) : Prop :=
  small_coordinate region.x1 ∧ small_coordinate region.y1 ∧ small_coordinate region.x2 ∧
    small_coordinate region.y2

instance (region : DFBRegion) : Decidable region.small := by
  unfold DFBRegion.small
  exact inferInstance

/-- A region with `x1 <= x2` and `y1 <= y2`. -/
def DFBRegion.valid (region : DFBRegion) : Prop :=
  region.x1 ≤ region.x2 ∧ region.y1 ≤ region.y2

instance (region : DFBRegion) : Decidable region.valid := by
  unfold DFBRegion.valid
  exact inferInstance

/-- The number of coordinates of a point that lie outside the range of the clip region. -/
def outside_count (clip : DFBRegion) (x y : Int) : Nat :=
  (if x < clip.x1 ∨ x > clip.x2 then 1 else 0) + (if y < clip.y1 ∨ y > clip.y2 then 1 else 0)

/-- The loop of `dfb_clip_line` ends at once for these end points: both are inside, or
both lie beyond a common edge. -/
def clip_line_done (clip line : DFBRegion) : Prop :=
  (outside_count clip line.x1 line.y1 = 0 ∧ outside_count clip line.x2 line.y2 = 0) ∨
    beyond_common_edge clip line

/-- A point with integer coordinates lies inside a clip region. -/
def point_inside (clip : DFBRegion) (x y : Int) : Prop :=
  clip.x1 ≤ x ∧ x ≤ clip.x2 ∧ clip.y1 ≤ y ∧ y ≤ clip.y2

instance (clip : DFBRegion) (x y : Int) : Decidable (point_inside clip x y) := by
  unfold point_inside
  exact inferInstance

/-- The treatment of one edge by the first loop of `dfb_clip_triangle`: the edge as
clipped by `dfb_clip_line`, or the edge between the nearest corners that the
intersections with the two diagonals of the clip region give, or nothing for a
redundant edge. `intersect` stands for `dfb_line_segment_intersect`, whose source
is not at hand, and yields the intersection point if there is one. The outer
result is missing when `dfb_clip_line` has none. -/
def clip_edge (fuel : Nat) (intersect : DFBRegion → DFBRegion → Option DFBPoint)
    (clip reg : DFBRegion) : Option (Option DFBRegion) :=
  match dfb_clip_line fuel clip reg with
  | none => none
  | some (true, line) => some (some line)
  | some (false, _) =>
    let i1 := intersect { x1 := clip.x1, y1 := clip.y1, x2 := clip.x2, y2 := clip.y2 } reg
    let p1 : Option DFBPoint := i1.map (fun p =>
      if p.x ≤ clip.x1 ∨ p.y ≤ clip.y1 then { x := clip.x1, y := clip.y1 }
      else { x := clip.x2, y := clip.y2 })
    let i2 := intersect { x1 := clip.x2, y1 := clip.y1, x2 := clip.x1, y2 := clip.y2 } reg
    let p2 : Option DFBPoint := i2.map (fun p =>
      if p.x ≥ clip.x2 ∨ p.y ≤ clip.y1 then { x := clip.x2, y := clip.y1 }
      else { x := clip.x1, y := clip.y2 })
    match p1, p2 with
    | some p1, some p2 => some (some { x1 := p1.x, y1 := p1.y, x2 := p2.x, y2 := p2.y })
    | some p1, none => some (some { x1 := p1.x, y1 := p1.y, x2 := p1.x, y2 := p1.y })
    | none, some p2 => some (some { x1 := p2.x, y1 := p2.y, x2 := p2.x, y2 := p2.y })
    | none, none => some none

/-- The first loop of `dfb_clip_triangle` over the array `edges`: `done` holds the
entries below the index `i`, `todo` the entries from `i` up to `num_edges`. A
redundant edge is taken out by the `memmove`, after which the same index holds
the next edge. -/
def clip_edges (fuel : Nat) (intersect : DFBRegion → DFBRegion → Option DFBPoint)
    (clip : DFBRegion) : List DFBRegion → List DFBRegion → Option (List DFBRegion)
  | done, [] => some done
  | done, reg :: todo =>
    match clip_edge fuel intersect clip reg with
    | none => none
    | some (some edge) => clip_edges fuel intersect clip (done ++ [edge]) todo
    | some none => clip_edges fuel intersect clip done todo

/-- The step `if (x != p[n-1].x || y != p[n-1].y) { p[n] = (x, y); n++; }` on the list of
the vertices written so far. -/
def append_vertex (p : List DFBPoint) (x y : Int) : List DFBPoint :=
  match p.getLast? with
  | some last => if x ≠ last.x ∨ y ≠ last.y then p ++ [{ x := x, y := y }] else p
  | none => p ++ [{ x := x, y := y }]

/-- The second loop of `dfb_clip_triangle`: the end points of the further edges are
appended. -/
def edge_vertices : List DFBPoint → List DFBRegion → List DFBPoint
  | p, [] => p
  | p, edge :: rest =>
    edge_vertices (append_vertex (append_vertex p edge.x1 edge.y1) edge.x2 edge.y2) rest

/-- The function `dfb_clip_triangle`: the return value, the vertices written to `p` and
the count stored in `num`, of which the first `num` entries of `p` are the
vertex list. -/
def dfb_clip_triangle (fuel : Nat) (intersect : DFBRegion → DFBRegion → Option DFBPoint)
    (clip : DFBRegion) (tri : DFBTriangle) : Option (Bool × List DFBPoint × Nat) :=
  match clip_edges fuel intersect clip []
      [{ x1 := tri.x1, y1 := tri.y1, x2 := tri.x2, y2 := tri.y2 },
        { x1 := tri.x2, y1 := tri.y2, x2 := tri.x3, y2 := tri.y3 },
        { x1 := tri.x3, y1 := tri.y3, x2 := tri.x1, y2 := tri.y1 }] with
  | none => none
  | some [] => some (false, [], 0)
  | some (first :: rest) =>
    let p : List DFBPoint := [{ x := first.x1, y := first.y1 }]
    let p := if first.x2 ≠ first.x1 ∨ first.y2 ≠ first.y1 then
        p ++ [{ x := first.x2, y := first.y2 }]
      else p
    let p := edge_vertices p rest
    let n := p.length
    let n := if (p.getLastD default).x = (p.headD default).x ∧
        (p.getLastD default).y = (p.headD default).y then n - 1 else n
    some (decide (n ≥ 3), p, n)

/-- All coordinates of a triangle are small. -/
def DFBTriangle.small (tri : DFBTriangle) : Prop :=
  small_coordinate tri.x1 ∧ small_coordinate tri.y1 ∧ small_coordinate tri.x2 ∧
    small_coordinate tri.y2 ∧ small_coordinate tri.x3 ∧ small_coordinate tri.y3

instance (tri : DFBTriangle) : Decidable tri.small := by
  unfold DFBTriangle.small
  exact inferInstance

/-- A stand-in for `dfb_line_segment_intersect` that never finds an intersection. -/
def no_intersection : DFBRegion → DFBRegion → Option DFBPoint := fun _ _ => none

/-- The array `edges` as `dfb_clip_triangle` initialises it: the three edges of the
triangle. -/
def triangle_edges (tri : DFBTriangle) : List DFBRegion :=
  [{ x1 := tri.x1, y1 := tri.y1, x2 := tri.x2, y2 := tri.y2 },
    { x1 := tri.x2, y1 := tri.y2, x2 := tri.x3, y2 := tri.y3 },
    { x1 := tri.x3, y1 := tri.y3, x2 := tri.x1, y2 := tri.y1 }]

/-- The diagonal of a clip region from `(x1, y1)` to `(x2, y2)`. -/
def first_diagonal (clip : DFBRegion) : DFBRegion :=
  { x1 := clip.x1, y1 := clip.y1, x2 := clip.x2, y2 := clip.y2 }

/-- The diagonal of a clip region from `(x2, y1)` to `(x1, y2)`. -/
def second_diagonal (clip : DFBRegion) : DFBRegion :=
  { x1 := clip.x2, y1 := clip.y1, x2 := clip.x1, y2 := clip.y2 }

/-- The clip region from (10, 10) to (20, 20) of the scenario S6. -/
def clip_s6 : DFBRegion := { x1 := 10, y1 := 10, x2 := 20, y2 := 20 }

/-- The triangle (0, 0), (5, 5), (0, 5) of the scenario S6. -/
def triangle_s6 : DFBTriangle := { x1 := 0, y1 := 0, x2 := 5, y2 := 5, x3 := 0, y3 := 5 }

/-- The loop of `dfb_clip_line` once more, with `rounds` bounding the number of times the
body of the `while` runs, the round that returns false included. -/
def clip_line_while (clip : DFBRegion) :
    Nat → DFBRegion → Nat → Nat → Option (Bool × DFBRegion)
  | rounds, line, region_code1, region_code2 =>
    if region_code1 ||| region_code2 = 0 then some (true, line)
    else
      match rounds with
      | 0 => none
      | rounds + 1 =>
        if region_code1 &&& region_code2 ≠ 0 then some (false, line)
        else if region_code1 ≠ 0 then
          match divide_first clip line region_code1 with
          | none => none
          | some line =>
            clip_line_while clip rounds line
              (REGION_CODE line.x1 line.y1 clip.x1 clip.x2 clip.y1 clip.y2) region_code2
        else
          match divide_second clip line region_code2 with
          | none => none
          | some line =>
            clip_line_while clip rounds line region_code1
              (REGION_CODE line.x2 line.y2 clip.x1 clip.x2 clip.y1 clip.y2)

/-- The function `dfb_clip_line` with its loop bounded by the number of rounds. -/
def dfb_clip_line_rounds (rounds : Nat) (clip line : DFBRegion) : Option (Bool × DFBRegion) :=
  clip_line_while clip rounds line
    (REGION_CODE line.x1 line.y1 clip.x1 clip.x2 clip.y1 clip.y2)
    (REGION_CODE line.x2 line.y2 clip.x1 clip.x2 clip.y1 clip.y2)

/-! ## Clipping of a flipped or rotated blit (`src/gfx/clip.c`) -/

/-- The blitting flag `DSBLIT_NOFX`. The values of `DFBSurfaceBlittingFlags` come from
`directfb.h`; of the flip and rotation flags only that they are distinct bits is
used. -/
def DSBLIT_NOFX : Nat := 0x00000000

/-- The blitting flag `DSBLIT_ROTATE180`. -/
def DSBLIT_ROTATE180 : Nat := 0x00001000

/-- The blitting flag `DSBLIT_ROTATE90`. -/
def DSBLIT_ROTATE90 : Nat := 0x00002000

/-- The blitting flag `DSBLIT_ROTATE270`. -/
def DSBLIT_ROTATE270 : Nat := 0x00004000

/-- The blitting flag `DSBLIT_FLIP_HORIZONTAL`. -/
def DSBLIT_FLIP_HORIZONTAL : Nat := 0x01000000

/-- The blitting flag `DSBLIT_FLIP_VERTICAL`. -/
def DSBLIT_FLIP_VERTICAL : Nat := 0x02000000

/-- Modelled from the spec: the macro `DFB_REGION_INIT_FROM_RECTANGLE` of
`directfb_util.h`, which is not among the sources, gives the region covered by a
rectangle, from `(x, y)` to `(x + w - 1, y + h - 1)`. -/
def DFB_REGION_INIT_FROM_RECTANGLE (rect : DFBRectangle) : DFBRegion :=
  { x1 := rect.x, y1 := rect.y,
    x2 := int_sub (int_add rect.x rect.w) 1, y2 := int_sub (int_add rect.y rect.h) 1 }

/-- Modelled from the spec: `dfb_rectangle_from_region` of `directfb_util.h`, which is not
among the sources, gives the rectangle covering a region, of width `x2 - x1 + 1`
and height `y2 - y1 + 1`. -/
def dfb_rectangle_from_region (region : DFBRegion) : DFBRectangle :=
  { x := region.x1, y := region.y1,
    w := int_add (int_sub region.x2 region.x1) 1, h := int_add (int_sub region.y2 region.y1) 1 }

/-- Modelled from the spec: `dfb_region_region_intersects` of `directfb_util.h`, which is
not among the sources, tells whether two regions have a pixel in common. -/
def dfb_region_region_intersects (region other : DFBRegion) : Bool :=
  decide (region.x1 ≤ other.x2) && decide (region.y1 ≤ other.y2) &&
    decide (region.x2 ≥ other.x1) && decide (region.y2 ≥ other.y1)

/-- Modelled from the spec: `dfb_region_region_intersect` of `directfb_util.h`, which is
not among the sources, is the counterpart for two regions of
`dfb_region_rectangle_intersect`: it returns false and leaves the region as it is
when the two have no pixel in common, and otherwise cuts the region down to the
clip and returns true. -/
def dfb_region_region_intersect (region clip : DFBRegion) : Bool × DFBRegion :=
  if region.x2 < clip.x1 ∨ region.y2 < clip.y1 ∨ region.x1 > clip.x2 ∨ region.y1 > clip.y2 then
    (false, region)
  else
    (true,
      { x1 := if region.x1 < clip.x1 then clip.x1 else region.x1,
        y1 := if region.y1 < clip.y1 then clip.y1 else region.y1,
        x2 := if region.x2 > clip.x2 then clip.x2 else region.x2,
        y2 := if region.y2 > clip.y2 then clip.y2 else region.y2 })

/-- The assertions of `dfb_clip_blit_flipped_rotated`: neither `DSBLIT_ROTATE270` nor
`DSBLIT_ROTATE180` is set, and the sizes of source and destination are equal, or
swapped under `DSBLIT_ROTATE90`. -/
def blit_sizes_asserted (srect drect : DFBRectangle) (flags : Nat) : Prop :=
  flags &&& (DSBLIT_ROTATE270 ||| DSBLIT_ROTATE180) = 0 ∧
    (if flags &&& DSBLIT_ROTATE90 ≠ 0 then srect.w = drect.h ∧ srect.h = drect.w
     else srect.w = drect.w ∧ srect.h = drect.h)

instance (srect drect : DFBRectangle) (flags : Nat) :
    Decidable (blit_sizes_asserted srect drect flags) := by
  unfold blit_sizes_asserted
  exact inferInstance

/-- The function `dfb_clip_blit_flipped_rotated`: the new source rectangle and the new
destination rectangle. -/
def dfb_clip_blit_flipped_rotated (clip : DFBRegion) (srect drect : DFBRectangle) (flags : Nat) :
    DFBRectangle × DFBRectangle :=
  let dest := DFB_REGION_INIT_FROM_RECTANGLE drect
  let clipped := (dfb_region_region_intersect dest clip).2
  let drect := dfb_rectangle_from_region clipped
  let fx := flags &&& (DSBLIT_FLIP_HORIZONTAL ||| DSBLIT_FLIP_VERTICAL ||| DSBLIT_ROTATE90)
  let srect : DFBRectangle :=
    if fx = DSBLIT_NOFX then
      { srect with
        x := int_add srect.x (int_sub clipped.x1 dest.x1),
        y := int_add srect.y (int_sub clipped.y1 dest.y1) }
    else if fx = DSBLIT_FLIP_HORIZONTAL then
      { srect with
        x := int_add srect.x (int_sub dest.x2 clipped.x2),
        y := int_add srect.y (int_sub clipped.y1 dest.y1) }
    else if fx = DSBLIT_FLIP_VERTICAL then
      { srect with
        x := int_add srect.x (int_sub clipped.x1 dest.x1),
        y := int_add srect.y (int_sub dest.y2 clipped.y2) }
    else if fx = DSBLIT_ROTATE90 then
      { srect with
        x := int_add srect.x (int_sub dest.y2 clipped.y2),
        y := int_add srect.y (int_sub clipped.x1 dest.x1) }
    else if fx = DSBLIT_FLIP_HORIZONTAL ||| DSBLIT_FLIP_VERTICAL then
      { srect with
        x := int_add srect.x (int_sub dest.x2 clipped.x2),
        y := int_add srect.y (int_sub dest.y2 clipped.y2) }
    else if fx = DSBLIT_ROTATE90 ||| DSBLIT_FLIP_VERTICAL ||| DSBLIT_FLIP_HORIZONTAL then
      { srect with
        x := int_add srect.x (int_sub clipped.y1 dest.y1),
        y := int_add srect.y (int_sub dest.x2 clipped.x2) }
    else if fx = DSBLIT_ROTATE90 ||| DSBLIT_FLIP_HORIZONTAL then
      { srect with
        x := int_add srect.x (int_sub clipped.y1 dest.y1),
        y := int_add srect.y (int_sub clipped.x1 dest.x1) }
    else if fx = DSBLIT_ROTATE90 ||| DSBLIT_FLIP_VERTICAL then
      { srect with
        x := int_add srect.x (int_sub dest.y2 clipped.y2),
        y := int_add srect.y (int_sub dest.x2 clipped.x2) }
    else srect
  let srect : DFBRectangle :=
    if flags &&& DSBLIT_ROTATE90 ≠ 0 then { srect with w := drect.h, h := drect.w }
    else { srect with w := drect.w, h := drect.h }
  (srect, drect)

/-- The flags of one of the eight combinations of horizontal flip, vertical flip and
rotation by 90 degrees. -/
def flip_rotate_flags (horizontal vertical rotate : Bool) : Nat :=
  (if horizontal then DSBLIT_FLIP_HORIZONTAL else 0) |||
    (if vertical then DSBLIT_FLIP_VERTICAL else 0) ||| (if rotate then DSBLIT_ROTATE90 else 0)

/-- The intersection of a destination rectangle with the clip, as a region of unbounded
integers. -/
def clipped_destination (clip : DFBRegion) (drect : DFBRectangle) : DFBRegion :=
  { x1 := max drect.x clip.x1, y1 := max drect.y clip.y1,
    x2 := min (drect.x + drect.w - 1) clip.x2, y2 := min (drect.y + drect.h - 1) clip.y2 }

/-- The width cut from the left edge of the destination. -/
def cut_left (clip : DFBRegion) (drect : DFBRectangle) : Int :=
  (clipped_destination clip drect).x1 - drect.x

/-- The height cut from the top edge of the destination. -/
def cut_top (clip : DFBRegion) (drect : DFBRectangle) : Int :=
  (clipped_destination clip drect).y1 - drect.y

/-- The width cut from the right edge of the destination. -/
def cut_right (clip : DFBRegion) (drect : DFBRectangle) : Int :=
  (drect.x + drect.w - 1) - (clipped_destination clip drect).x2

/-- The height cut from the bottom edge of the destination. -/
def cut_bottom (clip : DFBRegion) (drect : DFBRectangle) : Int :=
  (drect.y + drect.h - 1) - (clipped_destination clip drect).y2

/-- The table of source shifts in the words of the specification: for each combination
the pair of the shift of the source x and the shift of the source y. -/
def spec_source_shift (clip : DFBRegion) (drect : DFBRectangle) :
    Bool → Bool → Bool → Int × Int
  | false, false, false => (cut_left clip drect, cut_top clip drect)
  | true, false, false => (cut_right clip drect, cut_top clip drect)
  | false, true, false => (cut_left clip drect, cut_bottom clip drect)
  | true, true, false => (cut_right clip drect, cut_bottom clip drect)
  | false, false, true => (cut_bottom clip drect, cut_left clip drect)
  | true, false, true => (cut_top clip drect, cut_left clip drect)
  | false, true, true => (cut_bottom clip drect, cut_right clip drect)
  | true, true, true => (cut_top clip drect, cut_right clip drect)

/-- The width of the clipped destination. -/
def clipped_width (clip : DFBRegion) (drect : DFBRectangle) : Int :=
  (clipped_destination clip drect).x2 - (clipped_destination clip drect).x1 + 1

/-- The height of the clipped destination. -/
def clipped_height (clip : DFBRegion) (drect : DFBRectangle) : Int :=
  (clipped_destination clip drect).y2 - (clipped_destination clip drect).y1 + 1

/-- A rectangle with a positive size, whose position and size are small. -/
def DFBRectangle.small (rect : DFBRectangle) : Prop :=
  small_coordinate rect.x ∧ small_coordinate rect.y ∧ 1 ≤ rect.w ∧ rect.w ≤ 16384 ∧
    1 ≤ rect.h ∧ rect.h ≤ 16384

instance (rect : DFBRectangle) : Decidable rect.small := by
  unfold DFBRectangle.small
  exact inferInstance

/-- The destination rectangle has a pixel in common with the clip. -/
def destination_meets_clip (clip : DFBRegion) (drect : DFBRectangle) : Prop :=
  clip.x1 ≤ drect.x + drect.w - 1 ∧ clip.y1 ≤ drect.y + drect.h - 1 ∧ drect.x ≤ clip.x2 ∧
    drect.y ≤ clip.y2

instance (clip : DFBRegion) (drect : DFBRectangle) :
    Decidable (destination_meets_clip clip drect) := by
  unfold destination_meets_clip
  exact inferInstance

/-- A sample destination rectangle, which sticks out of the sample clip region on all four
sides by different amounts. -/
def sample_destination : DFBRectangle := { x := -2, y := -3, w := 17, h := 20 }

/-- A sample source rectangle of the size of the sample destination. -/
def sample_source : DFBRectangle := { x := 100, y := 200, w := 17, h := 20 }

/-- A sample source rectangle of the swapped size of the sample destination. -/
def sample_source_rotated : DFBRectangle := { x := 100, y := 200, w := 20, h := 17 }

/-! ## Triangle clipping with checked array accesses (`src/gfx/clip.c`) -/

/-- The outcome of a run in which every access to an array is checked against the size
of the array: an access outside the array, a call of `dfb_clip_line` without a
result, a loop that ran out of its bound, or a value. -/
inductive Checked (α : Type) where
  | out_of_bounds : Checked α
  | no_line_result : Checked α
  | unfinished : Checked α
  | ok (value : α) : Checked α
  deriving DecidableEq, Repr

/-- Sequencing of checked steps: the first failure ends the run. -/
def Checked.bind {α β : Type} (c : Checked α) (f : α → Checked β) : Checked β :=
  match c with
  | Checked.out_of_bounds => Checked.out_of_bounds
  | Checked.no_line_result => Checked.no_line_result
  | Checked.unfinished => Checked.unfinished
  | Checked.ok value => f value

/-- The read `a[i]` of a C array whose elements are the entries of the list. -/
def array_read {α : Type} (a : List α) (i : Int) : Checked α :=
  if 0 ≤ i then
    match a[i.toNat]? with
    | some value => Checked.ok value
    | none => Checked.out_of_bounds
  else Checked.out_of_bounds

/-- The write `a[i] = value` to a C array. -/
def array_write {α : Type} (a : List α) (i : Int) (value : α) : Checked (List α) :=
  if 0 ≤ i ∧ i.toNat < a.length then Checked.ok (a.set i.toNat value)
  else Checked.out_of_bounds

/-- The call `memmove( &a[dst], &a[src], count * sizeof(a[0]) )`: with a count of zero no
element is touched, a negative count becomes a huge size and leaves the array. -/
def array_memmove {α : Type} (a : List α) (dst src count : Int) : Checked (List α) :=
  if count = 0 then Checked.ok a
  else if 0 < count ∧ 0 ≤ dst ∧ 0 ≤ src ∧ src + count ≤ a.length ∧ dst + count ≤ a.length then
    Checked.ok
      (a.take dst.toNat ++ (a.drop src.toNat).take count.toNat ++ a.drop (dst + count).toNat)
  else Checked.out_of_bounds

/-- The first loop of `dfb_clip_triangle`, `for (i = 0; i < num_edges; i++)`, over the
array `edges` with the indices as the code computes them; `steps` bounds the
number of rounds. -/
def clip_edges_checked (fuel : Nat) (intersect : DFBRegion → DFBRegion → Option DFBPoint)
    (clip : DFBRegion) : Nat → List DFBRegion → Int → Int → Checked (List DFBRegion × Int)
  | steps, edges, num_edges, i =>
    if ¬ i < num_edges then Checked.ok (edges, num_edges)
    else
      match steps with
      | 0 => Checked.unfinished
      | steps + 1 =>
        (array_read edges i).bind fun reg =>
          match clip_edge fuel intersect clip reg with
          | none => Checked.no_line_result
          | some (some edge) =>
            (array_write edges i edge).bind fun edges =>
              clip_edges_checked fuel intersect clip steps edges num_edges (i + 1)
          | some none =>
            (array_memmove edges i (i + 1) (num_edges - i - 1)).bind fun edges =>
              clip_edges_checked fuel intersect clip steps edges (num_edges - 1) (i - 1 + 1)

/-- The step `if (x != p[n-1].x || y != p[n-1].y) { p[n].x = x; p[n].y = y; n++; }` on the
array `p`. -/
def append_vertex_checked (p : List DFBPoint) (n : Int) (x y : Int) :
    Checked (List DFBPoint × Int) :=
  (array_read p (n - 1)).bind fun last =>
    if x ≠ last.x ∨ y ≠ last.y then
      (array_write p n { x := x, y := y }).bind fun p => Checked.ok (p, n + 1)
    else Checked.ok (p, n)

/-- The second loop of `dfb_clip_triangle`, `for (i = 1; i < num_edges; i++)`, with the
indices as the code computes them; `steps` bounds the number of rounds. -/
def edge_vertices_checked (edges : List DFBRegion) (num_edges : Int) :
    Nat → Int → List DFBPoint → Int → Checked (List DFBPoint × Int)
  | steps, i, p, n =>
    if ¬ i < num_edges then Checked.ok (p, n)
    else
      match steps with
      | 0 => Checked.unfinished
      | steps + 1 =>
        (array_read edges i).bind fun edge =>
          (append_vertex_checked p n edge.x1 edge.y1).bind fun pn =>
            (append_vertex_checked pn.1 pn.2 edge.x2 edge.y2).bind fun pn =>
              edge_vertices_checked edges num_edges steps (i + 1) pn.1 pn.2

/-- The function `dfb_clip_triangle` with every access to `edges[3]` and to the array `p`
of the caller checked: the return value, the array `p` and the count stored in
`num`. -/
def dfb_clip_triangle_checked (fuel : Nat) (intersect : DFBRegion → DFBRegion → Option DFBPoint)
    (clip : DFBRegion) (tri : DFBTriangle) (p : List DFBPoint) :
    Checked (Bool × List DFBPoint × Int) :=
  (clip_edges_checked fuel intersect clip 3
      [{ x1 := tri.x1, y1 := tri.y1, x2 := tri.x2, y2 := tri.y2 },
        { x1 := tri.x2, y1 := tri.y2, x2 := tri.x3, y2 := tri.y3 },
        { x1 := tri.x3, y1 := tri.y3, x2 := tri.x1, y2 := tri.y1 }] 3 0).bind fun en =>
    let edges := en.1
    let num_edges := en.2
    if num_edges < 1 then Checked.ok (false, p, 0)
    else
      (array_read edges 0).bind fun first =>
        (array_write p 0 { x := first.x1, y := first.y1 }).bind fun p =>
          (if first.x2 ≠ first.x1 ∨ first.y2 ≠ first.y1 then
              (array_write p 1 { x := first.x2, y := first.y2 }).bind fun p =>
                Checked.ok (p, (2 : Int))
            else Checked.ok (p, (1 : Int))).bind fun pn =>
            (edge_vertices_checked edges num_edges 2 1 pn.1 pn.2).bind fun pn =>
              let p := pn.1
              let n := pn.2
              (array_read p (n - 1)).bind fun last =>
                (array_read p 0).bind fun head =>
                  let n := if last.x = head.x ∧ last.y = head.y then n - 1 else n
                  Checked.ok (decide (n ≥ 3), p, n)

/-- An array `p` of six points as a caller hands it in. -/
def six_points : List DFBPoint := List.replicate 6 { x := -1, y := -1 }

/-! ## The update aggregator (`src/misc/util.c`) -/

/-- Modelled from the spec: `dfb_region_region_extends` of `directfb_util.h`, which is not
among the sources, tells whether a region spans the same columns or the same rows
as the other one and lies next to it. The properties of the aggregator proved
below do not look into this test; the example of two regions stored apart uses
regions with a gap of three columns between them. -/
def dfb_region_region_extends (a b : DFBRegion) : Bool :=
  if a.x1 = b.x1 ∧ a.x2 = b.x2 then decide (a.y1 = int_sub b.y2 1 ∨ a.y2 = int_sub b.y1 1)
  else if a.y1 = b.y1 ∧ a.y2 = b.y2 then
    decide (a.x1 = int_sub b.x2 1 ∨ a.x2 = int_sub b.x1 1)
  else false

/-- Modelled from the spec: `dfb_region_region_union` of `directfb_util.h`, which is not
among the sources, grows a region until it encloses the other one. -/
def dfb_region_region_union (region other : DFBRegion) : DFBRegion :=
  { x1 := if region.x1 > other.x1 then other.x1 else region.x1,
    y1 := if region.y1 > other.y1 then other.y1 else region.y1,
    x2 := if region.x2 < other.x2 then other.x2 else region.x2,
    y2 := if region.y2 < other.y2 then other.y2 else region.y2 }

/-- The function `dfb_rectangle_union`: the new value of the first rectangle. -/
def dfb_rectangle_union (rect1 rect2 : DFBRectangle) : DFBRectangle :=
  if rect2.w = 0 ∨ rect2.h = 0 then rect1
  else
    let rect1 : DFBRectangle :=
      if rect1.w ≠ 0 then
        let temp := if rect1.x < rect2.x then rect1.x else rect2.x
        { rect1 with
          w := int_sub
            (if int_add rect1.x rect1.w > int_add rect2.x rect2.w then int_add rect1.x rect1.w
             else int_add rect2.x rect2.w) temp,
          x := temp }
      else { rect1 with x := rect2.x, w := rect2.w }
    if rect1.h ≠ 0 then
      let temp := if rect1.y < rect2.y then rect1.y else rect2.y
      { rect1 with
        h := int_sub
          (if int_add rect1.y rect1.h > int_add rect2.y rect2.h then int_add rect1.y rect1.h
           else int_add rect2.y rect2.h) temp,
        y := temp }
    else { rect1 with y := rect2.y, h := rect2.h }

/-- The struct `DFBUpdates`. The list `regions` holds the entries of the array `regions`
that are in use, `regions[0]` to `regions[num_regions - 1]`, so that `num_regions`
is its length. -/
structure DFBUpdates where
  regions : List DFBRegion
  max_regions : Int
  bounding : DFBRegion
  deriving DecidableEq, Repr, Inhabited

/-- The field `num_regions`. -/
def DFBUpdates.num_regions (updates : DFBUpdates) : Int := updates.regions.length

/-- The function `dfb_updates_init`, which leaves `bounding` as it finds it. -/
def dfb_updates_init (updates : DFBUpdates) (max_regions : Int) : DFBUpdates :=
  { updates with regions := [], max_regions := max_regions }

/-- The function `dfb_updates_reset`, which leaves `bounding` as it is. -/
def dfb_updates_reset (updates : DFBUpdates) : DFBUpdates :=
  { updates with regions := [] }

/-- The loop of `dfb_updates_add` over the stored regions: the first one that the new
region extends or intersects is united with it; without such a region there is no
result. -/
def updates_combine (region : DFBRegion) : List DFBRegion → Option (List DFBRegion)
  | [] => none
  | stored :: rest =>
    if dfb_region_region_extends stored region || dfb_region_region_intersects stored region then
      some (dfb_region_region_union stored region :: rest)
    else
      match updates_combine region rest with
      | some rest => some (stored :: rest)
      | none => none

/-- The function `dfb_updates_add`. -/
def dfb_updates_add (updates : DFBUpdates) (region : DFBRegion) : DFBUpdates :=
  if updates.num_regions = 0 then
    { updates with regions := [region], bounding := region }
  else
    match updates_combine region updates.regions with
    | some regions =>
      { updates with
        regions := regions, bounding := dfb_region_region_union updates.bounding region }
    | none =>
      if updates.num_regions = updates.max_regions then
        { updates with
          bounding := dfb_region_region_union updates.bounding region,
          regions := [dfb_region_region_union updates.bounding region] }
      else
        { updates with
          regions := updates.regions ++ [region],
          bounding := dfb_region_region_union updates.bounding region }

/-- A sequence of calls of `dfb_updates_add`. -/
def updates_add_all (updates : DFBUpdates) (regions : List DFBRegion) : DFBUpdates :=
  regions.foldl dfb_updates_add updates

/-- The expression `(r->x2 - r->x1 + 1) * (r->y2 - r->y1 + 1)` on `int`. -/
def region_area (r : DFBRegion) : Int :=
  int_mul (int_add (int_sub r.x2 r.x1) 1) (int_add (int_sub r.y2 r.y1) 1)

/-- The function `dfb_updates_stat`: the values stored in `ret_total` and in
`ret_bounding`. -/
def dfb_updates_stat (updates : DFBUpdates) : Int × Int :=
  if updates.num_regions = 0 then (0, 0)
  else
    (updates.regions.foldl (fun total r => int_add total (region_area r)) 0,
      region_area updates.bounding)

/-- The rectangle that `dfb_updates_get_rectangles` writes for a region. -/
def updates_rectangle (region : DFBRegion) : DFBRectangle :=
  { x := region.x1, y := region.y1,
    w := int_add (int_sub region.x2 region.x1) 1, h := int_add (int_sub region.y2 region.y1) 1 }

/-- The function `dfb_updates_get_rectangles`: the rectangles written to `ret_rects`, whose
number is stored in `ret_num`. The result is missing when the divisor is zero. -/
def dfb_updates_get_rectangles (updates : DFBUpdates) : Option (List DFBRectangle) :=
  if updates.num_regions = 0 then some []
  else if updates.num_regions ≠ 1 then
    let total := (dfb_updates_stat updates).1
    let bounding := (dfb_updates_stat updates).2
    let n := int_add (int_sub updates.max_regions updates.num_regions) 1
    let d := int_add n 1
    match int_div (int_mul bounding n) d with
    | none => none
    | some quotient =>
      if total < quotient then some (updates.regions.map updates_rectangle)
      else some [updates_rectangle updates.bounding]
  else some [updates_rectangle updates.bounding]

/-- The first region encloses the second one. -/
def region_encloses (a b : DFBRegion) : Prop :=
  a.x1 ≤ b.x1 ∧ a.y1 ≤ b.y1 ∧ b.x2 ≤ a.x2 ∧ b.y2 ≤ a.y2

instance (a b : DFBRegion) : Decidable (region_encloses a b) := by
  unfold region_encloses
  exact inferInstance

/-- A region as `DFB_REGION_ASSERT` demands it, with `x1 <= x2` and `y1 <= y2`, whose
coordinates are below 2^30 in absolute value, so that its width and its height
fit an `int`. -/
def DFBRegion.modest (region : DFBRegion) : Prop :=
  -1073741823 ≤ region.x1 ∧ region.x1 ≤ region.x2 ∧ region.x2 ≤ 1073741823 ∧
    -1073741823 ≤ region.y1 ∧ region.y1 ≤ region.y2 ∧ region.y2 ≤ 1073741823

instance (region : DFBRegion) : Decidable region.modest := by
  unfold DFBRegion.modest
  exact inferInstance

/-- The pixels of a region all lie in the rectangle. -/
def rectangle_covers (rect : DFBRectangle) (region : DFBRegion) : Prop :=
  rect.x ≤ region.x1 ∧ rect.y ≤ region.y1 ∧ region.x2 ≤ rect.x + rect.w - 1 ∧
    region.y2 ≤ rect.y + rect.h - 1

instance (rect : DFBRectangle) (region : DFBRegion) : Decidable (rectangle_covers rect region) := by
  unfold rectangle_covers
  exact inferInstance

/-- The number of pixels of a region, as an unbounded integer. -/
def exact_area (region : DFBRegion) : Int :=
  (region.x2 - region.x1 + 1) * (region.y2 - region.y1 + 1)

/-- The sum of the numbers of pixels of the regions, as an unbounded integer. -/
def exact_total (regions : List DFBRegion) : Int :=
  (regions.map exact_area).sum

/-- The union of a set of rectangles, taken with `dfb_rectangle_union` from an empty
rectangle. -/
def rectangles_union (rects : List DFBRectangle) : DFBRectangle :=
  rects.foldl dfb_rectangle_union { x := 0, y := 0, w := 0, h := 0 }

/-- An aggregator as the memory holds it before `dfb_updates_init`. -/
def stale_updates : DFBUpdates :=
  { regions := [{ x1 := 7, y1 := 7, x2 := 9, y2 := 9 }], max_regions := 0,
    bounding := { x1 := -50, y1 := -50, x2 := 50, y2 := 50 } }

/-- Three regions, of which the third one bridges the gap between the first two. -/
def bridging_regions : List DFBRegion :=
  [{ x1 := 0, y1 := 0, x2 := 1, y2 := 1 }, { x1 := 5, y1 := 0, x2 := 6, y2 := 1 },
    { x1 := 1, y1 := 0, x2 := 5, y2 := 1 }]

/-- Three regions far from each other. -/
def scattered_regions : List DFBRegion :=
  [{ x1 := 0, y1 := 0, x2 := 1, y2 := 1 }, { x1 := 10, y1 := 10, x2 := 11, y2 := 11 },
    { x1 := 20, y1 := 0, x2 := 21, y2 := 1 }]

/-- The relation between an aggregator and the regions added since `dfb_updates_init` or
`dfb_updates_reset`: the bounding region is the smallest region that encloses the
added regions, and also the smallest one that encloses the stored regions, and
every added region lies in a stored one. -/
structure UpdatesTrack (updates : DFBUpdates) (added : List DFBRegion) : Prop where
  empty_iff : updates.regions = [] ↔ added = []
  bounding_encloses_added : ∀ r ∈ added, region_encloses updates.bounding r
  bounding_least_added :
    ∀ other, added ≠ [] → (∀ r ∈ added, region_encloses other r) →
      region_encloses other updates.bounding
  bounding_encloses_stored : ∀ stored ∈ updates.regions, region_encloses updates.bounding stored
  bounding_least_stored :
    ∀ other, updates.regions ≠ [] → (∀ stored ∈ updates.regions, region_encloses other stored) →
      region_encloses other updates.bounding
  added_stored : ∀ r ∈ added, ∃ stored ∈ updates.regions, region_encloses stored r

/-- The bound of the area heuristic in the words of the specification,
`bounding * n / (n + 1)` with `n = max_regions - num_regions + 1`, on unbounded
integers with the division of integers. -/
def spec_area_bound (updates : DFBUpdates) : Int :=
  exact_area updates.bounding * (updates.max_regions - updates.num_regions + 1) /
    (updates.max_regions - updates.num_regions + 1 + 1)

/-- Two regions of one pixel each, four pixels apart. -/
def pixel_regions : List DFBRegion :=
  [{ x1 := 0, y1 := 0, x2 := 0, y2 := 0 }, { x1 := 4, y1 := 0, x2 := 4, y2 := 0 }]

/-- A point with integer coordinates lies less than one pixel, in x and in y, from a point
of the segment of a line. -/
def near_segment (line : DFBRegion) (x y : Int) : Prop :=
  ∃ t : ℚ, 0 ≤ t ∧ t ≤ 1 ∧
    |(x : ℚ) - (line.x1 + t * (line.x2 - line.x1))| < 1 ∧
    |(y : ℚ) - (line.y1 + t * (line.y2 - line.y1))| < 1

/-- The segment of a line keeps clear of the clip region by a pixel: each of its points
lies at least one pixel left of it, right of it, above it or below it. -/
def segment_clear (clip line : DFBRegion) : Prop :=
  ∀ t : ℚ, 0 ≤ t → t ≤ 1 →
    (line.x1 + t * (line.x2 - line.x1) : ℚ) ≤ clip.x1 - 1 ∨
    (clip.x2 : ℚ) + 1 ≤ line.x1 + t * (line.x2 - line.x1) ∨
    (line.y1 + t * (line.y2 - line.y1) : ℚ) ≤ clip.y1 - 1 ∨
    (clip.y2 : ℚ) + 1 ≤ line.y1 + t * (line.y2 - line.y1)

/-- The line from (-100, 5) to (5, -100), which passes the corner (0, 0) of the sample
clip region at a distance of 95 pixels, with its end points beyond different
edges. -/
def line_clear_of_corner : DFBRegion := { x1 := -100, y1 := 5, x2 := 5, y2 := -100 }

/-! # Properties

All definitions of the embedding stand above this line; what follows are the
lemmas and theorems about them. -/

/-! ## Properties of the negotiation -/

theorem copy_pools_eq (max_pools : Nat) (src dst : List CoreSurfacePool) :
    copy_pools max_pools src dst = dst ++ src.take (max_pools - dst.length) := by
  induction src generalizing dst with
  | nil => simp [copy_pools]
  | cons p rest ih =>
    unfold copy_pools
    by_cases h : dst.length < max_pools
    · rw [if_pos h, ih]
      obtain ⟨k, hk⟩ : ∃ k, max_pools - dst.length = k + 1 := ⟨max_pools - dst.length - 1, by omega⟩
      have hk2 : max_pools - (dst ++ [p]).length = k := by
        simp only [List.length_append, List.length_singleton]; omega
      rw [hk, hk2]
      simp
    · rw [if_neg h]
      have : max_pools - dst.length = 0 := by omega
      simp [this]

theorem copy_pools_twice (max_pools : Nat) (free oom : List CoreSurfacePool) :
    copy_pools max_pools oom (copy_pools max_pools free []) = (free ++ oom).take max_pools := by
  rw [copy_pools_eq, copy_pools_eq]
  simp only [List.nil_append, List.length_nil, Nat.sub_zero, List.length_take]
  rw [List.take_append_eq_append_take]
  congr 2
  omega

theorem negotiate_type_eq (buffer : CoreSurfaceBuffer) :
    negotiate_type buffer = required_type buffer := by
  unfold negotiate_type required_type
  cases buffer.policy <;> simp

/-- The slice of the priority order that `negotiate_scan` still has to visit. -/
theorem negotiate_scan_eq (r : Registry) (identity : Nat) (buffer : CoreSurfaceBuffer)
    (accessor access type : Nat)
    (shared : CoreSurfacePool → Bool) (fits : CoreSurfacePool → Bool)
    (hshared : ∀ pool, shared pool =
      (identity == FUSION_ID_MASTER || (pool.desc.access accessor &&& CSAF_SHARED) != 0))
    (hfits : ∀ pool, fits pool = ((pool.desc.access accessor &&& access) == access &&
      (pool.desc.types &&& flagsWithout type CSTF_PREALLOCATED) == flagsWithout type CSTF_PREALLOCATED))
    (n : Nat) : ∀ (i : Nat) (free oom : List CoreSurfacePool),
    (∀ k, i ≤ k → k < i + n → ∃ pool, r.pool_array (r.pool_order k) = some pool ∧
      (r.pool_funcs pool.pool_id).isSome) →
    negotiate_scan r identity buffer accessor access type n i free oom =
      some (free ++ ((((List.range' i n).filterMap (fun k => r.pool_array (r.pool_order k))).filter
                shared).filter fits).filter (fun pool => probe r buffer pool = DFB_OK),
            oom ++ ((((List.range' i n).filterMap (fun k => r.pool_array (r.pool_order k))).filter
                shared).filter fits).filter (fun pool => probe r buffer pool = DFB_NOVIDEOMEMORY)) := by
  induction n with
  | zero => intro i free oom _; simp [negotiate_scan]
  | succ n ih =>
    intro i free oom h
    obtain ⟨pool, hp, hf⟩ := h i (Nat.le_refl i) (by omega)
    obtain ⟨funcs, hfuncs⟩ := Option.isSome_iff_exists.mp hf
    have hrest : ∀ k, i + 1 ≤ k → k < i + 1 + n → ∃ pool, r.pool_array (r.pool_order k) = some pool ∧
        (r.pool_funcs pool.pool_id).isSome := fun k h1 h2 => h k (by omega) (by omega)
    have hprobe : probe r buffer pool = (match funcs.TestConfig with
        | some test => test pool buffer
        | none => DFB_OK) := by
      simp [probe, hfuncs]
    have hc1 : (identity != FUSION_ID_MASTER && (pool.desc.access accessor &&& CSAF_SHARED) == 0)
        = !(shared pool) := by
      rw [hshared]
      simp only [bne]
      generalize (identity == FUSION_ID_MASTER) = a
      generalize ((pool.desc.access accessor &&& CSAF_SHARED) == 0) = b
      cases a <;> cases b <;> rfl
    have hc2 : (D_FLAGS_ARE_SET (pool.desc.access accessor) access &&
          D_FLAGS_ARE_SET pool.desc.types (flagsWithout type CSTF_PREALLOCATED)) = fits pool := by
      rw [hfits]; rfl
    unfold negotiate_scan
    simp only [hp, hfuncs]
    rw [hc1, hc2, ← hprobe]
    simp only [List.range'_succ, List.filterMap_cons, hp, List.filter_cons]
    cases hs : shared pool
    · simp only [Bool.not_false, if_true, Bool.false_eq_true, if_false, ih (i + 1) free oom hrest]
    · cases hfit : fits pool
      · simp only [Bool.not_true, Bool.false_eq_true, if_false, if_true, ih (i + 1) free oom hrest, hfit,
          List.filter_cons]
      · cases hres : probe r buffer pool <;>
          simp only [Bool.not_true, Bool.false_eq_true, if_false, if_true, ih (i + 1) _ _ hrest, hfit,
            hres, decide_True, decide_False, reduceCtorEq, List.append_assoc, List.singleton_append,
            List.filter_cons]

theorem length_bne_zero {α : Type} (l : List α) : (l.length != 0) = !l.isEmpty := by
  cases l <;> rfl

/-- C1 (as amended): for every buffer, every accessor from 0 up to but not including
`_CSAID_NUM`, every access mask and every `max_pools`, in a registry whose priority
order lists registered pools only, `dfb_surface_pools_negotiate` returns exactly the
result described by the specification (`negotiate_spec`): candidates in priority
order, slaves refused in non-shared pools, pools probed OK first, pools probed out
of video memory after them, cut at `max_pools`, with status OK, out of video memory
or unsupported. -/
theorem negotiate_refines_spec (r : Registry) (identity : Nat) (buffer : CoreSurfaceBuffer)
    (accessor : Int) (access max_pools : Nat)
    (hlow : 0 ≤ accessor) (hhigh : accessor < CSAID_NUM)
    (hreg : ∀ k, k < r.pool_count → ∃ pool, r.pool_array (r.pool_order k) = some pool ∧
      (r.pool_funcs pool.pool_id).isSome) :
    dfb_surface_pools_negotiate r identity buffer accessor access max_pools =
      some (negotiate_spec r identity buffer accessor.toNat access max_pools) := by
  have hany : ¬ accessor ≥ CSAID_ANY := by
    have : CSAID_NUM < CSAID_ANY := by decide
    omega
  have hnum : ¬ (accessor < 0 ∨ accessor ≥ CSAID_NUM) := by omega
  unfold dfb_surface_pools_negotiate
  rw [if_neg hany, if_neg hnum]
  have hscan := negotiate_scan_eq r identity buffer accessor.toNat access (negotiate_type buffer)
    (fun pool => identity == FUSION_ID_MASTER || (pool.desc.access accessor.toNat &&& CSAF_SHARED) != 0)
    (fun pool => (pool.desc.access accessor.toNat &&& access) == access &&
      (pool.desc.types &&& flagsWithout (negotiate_type buffer) CSTF_PREALLOCATED)
        == flagsWithout (negotiate_type buffer) CSTF_PREALLOCATED)
    (fun _ => rfl) (fun _ => rfl) r.pool_count 0 [] []
    (fun k _ hk => hreg k (by omega))
  simp only [hscan, copy_pools_twice, List.nil_append]
  simp only [negotiate_spec, negotiate_candidates, pools_in_priority_order, List.range_eq_range',
    negotiate_type_eq]
  simp only [length_bne_zero]

/-- C1, witness of the amended statement and of scenario S1: pool A (default priority)
registered before pool B (preferred priority), both accepting a CPU read/write
request, negotiate to the list [B, A] with status OK, as `negotiate_spec` says. -/
theorem negotiate_refines_spec_witness :
    (dfb_surface_pools_negotiate registry_AB FUSION_ID_MASTER sample_buffer CSAID_CPU
        (CSAF_READ ||| CSAF_WRITE) 8).map (fun out => (out.1, out.2.map (fun pool => pool.desc.name)))
      = some (DFB_OK, ["B", "A"]) ∧
    dfb_surface_pools_negotiate registry_AB FUSION_ID_MASTER sample_buffer CSAID_CPU
        (CSAF_READ ||| CSAF_WRITE) 8 =
      some (negotiate_spec registry_AB FUSION_ID_MASTER sample_buffer CSAID_CPU.toNat
        (CSAF_READ ||| CSAF_WRITE) 8) :=
  ⟨by decide,
   negotiate_refines_spec registry_AB FUSION_ID_MASTER sample_buffer CSAID_CPU
     (CSAF_READ ||| CSAF_WRITE) 8 (by decide) (by decide)
     (by
       intro k hk
       have hk2 : k < 2 := hk
       have hcases : k = 0 ∨ k = 1 := by omega
       rcases hcases with h | h <;> subst h <;> exact ⟨_, rfl, rfl⟩)⟩

/-- C1, counterexample to the statement for every accessor below `CSAID_ANY`: the
accessor `_CSAID_NUM` lies below `CSAID_ANY`, and for it the negotiation over the
registry of pools A and B answers `DFB_INVARG`, which is none of the three
statuses of the specification (which would report unsupported here). -/
theorem negotiate_accessor_gap :
    CSAID_NUM < CSAID_ANY ∧
    (dfb_surface_pools_negotiate registry_AB FUSION_ID_MASTER sample_buffer CSAID_NUM
        (CSAF_READ ||| CSAF_WRITE) 8).map (fun out => out.1) = some DFB_INVARG ∧
    (negotiate_spec registry_AB FUSION_ID_MASTER sample_buffer CSAID_NUM.toNat
        (CSAF_READ ||| CSAF_WRITE) 8).1 = DFB_UNSUPPORTED ∧
    dfb_surface_pools_negotiate registry_AB FUSION_ID_MASTER sample_buffer CSAID_NUM
        (CSAF_READ ||| CSAF_WRITE) 8 ≠
      some (negotiate_spec registry_AB FUSION_ID_MASTER sample_buffer CSAID_NUM.toNat
        (CSAF_READ ||| CSAF_WRITE) 8) := by
  refine ⟨by decide, by decide, by decide, ?_⟩
  intro h
  have h2 := congrArg (Option.map (fun out : DFBResult × List CoreSurfacePool => out.1)) h
  revert h2
  decide

/-! ## Insertion into the priority order -/

theorem insert_scan_spec (r : Registry) (priority : Nat) (n : Nat) : ∀ (i p : Nat),
    insert_scan r priority n i = some p →
    i ≤ p ∧ p ≤ i + n ∧
    (∀ k, i ≤ k → k < p → alive r (r.pool_order k) = true ∧ ¬ priority_of r (r.pool_order k) < priority) ∧
    (p < i + n → alive r (r.pool_order p) = true ∧ priority_of r (r.pool_order p) < priority) := by
  induction n with
  | zero =>
    intro i p h
    simp only [insert_scan, Option.some.injEq] at h
    subst h
    exact ⟨le_refl _, by omega, fun k h1 h2 => by omega, fun h => by omega⟩
  | succ n ih =>
    intro i p h
    unfold insert_scan at h
    cases hslot : r.pool_array (r.pool_order i) with
    | none => simp [hslot] at h
    | some other =>
      simp only [hslot] at h
      by_cases hlt : other.desc.priority < priority
      · rw [if_pos hlt] at h
        simp only [Option.some.injEq] at h
        subst h
        refine ⟨le_refl _, by omega, fun k h1 h2 => by omega, fun _ => ?_⟩
        simp [alive, priority_of, hslot, hlt]
      · rw [if_neg hlt] at h
        obtain ⟨h1, h2, h3, h4⟩ := ih (i + 1) p h
        refine ⟨by omega, by omega, ?_, fun hp => h4 (by omega)⟩
        intro k hk1 hk2
        by_cases hki : k = i
        · subst hki
          simp [alive, priority_of, hslot, hlt]
        · exact h3 k (by omega) hk2

theorem insert_scan_total (r : Registry) (priority : Nat) (n : Nat) : ∀ (i : Nat),
    (∀ k, i ≤ k → k < i + n → alive r (r.pool_order k) = true) →
    ∃ p, insert_scan r priority n i = some p := by
  induction n with
  | zero => intro i _; exact ⟨i, rfl⟩
  | succ n ih =>
    intro i h
    have hi := h i (le_refl _) (by omega)
    unfold insert_scan
    cases hslot : r.pool_array (r.pool_order i) with
    | none => simp [alive, hslot] at hi
    | some other =>
      simp only
      by_cases hlt : other.desc.priority < priority
      · exact ⟨i, by rw [if_pos hlt]⟩
      · rw [if_neg hlt]
        exact ih (i + 1) (fun k h1 h2 => h k (by omega) (by omega))

theorem insert_shift_spec (i : Nat) (n : Nat) : ∀ (order : Nat → Nat), i ≤ n →
    insert_shift i n order = (fun k => if i < k ∧ k ≤ n then order (k - 1) else order k, i) := by
  induction n with
  | zero =>
    intro order h
    have hi : i = 0 := by omega
    subst hi
    simp only [insert_shift, Prod.mk.injEq, and_true]
    funext k
    have : ¬ (0 < k ∧ k ≤ 0) := by omega
    rw [if_neg this]
  | succ n ih =>
    intro order h
    unfold insert_shift
    by_cases hgt : n + 1 > i
    · rw [if_pos hgt, ih _ (by omega)]
      simp only [Prod.mk.injEq, and_true]
      funext k
      by_cases hk : k = n + 1
      · subst hk
        have h1 : ¬ (i < n + 1 ∧ n + 1 ≤ n) := by omega
        have h2 : i < n + 1 ∧ n + 1 ≤ n + 1 := by omega
        rw [if_neg h1, if_pos h2, Function.update_same]
        simp
      · by_cases hr : i < k ∧ k ≤ n
        · have h2 : i < k ∧ k ≤ n + 1 := by omega
          rw [if_pos hr, if_pos h2, Function.update_noteq (by omega)]
        · have h2 : ¬ (i < k ∧ k ≤ n + 1) := by omega
          rw [if_neg hr, if_neg h2, Function.update_noteq hk]
    · rw [if_neg hgt]
      have hi : i = n + 1 := by omega
      subst hi
      simp only [Prod.mk.injEq, and_true]
      funext k
      have : ¬ (n + 1 < k ∧ k ≤ n + 1) := by omega
      rw [if_neg this]

theorem insert_pool_local_eq (r r' : Registry) (pool : CoreSurfacePool) (c : Nat)
    (hc : r.pool_count = c + 1) (h : insert_pool_local r pool = some r') :
    ∃ p, insert_scan r pool.desc.priority c 0 = some p ∧ p ≤ c ∧
      r' = { r with pool_order := fun k =>
        if k = p then c else if p < k ∧ k ≤ c then r.pool_order (k - 1) else r.pool_order k } := by
  unfold insert_pool_local at h
  have hne : ¬ r.pool_count = 0 := by omega
  have hc1 : r.pool_count - 1 = c := by omega
  rw [if_neg hne, hc1] at h
  cases hscan : insert_scan r pool.desc.priority c 0 with
  | none => simp [hscan] at h
  | some p =>
    have hp := (insert_scan_spec r pool.desc.priority c 0 p hscan).2.1
    have hpc : p ≤ c := by omega
    simp only [hscan, insert_shift_spec p c r.pool_order hpc, Option.some.injEq] at h
    refine ⟨p, rfl, hpc, ?_⟩
    rw [← h]
    congr 1
    funext k
    rw [Function.update_apply]

theorem insert_pool_local_total (r : Registry) (pool : CoreSurfacePool) (c : Nat)
    (hc : r.pool_count = c + 1) (halive : ∀ k, k < c → alive r (r.pool_order k) = true) :
    ∃ r', insert_pool_local r pool = some r' := by
  unfold insert_pool_local
  have hne : ¬ r.pool_count = 0 := by omega
  have hc1 : r.pool_count - 1 = c := by omega
  rw [if_neg hne, hc1]
  obtain ⟨p, hp⟩ := insert_scan_total r pool.desc.priority c 0 (fun k _ h2 => halive k (by omega))
  rw [hp]
  exact ⟨_, rfl⟩

theorem insert_pool_local_order (r r' : Registry) (pool : CoreSurfacePool) (c : Nat)
    (hc : r.pool_count = c + 1) (hprio : priority_of r c = pool.desc.priority)
    (hO : OrderInv { r with pool_count := c })
    (h : insert_pool_local r pool = some r') : OrderInv r' := by
  obtain ⟨p, hscan, hpc, hr⟩ := insert_pool_local_eq r r' pool c hc h
  obtain ⟨_, _, hbefore, hat⟩ := insert_scan_spec r pool.desc.priority c 0 p hscan
  subst hr
  have olt := hO.lt
  have oinj := hO.inj
  have osurj := hO.surj
  have osorted := hO.sorted
  simp only at olt oinj osurj osorted
  constructor
  · intro k hk
    simp only [hc] at hk ⊢
    by_cases h1 : k = p
    · rw [if_pos h1]; omega
    · rw [if_neg h1]
      by_cases h2 : p < k ∧ k ≤ c
      · rw [if_pos h2]
        have := olt (k - 1) (by omega)
        omega
      · rw [if_neg h2]
        have := olt k (by omega)
        omega
  · intro j k hj hk hjk
    simp only [hc] at hj hk hjk
    by_cases hj1 : j = p <;> by_cases hk1 : k = p
    · omega
    · rw [if_pos hj1, if_neg hk1] at hjk
      by_cases h2 : p < k ∧ k ≤ c
      · rw [if_pos h2] at hjk
        have := olt (k - 1) (by omega)
        omega
      · rw [if_neg h2] at hjk
        have := olt k (by omega)
        omega
    · rw [if_neg hj1, if_pos hk1] at hjk
      by_cases h2 : p < j ∧ j ≤ c
      · rw [if_pos h2] at hjk
        have := olt (j - 1) (by omega)
        omega
      · rw [if_neg h2] at hjk
        have := olt j (by omega)
        omega
    · rw [if_neg hj1, if_neg hk1] at hjk
      by_cases h2 : p < j ∧ j ≤ c <;> by_cases h3 : p < k ∧ k ≤ c
      · rw [if_pos h2, if_pos h3] at hjk
        have := oinj (j - 1) (k - 1) (by omega) (by omega) hjk
        omega
      · rw [if_pos h2, if_neg h3] at hjk
        have := oinj (j - 1) k (by omega) (by omega) hjk
        omega
      · rw [if_neg h2, if_pos h3] at hjk
        have := oinj j (k - 1) (by omega) (by omega) hjk
        omega
      · rw [if_neg h2, if_neg h3] at hjk
        exact oinj j k (by omega) (by omega) hjk
  · intro id hid
    simp only [hc] at hid ⊢
    by_cases hidc : id = c
    · exact ⟨p, by omega, by rw [if_pos rfl, hidc]⟩
    · obtain ⟨q, hq, hqid⟩ := osurj id (by omega)
      by_cases hqp : q < p
      · refine ⟨q, by omega, ?_⟩
        rw [if_neg (by omega), if_neg (by omega)]
        exact hqid
      · refine ⟨q + 1, by omega, ?_⟩
        rw [if_neg (by omega), if_pos (by omega)]
        simpa using hqid
  · intro j k hjk hk haj hak
    simp only [hc] at hk
    have key : ∀ a b, a < b → b < c → alive r (r.pool_order a) = true →
        alive r (r.pool_order b) = true → before r (r.pool_order a) (r.pool_order b) :=
      fun a b hab hb ha hb2 => osorted a b hab hb ha hb2
    change alive r _ = true at haj
    change alive r _ = true at hak
    change before r _ _
    simp only at haj hak ⊢
    by_cases hj1 : j = p
    · have hk1 : ¬ k = p := by omega
      have h3 : p < k ∧ k ≤ c := by omega
      rw [if_pos hj1]
      rw [if_neg hk1, if_pos h3] at hak ⊢
      have hpc2 : p < 0 + c := by omega
      obtain ⟨hpa, hpp⟩ := hat hpc2
      by_cases hkp : k - 1 = p
      · rw [hkp]
        left
        rw [hprio]
        exact hpp
      · have hb := key p (k - 1) (by omega) (by omega) hpa hak
        left
        rw [hprio]
        rcases hb with hb | hb <;> omega
    · rw [if_neg hj1] at haj ⊢
      by_cases hk1 : k = p
      · have h2 : ¬ (p < j ∧ j ≤ c) := by omega
        rw [if_neg h2] at haj ⊢
        rw [if_pos hk1]
        have hb := (hbefore j (by omega) (by omega)).2
        have hl := olt j (by omega)
        unfold before
        rw [hprio]
        omega
      · rw [if_neg hk1] at hak ⊢
        by_cases h2 : p < j ∧ j ≤ c
        · have h3 : p < k ∧ k ≤ c := by omega
          rw [if_pos h2] at haj ⊢
          rw [if_pos h3] at hak ⊢
          exact key (j - 1) (k - 1) (by omega) (by omega) haj hak
        · rw [if_neg h2] at haj ⊢
          by_cases h3 : p < k ∧ k ≤ c
          · rw [if_pos h3] at hak ⊢
            exact key j (k - 1) (by omega) (by omega) haj hak
          · rw [if_neg h3] at hak ⊢
            exact key j k (by omega) (by omega) haj hak

/-! ## Removal from the priority order -/

theorem remove_find_some (order : Nat → Nat) (target : Nat) (n : Nat) : ∀ (i p : Nat),
    remove_find order target n i = some p → i ≤ p ∧ p < i + n ∧ order p = target := by
  induction n with
  | zero => intro i p h; simp [remove_find] at h
  | succ n ih =>
    intro i p h
    unfold remove_find at h
    by_cases heq : order i = target
    · rw [if_pos heq] at h
      simp only [Option.some.injEq] at h
      subst h
      exact ⟨le_refl _, by omega, heq⟩
    · rw [if_neg heq] at h
      obtain ⟨h1, h2, h3⟩ := ih (i + 1) p h
      exact ⟨by omega, by omega, h3⟩

theorem remove_find_none (order : Nat → Nat) (target : Nat) (n : Nat) : ∀ (i : Nat),
    remove_find order target n i = none → ∀ k, i ≤ k → k < i + n → order k ≠ target := by
  induction n with
  | zero => intro i _ k h1 h2; omega
  | succ n ih =>
    intro i h k h1 h2
    unfold remove_find at h
    by_cases heq : order i = target
    · rw [if_pos heq] at h
      simp at h
    · rw [if_neg heq] at h
      by_cases hki : k = i
      · subst hki; exact heq
      · exact ih (i + 1) h k (by omega) (by omega)

theorem order_inv_remove (r r1 : Registry) (q : Nat)
    (hcount : r1.pool_count + 1 = r.pool_count) (harr : r1.pool_array = r.pool_array)
    (hq : q < r.pool_count) (hqv : r.pool_order q = r1.pool_count)
    (hord : ∀ k, k < r1.pool_count → r1.pool_order k = r.pool_order (if k < q then k else k + 1))
    (hO : OrderInv r) : OrderInv r1 := by
  have hne : ∀ k, k < r1.pool_count → (if k < q then k else k + 1) ≠ q := by
    intro k _
    by_cases h : k < q
    · rw [if_pos h]; omega
    · rw [if_neg h]; omega
  have hlt : ∀ k, k < r1.pool_count → (if k < q then k else k + 1) < r.pool_count := by
    intro k hk
    by_cases h : k < q
    · rw [if_pos h]; omega
    · rw [if_neg h]; omega
  have halive : ∀ x, alive r1 x = alive r x := fun x => by unfold alive; rw [harr]
  have hbefore : ∀ a b, before r1 a b = before r a b := fun a b => by
    unfold before priority_of; rw [harr]
  constructor
  · intro k hk
    rw [hord k hk]
    have h1 := hO.lt _ (hlt k hk)
    have h2 : r.pool_order (if k < q then k else k + 1) ≠ r1.pool_count := by
      intro heq
      exact hne k hk (hO.inj _ _ (hlt k hk) hq (by rw [heq, hqv]))
    omega
  · intro j k hj hk hjk
    rw [hord j hj, hord k hk] at hjk
    have := hO.inj _ _ (hlt j hj) (hlt k hk) hjk
    by_cases h1 : j < q <;> by_cases h2 : k < q
    · rw [if_pos h1, if_pos h2] at this; exact this
    · rw [if_pos h1, if_neg h2] at this; omega
    · rw [if_neg h1, if_pos h2] at this; omega
    · rw [if_neg h1, if_neg h2] at this; omega
  · intro id hid
    obtain ⟨k, hk, hkid⟩ := hO.surj id (by omega)
    have hkq : k ≠ q := by
      intro heq
      rw [heq, hqv] at hkid
      omega
    by_cases h : k < q
    · refine ⟨k, by omega, ?_⟩
      rw [hord k (by omega), if_pos h]
      exact hkid
    · refine ⟨k - 1, by omega, ?_⟩
      rw [hord (k - 1) (by omega), if_neg (by omega)]
      have : k - 1 + 1 = k := by omega
      rw [this]
      exact hkid
  · intro j k hjk hk haj hak
    have hj : j < r1.pool_count := by omega
    rw [halive, hord j hj] at haj
    rw [halive, hord k hk] at hak
    rw [hbefore, hord j hj, hord k hk]
    refine hO.sorted _ _ ?_ (hlt k hk) haj hak
    by_cases h1 : j < q <;> by_cases h2 : k < q
    · rw [if_pos h1, if_pos h2]; exact hjk
    · rw [if_pos h1, if_neg h2]; omega
    · rw [if_neg h1, if_pos h2]; omega
    · rw [if_neg h1, if_neg h2]; omega

/-- One round of the trimming loop keeps the order invariant. -/
theorem remove_trim_step (r : Registry) (hpos : 0 < r.pool_count) (hO : OrderInv r) :
    OrderInv (remove_trim_round r) := by
  obtain ⟨q, hq, hqv⟩ := hO.surj (r.pool_count - 1) (by omega)
  refine order_inv_remove r _ q (by simp only [remove_trim_round]; omega) rfl hq hqv ?_ hO
  intro k hk
  simp only [remove_trim_round] at hk ⊢
  cases hfind : remove_find r.pool_order (r.pool_count - 1) (r.pool_count - 1) 0 with
  | none =>
    have hnone := remove_find_none _ _ _ 0 hfind
    have hqtop : ¬ q < r.pool_count - 1 := fun hlt => hnone q (Nat.zero_le _) (by omega) hqv
    simp only
    rw [if_pos (by omega)]
  | some p =>
    obtain ⟨_, hp, hpv⟩ := remove_find_some _ _ _ 0 p hfind
    have hpq : p = q := hO.inj p q (by omega) hq (by rw [hpv, hqv])
    subst hpq
    simp only [order_memmove]
    by_cases h : k < p
    · rw [if_pos h, if_neg (by omega)]
    · rw [if_neg h, if_pos (by omega)]

theorem remove_trim_stop (fuel : Nat) (r : Registry)
    (h : ¬ (r.pool_count > 0 ∧ (r.pool_array (r.pool_count - 1)).isNone)) :
    remove_trim fuel r = r := by
  cases fuel with
  | zero => rfl
  | succ n => unfold remove_trim; rw [if_neg h]

theorem remove_trim_inv (fuel : Nat) : ∀ (r : Registry), OrderInv r →
    (∀ i, r.pool_count ≤ i → r.pool_array i = none) →
    (remove_trim fuel r).pool_array = r.pool_array ∧
    (remove_trim fuel r).pool_funcs = r.pool_funcs ∧
    (remove_trim fuel r).pool_locals = r.pool_locals ∧
    (remove_trim fuel r).pool_count ≤ r.pool_count ∧
    OrderInv (remove_trim fuel r) ∧
    (∀ i, (remove_trim fuel r).pool_count ≤ i → r.pool_array i = none) ∧
    (r.pool_count ≤ fuel → 0 < (remove_trim fuel r).pool_count →
      alive r ((remove_trim fuel r).pool_count - 1) = true) := by
  induction fuel with
  | zero =>
    intro r hO habove
    refine ⟨rfl, rfl, rfl, le_refl _, hO, habove, ?_⟩
    intro h1 h2
    simp only [remove_trim] at h2
    omega
  | succ n ih =>
    intro r hO habove
    by_cases hcond : r.pool_count > 0 ∧ (r.pool_array (r.pool_count - 1)).isNone
    · have hstep := remove_trim_step r hcond.1 hO
      have hcnt : (remove_trim_round r).pool_count = r.pool_count - 1 := rfl
      have harr : (remove_trim_round r).pool_array = r.pool_array := rfl
      have hrec := ih _ hstep (by
        intro i hi
        rw [harr]
        rw [hcnt] at hi
        by_cases hi2 : i = r.pool_count - 1
        · rw [hi2]; exact Option.isNone_iff_eq_none.mp hcond.2
        · exact habove i (by omega))
      unfold remove_trim
      rw [if_pos hcond]
      obtain ⟨h1, h2, h3, h4, h5, h6, h7⟩ := hrec
      refine ⟨h1, h2, h3, ?_, h5, h6, ?_⟩
      · rw [hcnt] at h4; omega
      · intro hf hpos
        exact h7 (by rw [hcnt]; omega) hpos
    · rw [remove_trim_stop _ _ hcond]
      refine ⟨rfl, rfl, rfl, le_refl _, hO, habove, ?_⟩
      intro _ hpos
      have : ¬ (r.pool_array (r.pool_count - 1)).isNone = true := fun h => hcond ⟨hpos, h⟩
      unfold alive
      cases hslot : r.pool_array (r.pool_count - 1) with
      | none => simp [hslot] at this
      | some _ => rfl

/-! ## Registration: failure paths -/

theorem update_none_self {α : Type} (f : Nat → Option α) (i : Nat) (h : f i = none) :
    Function.update f i none = f := by
  funext k
  by_cases hk : k = i
  · subst hk; rw [Function.update_same, h]
  · rw [Function.update_noteq hk]

theorem free_local_eq (r : Registry) (i : Nat) :
    free_local r i = { r with pool_locals := Function.update r.pool_locals i none } := by
  unfold free_local set_local
  cases h : r.pool_locals i with
  | none =>
    simp only [Option.isSome_none, Bool.false_eq_true, if_false]
    rw [update_none_self _ _ h]
  | some v => simp

theorem init_pool_call_facts (r r1 : Registry) (pool pool1 : CoreSurfacePool)
    (funcs : SurfacePoolFuncs) (ret : DFBResult)
    (h : init_pool_call r pool funcs = (ret, pool1, r1)) :
    pool1.pool_id = pool.pool_id ∧ ret = funcs.InitPool.ret ∧
    pool1.desc.priority = funcs.InitPool.desc.priority ∧
    (ret = DFB_OK → r1 = r) ∧
    (ret ≠ DFB_OK → r1 = { r with pool_locals := Function.update r.pool_locals pool.pool_id none }) := by
  unfold init_pool_call at h
  dsimp only at h
  by_cases hret : funcs.InitPool.ret = DFB_OK
  · rw [if_neg (by simp [hret])] at h
    simp only [Prod.mk.injEq] at h
    obtain ⟨rfl, rfl, rfl⟩ := h
    exact ⟨rfl, hret.symm, rfl, fun _ => rfl, fun h => absurd rfl h⟩
  · rw [if_pos hret] at h
    simp only [Prod.mk.injEq] at h
    obtain ⟨rfl, rfl, rfl⟩ := h
    exact ⟨rfl, rfl, rfl, fun h => absurd h hret, fun _ => free_local_eq r pool.pool_id⟩

theorem init_pool_facts (mem : MemEnv) (r r1 : Registry) (pool pool1 : CoreSurfacePool)
    (funcs : SurfacePoolFuncs) (ret : DFBResult) (h : init_pool mem r pool funcs = (ret, pool1, r1)) :
    pool1.pool_id = pool.pool_id ∧
    r1.pool_count = r.pool_count ∧ r1.pool_funcs = r.pool_funcs ∧
    r1.pool_array = r.pool_array ∧ r1.pool_order = r.pool_order ∧
    (∀ i, i ≠ pool.pool_id → r1.pool_locals i = r.pool_locals i) ∧
    (ret ≠ DFB_OK → r1.pool_locals = r.pool_locals ∨
      r1.pool_locals = Function.update r.pool_locals pool.pool_id none) ∧
    (ret = DFB_OK → pool1.desc.priority = funcs.InitPool.desc.priority) ∧
    (ret ≠ DFB_OK → ret = D_OOSHM ∨ ret = D_OOM ∨ ret = funcs.InitPool.ret) := by
  unfold init_pool at h
  dsimp only at h
  have hsid : (init_pool_sizes pool funcs).pool_id = pool.pool_id := rfl
  generalize init_pool_sizes pool funcs = sized at h hsid
  rw [← hsid]
  by_cases h1 : sized.pool_data_size ≠ 0 ∧ mem.shcalloc_data = false
  · rw [if_pos h1] at h
    simp only [Prod.mk.injEq] at h
    obtain ⟨rfl, rfl, rfl⟩ := h
    exact ⟨rfl, rfl, rfl, rfl, rfl, fun _ _ => rfl, fun _ => Or.inl rfl, fun h => by simp [D_OOSHM] at h,
      fun _ => Or.inl rfl⟩
  · rw [if_neg h1] at h
    have hdid : (if sized.pool_data_size ≠ 0 then { sized with data := some sized.pool_data_size }
        else sized).pool_id = sized.pool_id := by
      split <;> rfl
    generalize (if sized.pool_data_size ≠ 0 then { sized with data := some sized.pool_data_size }
        else sized) = withData at h hdid
    rw [← hdid]
    by_cases h2 : withData.pool_local_data_size ≠ 0 ∧ mem.dcalloc_local = false
    · rw [if_pos h2] at h
      simp only [Prod.mk.injEq] at h
      obtain ⟨rfl, rfl, rfl⟩ := h
      refine ⟨rfl, rfl, rfl, rfl, rfl, ?_, fun _ => Or.inr rfl, fun h => by simp [D_OOM] at h,
        fun _ => Or.inr (Or.inl rfl)⟩
      intro i hi
      simp only [set_local]
      rw [Function.update_noteq hi]
    · rw [if_neg h2] at h
      obtain ⟨c1, c2, c3, c4, c5⟩ := init_pool_call_facts _ _ _ _ _ _ h
      by_cases hret : ret = DFB_OK
      · have hr1 := c4 hret
        subst hr1
        by_cases h3 : withData.pool_local_data_size ≠ 0
        · rw [if_pos h3]
          refine ⟨c1, rfl, rfl, rfl, rfl, ?_, fun h => absurd hret h, fun _ => c3, fun h => absurd hret h⟩
          intro i hi
          simp only [set_local]
          rw [Function.update_noteq hi]
        · rw [if_neg h3]
          exact ⟨c1, rfl, rfl, rfl, rfl, fun _ _ => rfl, fun h => absurd hret h, fun _ => c3,
            fun h => absurd hret h⟩
      · have hr1 := c5 hret
        subst hr1
        by_cases h3 : withData.pool_local_data_size ≠ 0
        · rw [if_pos h3]
          refine ⟨c1, rfl, rfl, rfl, rfl, ?_, fun _ => Or.inr ?_, fun h => absurd h hret,
            fun _ => Or.inr (Or.inr c2)⟩
          · intro i hi
            simp only [set_local]
            rw [Function.update_noteq hi, Function.update_noteq hi]
          · simp only [set_local, Function.update_idem]
        · rw [if_neg h3]
          refine ⟨c1, rfl, rfl, rfl, rfl, ?_, fun _ => Or.inr rfl, fun h => absurd h hret,
            fun _ => Or.inr (Or.inr c2)⟩
          intro i hi
          simp only
          rw [Function.update_noteq hi]

/-- C8: when `dfb_surface_pool_initialize2` fails in a registry whose slot
`pool_count` is unused (the state that the source asserts on entry), it returns an
error code of one of its failure causes (pool limit, a blob that cannot be
allocated, the error of `InitPool`), hands back no pool and leaves `pool_count`,
`pool_array`, `pool_funcs`, `pool_locals` and `pool_order` exactly as before. -/
theorem initialize2_failure_restores (mem : MemEnv) (r r' : Registry) (funcs : SurfacePoolFuncs)
    (ret : DFBResult) (ret_pool : Option CoreSurfacePool)
    (harr : r.pool_array r.pool_count = none) (hloc : r.pool_locals r.pool_count = none)
    (hfun : r.pool_funcs r.pool_count = none)
    (h : dfb_surface_pool_initialize2 mem r funcs = some (ret, ret_pool, r'))
    (herr : ret ≠ DFB_OK) :
    r' = r ∧ ret_pool = none ∧
    (ret = DFB_LIMITEXCEEDED ∨ ret = D_OOSHM ∨ ret = D_OOM ∨ ret = funcs.InitPool.ret) := by
  unfold dfb_surface_pool_initialize2 at h
  by_cases hmax : r.pool_count = MAX_SURFACE_POOLS
  · rw [if_pos hmax] at h
    simp only [Option.some.injEq, Prod.mk.injEq] at h
    obtain ⟨rfl, rfl, rfl⟩ := h
    exact ⟨rfl, rfl, Or.inl rfl⟩
  · rw [if_neg hmax] at h
    by_cases hsh : mem.shcalloc_pool = false
    · rw [if_pos hsh] at h
      simp only [Option.some.injEq, Prod.mk.injEq] at h
      obtain ⟨rfl, rfl, rfl⟩ := h
      exact ⟨rfl, rfl, Or.inr (Or.inl rfl)⟩
    · rw [if_neg hsh] at h
      dsimp only at h
      generalize hr1 : ({ r with
          pool_count := r.pool_count + 1,
          pool_funcs := Function.update r.pool_funcs (fresh_pool r.pool_count).pool_id (some funcs),
          pool_array := Function.update r.pool_array (fresh_pool r.pool_count).pool_id
            (some (fresh_pool r.pool_count)) } : Registry) = r1 at h
      rcases hip : init_pool mem r1 (fresh_pool r.pool_count) funcs with ⟨ret1, pool1, r2⟩
      rw [hip] at h
      dsimp only at h
      obtain ⟨f1, f2, f3, f4, f5, f6, f7, f8, f9⟩ := init_pool_facts _ _ _ _ _ _ _ hip
      have hid : pool1.pool_id = r.pool_count := f1
      by_cases hret : ret1 ≠ DFB_OK
      · rw [if_pos hret] at h
        simp only [Option.some.injEq, Prod.mk.injEq] at h
        obtain ⟨rfl, rfl, rfl⟩ := h
        refine ⟨?_, rfl, Or.inr (f9 hret)⟩
        have hloc2 : r2.pool_locals = r.pool_locals := by
          rcases f7 hret with hl | hl
          · rw [hl, ← hr1]
          · rw [hl, ← hr1]
            exact update_none_self _ _ hloc
        rw [hid, f2, f3, f4, hloc2]
        subst hr1
        cases r with
        | mk count funcs0 locals0 array0 order0 =>
          simp only [Registry.mk.injEq] at f5 ⊢
          simp only at harr hfun
          refine ⟨by omega, ?_, trivial, ?_, f5⟩
          · show Function.update (Function.update funcs0 count (some funcs)) count none = funcs0
            rw [Function.update_idem]
            exact update_none_self _ _ hfun
          · show Function.update (Function.update array0 count _) count none = array0
            rw [Function.update_idem]
            exact update_none_self _ _ harr
      · rw [if_neg hret] at h
        exfalso
        split at h
        · simp at h
        · simp only [Option.some.injEq, Prod.mk.injEq] at h
          exact herr h.1.symm

/-! ## Registration keeps the invariant -/

theorem order_inv_congr (r r' : Registry) (hc : r'.pool_count = r.pool_count)
    (ho : r'.pool_order = r.pool_order)
    (ha : ∀ i, i < r.pool_count → r'.pool_array i = r.pool_array i) (hO : OrderInv r) :
    OrderInv r' := by
  have halive : ∀ k, k < r.pool_count → alive r' (r.pool_order k) = alive r (r.pool_order k) := by
    intro k hk
    unfold alive
    rw [ha _ (hO.lt k hk)]
  have hprio : ∀ k, k < r.pool_count →
      priority_of r' (r.pool_order k) = priority_of r (r.pool_order k) := by
    intro k hk
    unfold priority_of
    rw [ha _ (hO.lt k hk)]
  constructor
  · intro k hk
    rw [hc] at hk ⊢
    rw [ho]
    exact hO.lt k hk
  · intro j k hj hk hjk
    rw [hc] at hj hk
    rw [ho] at hjk
    exact hO.inj j k hj hk hjk
  · intro id hid
    rw [hc] at hid ⊢
    rw [ho]
    exact hO.surj id hid
  · intro j k hjk hk haj hak
    rw [hc] at hk
    rw [ho] at haj hak ⊢
    rw [halive j (by omega)] at haj
    rw [halive k hk] at hak
    have := hO.sorted j k hjk hk haj hak
    unfold before at this ⊢
    rw [hprio j (by omega), hprio k hk]
    exact this

/-- The invariant does not read `pool_funcs` and `pool_locals` of vacated slots. -/
theorem registry_inv_congr (r r' : Registry) (hc : r'.pool_count = r.pool_count)
    (ho : r'.pool_order = r.pool_order) (ha : r'.pool_array = r.pool_array)
    (hf : ∀ i, alive r i = true → (r'.pool_funcs i).isSome = true)
    (hl : ∀ i, r.pool_array i = none → r'.pool_locals i = none)
    (hinv : RegistryInv r) : RegistryInv r' := by
  obtain ⟨hA, hO, hT⟩ := hinv
  refine ⟨?_, order_inv_congr r r' hc ho (fun i _ => by rw [ha]) hO, ?_⟩
  · constructor
    · rw [hc]; exact hA.count_le
    · intro i pool h; rw [ha] at h; exact hA.id_eq i pool h
    · intro i h; rw [hc] at h; rw [ha]; exact hA.above i h
    · intro h; rw [hc] at h ⊢; unfold alive; rw [ha]; exact hA.top h
  · constructor
    · intro i h; unfold alive at h; rw [ha] at h; exact hf i h
    · intro i h; rw [ha] at h; exact hl i h

theorem dense_congr (r r' : Registry) (hc : r'.pool_count = r.pool_count)
    (ha : r'.pool_array = r.pool_array) (hd : Dense r) : Dense r' := by
  intro i hi
  rw [hc] at hi
  unfold alive
  rw [ha]
  exact hd i hi

/-- A registration that reached `insert_pool_local` keeps the invariant. -/
theorem register_success_inv (r r3 r4 : Registry) (pool passed : CoreSurfacePool)
    (hlt : r.pool_count < MAX_SURFACE_POOLS)
    (h3count : r3.pool_count = r.pool_count + 1)
    (h3arr : r3.pool_array = Function.update r.pool_array r.pool_count (some pool))
    (hid : pool.pool_id = r.pool_count) (h3ord : r3.pool_order = r.pool_order)
    (h3funcs : (r3.pool_funcs r.pool_count).isSome = true ∧
      ∀ i, i ≠ r.pool_count → r3.pool_funcs i = r.pool_funcs i)
    (h3loc : ∀ i, i ≠ r.pool_count → r3.pool_locals i = r.pool_locals i)
    (hprio : passed.desc.priority = pool.desc.priority)
    (hins : insert_pool_local r3 passed = some r4) (hinv : RegistryInv r) :
    RegistryInv r4 ∧ (Dense r → Dense r4) := by
  obtain ⟨hA, hO, hT⟩ := hinv
  obtain ⟨p, _, _, hr4⟩ := insert_pool_local_eq r3 r4 passed r.pool_count h3count hins
  have h4arr : r4.pool_array = Function.update r.pool_array r.pool_count (some pool) := by
    rw [hr4]; exact h3arr
  have h4count : r4.pool_count = r.pool_count + 1 := by rw [hr4]; exact h3count
  have h4funcs : r4.pool_funcs = r3.pool_funcs := by rw [hr4]
  have h4loc : r4.pool_locals = r3.pool_locals := by rw [hr4]
  have hO3 : OrderInv { r3 with pool_count := r.pool_count } :=
    order_inv_congr r _ rfl h3ord (fun i hi => by
      show r3.pool_array i = _
      rw [h3arr, Function.update_noteq (by omega)]) hO
  have hp3 : priority_of r3 r.pool_count = passed.desc.priority := by
    unfold priority_of
    rw [h3arr, Function.update_same, hprio]
  have hO4 := insert_pool_local_order r3 r4 passed r.pool_count h3count hp3 hO3 hins
  refine ⟨⟨?_, hO4, ?_⟩, ?_⟩
  · constructor
    · rw [h4count]; omega
    · intro i q h
      rw [h4arr] at h
      by_cases hi : i = r.pool_count
      · subst hi
        rw [Function.update_same] at h
        simp only [Option.some.injEq] at h
        rw [← h]; exact hid
      · rw [Function.update_noteq hi] at h
        exact hA.id_eq i q h
    · intro i h
      rw [h4count] at h
      rw [h4arr, Function.update_noteq (by omega)]
      exact hA.above i (by omega)
    · intro _
      rw [h4count]
      unfold alive
      rw [h4arr]
      simp
  · constructor
    · intro i h
      unfold alive at h
      rw [h4arr] at h
      rw [h4funcs]
      by_cases hi : i = r.pool_count
      · rw [hi]; exact h3funcs.1
      · rw [Function.update_noteq hi] at h
        rw [h3funcs.2 i hi]
        exact hT.funcs i h
    · intro i h
      rw [h4arr] at h
      by_cases hi : i = r.pool_count
      · rw [hi, Function.update_same] at h
        simp at h
      · rw [Function.update_noteq hi] at h
        rw [h4loc, h3loc i hi]
        exact hT.locals i h
  · intro hd i hi
    rw [h4count] at hi
    unfold alive
    rw [h4arr]
    by_cases hic : i = r.pool_count
    · rw [hic, Function.update_same]; rfl
    · rw [Function.update_noteq hic]
      exact hd i (by omega)

theorem register_success_total (r r3 : Registry) (pool passed : CoreSurfacePool)
    (h3count : r3.pool_count = r.pool_count + 1)
    (h3arr : r3.pool_array = Function.update r.pool_array r.pool_count (some pool))
    (h3ord : r3.pool_order = r.pool_order)
    (hinv : RegistryInv r) (hd : Dense r) :
    ∃ r4, insert_pool_local r3 passed = some r4 := by
  refine insert_pool_local_total r3 passed r.pool_count h3count ?_
  intro k hk
  have hlt := hinv.2.1.lt k hk
  rw [h3ord]
  unfold alive
  rw [h3arr, Function.update_noteq (by omega)]
  exact hd _ hlt

theorem initialize2_inv (mem : MemEnv) (r : Registry) (funcs : SurfacePoolFuncs)
    (out : DFBResult × Option CoreSurfacePool × Registry) (hinv : RegistryInv r)
    (h : dfb_surface_pool_initialize2 mem r funcs = some out) :
    RegistryInv out.2.2 ∧ (Dense r → Dense out.2.2) := by
  unfold dfb_surface_pool_initialize2 at h
  by_cases hmax : r.pool_count = MAX_SURFACE_POOLS
  · rw [if_pos hmax] at h
    simp only [Option.some.injEq] at h
    subst h
    exact ⟨hinv, fun hd => hd⟩
  · rw [if_neg hmax] at h
    by_cases hsh : mem.shcalloc_pool = false
    · rw [if_pos hsh] at h
      simp only [Option.some.injEq] at h
      subst h
      exact ⟨hinv, fun hd => hd⟩
    · rw [if_neg hsh] at h
      dsimp only at h
      have hA := hinv.1
      have hT := hinv.2.2
      have hslot : r.pool_array r.pool_count = none := hA.above _ (le_refl _)
      generalize hr1 : ({ r with
          pool_count := r.pool_count + 1,
          pool_funcs := Function.update r.pool_funcs (fresh_pool r.pool_count).pool_id (some funcs),
          pool_array := Function.update r.pool_array (fresh_pool r.pool_count).pool_id
            (some (fresh_pool r.pool_count)) } : Registry) = r1 at h
      have h1count : r1.pool_count = r.pool_count + 1 := by rw [← hr1]
      have h1funcs : r1.pool_funcs = Function.update r.pool_funcs r.pool_count (some funcs) := by
        rw [← hr1]; rfl
      have h1arr : r1.pool_array =
          Function.update r.pool_array r.pool_count (some (fresh_pool r.pool_count)) := by
        rw [← hr1]; rfl
      have h1ord : r1.pool_order = r.pool_order := by rw [← hr1]
      have h1loc : r1.pool_locals = r.pool_locals := by rw [← hr1]
      clear hr1
      rcases hip : init_pool mem r1 (fresh_pool r.pool_count) funcs with ⟨ret1, pool1, r2⟩
      rw [hip] at h
      dsimp only at h
      obtain ⟨f1, f2, f3, f4, f5, f6, f7, f8, f9⟩ := init_pool_facts _ _ _ _ _ _ _ hip
      have hid : pool1.pool_id = r.pool_count := f1
      by_cases hret : ret1 ≠ DFB_OK
      · rw [if_pos hret] at h
        simp only [Option.some.injEq] at h
        subst h
        dsimp only
        have harr : Function.update r2.pool_array pool1.pool_id none = r.pool_array := by
          rw [hid, f4, h1arr, Function.update_idem]
          exact update_none_self _ _ hslot
        have hcnt : r2.pool_count - 1 = r.pool_count := by rw [f2, h1count]; omega
        refine ⟨registry_inv_congr r _ hcnt (by rw [f5, h1ord]) harr ?_ ?_ hinv,
          fun hd => dense_congr r _ hcnt harr hd⟩
        · intro i hi
          have hic : i ≠ r.pool_count := by
            intro heq
            rw [heq] at hi
            unfold alive at hi
            rw [hslot] at hi
            simp at hi
          show (Function.update r2.pool_funcs pool1.pool_id none i).isSome = true
          rw [hid, Function.update_noteq hic, f3, h1funcs, Function.update_noteq hic]
          exact hT.funcs i hi
        · intro i hi
          show r2.pool_locals i = none
          by_cases hic : i = r.pool_count
          · rcases f7 hret with hl | hl
            · rw [hl, h1loc]; exact hT.locals i hi
            · rw [hl, hic]
              show Function.update r1.pool_locals r.pool_count none r.pool_count = none
              rw [Function.update_same]
          · rw [f6 i hic, h1loc]
            exact hT.locals i hi
      · rw [if_neg hret] at h
        generalize hp2 : (if pool1.backup.isNone ∧ r2.pool_count > 1 then
            { pool1 with backup := (r2.pool_array 0).map (fun first => first.pool_id) }
          else pool1) = pool2 at h
        have hid2 : pool2.pool_id = r.pool_count := by
          rw [← hp2, ← hid]
          split <;> rfl
        have hcl : r.pool_count < MAX_SURFACE_POOLS := by
          have := hA.count_le
          omega
        cases hins : insert_pool_local
            { r2 with pool_array := Function.update r2.pool_array pool2.pool_id (some pool2) } pool2 with
        | none => rw [hins] at h; simp at h
        | some r4 =>
          rw [hins] at h
          simp only [Option.some.injEq] at h
          subst h
          dsimp only
          refine register_success_inv r _ r4 pool2 pool2 hcl (by rw [← h1count, ← f2]) ?_ hid2
            (by rw [← h1ord, ← f5]) ⟨?_, ?_⟩ ?_ rfl hins hinv
          · show Function.update r2.pool_array pool2.pool_id (some pool2) = _
            rw [hid2, f4, h1arr, Function.update_idem]
          · show (r2.pool_funcs r.pool_count).isSome = true
            rw [f3, h1funcs, Function.update_same]; rfl
          · intro i hi
            show r2.pool_funcs i = _
            rw [f3, h1funcs, Function.update_noteq hi]
          · intro i hi
            show r2.pool_locals i = _
            rw [f6 i hi, h1loc]

theorem initialize2_total (mem : MemEnv) (r : Registry) (funcs : SurfacePoolFuncs)
    (hinv : RegistryInv r) (hd : Dense r) :
    ∃ out, dfb_surface_pool_initialize2 mem r funcs = some out := by
  unfold dfb_surface_pool_initialize2
  by_cases hmax : r.pool_count = MAX_SURFACE_POOLS
  · rw [if_pos hmax]; exact ⟨_, rfl⟩
  · rw [if_neg hmax]
    by_cases hsh : mem.shcalloc_pool = false
    · rw [if_pos hsh]; exact ⟨_, rfl⟩
    · rw [if_neg hsh]
      dsimp only
      generalize hr1 : ({ r with
          pool_count := r.pool_count + 1,
          pool_funcs := Function.update r.pool_funcs (fresh_pool r.pool_count).pool_id (some funcs),
          pool_array := Function.update r.pool_array (fresh_pool r.pool_count).pool_id
            (some (fresh_pool r.pool_count)) } : Registry) = r1
      have h1count : r1.pool_count = r.pool_count + 1 := by rw [← hr1]
      have h1arr : r1.pool_array =
          Function.update r.pool_array r.pool_count (some (fresh_pool r.pool_count)) := by
        rw [← hr1]; rfl
      have h1ord : r1.pool_order = r.pool_order := by rw [← hr1]
      clear hr1
      rcases hip : init_pool mem r1 (fresh_pool r.pool_count) funcs with ⟨ret1, pool1, r2⟩
      dsimp only
      obtain ⟨f1, f2, f3, f4, f5, f6, f7, f8, f9⟩ := init_pool_facts _ _ _ _ _ _ _ hip
      have hid : pool1.pool_id = r.pool_count := f1
      by_cases hret : ret1 ≠ DFB_OK
      · rw [if_pos hret]; exact ⟨_, rfl⟩
      · rw [if_neg hret]
        generalize hp2 : (if pool1.backup.isNone ∧ r2.pool_count > 1 then
            { pool1 with backup := (r2.pool_array 0).map (fun first => first.pool_id) }
          else pool1) = pool2
        have hid2 : pool2.pool_id = r.pool_count := by
          rw [← hp2, ← hid]
          split <;> rfl
        obtain ⟨r4, hr4⟩ := register_success_total r
          { r2 with pool_array := Function.update r2.pool_array pool2.pool_id (some pool2) } pool2 pool2
          (by rw [← h1count, ← f2]) (by
            show Function.update r2.pool_array pool2.pool_id (some pool2) = _
            rw [hid2, f4, h1arr, Function.update_idem]) (by rw [← h1ord, ← f5]) hinv hd
        rw [hr4]
        exact ⟨_, rfl⟩

/-- The registry that `dfb_surface_pool_join2` has built when it calls `JoinPool`, and
what the two outcomes of `JoinPool` make of it. -/
theorem join2_shape (mem : MemEnv) (r : Registry) (pool : CoreSurfacePool) (funcs : SurfacePoolFuncs)
    (hid : pool.pool_id = r.pool_count)
    (hmax : pool.pool_id < MAX_SURFACE_POOLS)
    (hloc : ¬ (pool.pool_local_data_size ≠ 0 ∧ mem.dcalloc_local = false)) :
    ∃ rc : Registry, rc.pool_count = r.pool_count + 1 ∧
      rc.pool_funcs = Function.update r.pool_funcs r.pool_count (some funcs) ∧
      rc.pool_array = Function.update r.pool_array r.pool_count (some pool) ∧
      rc.pool_order = r.pool_order ∧
      (∀ i, i ≠ r.pool_count → rc.pool_locals i = r.pool_locals i) ∧
      (∀ ret, funcs.JoinPool = some ret → ret ≠ DFB_OK →
          dfb_surface_pool_join2 mem r pool funcs = some (ret, { rc with
            pool_locals := Function.update rc.pool_locals r.pool_count none,
            pool_array := Function.update rc.pool_array r.pool_count none,
            pool_count := rc.pool_count - 1 })) ∧
      ((funcs.JoinPool = none ∨ funcs.JoinPool = some DFB_OK) →
          dfb_surface_pool_join2 mem r pool funcs =
            (insert_pool_local rc pool).map (fun r4 => (DFB_OK, r4))) := by
  unfold dfb_surface_pool_join2
  rw [if_neg (by simpa using hid), if_neg (by omega), if_neg hloc]
  dsimp only
  generalize hra : (if pool.pool_local_data_size ≠ 0 then
      set_local r pool.pool_id (some pool.pool_local_data_size) else r) = ra
  have ha1 : ra.pool_count = r.pool_count := by rw [← hra]; split <;> rfl
  have ha2 : ra.pool_funcs = r.pool_funcs := by rw [← hra]; split <;> rfl
  have ha3 : ra.pool_array = r.pool_array := by rw [← hra]; split <;> rfl
  have ha4 : ra.pool_order = r.pool_order := by rw [← hra]; split <;> rfl
  have ha5 : ∀ i, i ≠ r.pool_count → ra.pool_locals i = r.pool_locals i := by
    intro i hi
    rw [← hra]
    split
    · simp only [set_local]
      rw [hid, Function.update_noteq hi]
    · rfl
  clear hra
  have hcond : ra.pool_count < pool.pool_id + 1 := by omega
  rw [if_pos hcond]
  dsimp only
  rw [Function.update_same]
  dsimp only
  refine ⟨{ ra with
      pool_count := pool.pool_id + 1,
      pool_funcs := Function.update ra.pool_funcs pool.pool_id (some funcs),
      pool_array := Function.update ra.pool_array pool.pool_id (some pool) }, by rw [hid], ?_, ?_, ha4, ha5,
      ?_, ?_⟩
  · show Function.update ra.pool_funcs pool.pool_id (some funcs) = _
    rw [hid, ha2]
  · show Function.update ra.pool_array pool.pool_id (some pool) = _
    rw [hid, ha3]
  · intro ret hj hret
    rw [hj]
    dsimp only
    rw [if_pos hret, free_local_eq]
    simp only [Function.update_idem, hid]
  · intro hj
    rcases hj with hj | hj
    · rw [hj]
    · rw [hj]
      dsimp only
      rw [if_neg (by simp)]

theorem join2_inv (mem : MemEnv) (r : Registry) (pool : CoreSurfacePool) (funcs : SurfacePoolFuncs)
    (out : DFBResult × Registry) (hinv : RegistryInv r)
    (h : dfb_surface_pool_join2 mem r pool funcs = some out) :
    RegistryInv out.2 ∧ (Dense r → Dense out.2) := by
  have hA := hinv.1
  have hT := hinv.2.2
  by_cases hid : pool.pool_id ≠ r.pool_count
  · unfold dfb_surface_pool_join2 at h
    rw [if_pos hid] at h
    simp only [Option.some.injEq] at h
    subst h
    exact ⟨hinv, fun hd => hd⟩
  · have hid2 : pool.pool_id = r.pool_count := by omega
    have hslot : r.pool_array r.pool_count = none := hA.above _ (le_refl _)
    by_cases hmax : pool.pool_id ≥ MAX_SURFACE_POOLS
    · unfold dfb_surface_pool_join2 at h
      rw [if_neg hid, if_pos hmax] at h
      simp at h
    · by_cases hloc : pool.pool_local_data_size ≠ 0 ∧ mem.dcalloc_local = false
      · unfold dfb_surface_pool_join2 at h
        rw [if_neg hid, if_neg hmax, if_pos hloc] at h
        simp only [Option.some.injEq] at h
        subst h
        refine ⟨registry_inv_congr r _ rfl rfl rfl (fun i hi => hT.funcs i hi) ?_ hinv,
          fun hd => dense_congr r _ rfl rfl hd⟩
        intro i hi
        show Function.update r.pool_locals pool.pool_id none i = none
        by_cases hic : i = pool.pool_id
        · rw [hic, Function.update_same]
        · rw [Function.update_noteq hic]
          exact hT.locals i hi
      · obtain ⟨rc, c1, c2, c3, c4, c5, c6, c7⟩ :=
          join2_shape mem r pool funcs hid2 (by omega) hloc
        have hsuccess : dfb_surface_pool_join2 mem r pool funcs =
            (insert_pool_local rc pool).map (fun r4 => (DFB_OK, r4)) →
            RegistryInv out.2 ∧ (Dense r → Dense out.2) := by
          intro heq
          rw [heq] at h
          cases hins : insert_pool_local rc pool with
          | none => rw [hins] at h; simp at h
          | some r4 =>
            rw [hins] at h
            simp only [Option.map_some', Option.some.injEq] at h
            subst h
            exact register_success_inv r rc r4 pool pool
              (by have := hA.count_le; omega) c1 c3 hid2 c4
              ⟨by rw [c2, Function.update_same]; rfl,
               fun i hi => by rw [c2, Function.update_noteq hi]⟩ c5 rfl hins hinv
        cases hj : funcs.JoinPool with
        | none => exact hsuccess (c7 (Or.inl hj))
        | some ret =>
          by_cases hret : ret = DFB_OK
          · exact hsuccess (c7 (Or.inr (by rw [hj, hret])))
          · rw [c6 ret hj hret] at h
            simp only [Option.some.injEq] at h
            subst h
            have harr : Function.update rc.pool_array r.pool_count none = r.pool_array := by
              rw [c3, Function.update_idem]
              exact update_none_self _ _ hslot
            have hcnt : rc.pool_count - 1 = r.pool_count := by omega
            refine ⟨registry_inv_congr r _ hcnt c4 harr ?_ ?_ hinv,
              fun hd => dense_congr r _ hcnt harr hd⟩
            · intro i hi
              have hic : i ≠ r.pool_count := by
                intro heq
                rw [heq] at hi
                unfold alive at hi
                rw [hslot] at hi
                simp at hi
              show (rc.pool_funcs i).isSome = true
              rw [c2, Function.update_noteq hic]
              exact hT.funcs i hi
            · intro i hi
              show Function.update rc.pool_locals r.pool_count none i = none
              by_cases hic : i = r.pool_count
              · rw [hic, Function.update_same]
              · rw [Function.update_noteq hic, c5 i hic]
                exact hT.locals i hi

theorem join2_total (mem : MemEnv) (r : Registry) (pool : CoreSurfacePool) (funcs : SurfacePoolFuncs)
    (hinv : RegistryInv r) (hd : Dense r) (hmax : pool.pool_id < MAX_SURFACE_POOLS) :
    ∃ out, dfb_surface_pool_join2 mem r pool funcs = some out := by
  by_cases hid : pool.pool_id ≠ r.pool_count
  · unfold dfb_surface_pool_join2
    rw [if_pos hid]
    exact ⟨_, rfl⟩
  · have hid2 : pool.pool_id = r.pool_count := by omega
    by_cases hloc : pool.pool_local_data_size ≠ 0 ∧ mem.dcalloc_local = false
    · unfold dfb_surface_pool_join2
      rw [if_neg hid, if_neg (by omega), if_pos hloc]
      exact ⟨_, rfl⟩
    · obtain ⟨rc, c1, c2, c3, c4, c5, c6, c7⟩ := join2_shape mem r pool funcs hid2 hmax hloc
      obtain ⟨r4, hr4⟩ := register_success_total r rc pool pool c1 c3 c4 hinv hd
      have hsuccess : dfb_surface_pool_join2 mem r pool funcs =
          (insert_pool_local rc pool).map (fun r4 => (DFB_OK, r4)) →
          ∃ out, dfb_surface_pool_join2 mem r pool funcs = some out := by
        intro heq
        rw [heq, hr4]
        exact ⟨_, rfl⟩
      cases hj : funcs.JoinPool with
      | none => exact hsuccess (c7 (Or.inl hj))
      | some ret =>
        by_cases hret : ret = DFB_OK
        · exact hsuccess (c7 (Or.inr (by rw [hj, hret])))
        · rw [c6 ret hj hret]
          exact ⟨_, rfl⟩

/-! ## Removal keeps the invariant -/

theorem remove_pool_local_eq (r : Registry) (pool_id : Nat) :
    remove_pool_local r pool_id = remove_trim r.pool_count { r with
      pool_locals := Function.update r.pool_locals pool_id none,
      pool_array := Function.update r.pool_array pool_id none,
      pool_funcs := Function.update r.pool_funcs pool_id none } := by
  unfold remove_pool_local
  dsimp only
  rw [free_local_eq]

theorem erase_order_inv (r : Registry) (pool_id : Nat) (hO : OrderInv r) :
    OrderInv { r with
      pool_locals := Function.update r.pool_locals pool_id none,
      pool_array := Function.update r.pool_array pool_id none,
      pool_funcs := Function.update r.pool_funcs pool_id none } := by
  constructor
  · exact hO.lt
  · exact hO.inj
  · exact hO.surj
  · intro j k hjk hk haj hak
    have hk2 : k < r.pool_count := hk
    have key : ∀ x, alive { r with
        pool_locals := Function.update r.pool_locals pool_id none,
        pool_array := Function.update r.pool_array pool_id none,
        pool_funcs := Function.update r.pool_funcs pool_id none } x = true →
        alive r x = true ∧ priority_of { r with
          pool_locals := Function.update r.pool_locals pool_id none,
          pool_array := Function.update r.pool_array pool_id none,
          pool_funcs := Function.update r.pool_funcs pool_id none } x = priority_of r x := by
      intro x hx
      unfold alive at hx
      simp only at hx
      by_cases hxi : x = pool_id
      · rw [hxi, Function.update_same] at hx
        simp at hx
      · rw [Function.update_noteq hxi] at hx
        refine ⟨hx, ?_⟩
        unfold priority_of
        simp only
        rw [Function.update_noteq hxi]
    obtain ⟨a1, p1⟩ := key _ haj
    obtain ⟨a2, p2⟩ := key _ hak
    have := hO.sorted j k hjk hk2 a1 a2
    unfold before at this ⊢
    rw [p1, p2]
    exact this

theorem remove_pool_local_inv (r : Registry) (pool_id : Nat) (hinv : RegistryInv r) :
    RegistryInv (remove_pool_local r pool_id) := by
  obtain ⟨hA, hO, hT⟩ := hinv
  rw [remove_pool_local_eq]
  generalize hr1 : ({ r with
      pool_locals := Function.update r.pool_locals pool_id none,
      pool_array := Function.update r.pool_array pool_id none,
      pool_funcs := Function.update r.pool_funcs pool_id none } : Registry) = r1
  have hO1 : OrderInv r1 := by rw [← hr1]; exact erase_order_inv r pool_id hO
  have h1count : r1.pool_count = r.pool_count := by rw [← hr1]
  have h1arr : r1.pool_array = Function.update r.pool_array pool_id none := by rw [← hr1]
  have h1funcs : r1.pool_funcs = Function.update r.pool_funcs pool_id none := by rw [← hr1]
  have h1loc : r1.pool_locals = Function.update r.pool_locals pool_id none := by rw [← hr1]
  clear hr1
  have habove1 : ∀ i, r1.pool_count ≤ i → r1.pool_array i = none := by
    intro i hi
    rw [h1arr]
    by_cases hic : i = pool_id
    · rw [hic, Function.update_same]
    · rw [Function.update_noteq hic]
      exact hA.above i (by omega)
  obtain ⟨t1, t2, t3, t4, t5, t6, t7⟩ := remove_trim_inv r1.pool_count r1 hO1 habove1
  rw [← h1count]
  generalize remove_trim r1.pool_count r1 = r' at t1 t2 t3 t4 t5 t6 t7
  refine ⟨?_, t5, ?_⟩
  · constructor
    · have := hA.count_le; omega
    · intro i pool h
      rw [t1, h1arr] at h
      by_cases hic : i = pool_id
      · rw [hic, Function.update_same] at h
        simp at h
      · rw [Function.update_noteq hic] at h
        exact hA.id_eq i pool h
    · intro i hi
      rw [t1]
      exact t6 i hi
    · intro hpos
      have := t7 (le_refl _) hpos
      unfold alive at this ⊢
      rw [t1]
      exact this
  · constructor
    · intro i hi
      unfold alive at hi
      rw [t1, h1arr] at hi
      rw [t2, h1funcs]
      by_cases hic : i = pool_id
      · rw [hic, Function.update_same] at hi
        simp at hi
      · rw [Function.update_noteq hic] at hi ⊢
        exact hT.funcs i hi
    · intro i hi
      rw [t1, h1arr] at hi
      rw [t3, h1loc]
      by_cases hic : i = pool_id
      · rw [hic, Function.update_same]
      · rw [Function.update_noteq hic] at hi ⊢
        exact hT.locals i hi

theorem remove_pool_local_dense (r : Registry) (pool_id : Nat) (hd : Dense r)
    (htop : pool_id + 1 = r.pool_count) :
    Dense (remove_pool_local r pool_id) ∧ (remove_pool_local r pool_id).pool_count = pool_id := by
  rw [remove_pool_local_eq]
  generalize hr1 : ({ r with
      pool_locals := Function.update r.pool_locals pool_id none,
      pool_array := Function.update r.pool_array pool_id none,
      pool_funcs := Function.update r.pool_funcs pool_id none } : Registry) = r1
  have h1count : r1.pool_count = r.pool_count := by rw [← hr1]
  have h1arr : r1.pool_array = Function.update r.pool_array pool_id none := by rw [← hr1]
  clear hr1
  rw [← htop]
  unfold remove_trim
  have hcond : r1.pool_count > 0 ∧ (r1.pool_array (r1.pool_count - 1)).isNone := by
    refine ⟨by omega, ?_⟩
    have : r1.pool_count - 1 = pool_id := by omega
    rw [this, h1arr, Function.update_same]
    rfl
  rw [if_pos hcond]
  have hrc : (remove_trim_round r1).pool_count = pool_id := by
    show r1.pool_count - 1 = pool_id
    omega
  have hra : (remove_trim_round r1).pool_array = r1.pool_array := rfl
  have hstop : ¬ ((remove_trim_round r1).pool_count > 0 ∧
      ((remove_trim_round r1).pool_array ((remove_trim_round r1).pool_count - 1)).isNone) := by
    rintro ⟨hpos, hnone⟩
    rw [hrc] at hpos hnone
    rw [hra, h1arr, Function.update_noteq (by omega)] at hnone
    have := hd (pool_id - 1) (by omega)
    unfold alive at this
    rw [Option.isNone_iff_eq_none] at hnone
    rw [hnone] at this
    simp at this
  rw [remove_trim_stop _ _ hstop]
  refine ⟨?_, hrc⟩
  intro i hi
  rw [hrc] at hi
  unfold alive
  rw [hra, h1arr, Function.update_noteq (by omega)]
  exact hd i (by omega)

/-! ## Sequences of registry operations -/

theorem registry_op_inv (op : RegistryOp) (r r' : Registry) (hinv : RegistryInv r)
    (h : op.apply r = some r') :
    RegistryInv r' ∧ (Dense r → op.in_order r → Dense r') := by
  cases op with
  | init mem funcs =>
    simp only [RegistryOp.apply] at h
    cases hout : dfb_surface_pool_initialize2 mem r funcs with
    | none => rw [hout] at h; simp at h
    | some out =>
      rw [hout] at h
      simp only [Option.map_some', Option.some.injEq] at h
      subst h
      have := initialize2_inv mem r funcs out hinv hout
      exact ⟨this.1, fun hd _ => this.2 hd⟩
  | join mem pool funcs =>
    simp only [RegistryOp.apply] at h
    cases hout : dfb_surface_pool_join2 mem r pool funcs with
    | none => rw [hout] at h; simp at h
    | some out =>
      rw [hout] at h
      simp only [Option.map_some', Option.some.injEq] at h
      subst h
      have := join2_inv mem r pool funcs out hinv hout
      exact ⟨this.1, fun hd _ => this.2 hd⟩
  | leave pool_id =>
    simp only [RegistryOp.apply] at h
    cases hslot : r.pool_array pool_id with
    | none => rw [hslot] at h; simp at h
    | some pool =>
      rw [hslot] at h
      dsimp only at h
      have hid := hinv.1.id_eq pool_id pool hslot
      unfold dfb_surface_pool_leave at h
      cases hf : r.pool_funcs pool.pool_id with
      | none => rw [hf] at h; simp at h
      | some f =>
        rw [hf] at h
        simp only [Option.map_some', Option.some.injEq] at h
        subst h
        rw [hid]
        exact ⟨remove_pool_local_inv r pool_id hinv,
          fun hd ho => (remove_pool_local_dense r pool_id hd ho).1⟩
  | destroy pool_id =>
    simp only [RegistryOp.apply] at h
    cases hslot : r.pool_array pool_id with
    | none => rw [hslot] at h; simp at h
    | some pool =>
      rw [hslot] at h
      dsimp only at h
      have hid := hinv.1.id_eq pool_id pool hslot
      unfold dfb_surface_pool_destroy at h
      cases hf : r.pool_funcs pool.pool_id with
      | none => rw [hf] at h; simp at h
      | some f =>
        rw [hf] at h
        simp only [Option.map_some', Option.some.injEq] at h
        subst h
        rw [hid]
        exact ⟨remove_pool_local_inv r pool_id hinv,
          fun hd ho => (remove_pool_local_dense r pool_id hd ho).1⟩

theorem registry_op_total (op : RegistryOp) (r : Registry) (hinv : RegistryInv r) (hd : Dense r)
    (ho : op.in_order r) : ∃ r', op.apply r = some r' := by
  cases op with
  | init mem funcs =>
    obtain ⟨out, hout⟩ := initialize2_total mem r funcs hinv hd
    exact ⟨out.2.2, by simp [RegistryOp.apply, hout]⟩
  | join mem pool funcs =>
    obtain ⟨out, hout⟩ := join2_total mem r pool funcs hinv hd ho
    exact ⟨out.2, by simp [RegistryOp.apply, hout]⟩
  | leave pool_id =>
    have ho2 : pool_id + 1 = r.pool_count := ho
    have ha := hd pool_id (by omega)
    have hf := hinv.2.2.funcs pool_id ha
    unfold alive at ha
    obtain ⟨pool, hpool⟩ := Option.isSome_iff_exists.mp ha
    have hid := hinv.1.id_eq pool_id pool hpool
    obtain ⟨f, hfs⟩ := Option.isSome_iff_exists.mp hf
    exact ⟨remove_pool_local r pool_id, by
      simp [RegistryOp.apply, hpool, dfb_surface_pool_leave, hid, hfs]⟩
  | destroy pool_id =>
    have ho2 : pool_id + 1 = r.pool_count := ho
    have ha := hd pool_id (by omega)
    have hf := hinv.2.2.funcs pool_id ha
    unfold alive at ha
    obtain ⟨pool, hpool⟩ := Option.isSome_iff_exists.mp ha
    have hid := hinv.1.id_eq pool_id pool hpool
    obtain ⟨f, hfs⟩ := Option.isSome_iff_exists.mp hf
    exact ⟨remove_pool_local r pool_id, by
      simp [RegistryOp.apply, hpool, dfb_surface_pool_destroy, hid, hfs]⟩

theorem registry_empty_inv : RegistryInv Registry.empty ∧ Dense Registry.empty := by
  refine ⟨⟨?_, ?_, ?_⟩, ?_⟩
  · constructor
    · show 0 ≤ MAX_SURFACE_POOLS
      exact Nat.zero_le _
    · intro i pool h; simp [Registry.empty] at h
    · intro i _; rfl
    · intro h; exact absurd h (Nat.lt_irrefl 0)
  · constructor
    · intro k hk; exact absurd hk (Nat.not_lt_zero k)
    · intro j k hj; exact absurd hj (Nat.not_lt_zero j)
    · intro id hid; exact absurd hid (Nat.not_lt_zero id)
    · intro j k _ hk; exact absurd hk (Nat.not_lt_zero k)
  · constructor
    · intro i h; simp [alive, Registry.empty] at h
    · intro i _; rfl
  · intro i hi; exact absurd hi (Nat.not_lt_zero i)

theorem run_ops_inv (ops : List RegistryOp) : ∀ (r r' : Registry), RegistryInv r →
    run_ops ops r = some r' →
    RegistryInv r' ∧ (Dense r → ops_in_order ops r → Dense r') := by
  induction ops with
  | nil =>
    intro r r' hinv h
    simp only [run_ops, Option.some.injEq] at h
    subst h
    exact ⟨hinv, fun hd _ => hd⟩
  | cons op rest ih =>
    intro r r' hinv h
    unfold run_ops at h
    cases hop : op.apply r with
    | none => rw [hop] at h; simp at h
    | some r1 =>
      rw [hop] at h
      dsimp only at h
      obtain ⟨hinv1, hd1⟩ := registry_op_inv op r r1 hinv hop
      obtain ⟨hinv2, hd2⟩ := ih r1 r' hinv1 h
      refine ⟨hinv2, fun hd hin => ?_⟩
      unfold ops_in_order at hin
      rw [hop] at hin
      exact hd2 (hd1 hd hin.1) hin.2

/-- Operations in order never fault: the registry functions return. -/
theorem run_ops_total (ops : List RegistryOp) : ∀ (r : Registry), RegistryInv r → Dense r →
    ops_in_order ops r → ∃ r', run_ops ops r = some r' := by
  induction ops with
  | nil => intro r _ _ _; exact ⟨r, rfl⟩
  | cons op rest ih =>
    intro r hinv hd hin
    unfold ops_in_order at hin
    obtain ⟨r1, hop⟩ := registry_op_total op r hinv hd hin.1
    rw [hop] at hin
    obtain ⟨hinv1, hd1⟩ := registry_op_inv op r r1 hinv hop
    obtain ⟨r', hr'⟩ := ih r1 hinv1 (hd1 hd hin.1) hin.2
    exact ⟨r', by unfold run_ops; rw [hop]; exact hr'⟩

theorem filter_lt_range_length (c : Nat) : ∀ n : Nat,
    ((List.range n).filter (fun i => decide (i < c))).length = min n c := by
  intro n
  induction n with
  | zero => simp
  | succ n ih =>
    rw [List.range_succ, List.filter_append, List.length_append, ih]
    by_cases h : n < c
    · simp [h]; omega
    · simp [h]; omega

theorem dense_count_non_null (r : Registry) (hA : ArrayInv r) (hd : Dense r) :
    r.pool_count = count_non_null r := by
  unfold count_non_null
  have hfilter : (List.range MAX_SURFACE_POOLS).filter (fun i => (r.pool_array i).isSome) =
      (List.range MAX_SURFACE_POOLS).filter (fun i => decide (i < r.pool_count)) := by
    apply List.filter_congr
    intro i _
    by_cases hi : i < r.pool_count
    · have := hd i hi
      unfold alive at this
      simp [this, hi]
    · have := hA.above i (by omega)
      simp [this, hi]
  rw [hfilter, filter_lt_range_length]
  have := hA.count_le
  omega

/-! ## The priority order and the slot table (C3, C4, C8, C9) -/

theorem order_view_facts (r : Registry) (hinv : RegistryInv r) :
    (order_view r).Nodup ∧ (∀ id, id ∈ order_view r ↔ id < r.pool_count) ∧
    ((order_view r).filter (alive r)).Pairwise (before r) := by
  obtain ⟨_, hO, _⟩ := hinv
  refine ⟨?_, ?_, ?_⟩
  · unfold order_view
    refine List.Nodup.map_on ?_ (List.nodup_range _)
    intro x hx y hy hxy
    exact hO.inj x y (List.mem_range.mp hx) (List.mem_range.mp hy) hxy
  · intro id
    unfold order_view
    rw [List.mem_map]
    constructor
    · rintro ⟨k, hk, rfl⟩
      exact hO.lt k (List.mem_range.mp hk)
    · intro hid
      obtain ⟨k, hk, hkid⟩ := hO.surj id hid
      exact ⟨k, List.mem_range.mpr hk, hkid⟩
  · unfold order_view
    rw [List.filter_map, List.pairwise_map]
    have h1 : ((List.range r.pool_count).filter (alive r ∘ r.pool_order)).Pairwise (· < ·) :=
      (List.pairwise_lt_range _).filter _
    refine h1.imp_of_mem ?_
    intro a b ha hb hab
    rw [List.mem_filter] at ha hb
    exact hO.sorted a b hab (List.mem_range.mp hb.1) ha.2 hb.2

theorem order_view_dense (r : Registry) (hinv : RegistryInv r) (hd : Dense r) :
    (∀ id, id ∈ order_view r ↔ alive r id = true) ∧ (order_view r).Pairwise (before r) := by
  obtain ⟨hA, hO, _⟩ := hinv
  refine ⟨?_, ?_⟩
  · intro id
    rw [(order_view_facts r ⟨hA, hO, ‹_›⟩).2.1 id]
    constructor
    · exact hd id
    · intro ha
      by_contra hlt
      have := hA.above id (by omega)
      unfold alive at ha
      rw [this] at ha
      simp at ha
  · unfold order_view
    rw [List.pairwise_map]
    refine (List.pairwise_lt_range _).imp_of_mem ?_
    intro a b ha hb hab
    have ha2 := List.mem_range.mp ha
    have hb2 := List.mem_range.mp hb
    exact hO.sorted a b hab hb2 (hd _ (hO.lt a ha2)) (hd _ (hO.lt b hb2))

/-- What a run without a fault leaves in `pool_order`: after a sequence of registrations,
leaves and destroys that runs from the empty registry to its end, the first
`pool_count` entries of `pool_order` are the IDs below `pool_count`, each once,
and the registered pools among them stand sorted by descending priority, equal
priorities in increasing ID order. When every leave or destroy of the sequence
removed the pool of the highest slot (reverse order of registration), these
entries are exactly the registered pools, sorted in that way. -/
theorem pool_order_sorted_after_ops (ops : List RegistryOp) (r : Registry)
    (h : run_ops ops Registry.empty = some r) :
    (order_view r).Nodup ∧ (∀ id, id ∈ order_view r ↔ id < r.pool_count) ∧
    ((order_view r).filter (alive r)).Pairwise (before r) ∧
    (ops_in_order ops Registry.empty →
      (∀ id, id ∈ order_view r ↔ alive r id = true) ∧ (order_view r).Pairwise (before r)) := by
  obtain ⟨hinv, hd⟩ := run_ops_inv ops Registry.empty r registry_empty_inv.1 h
  obtain ⟨h1, h2, h3⟩ := order_view_facts r hinv
  exact ⟨h1, h2, h3, fun hin => order_view_dense r hinv (hd registry_empty_inv.2 hin)⟩

/-- Pool A (default priority) and then pool B (preferred priority) registered from the
empty registry give the priority view [B, A]. -/
theorem pool_order_sorted_after_ops_witness :
    order_view registry_AB = [1, 0] ∧
    ((order_view registry_AB).Nodup ∧ (∀ id, id ∈ order_view registry_AB ↔ id < registry_AB.pool_count) ∧
    ((order_view registry_AB).filter (alive registry_AB)).Pairwise (before registry_AB) ∧
    (ops_in_order [.init sample_mem (sample_funcs sample_desc_A (fun _ => (DFB_OK, 0))),
            .init sample_mem (sample_funcs sample_desc_B (fun _ => (DFB_OK, 0)))] Registry.empty →
      (∀ id, id ∈ order_view registry_AB ↔ alive registry_AB id = true) ∧
      (order_view registry_AB).Pairwise (before registry_AB))) :=
  ⟨by decide, pool_order_sorted_after_ops
    [.init sample_mem (sample_funcs sample_desc_A (fun _ => (DFB_OK, 0))),
     .init sample_mem (sample_funcs sample_desc_B (fun _ => (DFB_OK, 0)))] registry_AB rfl⟩

/-- C3, the code at the failing input: pools A, B, C registered and then pool B (ID 1)
left. `remove_pool_local` clears slot 1 but takes nothing out of `pool_order`, as
slot 2 above it is still in use: the first `pool_count` = 3 entries of
`pool_order` are [1, 0, 2] and still list ID 1, whose slot holds no pool. The
next registration reads `pool_array[pool_order[0]]->desc.priority` in
`insert_pool_local` through this null pointer and has no result. -/
theorem pool_order_lists_left_pool :
    (run_ops [.init sample_mem (sample_funcs sample_desc_A (fun _ => (DFB_OK, 0))),
              .init sample_mem (sample_funcs sample_desc_B (fun _ => (DFB_OK, 0))),
              .init sample_mem (sample_funcs sample_desc_A (fun _ => (DFB_OK, 0))),
              .leave 1] Registry.empty).map
      (fun r => (r.pool_count, order_view r, (order_view r).map (alive r)))
      = some (3, [1, 0, 2], [false, true, true]) ∧
    (run_ops [.init sample_mem (sample_funcs sample_desc_A (fun _ => (DFB_OK, 0))),
              .init sample_mem (sample_funcs sample_desc_B (fun _ => (DFB_OK, 0))),
              .init sample_mem (sample_funcs sample_desc_A (fun _ => (DFB_OK, 0))),
              .leave 1,
              .init sample_mem (sample_funcs sample_desc_A (fun _ => (DFB_OK, 0)))]
        Registry.empty).isNone = true := by
  decide

/-- What an operation without a fault keeps: every operation on the registry
(registration by initialize or join, leave, destroy, failure paths included) that
runs to its end in a registry satisfying `RegistryInv` leaves a registry
satisfying it; so afterwards each non-null slot
`pool_array[i]` holds the pool whose `pool_id` is `i`, no slot at or above
`pool_count` is used and slot `pool_count - 1` is used. When no slot below
`pool_count` was vacated before and the operation does not vacate one (it is a
registration, or removes the pool of the highest slot), the same holds afterwards
and `pool_count` equals the number of non-null slots of `pool_array`. -/
theorem registry_op_preserves (op : RegistryOp) (r r' : Registry) (hinv : RegistryInv r)
    (h : op.apply r = some r') :
    RegistryInv r' ∧
    (∀ i pool, r'.pool_array i = some pool → pool.pool_id = i) ∧
    (∀ i, r'.pool_count ≤ i → r'.pool_array i = none) ∧
    (0 < r'.pool_count → alive r' (r'.pool_count - 1) = true) ∧
    (Dense r → op.in_order r → Dense r' ∧ r'.pool_count = count_non_null r') := by
  obtain ⟨hinv', hd'⟩ := registry_op_inv op r r' hinv h
  exact ⟨hinv', hinv'.1.id_eq, hinv'.1.above, hinv'.1.top,
    fun hd ho => ⟨hd' hd ho, dense_count_non_null r' hinv'.1 (hd' hd ho)⟩⟩

/-- The registration of a third pool in the registry of pools A and B keeps the
invariant. -/
theorem registry_op_preserves_witness :
    RegistryInv registry_AB ∧
    (RegistryInv registry_ABC ∧
    (∀ i pool, registry_ABC.pool_array i = some pool → pool.pool_id = i) ∧
    (∀ i, registry_ABC.pool_count ≤ i → registry_ABC.pool_array i = none) ∧
    (0 < registry_ABC.pool_count → alive registry_ABC (registry_ABC.pool_count - 1) = true) ∧
    (Dense registry_AB →
      (RegistryOp.init sample_mem (sample_funcs sample_desc_A (fun _ => (DFB_OK, 0)))).in_order registry_AB →
      Dense registry_ABC ∧ registry_ABC.pool_count = count_non_null registry_ABC)) :=
  have hAB : RegistryInv registry_AB :=
    (run_ops_inv [.init sample_mem (sample_funcs sample_desc_A (fun _ => (DFB_OK, 0))),
      .init sample_mem (sample_funcs sample_desc_B (fun _ => (DFB_OK, 0)))]
      Registry.empty registry_AB registry_empty_inv.1 rfl).1
  ⟨hAB, registry_op_preserves
    (.init sample_mem (sample_funcs sample_desc_A (fun _ => (DFB_OK, 0)))) registry_AB registry_ABC
    hAB rfl⟩

/-- C4, the code at the failing input: the registry of pools A, B, C satisfies the
invariant of the claim with `pool_count` = 3 non-null slots; after the leave of
pool B (ID 1) `pool_count` is still 3 while `pool_array` has 2 non-null slots,
with slot 1 below `pool_count` empty, as `remove_pool_local` lowers `pool_count`
only while the highest slot is empty. A registration in this registry has no
result. -/
theorem leave_keeps_pool_count :
    registry_ABC.pool_count = 3 ∧ count_non_null registry_ABC = 3 ∧
    ((RegistryOp.leave 1).apply registry_ABC).map
        (fun r => (r.pool_count, count_non_null r, alive r 1)) = some (3, 2, false) ∧
    (((RegistryOp.leave 1).apply registry_ABC).bind
        (RegistryOp.init sample_mem (sample_funcs sample_desc_A (fun _ => (DFB_OK, 0)))).apply).isNone
      = true := by
  decide

/-- C8, witness: `InitPool` fails with `DFB_FAILURE` in the registry of pools A and B;
the call returns that code and the registry is as before. -/
theorem initialize2_failure_restores_witness :
    (dfb_surface_pool_initialize2 sample_mem registry_AB failing_funcs).map (fun out => out.1)
      = some DFB_FAILURE ∧
    (registry_after_failed_init = registry_AB ∧ (none : Option CoreSurfacePool) = none ∧
    (DFB_FAILURE = DFB_LIMITEXCEEDED ∨ DFB_FAILURE = D_OOSHM ∨ DFB_FAILURE = D_OOM ∨
      DFB_FAILURE = failing_funcs.InitPool.ret)) :=
  ⟨by decide, initialize2_failure_restores sample_mem registry_AB registry_after_failed_init
    failing_funcs DFB_FAILURE none rfl rfl rfl rfl (by decide)⟩

/-- C9, the code at the failing input: a slave joins pool 2 in the registry of pools
A and B and `JoinPool` fails with `DFB_FAILURE`. The call returns that code with
`pool_count`, `pool_array`, `pool_locals` and `pool_order` as before, but the slot
`pool_funcs[2]`, empty before the call, still holds the function table. -/
theorem join2_failure_keeps_funcs :
    (registry_AB.pool_count, (registry_AB.pool_funcs 2).isSome, (registry_AB.pool_array 2).isSome,
      registry_AB.pool_locals 2, order_view registry_AB) = (2, false, false, none, [1, 0]) ∧
    (dfb_surface_pool_join2 sample_mem registry_AB joining_pool failing_funcs).map
      (fun out => (out.1, out.2.pool_count, (out.2.pool_funcs 2).isSome, (out.2.pool_array 2).isSome,
        out.2.pool_locals 2, order_view out.2))
      = some (DFB_FAILURE, 2, true, false, none, [1, 0]) :=
  ⟨rfl, rfl⟩

/-! ## Allocation and displacement hand back an allocation exactly on success -/

/-- `dfb_surface_pool_allocate` hands back an allocation exactly when it returns `DFB_OK`. -/
theorem pool_allocate_result (env : WorldEnv) (r : Registry) (pool : CoreSurfacePool)
    (buffer : CoreSurfaceBuffer) (w w' : World) (ret : DFBResult) (allocation : Option Nat)
    (h : dfb_surface_pool_allocate env r pool buffer w = some ((ret, allocation), w')) :
    (ret = DFB_OK → allocation.isSome = true) ∧ (ret ≠ DFB_OK → allocation = none) := by
  unfold dfb_surface_pool_allocate at h
  cases hf : r.pool_funcs pool.pool_id with
  | none => rw [hf] at h; simp at h
  | some funcs =>
    rw [hf] at h
    dsimp only at h
    rcases hc : dfb_surface_allocation_create env pool buffer w with ⟨⟨cret, created⟩, w1⟩
    rw [hc] at h
    cases created with
    | none =>
      dsimp only at h
      by_cases h1 : cret ≠ DFB_OK
      · rw [if_pos h1] at h
        simp only [Option.some.injEq, Prod.mk.injEq] at h
        obtain ⟨⟨rfl, rfl⟩, _⟩ := h
        exact ⟨fun h => absurd h h1, fun _ => rfl⟩
      · rw [if_neg h1] at h
        simp at h
    | some handle =>
      dsimp only at h
      by_cases h1 : cret ≠ DFB_OK
      · rw [if_pos h1] at h
        simp only [Option.some.injEq, Prod.mk.injEq] at h
        obtain ⟨⟨rfl, rfl⟩, _⟩ := h
        exact ⟨fun h => absurd h h1, fun _ => rfl⟩
      · rw [if_neg h1] at h
        by_cases h2 : env.skirmish_fails w1.tick = true
        · rw [if_pos h2] at h
          simp only [Option.some.injEq, Prod.mk.injEq] at h
          obtain ⟨⟨rfl, rfl⟩, _⟩ := h
          exact ⟨fun h => by simp at h, fun _ => rfl⟩
        · rw [if_neg h2] at h
          cases ha : w1.step.step.allocations handle with
          | none => rw [ha] at h; simp at h
          | some a =>
            rw [ha] at h
            dsimp only at h
            by_cases h3 : (funcs.AllocateBuffer w1.step.tick).1 ≠ DFB_OK
            · rw [if_pos h3] at h
              simp only [Option.some.injEq, Prod.mk.injEq] at h
              obtain ⟨⟨rfl, rfl⟩, _⟩ := h
              exact ⟨fun h => absurd h h3, fun _ => rfl⟩
            · rw [if_neg h3] at h
              simp only [Option.some.injEq, Prod.mk.injEq] at h
              obtain ⟨⟨rfl, rfl⟩, _⟩ := h
              exact ⟨fun _ => rfl, fun h => absurd rfl h⟩

theorem displace_scan_backup_failed (env : WorldEnv) (r : Registry) (pool : CoreSurfacePool)
    (fuel : Nat) : ∀ (i : Nat) (ret_lock : DFBResult) (w w' : World) (ret : DFBResult),
    displace_scan env r pool fuel i ret_lock w = some (ScanEnd.backup_failed ret, w') →
    ret ≠ DFB_OK := by
  induction fuel with
  | zero =>
    intro i ret_lock w w' ret h
    unfold displace_scan at h
    split at h <;> simp at h
  | succ n ih =>
    intro i ret_lock w w' ret h
    unfold displace_scan at h
    cases hget : (w.pool_allocs pool.pool_id)[i]? with
    | none => rw [hget] at h; simp at h
    | some handle =>
      rw [hget] at h
      dsimp only at h
      cases ha : w.allocations handle with
      | none => rw [ha] at h; simp at h
      | some allocation =>
        rw [ha] at h
        dsimp only at h
        by_cases hm : allocation.flags &&& CSALF_MUCKOUT ≠ 0
        · rw [if_pos hm] at h
          by_cases hl : env.trylock w.tick allocation.surface ≠ DFB_OK
          · rw [if_pos hl] at h
            exact ih _ _ _ _ _ h
          · rw [if_neg hl] at h
            cases hb : backup_allocation env r handle w.step with
            | none => rw [hb] at h; simp at h
            | some out =>
              rcases out with ⟨bret, wb⟩
              rw [hb] at h
              dsimp only at h
              by_cases hbr : bret ≠ DFB_OK
              · rw [if_pos hbr] at h
                simp only [Option.some.injEq, Prod.mk.injEq, ScanEnd.backup_failed.injEq] at h
                rw [← h.1]
                exact hbr
              · rw [if_neg hbr] at h
                exact ih _ _ _ _ _ h
        · rw [if_neg hm] at h
          exact ih _ _ _ _ _ h

theorem displace_retry_result (env : WorldEnv) (r : Registry) (pool : CoreSurfacePool)
    (buffer : CoreSurfaceBuffer) (retries : Nat) :
    ∀ (ret_lock : DFBResult) (w w' : World) (ret : DFBResult) (allocation : Option Nat),
    displace_retry env r pool buffer retries ret_lock w = some ((ret, allocation), w') →
    (ret = DFB_OK → allocation.isSome = true) ∧ (ret ≠ DFB_OK → allocation = none) := by
  induction retries with
  | zero =>
    intro ret_lock w w' ret allocation h
    unfold displace_retry at h
    cases hs : displace_scan env r pool ((w.pool_allocs pool.pool_id).length + 1) 0 ret_lock w with
    | none => rw [hs] at h; simp at h
    | some out =>
      rcases out with ⟨ending, ws⟩
      rw [hs] at h
      cases ending with
      | backup_failed bret =>
        dsimp only at h
        have hne := displace_scan_backup_failed _ _ _ _ _ _ _ _ _ hs
        cases hc : clear_muckout ws (ws.pool_allocs pool.pool_id) with
        | none => rw [hc] at h; simp at h
        | some wc =>
          rw [hc] at h
          simp only [Option.map_some', Option.some.injEq, Prod.mk.injEq] at h
          obtain ⟨⟨rfl, rfl⟩, _⟩ := h
          exact ⟨fun h => absurd h hne, fun _ => rfl⟩
      | finished lock =>
        dsimp only at h
        by_cases hl : lock ≠ DFB_OK
        · rw [if_pos hl] at h
          cases hc : clear_muckout ws (ws.pool_allocs pool.pool_id) with
          | none => rw [hc] at h; simp at h
          | some wc =>
            rw [hc] at h
            simp only [Option.map_some', Option.some.injEq, Prod.mk.injEq] at h
            obtain ⟨⟨rfl, rfl⟩, _⟩ := h
            exact ⟨fun h => by simp at h, fun _ => rfl⟩
        · rw [if_neg hl] at h
          exact pool_allocate_result _ _ _ _ _ _ _ _ h
  | succ n ih =>
    intro ret_lock w w' ret allocation h
    unfold displace_retry at h
    cases hs : displace_scan env r pool ((w.pool_allocs pool.pool_id).length + 1) 0 ret_lock w with
    | none => rw [hs] at h; simp at h
    | some out =>
      rcases out with ⟨ending, ws⟩
      rw [hs] at h
      cases ending with
      | backup_failed bret =>
        dsimp only at h
        have hne := displace_scan_backup_failed _ _ _ _ _ _ _ _ _ hs
        cases hc : clear_muckout ws (ws.pool_allocs pool.pool_id) with
        | none => rw [hc] at h; simp at h
        | some wc =>
          rw [hc] at h
          simp only [Option.map_some', Option.some.injEq, Prod.mk.injEq] at h
          obtain ⟨⟨rfl, rfl⟩, _⟩ := h
          exact ⟨fun h => absurd h hne, fun _ => rfl⟩
      | finished lock =>
        dsimp only at h
        by_cases hl : lock ≠ DFB_OK
        · rw [if_pos hl] at h
          exact ih _ _ _ _ _ h
        · rw [if_neg hl] at h
          exact pool_allocate_result _ _ _ _ _ _ _ _ h

/-- `dfb_surface_pool_displace` hands back an allocation exactly when it returns `DFB_OK`. -/
theorem pool_displace_result (env : WorldEnv) (r : Registry) (pool : CoreSurfacePool)
    (buffer : CoreSurfaceBuffer) (w w' : World) (ret : DFBResult) (allocation : Option Nat)
    (h : dfb_surface_pool_displace env r pool buffer w = some ((ret, allocation), w')) :
    (ret = DFB_OK → allocation.isSome = true) ∧ (ret ≠ DFB_OK → allocation = none) := by
  unfold dfb_surface_pool_displace at h
  cases hf : r.pool_funcs pool.pool_id with
  | none => rw [hf] at h; simp at h
  | some funcs =>
    rw [hf] at h
    dsimp only at h
    by_cases hs : env.skirmish_fails w.tick = true
    · rw [if_pos hs] at h
      simp only [Option.some.injEq, Prod.mk.injEq] at h
      obtain ⟨⟨rfl, rfl⟩, _⟩ := h
      exact ⟨fun h => by simp at h, fun _ => rfl⟩
    · rw [if_neg hs] at h
      cases hm : funcs.MuckOut with
      | none =>
        rw [hm] at h
        exact displace_retry_result _ _ _ _ _ _ _ _ _ _ h
      | some muck =>
        rw [hm] at h
        dsimp only at h
        by_cases hr : (muck w.step.tick).1 ≠ DFB_OK
        · rw [if_pos hr] at h
          simp only [Option.some.injEq, Prod.mk.injEq] at h
          obtain ⟨⟨rfl, rfl⟩, _⟩ := h
          exact ⟨fun h => absurd h hr, fun _ => rfl⟩
        · rw [if_neg hr] at h
          exact displace_retry_result _ _ _ _ _ _ _ _ _ _ h

/-! ## The loops of the allocation against the specification -/

theorem pools_allocate_first_eq (env : WorldEnv) (r : Registry) (buffer : CoreSurfaceBuffer)
    (pools : List CoreSurfacePool) : ∀ (w : World),
    pools_allocate_first env r buffer pools w =
      (spec_attempts env r buffer pools w).map (fun out =>
        (out.1.map (fun entry =>
            if entry.2 ≠ DFB_OK ∧ entry.2 ≠ DFB_NOVIDEOMEMORY then none else some entry.1) ++
          (pools.drop out.1.length).map some,
         out.2.1, out.1.map (fun entry => PoolCall.allocate entry.1.pool_id), out.2.2)) := by
  induction pools with
  | nil => intro w; simp [pools_allocate_first, spec_attempts]
  | cons pool rest ih =>
    intro w
    unfold pools_allocate_first spec_attempts
    cases ha : dfb_surface_pool_allocate env r pool buffer w with
    | none => rfl
    | some out =>
      rcases out with ⟨⟨ret, allocation⟩, w1⟩
      dsimp only
      by_cases hret : ret = DFB_OK
      · rw [if_pos hret, if_pos hret]
        simp [hret]
      · rw [if_neg hret, if_neg hret, ih w1]
        have hnone := (pool_allocate_result _ _ _ _ _ _ _ _ ha).2 hret
        subst hnone
        cases hs : spec_attempts env r buffer rest w1 with
        | none => rfl
        | some res =>
          rcases res with ⟨log, found, w2⟩
          simp only [Option.map_some', List.map_cons, List.length_cons, List.drop_succ_cons,
            List.cons_append, Option.some.injEq, Prod.mk.injEq, List.cons.injEq, and_true, true_and]
          refine ⟨?_, ?_⟩
          · simp [hret]
          · cases found <;> rfl

theorem spec_attempts_none (env : WorldEnv) (r : Registry) (buffer : CoreSurfaceBuffer)
    (pools : List CoreSurfacePool) : ∀ (w w' : World) (log : List (CoreSurfacePool × DFBResult)),
    spec_attempts env r buffer pools w = some (log, none, w') →
    (∀ entry ∈ log, entry.2 ≠ DFB_OK) ∧ log.map (fun entry => entry.1) = pools := by
  induction pools with
  | nil =>
    intro w w' log h
    simp only [spec_attempts, Option.some.injEq, Prod.mk.injEq] at h
    obtain ⟨rfl, _⟩ := h
    simp
  | cons pool rest ih =>
    intro w w' log h
    unfold spec_attempts at h
    cases ha : dfb_surface_pool_allocate env r pool buffer w with
    | none => rw [ha] at h; simp at h
    | some out =>
      rcases out with ⟨⟨ret, allocation⟩, w1⟩
      rw [ha] at h
      dsimp only at h
      by_cases hret : ret = DFB_OK
      · rw [if_pos hret] at h
        have hsome := (pool_allocate_result _ _ _ _ _ _ _ _ ha).1 hret
        simp only [Option.some.injEq, Prod.mk.injEq] at h
        rw [h.2.1] at hsome
        simp at hsome
      · rw [if_neg hret] at h
        cases hs : spec_attempts env r buffer rest w1 with
        | none => rw [hs] at h; simp at h
        | some res =>
          rcases res with ⟨log1, found, w2⟩
          rw [hs] at h
          simp only [Option.some.injEq, Prod.mk.injEq] at h
          obtain ⟨rfl, rfl, rfl⟩ := h
          obtain ⟨h1, h2⟩ := ih w1 w2 log1 hs
          refine ⟨?_, by simp [h2]⟩
          intro entry hmem
          rcases List.mem_cons.mp hmem with heq | hmem
          · rw [heq]; exact hret
          · exact h1 entry hmem

theorem pools_allocate_second_eq (env : WorldEnv) (r : Registry) (buffer : CoreSurfaceBuffer)
    (log : List (CoreSurfacePool × DFBResult)) : (∀ entry ∈ log, entry.2 ≠ DFB_OK) → ∀ (w : World),
    pools_allocate_second env r buffer (log.map (fun entry =>
        if entry.2 ≠ DFB_OK ∧ entry.2 ≠ DFB_NOVIDEOMEMORY then none else some entry.1)) w =
      (spec_displacements env r buffer
        ((log.filter (fun entry => entry.2 = DFB_NOVIDEOMEMORY)).map (fun entry => entry.1)) w).map
        (fun out => (out.2.1, out.1.map (fun pool => PoolCall.displace pool.pool_id), out.2.2)) := by
  induction log with
  | nil => intro _ w; simp [pools_allocate_second, spec_displacements]
  | cons entry rest ih =>
    intro hfail w
    have hrest : ∀ e ∈ rest, e.2 ≠ DFB_OK := fun e he => hfail e (List.mem_cons_of_mem _ he)
    have hentry : entry.2 ≠ DFB_OK := hfail entry (List.mem_cons_self _ _)
    rcases entry with ⟨pool, ret⟩
    simp only at hentry
    by_cases hoom : ret = DFB_NOVIDEOMEMORY
    · simp only [List.map_cons, List.filter_cons, hoom, decide_True, if_true, ne_eq,
        not_true_eq_false, and_false, if_false, reduceCtorEq, not_false_eq_true]
      unfold pools_allocate_second spec_displacements
      cases hd : dfb_surface_pool_displace env r pool buffer w with
      | none => rfl
      | some out =>
        rcases out with ⟨⟨dret, allocation⟩, w1⟩
        dsimp only
        by_cases hdret : dret = DFB_OK
        · rw [if_pos hdret, if_pos hdret]
          simp
        · rw [if_neg hdret, if_neg hdret]
          have hnone := (pool_displace_result _ _ _ _ _ _ _ _ hd).2 hdret
          subst hnone
          have := ih hrest w1
          simp only [ne_eq] at this
          rw [this]
          cases hs : spec_displacements env r buffer
              ((rest.filter (fun entry => entry.2 = DFB_NOVIDEOMEMORY)).map (fun entry => entry.1)) w1 with
          | none => rfl
          | some res =>
            rcases res with ⟨ran, found, w2⟩
            simp only [Option.map_some', List.map_cons, Option.some.injEq, Prod.mk.injEq, and_true]
            cases found <;> rfl
    · simp only [List.map_cons, List.filter_cons, hoom, decide_False, if_false, ne_eq,
        not_false_eq_true, and_true, hentry, if_true, Bool.false_eq_true]
      unfold pools_allocate_second
      have := ih hrest w
      simp only [ne_eq] at this
      exact this

/-! ## Allocation over the negotiated pools (C2) -/

/-- C2: on the pools that the negotiation returned, `dfb_surface_pools_allocate` does
what the specification says (`pools_allocate_spec`): it tries `dfb_surface_pool_allocate`
on the pools in order and returns the allocation of the first pool that succeeds,
with no displacement; if every attempt fails it runs `dfb_surface_pool_displace`, in
the same order, on exactly the pools whose attempt failed with `DFB_NOVIDEOMEMORY`,
returns the first allocation so obtained and `DFB_FAILURE` when there is none. The
equality covers the result, the allocation, the calls made and the world. -/
theorem pools_allocate_refines_spec (env : WorldEnv) (r : Registry) (identity : Nat)
    (buffer : CoreSurfaceBuffer) (accessor : Int) (access : Nat) (w : World)
    (ret : DFBResult) (pools : List CoreSurfacePool)
    (hlow : 0 ≤ accessor) (hhigh : accessor < CSAID_NUM)
    (hneg : dfb_surface_pools_negotiate r identity buffer accessor access r.pool_count
      = some (ret, pools))
    (hret : ret = DFB_OK ∨ ret = DFB_NOVIDEOMEMORY) :
    dfb_surface_pools_allocate env r identity buffer accessor access w =
      pools_allocate_spec env r buffer pools w := by
  have hany : ¬ accessor ≥ CSAID_ANY := by
    have : CSAID_NUM < CSAID_ANY := by decide
    omega
  have hnum : ¬ (accessor < 0 ∨ accessor ≥ CSAID_NUM) := by omega
  have hguard : ¬ (ret ≠ DFB_OK ∧ ret ≠ DFB_NOVIDEOMEMORY) := by
    rcases hret with h | h <;> simp [h]
  unfold dfb_surface_pools_allocate pools_allocate_spec
  rw [if_neg hany, if_neg hnum, hneg]
  dsimp only
  rw [if_neg hguard, pools_allocate_first_eq]
  cases hs : spec_attempts env r buffer pools w with
  | none => rfl
  | some res =>
    rcases res with ⟨log, found, w1⟩
    cases found with
    | some handle => rfl
    | none =>
      obtain ⟨hfail, hlog⟩ := spec_attempts_none env r buffer pools w w1 log hs
      have hlen : log.length = pools.length := by rw [← hlog, List.length_map]
      simp only [Option.map_some', hlen, List.drop_length, List.map_nil, List.append_nil]
      rw [pools_allocate_second_eq env r buffer log hfail w1]
      cases hd : spec_displacements env r buffer
          ((log.filter (fun entry => entry.2 = DFB_NOVIDEOMEMORY)).map (fun entry => entry.1)) w1 with
      | none => rfl
      | some res2 =>
        rcases res2 with ⟨ran, found2, w2⟩
        cases found2 <;> rfl

/-- C2, witness: pool B (preferred) is out of video memory at first, pool A fails with
another error. The attempts run on B and then A, the displacement runs on B only,
and its allocation (handle 2, in the vector of pool 1) is returned. -/
theorem pools_allocate_refines_spec_witness :
    (dfb_surface_pools_allocate sample_env registry_oom FUSION_ID_MASTER sample_buffer CSAID_CPU
        (CSAF_READ ||| CSAF_WRITE) World.empty).map
      (fun out => (out.1, out.2.1, out.2.2.pool_allocs 1, out.2.2.pool_allocs 0))
      = some ((DFB_OK, some 2),
          [PoolCall.allocate 1, PoolCall.allocate 0, PoolCall.displace 1], [2], []) ∧
    dfb_surface_pools_allocate sample_env registry_oom FUSION_ID_MASTER sample_buffer CSAID_CPU
        (CSAF_READ ||| CSAF_WRITE) World.empty =
      pools_allocate_spec sample_env registry_oom sample_buffer negotiated_oom.2 World.empty :=
  ⟨by decide!, pools_allocate_refines_spec sample_env registry_oom FUSION_ID_MASTER sample_buffer
    CSAID_CPU (CSAF_READ ||| CSAF_WRITE) World.empty negotiated_oom.1 negotiated_oom.2
    (by decide) (by decide) rfl (by decide)⟩

/-! ## Allocation ownership (C5) -/

/-- What a call of `dfb_surface_pool_allocate` does to the world: on failure nothing
but the removal of the object it created, on success the new object in both vectors. -/
theorem pool_allocate_effect (env : WorldEnv) (r : Registry) (pool : CoreSurfacePool)
    (buffer : CoreSurfaceBuffer) (w w' : World) (ret : DFBResult) (allocation : Option Nat)
    (h : dfb_surface_pool_allocate env r pool buffer w = some ((ret, allocation), w')) :
    (ret ≠ DFB_OK ∧ allocation = none ∧ w'.pool_allocs = w.pool_allocs ∧
      w'.buffer_allocs = w.buffer_allocs ∧ w'.buffer_serial = w.buffer_serial ∧
      w'.buffers = w.buffers ∧
      (w'.allocations = w.allocations ∨
        w'.allocations = Function.update w.allocations w.next_allocation none) ∧
      (w'.next_allocation = w.next_allocation ∨ w'.next_allocation = w.next_allocation + 1)) ∨
    (ret = DFB_OK ∧ allocation = some w.next_allocation ∧
      w'.next_allocation = w.next_allocation + 1 ∧
      w'.pool_allocs = Function.update w.pool_allocs pool.pool_id
        (w.pool_allocs pool.pool_id ++ [w.next_allocation]) ∧
      w'.buffer_allocs = Function.update w.buffer_allocs buffer.id
        (w.buffer_allocs buffer.id ++ [w.next_allocation]) ∧
      w'.buffer_serial = w.buffer_serial ∧ w'.buffers = w.buffers ∧
      ∃ a, a.pool = pool.pool_id ∧ a.buffer = buffer.id ∧ a.serial = 0 ∧
        w'.allocations = Function.update w.allocations w.next_allocation (some a)) := by
  unfold dfb_surface_pool_allocate at h
  cases hf : r.pool_funcs pool.pool_id with
  | none => rw [hf] at h; simp at h
  | some funcs =>
    rw [hf] at h
    dsimp only at h
    unfold dfb_surface_allocation_create at h
    dsimp only at h
    by_cases hc : env.allocation_create w.tick ≠ DFB_OK
    · rw [if_pos hc] at h
      dsimp only at h
      rw [if_pos hc] at h
      simp only [Option.some.injEq, Prod.mk.injEq] at h
      obtain ⟨⟨rfl, rfl⟩, rfl⟩ := h
      exact Or.inl ⟨hc, rfl, rfl, rfl, rfl, rfl, Or.inl rfl, Or.inl rfl⟩
    · rw [if_neg hc] at h
      dsimp only at h
      have hc2 : ¬ DFB_OK ≠ DFB_OK := by simp
      rw [if_neg hc2] at h
      by_cases hs : env.skirmish_fails w.step.tick = true
      · simp only [World.set_allocation, World.step] at h hs
        rw [if_pos hs] at h
        simp only [Option.some.injEq, Prod.mk.injEq] at h
        obtain ⟨⟨rfl, rfl⟩, rfl⟩ := h
        refine Or.inl ⟨by simp, rfl, rfl, rfl, rfl, rfl, Or.inr ?_, Or.inr rfl⟩
        simp [dfb_surface_allocation_unref, World.set_allocation, World.step, Function.update_idem]
      · simp only [World.set_allocation, World.step] at h hs
        rw [if_neg hs] at h
        simp only [Function.update_same] at h
        by_cases ha : (funcs.AllocateBuffer (w.tick + 1 + 1)).1 ≠ DFB_OK
        · rw [if_pos ha] at h
          simp only [Option.some.injEq, Prod.mk.injEq] at h
          obtain ⟨⟨rfl, rfl⟩, rfl⟩ := h
          refine Or.inl ⟨ha, rfl, rfl, rfl, rfl, rfl, Or.inr ?_, Or.inr rfl⟩
          simp [dfb_surface_allocation_unref, World.set_allocation, Function.update_idem]
        · rw [if_neg ha] at h
          simp only [Option.some.injEq, Prod.mk.injEq] at h
          obtain ⟨⟨rfl, rfl⟩, rfl⟩ := h
          refine Or.inr ⟨rfl, rfl, rfl, rfl, rfl, rfl, rfl,
            { pool := pool.pool_id, buffer := buffer.id, surface := buffer.surface.id,
              flags := flagsWithout (funcs.AllocateBuffer (w.tick + 1 + 1)).2 CSALF_INITIALIZING,
              serial := 0, accessed_cpu := 0 ||| (CSAF_READ ||| CSAF_WRITE) }, rfl, rfl, rfl, ?_⟩
          simp [Function.update_idem]

theorem flag_set_and (flags flag : Nat) : (flags ||| flag) &&& flag = flag := by
  apply Nat.eq_of_testBit_eq
  intro i
  rw [Nat.testBit_land, Nat.testBit_lor]
  cases Nat.testBit flags i <;> cases Nat.testBit flag i <;> rfl

/-- What a call of `dfb_surface_pool_deallocate` does to the world: nothing, or the
allocation leaves the vector of the pool and is flagged as deallocated. -/
theorem pool_deallocate_effect (env : WorldEnv) (r : Registry) (pool : CoreSurfacePool)
    (handle : Nat) (w w' : World) (ret : DFBResult)
    (h : dfb_surface_pool_deallocate env r pool handle w = some (ret, w')) :
    (w'.pool_allocs = w.pool_allocs ∧ w'.buffer_allocs = w.buffer_allocs ∧
      w'.allocations = w.allocations ∧ w'.next_allocation = w.next_allocation) ∨
    (∃ a, w.allocations handle = some a ∧ ret = DFB_OK ∧
      w'.pool_allocs = Function.update w.pool_allocs pool.pool_id
        ((w.pool_allocs pool.pool_id).erase handle) ∧
      w'.buffer_allocs = w.buffer_allocs ∧
      w'.allocations = Function.update w.allocations handle
        (some { a with flags := a.flags ||| CSALF_DEALLOCATED }) ∧
      w'.next_allocation = w.next_allocation) := by
  unfold dfb_surface_pool_deallocate at h
  cases ha : w.allocations handle with
  | none => rw [ha] at h; simp at h
  | some a =>
    rw [ha] at h
    dsimp only at h
    by_cases hflag : a.flags &&& CSALF_DEALLOCATED ≠ 0
    · rw [if_pos hflag] at h
      simp only [Option.some.injEq, Prod.mk.injEq] at h
      obtain ⟨rfl, rfl⟩ := h
      exact Or.inl ⟨rfl, rfl, rfl, rfl⟩
    · rw [if_neg hflag] at h
      cases hf : r.pool_funcs pool.pool_id with
      | none => rw [hf] at h; simp at h
      | some funcs =>
        rw [hf] at h
        dsimp only at h
        by_cases hs : env.skirmish_fails w.tick = true
        · rw [if_pos hs] at h
          simp only [Option.some.injEq, Prod.mk.injEq] at h
          obtain ⟨rfl, rfl⟩ := h
          exact Or.inl ⟨rfl, rfl, rfl, rfl⟩
        · rw [if_neg hs] at h
          by_cases hd : funcs.DeallocateBuffer w.step.tick ≠ DFB_OK
          · rw [if_pos hd] at h
            simp only [Option.some.injEq, Prod.mk.injEq] at h
            obtain ⟨rfl, rfl⟩ := h
            exact Or.inl ⟨rfl, rfl, rfl, rfl⟩
          · rw [if_neg hd] at h
            unfold remove_allocation at h
            by_cases hmem : handle ∈ w.step.step.pool_allocs pool.pool_id
            · rw [if_pos hmem] at h
              simp only [Option.some.injEq, Prod.mk.injEq] at h
              obtain ⟨rfl, rfl⟩ := h
              exact Or.inr ⟨a, rfl, rfl, rfl, rfl, rfl, rfl⟩
            · rw [if_neg hmem] at h
              simp at h

theorem allocate_keeps_ownership (env : WorldEnv) (r : Registry) (pool : CoreSurfacePool)
    (buffer : CoreSurfaceBuffer) (w w' : World) (out : DFBResult × Option Nat)
    (hO : Ownership w) (hF : FreshHandles w)
    (h : dfb_surface_pool_allocate env r pool buffer w = some (out, w')) :
    Ownership w' ∧ FreshHandles w' := by
  rcases out with ⟨ret, allocation⟩
  have hfresh := hF w.next_allocation (le_refl _)
  rcases pool_allocate_effect env r pool buffer w w' ret allocation h with
    ⟨_, _, hp, hb, _, _, ha, hn⟩ | ⟨_, _, hn, hp, hb, _, _, a, hap, hab, _, ha⟩
  · have ha2 : w'.allocations = w.allocations := by
      rcases ha with ha | ha
      · exact ha
      · rw [ha]
        exact update_none_self _ _ hfresh.1
    refine ⟨?_, ?_⟩
    · intro x ax hx hlive
      rw [ha2] at hx
      rw [hp, hb]
      exact hO x ax hx hlive
    · intro x hx
      rw [ha2, hp, hb]
      exact hF x (by rcases hn with hn | hn <;> omega)
  · refine ⟨?_, ?_⟩
    · intro x ax hx hlive
      rw [ha] at hx
      by_cases hxn : x = w.next_allocation
      · subst hxn
        rw [Function.update_same] at hx
        simp only [Option.some.injEq] at hx
        subst hx
        rw [hp, hb, hap, hab]
        constructor
        · intro p
          by_cases hpp : p = pool.pool_id
          · rw [hpp, Function.update_same, if_pos rfl, List.count_append,
              List.count_eq_zero_of_not_mem (hfresh.2.1 _)]
            simp
          · rw [Function.update_noteq hpp, if_neg hpp]
            exact List.count_eq_zero_of_not_mem (hfresh.2.1 _)
        · intro b
          by_cases hbb : b = buffer.id
          · rw [hbb, Function.update_same, if_pos rfl, List.count_append,
              List.count_eq_zero_of_not_mem (hfresh.2.2 _)]
            simp
          · rw [Function.update_noteq hbb, if_neg hbb]
            exact List.count_eq_zero_of_not_mem (hfresh.2.2 _)
      · rw [Function.update_noteq hxn] at hx
        obtain ⟨h1, h2⟩ := hO x ax hx hlive
        rw [hp, hb]
        constructor
        · intro p
          by_cases hpp : p = pool.pool_id
          · rw [hpp, Function.update_same, List.count_append, ← h1 pool.pool_id]
            simp [List.count_singleton, hxn]
          · rw [Function.update_noteq hpp]
            exact h1 p
        · intro b
          by_cases hbb : b = buffer.id
          · rw [hbb, Function.update_same, List.count_append, ← h2 buffer.id]
            simp [List.count_singleton, hxn]
          · rw [Function.update_noteq hbb]
            exact h2 b
    · intro x hx
      rw [hn] at hx
      obtain ⟨f1, f2, f3⟩ := hF x (by omega)
      rw [ha, hp, hb]
      refine ⟨?_, ?_, ?_⟩
      · rw [Function.update_noteq (by omega)]
        exact f1
      · intro p
        by_cases hpp : p = pool.pool_id
        · rw [hpp, Function.update_same, List.mem_append]
          rintro (hm | hm)
          · exact f2 _ hm
          · simp only [List.mem_singleton] at hm; omega
        · rw [Function.update_noteq hpp]
          exact f2 p
      · intro b
        by_cases hbb : b = buffer.id
        · rw [hbb, Function.update_same, List.mem_append]
          rintro (hm | hm)
          · exact f3 _ hm
          · simp only [List.mem_singleton] at hm; omega
        · rw [Function.update_noteq hbb]
          exact f3 b

theorem deallocate_keeps_ownership (env : WorldEnv) (r : Registry) (pool : CoreSurfacePool)
    (handle : Nat) (w w' : World) (ret : DFBResult)
    (hO : Ownership w) (hF : FreshHandles w)
    (h : dfb_surface_pool_deallocate env r pool handle w = some (ret, w')) :
    Ownership w' ∧ FreshHandles w' := by
  rcases pool_deallocate_effect env r pool handle w w' ret h with
    ⟨hp, hb, ha, hn⟩ | ⟨a, hwa, _, hp, hb, ha, hn⟩
  · refine ⟨?_, ?_⟩
    · intro x ax hx hlive
      rw [ha] at hx
      rw [hp, hb]
      exact hO x ax hx hlive
    · intro x hx
      rw [hn] at hx
      rw [ha, hp, hb]
      exact hF x hx
  · refine ⟨?_, ?_⟩
    · intro x ax hx hlive
      rw [ha] at hx
      by_cases hxh : x = handle
      · subst hxh
        rw [Function.update_same] at hx
        simp only [Option.some.injEq] at hx
        subst hx
        simp only [flag_set_and] at hlive
        exact absurd hlive (by decide)
      · rw [Function.update_noteq hxh] at hx
        obtain ⟨h1, h2⟩ := hO x ax hx hlive
        rw [hp, hb]
        refine ⟨?_, h2⟩
        intro p
        by_cases hpp : p = pool.pool_id
        · rw [hpp, Function.update_same, List.count_erase_of_ne hxh]
          exact h1 pool.pool_id
        · rw [Function.update_noteq hpp]
          exact h1 p
    · intro x hx
      rw [hn] at hx
      obtain ⟨f1, f2, f3⟩ := hF x hx
      rw [ha, hp, hb]
      refine ⟨?_, ?_, f3⟩
      · by_cases hxh : x = handle
        · rw [hxh] at f1
          rw [f1] at hwa
          simp at hwa
        · rw [Function.update_noteq hxh]
          exact f1
      · intro p
        by_cases hpp : p = pool.pool_id
        · rw [hpp, Function.update_same]
          intro hm
          exact f2 _ (List.mem_of_mem_erase hm)
        · rw [Function.update_noteq hpp]
          exact f2 p

theorem run_alloc_ops_ownership (env : WorldEnv) (r : Registry) (ops : List AllocOp) :
    ∀ (w w' : World), Ownership w → FreshHandles w → run_alloc_ops env r ops w = some w' →
    Ownership w' ∧ FreshHandles w' := by
  induction ops with
  | nil =>
    intro w w' hO hF h
    simp only [run_alloc_ops, Option.some.injEq] at h
    subst h
    exact ⟨hO, hF⟩
  | cons op rest ih =>
    intro w w' hO hF h
    unfold run_alloc_ops at h
    cases hop : op.apply env r w with
    | none => rw [hop] at h; simp at h
    | some w1 =>
      rw [hop] at h
      dsimp only at h
      have hstep : Ownership w1 ∧ FreshHandles w1 := by
        cases op with
        | allocate pool buffer =>
          simp only [AllocOp.apply] at hop
          cases hcall : dfb_surface_pool_allocate env r pool buffer w with
          | none => rw [hcall] at hop; simp at hop
          | some out =>
            rcases out with ⟨res, w2⟩
            rw [hcall] at hop
            simp only [Option.map_some', Option.some.injEq] at hop
            subst hop
            exact allocate_keeps_ownership env r pool buffer w w2 res hO hF hcall
        | deallocate pool handle =>
          simp only [AllocOp.apply] at hop
          cases hcall : dfb_surface_pool_deallocate env r pool handle w with
          | none => rw [hcall] at hop; simp at hop
          | some out =>
            rcases out with ⟨res, w2⟩
            rw [hcall] at hop
            simp only [Option.map_some', Option.some.injEq] at hop
            subst hop
            exact deallocate_keeps_ownership env r pool handle w w2 res hO hF hcall
      exact ih w1 w' hstep.1 hstep.2 h

theorem world_empty_ownership : Ownership World.empty ∧ FreshHandles World.empty := by
  refine ⟨?_, ?_⟩
  · intro x a hx
    simp [World.empty] at hx
  · intro x _
    refine ⟨rfl, ?_, ?_⟩ <;> intro _ <;> simp [World.empty]

/-- C5: over any sequence of `dfb_surface_pool_allocate` and
`dfb_surface_pool_deallocate` calls that runs from the empty world, every live
allocation (one not flagged `CSALF_DEALLOCATED`) is contained once in the
allocation vector of its own pool and in no other pool vector, once in the
allocation vector of its own buffer and in no other buffer vector; and a failed
`dfb_surface_pool_allocate` in the state reached leaves all pool vectors and all
buffer vectors unchanged. -/
theorem allocation_ownership (env : WorldEnv) (r : Registry) (ops : List AllocOp) (w : World)
    (h : run_alloc_ops env r ops World.empty = some w) :
    Ownership w ∧
    (∀ pool buffer ret allocation w',
      dfb_surface_pool_allocate env r pool buffer w = some ((ret, allocation), w') →
      ret ≠ DFB_OK → w'.pool_allocs = w.pool_allocs ∧ w'.buffer_allocs = w.buffer_allocs) := by
  refine ⟨(run_alloc_ops_ownership env r ops World.empty w world_empty_ownership.1
    world_empty_ownership.2 h).1, ?_⟩
  intro pool buffer ret allocation w' hcall hret
  rcases pool_allocate_effect env r pool buffer w w' ret allocation hcall with
    ⟨_, _, hp, hb, _⟩ | ⟨hok, _⟩
  · exact ⟨hp, hb⟩
  · exact absurd hok hret

/-- C5, witness: after an allocation in pool B (handle 0), one in pool A (handle 1) and
the deallocation of handle 0, the vector of pool A holds handle 1, that of pool B
is empty and the buffer vector still lists both handles, of which handle 0 is
flagged as deallocated. -/
theorem allocation_ownership_witness :
    (world_after_sample_ops.pool_allocs 0, world_after_sample_ops.pool_allocs 1,
      world_after_sample_ops.buffer_allocs 0,
      (world_after_sample_ops.allocations 0).map (fun a => a.flags &&& CSALF_DEALLOCATED),
      (world_after_sample_ops.allocations 1).map (fun a => a.flags &&& CSALF_DEALLOCATED))
      = ([1], [], [0, 1], some CSALF_DEALLOCATED, some 0) ∧
    (Ownership world_after_sample_ops ∧
    (∀ pool buffer ret allocation w',
      dfb_surface_pool_allocate sample_env registry_AB pool buffer world_after_sample_ops
        = some ((ret, allocation), w') →
      ret ≠ DFB_OK → w'.pool_allocs = world_after_sample_ops.pool_allocs ∧
        w'.buffer_allocs = world_after_sample_ops.buffer_allocs)) :=
  ⟨by decide!, allocation_ownership sample_env registry_AB sample_alloc_ops world_after_sample_ops rfl⟩

/-! ## Backup and displacement (C6, C7) -/

/-- C6, the code at the failing input: pool 0 has no backup pool and holds handle 0, the
only allocation of buffer 0 and up to date. `backup_allocation` returns `DFB_OK`
without having saved anything, and `dfb_surface_pool_displace` then decouples the
allocation: afterwards buffer 0 has no allocation left and handle 0 is gone. -/
theorem backup_allocation_without_backup_pool :
    ((registry_single.pool_array 0).map (fun pool => pool.backup),
      world_single.buffer_allocs 0, world_single.pool_allocs 0,
      (world_single.allocations 0).map (fun a => direct_serial_check a.serial (world_single.buffer_serial 0)))
      = (some none, [0], [0], some true) ∧
    (backup_allocation sample_env registry_single 0 world_single).map
      (fun out => (out.1, out.2.buffer_allocs 0, out.2.pool_allocs 0)) = some (DFB_OK, [0], [0]) ∧
    (dfb_surface_pool_displace sample_env registry_single
        ((registry_single.pool_array 0).getD (fresh_pool 0)) other_buffer world_single).map
      (fun out => (out.1, out.2.buffer_allocs 0, out.2.pool_allocs 0, (out.2.allocations 0).isSome))
      = some ((DFB_OK, some 1), [], [1], false) := by
  decide!

theorem displace_scan_keeps_lock (env : WorldEnv) (r : Registry) (pool : CoreSurfacePool)
    (fuel : Nat) : ∀ (i : Nat) (ret_lock : DFBResult) (w w' : World) (lock : DFBResult),
    ret_lock ≠ DFB_OK →
    displace_scan env r pool fuel i ret_lock w = some (ScanEnd.finished lock, w') →
    lock ≠ DFB_OK := by
  induction fuel with
  | zero =>
    intro i ret_lock w w' lock hlock h
    unfold displace_scan at h
    split at h
    · simp at h
    · simp only [Option.some.injEq, Prod.mk.injEq, ScanEnd.finished.injEq] at h
      rw [← h.1]; exact hlock
  | succ n ih =>
    intro i ret_lock w w' lock hlock h
    unfold displace_scan at h
    cases hget : (w.pool_allocs pool.pool_id)[i]? with
    | none =>
      rw [hget] at h
      simp only [Option.some.injEq, Prod.mk.injEq, ScanEnd.finished.injEq] at h
      rw [← h.1]; exact hlock
    | some handle =>
      rw [hget] at h
      dsimp only at h
      cases ha : w.allocations handle with
      | none => rw [ha] at h; simp at h
      | some allocation =>
        rw [ha] at h
        dsimp only at h
        by_cases hm : allocation.flags &&& CSALF_MUCKOUT ≠ 0
        · rw [if_pos hm] at h
          by_cases hl : env.trylock w.tick allocation.surface ≠ DFB_OK
          · rw [if_pos hl] at h
            exact ih _ _ _ _ _ hl h
          · rw [if_neg hl] at h
            cases hb : backup_allocation env r handle w.step with
            | none => rw [hb] at h; simp at h
            | some out =>
              rcases out with ⟨bret, wb⟩
              rw [hb] at h
              dsimp only at h
              by_cases hbr : bret ≠ DFB_OK
              · rw [if_pos hbr] at h
                simp at h
              · rw [if_neg hbr] at h
                exact ih _ _ _ _ _ hlock h
        · rw [if_neg hm] at h
          exact ih _ _ _ _ _ hlock h

/-- Once a trylock has failed, no later round of `dfb_surface_pool_displace` reaches
the allocation for the requesting buffer: `ret_lock` is never reset. -/
theorem displace_retry_stays_locked (env : WorldEnv) (r : Registry) (pool : CoreSurfacePool)
    (buffer : CoreSurfaceBuffer) (retries : Nat) :
    ∀ (ret_lock : DFBResult) (w w' : World) (ret : DFBResult) (allocation : Option Nat),
    ret_lock ≠ DFB_OK →
    displace_retry env r pool buffer retries ret_lock w = some ((ret, allocation), w') →
    ret ≠ DFB_OK ∧ allocation = none := by
  induction retries with
  | zero =>
    intro ret_lock w w' ret allocation hlock h
    unfold displace_retry at h
    cases hs : displace_scan env r pool ((w.pool_allocs pool.pool_id).length + 1) 0 ret_lock w with
    | none => rw [hs] at h; simp at h
    | some out =>
      rcases out with ⟨ending, ws⟩
      rw [hs] at h
      cases ending with
      | backup_failed bret =>
        dsimp only at h
        have hne := displace_scan_backup_failed _ _ _ _ _ _ _ _ _ hs
        cases hc : clear_muckout ws (ws.pool_allocs pool.pool_id) with
        | none => rw [hc] at h; simp at h
        | some wc =>
          rw [hc] at h
          simp only [Option.map_some', Option.some.injEq, Prod.mk.injEq] at h
          obtain ⟨⟨rfl, rfl⟩, _⟩ := h
          exact ⟨hne, rfl⟩
      | finished lock =>
        dsimp only at h
        have hl := displace_scan_keeps_lock _ _ _ _ _ _ _ _ _ hlock hs
        rw [if_pos hl] at h
        cases hc : clear_muckout ws (ws.pool_allocs pool.pool_id) with
        | none => rw [hc] at h; simp at h
        | some wc =>
          rw [hc] at h
          simp only [Option.map_some', Option.some.injEq, Prod.mk.injEq] at h
          obtain ⟨⟨rfl, rfl⟩, _⟩ := h
          exact ⟨by simp, rfl⟩
  | succ n ih =>
    intro ret_lock w w' ret allocation hlock h
    unfold displace_retry at h
    cases hs : displace_scan env r pool ((w.pool_allocs pool.pool_id).length + 1) 0 ret_lock w with
    | none => rw [hs] at h; simp at h
    | some out =>
      rcases out with ⟨ending, ws⟩
      rw [hs] at h
      cases ending with
      | backup_failed bret =>
        dsimp only at h
        have hne := displace_scan_backup_failed _ _ _ _ _ _ _ _ _ hs
        cases hc : clear_muckout ws (ws.pool_allocs pool.pool_id) with
        | none => rw [hc] at h; simp at h
        | some wc =>
          rw [hc] at h
          simp only [Option.map_some', Option.some.injEq, Prod.mk.injEq] at h
          obtain ⟨⟨rfl, rfl⟩, _⟩ := h
          exact ⟨hne, rfl⟩
      | finished lock =>
        dsimp only at h
        have hl := displace_scan_keeps_lock _ _ _ _ _ _ _ _ _ hlock hs
        rw [if_pos hl] at h
        exact ih _ _ _ _ _ hl h

/-- C7, the code at the failing input: pool 1 holds the marked allocation 0 and the
trylock of its surface fails in the first round only. The second round locks the
surface, backs the allocation up into pool 0 (handle 1) and decouples it, so it
completes with no trylock failure; still the call returns `DFB_LOCKED` without an
allocation for the requesting buffer 1. With an uncontended surface the same call
allocates handle 2 for buffer 1. -/
theorem displace_locked_after_clean_round :
    (dfb_surface_pool_displace contended_env registry_muck
        ((registry_muck.pool_array 1).getD (fresh_pool 1)) other_buffer world_muck).map
      (fun out => (out.1, out.2.pool_allocs 1, out.2.pool_allocs 0))
      = some ((DFB_LOCKED, none), [], [1]) ∧
    (dfb_surface_pool_displace contended_env registry_muck
        ((registry_muck.pool_array 1).getD (fresh_pool 1)) other_buffer world_muck).map
      (fun out => (out.2.buffer_allocs 0, out.2.buffer_allocs 1)) = some ([1], []) ∧
    (dfb_surface_pool_displace sample_env registry_muck
        ((registry_muck.pool_array 1).getD (fresh_pool 1)) other_buffer world_muck).map
      (fun out => (out.1, out.2.pool_allocs 1, out.2.pool_allocs 0))
      = some ((DFB_OK, some 2), [2], [1]) := by
  decide!

/-! ## Coalescing of relative pointer motion (C10) -/

theorem wrap_int32_add (a b : Int) : wrap_int32 (a + wrap_int32 b) = wrap_int32 (a + b) := by
  unfold wrap_int32
  omega

theorem wrap_int32_of_range (x : Int) (h : in_int_range x) : wrap_int32 x = x := by
  unfold in_int_range at h
  unfold wrap_int32
  omega

theorem flush_slot_type (env : StackEnv) (stack : CoreWindowStack) (axis : Nat)
    (h : (pending_slot stack axis).type = 0) :
    (pending_slot (WindowStack_Input_Flush env stack) axis).type = 0 := by
  unfold WindowStack_Input_Flush
  by_cases h1 : stack.motion_x.type = 0 ∧ stack.motion_y.type = 0
  · rw [if_pos h1]; exact h
  · rw [if_neg h1]
    by_cases h2 : env.lock_fails stack.tick = true
    · rw [if_pos h2]; exact h
    · rw [if_neg h2]
      unfold pending_slot
      split_ifs <;> rfl

theorem flush_slot_cleared (env : StackEnv) (stack : CoreWindowStack) (axis : Nat)
    (hlock : env.lock_fails stack.tick = false) :
    (pending_slot (WindowStack_Input_Flush env stack) axis).type = 0 := by
  unfold WindowStack_Input_Flush
  by_cases h1 : stack.motion_x.type = 0 ∧ stack.motion_y.type = 0
  · rw [if_pos h1]
    unfold pending_slot
    split_ifs
    · exact h1.1
    · exact h1.2
  · rw [if_neg h1, hlock]
    simp only [Bool.false_eq_true, if_false]
    unfold pending_slot
    split_ifs <;> rfl

theorem add_relative_slot (env : StackEnv) (stack : CoreWindowStack) (axis : Nat)
    (event : DFBInputEvent) (haxis : axis = DIAI_X ∨ axis = DIAI_Y)
    (hrel : relative_on axis event) :
    pending_slot (WindowStack_Input_Add env stack event) axis =
      WindowStack_Input_AddRelative
        (pending_slot (if flush_due stack.step event (env.clock stack.tick) then
          WindowStack_Input_Flush env stack.step else stack.step) axis) event := by
  obtain ⟨htype, hax, habs⟩ := hrel
  unfold WindowStack_Input_Add
  simp only []
  generalize (if flush_due stack.step event (env.clock stack.tick) then
          WindowStack_Input_Flush env stack.step else stack.step) = mid
  rw [if_pos htype]
  have hne : ¬ (event.flags &&& DIEF_AXISABS ≠ 0) := fun h => h habs
  rcases haxis with rfl | rfl
  · rw [if_pos hax, if_neg hne]
    unfold pending_slot
    rw [if_pos rfl, if_pos rfl]
    split_ifs <;> rfl
  · have hx : ¬ event.axis = DIAI_X := by rw [hax]; decide
    rw [if_neg hx, if_pos hax, if_neg hne]
    unfold pending_slot
    have : ¬ DIAI_Y = DIAI_X := by decide
    rw [if_neg this, if_neg this]
    split_ifs <;> rfl

theorem add_relative_first (env : StackEnv) (stack : CoreWindowStack) (axis : Nat)
    (event : DFBInputEvent) (haxis : axis = DIAI_X ∨ axis = DIAI_Y)
    (hrel : relative_on axis event)
    (hstart : (pending_slot stack axis).type = DIET_UNKNOWN ∨
      (flush_due stack.step event (env.clock stack.tick) ∧ env.lock_fails stack.step.tick = false)) :
    pending_slot (WindowStack_Input_Add env stack event) axis =
      coalesced event (wrap_int32 event.axisrel) := by
  rw [add_relative_slot env stack axis event haxis hrel]
  have hmid : (pending_slot (if flush_due stack.step event (env.clock stack.tick) then
          WindowStack_Input_Flush env stack.step else stack.step) axis).type = 0 := by
    rcases hstart with h | ⟨hdue, hlock⟩
    · have h0 : (pending_slot stack.step axis).type = 0 := h
      split_ifs
      · exact flush_slot_type env _ axis h0
      · exact h0
    · rw [if_pos hdue]
      exact flush_slot_cleared env _ axis hlock
  unfold WindowStack_Input_AddRelative coalesced
  simp only [hmid, ne_eq, not_true_eq_false, if_false, add_zero]

theorem add_relative_next (env : StackEnv) (stack : CoreWindowStack) (axis : Nat)
    (event : DFBInputEvent) (haxis : axis = DIAI_X ∨ axis = DIAI_Y)
    (hrel : relative_on axis event)
    (hflush : ¬ flush_due stack.step event (env.clock stack.tick))
    (hpending : (pending_slot stack axis).type ≠ 0) :
    pending_slot (WindowStack_Input_Add env stack event) axis =
      coalesced event (wrap_int32 (event.axisrel + (pending_slot stack axis).axisrel)) := by
  rw [add_relative_slot env stack axis event haxis hrel, if_neg hflush]
  have h0 : pending_slot stack.step axis = pending_slot stack axis := rfl
  rw [h0]
  unfold WindowStack_Input_AddRelative coalesced
  simp only [hpending, ne_eq, not_false_eq_true, if_true]

theorem add_all_relative (env : StackEnv) (axis : Nat) (haxis : axis = DIAI_X ∨ axis = DIAI_Y)
    (rest : List DFBInputEvent) :
    ∀ (stack : CoreWindowStack) (prev : DFBInputEvent) (total : Int),
      prev.type = DIET_AXISMOTION →
      pending_slot stack axis = coalesced prev (wrap_int32 total) →
      (∀ event ∈ rest, relative_on axis event) →
      no_flush_between env stack rest →
      pending_slot (add_all env stack rest) axis =
        coalesced ((prev :: rest).getLast (List.cons_ne_nil _ _))
          (wrap_int32 (total + axisrel_sum rest)) := by
  induction rest with
  | nil =>
    intro stack prev total _ hslot _ _
    simpa [add_all, axisrel_sum] using hslot
  | cons event rest ih =>
    intro stack prev total hprev hslot hrel hflush
    have hrel0 : relative_on axis event := hrel event (List.mem_cons_self _ _)
    have hpending : (pending_slot stack axis).type ≠ 0 := by
      rw [hslot]
      show prev.type ≠ 0
      rw [hprev]; decide
    have hnext := add_relative_next env stack axis event haxis hrel0 hflush.1 hpending
    rw [hslot] at hnext
    have hax : (coalesced prev (wrap_int32 total)).axisrel = wrap_int32 total := rfl
    rw [hax, wrap_int32_add] at hnext
    have := ih (WindowStack_Input_Add env stack event) event (event.axisrel + total) hrel0.1 hnext
      (fun e he => hrel e (List.mem_cons_of_mem _ he)) hflush.2
    rw [List.getLast_cons_cons]
    show pending_slot (add_all env (WindowStack_Input_Add env stack event) rest) axis = _
    rw [this]
    congr 2
    simp only [axisrel_sum, List.map_cons, List.sum_cons]
    ring

theorem flush_dispatches (env : StackEnv) (stack : CoreWindowStack)
    (hpending : stack.motion_x.type ≠ 0 ∨ stack.motion_y.type ≠ 0)
    (hlock : env.lock_fails stack.tick = false)
    (hactive : env.context_active stack.step.tick = true) :
    (WindowStack_Input_Flush env stack).dispatched = stack.dispatched ++ flush_events stack := by
  unfold WindowStack_Input_Flush
  have h1 : ¬ (stack.motion_x.type = 0 ∧ stack.motion_y.type = 0) := by
    rintro ⟨hx, hy⟩
    rcases hpending with h | h
    · exact h hx
    · exact h hy
  rw [if_neg h1, hlock]
  simp only [Bool.false_eq_true, if_false, hactive, if_true]
  rfl

/-- C10 (amended): let a non-empty sequence of relative axis motions of one axis (X
or Y) arrive, the slot of the axis being empty when the first is stored (it was
empty before, or the first arrival flushed with the lock available) and no flush
being due at any later arrival. Then the slot holds the fields of the last event
with `DIEF_FOLLOW` cleared and, as `axisrel`, the sum of the arrived `axisrel`
values wrapped to a 32 bit `int`, which is the sum itself when that is in the
range of `int`. A flush with the lock available and the context active hands this
event over once: for the X axis it comes first, with `DIEF_FOLLOW` set exactly
when a Y event is pending too and followed by that one; for the Y axis it comes
last and unchanged. -/
theorem relative_motion_coalesced (env : StackEnv) (stack : CoreWindowStack) (axis : Nat)
    (first : DFBInputEvent) (rest : List DFBInputEvent)
    (haxis : axis = DIAI_X ∨ axis = DIAI_Y)
    (hrel : ∀ event ∈ first :: rest, relative_on axis event)
    (hstart : (pending_slot stack axis).type = DIET_UNKNOWN ∨
      (flush_due stack.step first (env.clock stack.tick) ∧ env.lock_fails stack.step.tick = false))
    (hflush : no_flush_between env (WindowStack_Input_Add env stack first) rest) :
    pending_slot (add_all env stack (first :: rest)) axis =
      coalesced ((first :: rest).getLast (List.cons_ne_nil _ _))
        (wrap_int32 (axisrel_sum (first :: rest))) ∧
    (in_int_range (axisrel_sum (first :: rest)) →
      (pending_slot (add_all env stack (first :: rest)) axis).axisrel =
        axisrel_sum (first :: rest)) ∧
    (env.lock_fails (add_all env stack (first :: rest)).tick = false →
      env.context_active (add_all env stack (first :: rest)).step.tick = true →
      (WindowStack_Input_Flush env (add_all env stack (first :: rest))).dispatched =
        (add_all env stack (first :: rest)).dispatched ++
          flush_events (add_all env stack (first :: rest)) ∧
      (axis = DIAI_X →
        flush_events (add_all env stack (first :: rest)) =
          { pending_slot (add_all env stack (first :: rest)) axis with
            flags :=
              if (add_all env stack (first :: rest)).motion_y.type ≠ 0 then
                (pending_slot (add_all env stack (first :: rest)) axis).flags ||| DIEF_FOLLOW
              else (pending_slot (add_all env stack (first :: rest)) axis).flags } ::
          (if (add_all env stack (first :: rest)).motion_y.type ≠ 0 then
            [(add_all env stack (first :: rest)).motion_y] else [])) ∧
      (axis = DIAI_Y →
        flush_events (add_all env stack (first :: rest)) =
          (if (add_all env stack (first :: rest)).motion_x.type ≠ 0 then
            [{ (add_all env stack (first :: rest)).motion_x with
              flags := (add_all env stack (first :: rest)).motion_x.flags ||| DIEF_FOLLOW }]
          else []) ++ [pending_slot (add_all env stack (first :: rest)) axis])) := by
  have hrel0 : relative_on axis first := hrel first (List.mem_cons_self _ _)
  have hfirst := add_relative_first env stack axis first haxis hrel0 hstart
  have hslot : pending_slot (add_all env stack (first :: rest)) axis =
      coalesced ((first :: rest).getLast (List.cons_ne_nil _ _))
        (wrap_int32 (axisrel_sum (first :: rest))) := by
    have h := add_all_relative env axis haxis rest (WindowStack_Input_Add env stack first) first
      first.axisrel hrel0.1 hfirst (fun e he => hrel e (List.mem_cons_of_mem _ he)) hflush
    have hsum : axisrel_sum (first :: rest) = first.axisrel + axisrel_sum rest := by
      simp only [axisrel_sum, List.map_cons, List.sum_cons]
    rw [hsum]
    exact h
  have htype : (pending_slot (add_all env stack (first :: rest)) axis).type ≠ 0 := by
    rw [hslot]
    show ((first :: rest).getLast (List.cons_ne_nil _ _)).type ≠ 0
    rw [(hrel _ (List.getLast_mem _)).1]
    decide
  refine ⟨hslot, ?_, ?_⟩
  · intro hrange
    rw [hslot]
    exact wrap_int32_of_range _ hrange
  · intro hlock hactive
    generalize add_all env stack (first :: rest) = final at htype hlock hactive
    refine ⟨?_, ?_, ?_⟩
    · apply flush_dispatches env final _ hlock hactive
      unfold pending_slot at htype
      split_ifs at htype
      · exact Or.inl htype
      · exact Or.inr htype
    · intro hx
      have hxt : final.motion_x.type ≠ 0 := by
        rw [hx] at htype; exact htype
      have hp : pending_slot final axis = final.motion_x := by rw [hx]; rfl
      rw [hp]
      unfold flush_events
      by_cases hy : final.motion_y.type ≠ 0
      · simp only [hxt, hy, ne_eq, not_false_eq_true, and_self, if_true, List.singleton_append]
      · simp only [hxt, hy, ne_eq, not_false_eq_true, and_false, if_true, if_false,
          List.singleton_append]
    · intro hy
      have hyt : final.motion_y.type ≠ 0 := by
        rw [hy] at htype; exact htype
      have hp : pending_slot final axis = final.motion_y := by rw [hy]; rfl
      rw [hp]
      unfold flush_events
      by_cases hx : final.motion_x.type ≠ 0
      · simp only [hx, hyt, ne_eq, not_false_eq_true, and_self, if_true]
      · simp only [hx, hyt, ne_eq, not_false_eq_true, and_true, if_true, if_false]

/-- C10, witness: two relative X motions of device 1 with `axisrel` +1 arrive at an empty
stack one millisecond apart. The X slot then holds one event with `axisrel` +2, and
the flush hands exactly this event to the window manager. -/
theorem relative_motion_coalesced_witness :
    (pending_slot (add_all sample_stack_env CoreWindowStack.empty
        [sample_motion DIAI_X 1, sample_motion DIAI_X 1]) DIAI_X = sample_motion DIAI_X 2 ∧
      (WindowStack_Input_Flush sample_stack_env (add_all sample_stack_env CoreWindowStack.empty
        [sample_motion DIAI_X 1, sample_motion DIAI_X 1])).dispatched = [sample_motion DIAI_X 2]) ∧
    (pending_slot (add_all sample_stack_env CoreWindowStack.empty
        [sample_motion DIAI_X 1, sample_motion DIAI_X 1]) DIAI_X =
      coalesced (sample_motion DIAI_X 1) (wrap_int32 2) ∧
    (in_int_range 2 →
      (pending_slot (add_all sample_stack_env CoreWindowStack.empty
        [sample_motion DIAI_X 1, sample_motion DIAI_X 1]) DIAI_X).axisrel = 2)) :=
  ⟨by decide!,
    (relative_motion_coalesced sample_stack_env CoreWindowStack.empty DIAI_X
      (sample_motion DIAI_X 1) [sample_motion DIAI_X 1] (Or.inl rfl) (by decide) (Or.inl rfl)
      (by decide)).1,
    (relative_motion_coalesced sample_stack_env CoreWindowStack.empty DIAI_X
      (sample_motion DIAI_X 1) [sample_motion DIAI_X 1] (Or.inl rfl) (by decide) (Or.inl rfl)
      (by decide)).2.1⟩

/-- C10, counterexample to the claim as worded: two relative X motions of device 1 with
`axisrel` 2147483647 and 1 arrive at an empty stack one millisecond apart, with no
flush between them. Their sum is 2147483648, but the X slot, and the one event
that the flush hands to the window manager, has `axisrel` -2147483648. -/
theorem relative_motion_sum_overflows :
    (∀ event ∈ [sample_motion DIAI_X 2147483647, sample_motion DIAI_X 1],
      relative_on DIAI_X event ∧ in_int_range event.axisrel ∧ event.device_id = 1) ∧
    (pending_slot CoreWindowStack.empty DIAI_X).type = DIET_UNKNOWN ∧
    no_flush_between sample_stack_env
      (WindowStack_Input_Add sample_stack_env CoreWindowStack.empty
        (sample_motion DIAI_X 2147483647)) [sample_motion DIAI_X 1] ∧
    axisrel_sum [sample_motion DIAI_X 2147483647, sample_motion DIAI_X 1] = 2147483648 ∧
    pending_slot (add_all sample_stack_env CoreWindowStack.empty
        [sample_motion DIAI_X 2147483647, sample_motion DIAI_X 1]) DIAI_X =
      sample_motion DIAI_X (-2147483648) ∧
    (WindowStack_Input_Flush sample_stack_env (add_all sample_stack_env CoreWindowStack.empty
        [sample_motion DIAI_X 2147483647, sample_motion DIAI_X 1])).dispatched =
      [sample_motion DIAI_X (-2147483648)] := by
  refine ⟨by decide, by decide, by decide, by decide, by decide!, by decide!⟩

/-! ## The flush of pending motion (C11) -/

theorem flags_without_follow (flags : Nat) : flagsWithout flags DIEF_FOLLOW &&& DIEF_FOLLOW = 0 := by
  unfold flagsWithout
  apply Nat.eq_of_testBit_eq
  intro i
  have hflag : DIEF_FOLLOW = 2 ^ 11 := by decide
  rw [Nat.testBit_land, Nat.testBit_land, Nat.testBit_xor, Nat.zero_testBit, hflag,
    Nat.testBit_two_pow]
  by_cases hi : 11 = i
  · subst hi
    have hmask : Nat.testBit 0xFFFFFFFF 11 = true := by decide
    rw [hmask]
    simp
  · simp [hi]

theorem flush_follow_clean (env : StackEnv) (stack : CoreWindowStack) (h : FollowClean stack) :
    FollowClean (WindowStack_Input_Flush env stack) := by
  unfold WindowStack_Input_Flush
  by_cases h1 : stack.motion_x.type = 0 ∧ stack.motion_y.type = 0
  · rw [if_pos h1]; exact h
  · rw [if_neg h1]
    by_cases h2 : env.lock_fails stack.tick = true
    · rw [if_pos h2]; exact h
    · rw [if_neg h2]
      constructor <;> intro hne <;> exact absurd rfl hne

theorem add_follow_clean (env : StackEnv) (stack : CoreWindowStack) (event : DFBInputEvent)
    (h : FollowClean stack) : FollowClean (WindowStack_Input_Add env stack event) := by
  unfold WindowStack_Input_Add
  simp only []
  have hmid : FollowClean (if flush_due stack.step event (env.clock stack.tick) then
      WindowStack_Input_Flush env stack.step else stack.step) := by
    split_ifs
    · exact flush_follow_clean env _ h
    · exact h
  generalize (if flush_due stack.step event (env.clock stack.tick) then
      WindowStack_Input_Flush env stack.step else stack.step) = mid at hmid
  have hts : FollowClean (if mid.motion_ts = 0 then
      { mid with motion_ts := env.clock stack.tick } else mid) := by
    split_ifs
    · exact hmid
    · exact hmid
  generalize (if mid.motion_ts = 0 then
      { mid with motion_ts := env.clock stack.tick } else mid) = cur at hts
  have hclean : flagsWithout event.flags DIEF_FOLLOW &&& DIEF_FOLLOW = 0 :=
    flags_without_follow _
  split_ifs
  · exact ⟨fun _ => hclean, hts.2⟩
  · exact ⟨fun _ => hclean, hts.2⟩
  · exact ⟨hts.1, fun _ => hclean⟩
  · exact ⟨hts.1, fun _ => hclean⟩
  · exact hts
  · exact hts

theorem listener_follow_clean (env : ListenerEnv) (w : InputWorld) (event : DFBInputEvent)
    (h : FollowClean w.stack) :
    FollowClean (dfb_windowstack_inputdevice_listener env w event).2.stack := by
  unfold dfb_windowstack_inputdevice_listener
  simp only []
  split_ifs
  · exact h
  · exact h
  · unfold listener_motion
    simp only []
    have := add_follow_clean env.stack_env w.stack.step.step event h
    split_ifs <;> exact this
  · unfold listener_dispatch
    simp only []
    have := flush_follow_clean env.stack_env w.stack.step.step h
    split_ifs <;> exact this

theorem input_op_follow_clean (env : ListenerEnv) (w : InputWorld) (op : InputOp)
    (h : FollowClean w.stack) : FollowClean (InputOp.apply env w op).stack := by
  cases op with
  | event e => exact listener_follow_clean env w e h
  | cleanup =>
    unfold InputOp.apply
    split_ifs
    · exact h
    · exact flush_follow_clean env.stack_env w.stack h

theorem run_input_ops_follow_clean (env : ListenerEnv) (ops : List InputOp) :
    ∀ w : InputWorld, FollowClean w.stack → FollowClean (run_input_ops env w ops).stack := by
  induction ops with
  | nil => intro w h; exact h
  | cons op rest ih =>
    intro w h
    exact ih _ (input_op_follow_clean env w op h)

theorem initial_follow_clean (refs : Int) : FollowClean (InputWorld.initial refs).stack :=
  ⟨fun h => absurd rfl h, fun h => absurd rfl h⟩

/-- C11: in every state that the input reactions reach from a freshly created stack,
a run of `WindowStack_Input_Flush` with at least one pending slot, the stack lock
available and the layer context active hands to the window manager the pending X
event (if any) and then the pending Y event (if any). The dispatched X event
carries `DIEF_FOLLOW` exactly when a Y event is pending as well, the Y event does
not carry it, and afterwards both slots are empty and `motion_ts` is 0. -/
theorem flush_dispatches_pending (env : ListenerEnv) (refs : Int) (ops : List InputOp)
    (w : InputWorld) (hreach : run_input_ops env (InputWorld.initial refs) ops = w)
    (hpending : w.stack.motion_x.type ≠ 0 ∨ w.stack.motion_y.type ≠ 0)
    (hlock : env.stack_env.lock_fails w.stack.tick = false)
    (hactive : env.stack_env.context_active w.stack.step.tick = true) :
    (WindowStack_Input_Flush env.stack_env w.stack).dispatched =
      w.stack.dispatched ++
        (if w.stack.motion_x.type ≠ 0 then
          [{ w.stack.motion_x with
            flags := if w.stack.motion_y.type ≠ 0 then w.stack.motion_x.flags ||| DIEF_FOLLOW
              else w.stack.motion_x.flags }]
        else []) ++
        (if w.stack.motion_y.type ≠ 0 then [w.stack.motion_y] else []) ∧
    (w.stack.motion_x.type ≠ 0 →
      ((if w.stack.motion_y.type ≠ 0 then w.stack.motion_x.flags ||| DIEF_FOLLOW
          else w.stack.motion_x.flags) &&& DIEF_FOLLOW ≠ 0 ↔ w.stack.motion_y.type ≠ 0)) ∧
    (w.stack.motion_y.type ≠ 0 → w.stack.motion_y.flags &&& DIEF_FOLLOW = 0) ∧
    (WindowStack_Input_Flush env.stack_env w.stack).motion_x.type = DIET_UNKNOWN ∧
    (WindowStack_Input_Flush env.stack_env w.stack).motion_y.type = DIET_UNKNOWN ∧
    (WindowStack_Input_Flush env.stack_env w.stack).motion_ts = 0 := by
  have hclean : FollowClean w.stack := by
    rw [← hreach]
    exact run_input_ops_follow_clean env ops _ (initial_follow_clean refs)
  have hnot : ¬ (w.stack.motion_x.type = 0 ∧ w.stack.motion_y.type = 0) := by
    rintro ⟨hx, hy⟩
    rcases hpending with h | h
    · exact h hx
    · exact h hy
  refine ⟨?_, ?_, hclean.2, ?_, ?_, ?_⟩
  · rw [flush_dispatches env.stack_env w.stack hpending hlock hactive, List.append_assoc]
    congr 1
    unfold flush_events
    by_cases hx : w.stack.motion_x.type ≠ 0 <;> by_cases hy : w.stack.motion_y.type ≠ 0 <;>
      simp only [hx, hy, ne_eq, not_false_eq_true, not_true_eq_false, and_self, and_true,
        and_false, if_true, if_false]
  · intro hx
    by_cases hy : w.stack.motion_y.type ≠ 0
    · rw [if_pos hy, flag_set_and]
      exact ⟨fun _ => hy, fun _ => by decide⟩
    · rw [if_neg hy]
      exact ⟨fun h => absurd (hclean.1 hx) h, fun h => absurd h hy⟩
  · unfold WindowStack_Input_Flush
    rw [if_neg hnot, hlock]
    rfl
  · unfold WindowStack_Input_Flush
    rw [if_neg hnot, hlock]
    rfl
  · unfold WindowStack_Input_Flush
    rw [if_neg hnot, hlock]
    rfl

/-- C11, witness: after a relative X motion (+3) and a relative Y motion (-1) of device
1 reached the listener, the flush hands X with `DIEF_FOLLOW` and then Y to the
window manager and empties both slots. -/
theorem flush_dispatches_pending_witness :
    ((WindowStack_Input_Flush sample_stack_env
        (run_input_ops sample_listener_env (InputWorld.initial 1)
          [InputOp.event (sample_motion DIAI_X 3),
            InputOp.event (sample_motion DIAI_Y (-1))]).stack).dispatched =
      [{ sample_motion DIAI_X 3 with flags := DIEF_AXISREL ||| DIEF_FOLLOW },
        sample_motion DIAI_Y (-1)]) ∧
    ((WindowStack_Input_Flush sample_stack_env
        (run_input_ops sample_listener_env (InputWorld.initial 1)
          [InputOp.event (sample_motion DIAI_X 3),
            InputOp.event (sample_motion DIAI_Y (-1))]).stack).motion_x.type = DIET_UNKNOWN ∧
      (WindowStack_Input_Flush sample_stack_env
        (run_input_ops sample_listener_env (InputWorld.initial 1)
          [InputOp.event (sample_motion DIAI_X 3),
            InputOp.event (sample_motion DIAI_Y (-1))]).stack).motion_y.type = DIET_UNKNOWN ∧
      (WindowStack_Input_Flush sample_stack_env
        (run_input_ops sample_listener_env (InputWorld.initial 1)
          [InputOp.event (sample_motion DIAI_X 3),
            InputOp.event (sample_motion DIAI_Y (-1))]).stack).motion_ts = 0) :=
  ⟨by decide!,
    (flush_dispatches_pending sample_listener_env 1
      [InputOp.event (sample_motion DIAI_X 3), InputOp.event (sample_motion DIAI_Y (-1))]
      _ rfl (by decide!) (by decide!) (by decide!)).2.2.2⟩

/-! ## The flush before a new coalescing window (C12) -/

theorem pending_events_eq (stack : CoreWindowStack) : flush_events stack = pending_events stack := by
  unfold flush_events pending_events
  by_cases hx : stack.motion_x.type ≠ 0 <;> by_cases hy : stack.motion_y.type ≠ 0 <;>
    simp only [hx, hy, ne_eq, not_false_eq_true, not_true_eq_false, and_self, and_true,
      and_false, if_true, if_false]

theorem flush_effect (env : StackEnv) (stack : CoreWindowStack)
    (hpending : stack.motion_x.type ≠ 0 ∨ stack.motion_y.type ≠ 0)
    (hlock : env.lock_fails stack.tick = false)
    (hactive : env.context_active stack.step.tick = true) :
    (WindowStack_Input_Flush env stack).dispatched = stack.dispatched ++ pending_events stack ∧
    (WindowStack_Input_Flush env stack).motion_x.type = 0 ∧
    (WindowStack_Input_Flush env stack).motion_y.type = 0 ∧
    (WindowStack_Input_Flush env stack).motion_ts = 0 ∧
    (WindowStack_Input_Flush env stack).motion_cleanup = false ∧
    (WindowStack_Input_Flush env stack).tick = stack.tick + 2 := by
  have hnot : ¬ (stack.motion_x.type = 0 ∧ stack.motion_y.type = 0) := by
    rintro ⟨hx, hy⟩
    rcases hpending with h | h
    · exact h hx
    · exact h hy
  refine ⟨?_, ?_, ?_, ?_, ?_, ?_⟩
  · rw [flush_dispatches env stack hpending hlock hactive, pending_events_eq]
  all_goals
    unfold WindowStack_Input_Flush
    rw [if_neg hnot, hlock]
    simp only [Bool.false_eq_true, if_false, hactive, if_true]
    try rfl

/-- C12 (amended): let a motion on the X or Y axis arrive while some slot is pending and
the flush is due (a pending slot holds another device, or the arrival time minus
`motion_ts` exceeds 10000), with the stack lock available and the layer context
active. Then the pending events go to the window manager first (X, with
`DIEF_FOLLOW` when Y is pending too, then Y), and afterwards the slot of the
axis of the new event holds that event alone, with `DIEF_FOLLOW` cleared, the
other slot is empty and `motion_ts` is the arrival time. -/
theorem add_flushes_first (env : StackEnv) (stack : CoreWindowStack) (event : DFBInputEvent)
    (htype : event.type = DIET_AXISMOTION)
    (haxis : event.axis = DIAI_X ∨ event.axis = DIAI_Y)
    (hpending : stack.motion_x.type ≠ 0 ∨ stack.motion_y.type ≠ 0)
    (hdue : flush_due stack.step event (env.clock stack.tick))
    (hlock : env.lock_fails stack.step.tick = false)
    (hactive : env.context_active stack.step.step.tick = true) :
    (WindowStack_Input_Add env stack event).dispatched =
      stack.dispatched ++ pending_events stack ∧
    pending_slot (WindowStack_Input_Add env stack event) event.axis = stored_alone event ∧
    (in_int_range event.axisrel →
      pending_slot (WindowStack_Input_Add env stack event) event.axis =
        { event with flags := flagsWithout event.flags DIEF_FOLLOW }) ∧
    (event.axis = DIAI_X → (WindowStack_Input_Add env stack event).motion_y.type = DIET_UNKNOWN) ∧
    (event.axis = DIAI_Y → (WindowStack_Input_Add env stack event).motion_x.type = DIET_UNKNOWN) ∧
    (WindowStack_Input_Add env stack event).motion_ts = env.clock stack.tick := by
  obtain ⟨hd, hx, hy, hts, _, _⟩ := flush_effect env stack.step hpending hlock hactive
  have hslot : pending_slot (WindowStack_Input_Add env stack event) event.axis =
      stored_alone event := by
    unfold WindowStack_Input_Add stored_alone
    simp only []
    rw [if_pos hdue, if_pos hts, if_pos htype]
    unfold pending_slot WindowStack_Input_AddRelative WindowStack_Input_AddAbsolute coalesced
    rcases haxis with h | h
    · rw [if_pos h, if_pos h]
      by_cases habs : event.flags &&& DIEF_AXISABS ≠ 0
      · rw [if_pos habs, if_pos habs]
      · rw [if_neg habs, if_neg habs]
        simp only [hx, ne_eq, not_true_eq_false, if_false, add_zero]
    · have hne : ¬ event.axis = DIAI_X := by rw [h]; decide
      rw [if_neg hne, if_neg hne, if_pos h]
      by_cases habs : event.flags &&& DIEF_AXISABS ≠ 0
      · rw [if_pos habs, if_pos habs]
      · rw [if_neg habs, if_neg habs]
        simp only [hy, ne_eq, not_true_eq_false, if_false, add_zero]
  refine ⟨?_, hslot, ?_, ?_, ?_, ?_⟩
  · unfold WindowStack_Input_Add
    simp only []
    rw [if_pos hdue, if_pos hts]
    split_ifs <;> exact hd
  · intro hrange
    rw [hslot]
    unfold stored_alone coalesced
    split_ifs
    · rfl
    · rw [wrap_int32_of_range _ hrange]
  · intro h
    unfold WindowStack_Input_Add
    simp only []
    rw [if_pos hdue, if_pos hts, if_pos htype, if_pos h]
    split_ifs <;> exact hy
  · intro h
    have hne : ¬ event.axis = DIAI_X := by rw [h]; decide
    unfold WindowStack_Input_Add
    simp only []
    rw [if_pos hdue, if_pos hts, if_pos htype, if_neg hne, if_pos h]
    split_ifs <;> exact hx
  · unfold WindowStack_Input_Add
    simp only []
    rw [if_pos hdue, if_pos hts]
    split_ifs <;> rfl

/-- C12, witness (S4): device 1 sends X +3 and Y -1, then device 2 sends X +4, one
millisecond apart. The third arrival hands X(+3, `DIEF_FOLLOW`) and Y(-1) to the
window manager and leaves X(+4) of device 2 as the only pending event, with
`motion_ts` the third arrival time. -/
theorem add_flushes_first_witness :
    ((WindowStack_Input_Add sample_stack_env (stack_pending_pair sample_stack_env)
        motion_device_2).dispatched =
      [{ sample_motion DIAI_X 3 with flags := DIEF_AXISREL ||| DIEF_FOLLOW },
        sample_motion DIAI_Y (-1)] ∧
      (WindowStack_Input_Add sample_stack_env (stack_pending_pair sample_stack_env)
        motion_device_2).motion_x = motion_device_2 ∧
      sample_stack_env.clock (stack_pending_pair sample_stack_env).tick = 1002000) ∧
    (WindowStack_Input_Add sample_stack_env (stack_pending_pair sample_stack_env)
        motion_device_2).motion_y.type = DIET_UNKNOWN ∧
    (WindowStack_Input_Add sample_stack_env (stack_pending_pair sample_stack_env)
        motion_device_2).motion_ts =
      sample_stack_env.clock (stack_pending_pair sample_stack_env).tick :=
  ⟨by decide!,
    (add_flushes_first sample_stack_env (stack_pending_pair sample_stack_env) motion_device_2
      rfl (Or.inl rfl) (by decide!) (by decide!) rfl rfl).2.2.2.1 rfl,
    (add_flushes_first sample_stack_env (stack_pending_pair sample_stack_env) motion_device_2
      rfl (Or.inl rfl) (by decide!) (by decide!) rfl rfl).2.2.2.2.2⟩

/-- C12, counterexample to the claim as worded: the same three arrivals while
`dfb_windowstack_lock` fails. Both slots hold device 1 when X +4 of device 2
arrives, so the flush is due, but nothing reaches the window manager: the X slot
then holds the event of device 2 with `axisrel` 3 + 4, the Y slot still holds the
event of device 1 and `motion_ts` is still the first arrival time. -/
theorem add_without_lock_merges_devices :
    ((stack_pending_pair locked_stack_env).motion_x.type ≠ 0 ∧
      (stack_pending_pair locked_stack_env).motion_x.device_id ≠ motion_device_2.device_id ∧
      motion_device_2.type = DIET_AXISMOTION ∧ motion_device_2.axis = DIAI_X ∧
      locked_stack_env.clock (stack_pending_pair locked_stack_env).tick = 1002000) ∧
    (WindowStack_Input_Add locked_stack_env (stack_pending_pair locked_stack_env)
        motion_device_2).dispatched = [] ∧
    (WindowStack_Input_Add locked_stack_env (stack_pending_pair locked_stack_env)
        motion_device_2).motion_x = { motion_device_2 with axisrel := 7 } ∧
    (WindowStack_Input_Add locked_stack_env (stack_pending_pair locked_stack_env)
        motion_device_2).motion_y = sample_motion DIAI_Y (-1) ∧
    (WindowStack_Input_Add locked_stack_env (stack_pending_pair locked_stack_env)
        motion_device_2).motion_ts = 1000000 := by
  refine ⟨by decide!, by decide!, by decide!, by decide!, by decide!⟩

/-! ## The listener: flush before the dispatch of other events (C13) -/

/-- C13 (amended): let an event that is not a motion on the X or Y axis reach
`_dfb_windowstack_inputdevice_listener` while motion is pending, and let the
listener get its reference on the layer context (`dfb_layer_context_ref_stat`
succeeds with a count other than 0, `dfb_layer_context_ref` succeeds), the stack
lock be available and the context be active in the flush and in the dispatch.
Then the window manager receives the pending X event, then the pending Y event
and then the arriving event, both slots are empty afterwards, the listener
returns `RS_OK` and the reference count is what it was. -/
theorem listener_flushes_before_dispatch (env : ListenerEnv) (w : InputWorld)
    (event : DFBInputEvent)
    (hevent : ¬ (event.type = DIET_AXISMOTION ∧ (event.axis = DIAI_X ∨ event.axis = DIAI_Y)))
    (hpending : w.stack.motion_x.type ≠ 0 ∨ w.stack.motion_y.type ≠ 0)
    (hstat : env.ref_stat_fails w.stack.tick = false) (hrefs : w.context_refs ≠ 0)
    (href : env.ref_fails (w.stack.tick + 1) = false)
    (hlock1 : env.stack_env.lock_fails (w.stack.tick + 2) = false)
    (hactive1 : env.stack_env.context_active (w.stack.tick + 3) = true)
    (hlock2 : env.stack_env.lock_fails (w.stack.tick + 4) = false)
    (hactive2 : env.stack_env.context_active (w.stack.tick + 5) = true) :
    (dfb_windowstack_inputdevice_listener env w event).1 = RS_OK ∧
    (dfb_windowstack_inputdevice_listener env w event).2.stack.dispatched =
      w.stack.dispatched ++ pending_events w.stack ++ [event] ∧
    (dfb_windowstack_inputdevice_listener env w event).2.stack.motion_x.type = DIET_UNKNOWN ∧
    (dfb_windowstack_inputdevice_listener env w event).2.stack.motion_y.type = DIET_UNKNOWN ∧
    (dfb_windowstack_inputdevice_listener env w event).2.context_refs = w.context_refs := by
  obtain ⟨hd, hx, hy, _, hc, ht⟩ :=
    flush_effect env.stack_env w.stack.step.step hpending hlock1 hactive1
  have hl2 : env.stack_env.lock_fails
      (WindowStack_Input_Flush env.stack_env w.stack.step.step).tick = false := by
    rw [ht]; exact hlock2
  have ha2 : env.stack_env.context_active
      (WindowStack_Input_Flush env.stack_env w.stack.step.step).step.tick = true := by
    show env.stack_env.context_active
      ((WindowStack_Input_Flush env.stack_env w.stack.step.step).tick + 1) = true
    rw [ht]; exact hactive2
  have hno : ¬ (env.ref_stat_fails w.stack.tick = true ∨ w.context_refs = 0) := by
    rw [hstat]
    rintro (h | h)
    · exact absurd h (by decide)
    · exact hrefs h
  have href2 : env.ref_fails w.stack.step.tick = false := href
  unfold dfb_windowstack_inputdevice_listener
  simp only []
  rw [if_neg hno, href2]
  simp only [Bool.false_eq_true, if_false]
  rw [if_neg hevent]
  unfold listener_dispatch
  simp only []
  generalize WindowStack_Input_Flush env.stack_env w.stack.step.step = flushed at hd hx hy hc hl2 ha2
  rw [hl2, ha2]
  have hc2 : ¬ flushed.step.step.motion_cleanup = true := by
    show ¬ flushed.motion_cleanup = true
    rw [hc]; decide
  simp only [Bool.false_eq_true, if_false, if_true]
  rw [if_pos hc2]
  refine ⟨rfl, ?_, hx, hy, ?_⟩
  · show flushed.dispatched ++ [event] = _
    rw [hd]
    rfl
  · show w.context_refs + 1 - 1 = w.context_refs
    omega

/-- C13, witness: after X +3 and Y -1 of device 1 a key press arrives. The window
manager receives X (with `DIEF_FOLLOW`), then Y, then the key press, and both
slots are empty. -/
theorem listener_flushes_before_dispatch_witness :
    (pending_events (world_pending_pair sample_listener_env).stack =
      [{ sample_motion DIAI_X 3 with flags := DIEF_AXISREL ||| DIEF_FOLLOW },
        sample_motion DIAI_Y (-1)] ∧
      (world_pending_pair sample_listener_env).stack.dispatched = []) ∧
    ((dfb_windowstack_inputdevice_listener sample_listener_env
        (world_pending_pair sample_listener_env) (sample_key 30)).1 = RS_OK ∧
    (dfb_windowstack_inputdevice_listener sample_listener_env
        (world_pending_pair sample_listener_env) (sample_key 30)).2.stack.dispatched =
      (world_pending_pair sample_listener_env).stack.dispatched ++
        pending_events (world_pending_pair sample_listener_env).stack ++ [sample_key 30] ∧
    (dfb_windowstack_inputdevice_listener sample_listener_env
        (world_pending_pair sample_listener_env) (sample_key 30)).2.stack.motion_x.type =
      DIET_UNKNOWN ∧
    (dfb_windowstack_inputdevice_listener sample_listener_env
        (world_pending_pair sample_listener_env) (sample_key 30)).2.stack.motion_y.type =
      DIET_UNKNOWN ∧
    (dfb_windowstack_inputdevice_listener sample_listener_env
        (world_pending_pair sample_listener_env) (sample_key 30)).2.context_refs =
      (world_pending_pair sample_listener_env).context_refs) :=
  ⟨by decide!,
    listener_flushes_before_dispatch sample_listener_env (world_pending_pair sample_listener_env)
      (sample_key 30) (by decide) (by decide!) rfl (by decide!) rfl rfl rfl rfl rfl⟩

/-- C13, counterexample to the claim as worded: X +3 and Y -1 of device 1 are pending,
the stack lock is available and the context is active, but `dfb_layer_context_ref`
fails when the key press arrives. The listener returns `RS_REMOVE` at once: the
window manager receives nothing and both slots stay pending. -/
theorem listener_without_reference_keeps_pending :
    ((world_pending_pair unreferenced_env).stack.motion_x.type ≠ 0 ∧
      (world_pending_pair unreferenced_env).stack.motion_y.type ≠ 0 ∧
      (world_pending_pair unreferenced_env).stack.dispatched = [] ∧
      (world_pending_pair unreferenced_env).stack.tick = 7) ∧
    (∀ tick, unreferenced_env.stack_env.lock_fails tick = false ∧
      unreferenced_env.stack_env.context_active tick = true) ∧
    (dfb_windowstack_inputdevice_listener unreferenced_env
        (world_pending_pair unreferenced_env) (sample_key 30)).1 = RS_REMOVE ∧
    (dfb_windowstack_inputdevice_listener unreferenced_env
        (world_pending_pair unreferenced_env) (sample_key 30)).2.stack.dispatched = [] ∧
    (dfb_windowstack_inputdevice_listener unreferenced_env
        (world_pending_pair unreferenced_env) (sample_key 30)).2.stack.motion_x =
      sample_motion DIAI_X 3 ∧
    (dfb_windowstack_inputdevice_listener unreferenced_env
        (world_pending_pair unreferenced_env) (sample_key 30)).2.stack.motion_y =
      sample_motion DIAI_Y (-1) := by
  refine ⟨by decide!, fun _ => ⟨rfl, rfl⟩, by decide!, by decide!, by decide!, by decide!⟩

/-! ## The references of the layer context (C14) -/

theorem flush_cleanup_cleared (env : StackEnv) (stack : CoreWindowStack)
    (hlock : ∀ tick, env.lock_fails tick = false)
    (h : stack.motion_cleanup = true → motion_pending stack) :
    (WindowStack_Input_Flush env stack).motion_cleanup = false := by
  unfold WindowStack_Input_Flush
  by_cases h1 : stack.motion_x.type = 0 ∧ stack.motion_y.type = 0
  · rw [if_pos h1]
    cases hc : stack.motion_cleanup with
    | false => rfl
    | true =>
      rcases h hc with hx | hy
      · exact absurd h1.1 hx
      · exact absurd h1.2 hy
  · rw [if_neg h1, hlock]
    simp only [Bool.false_eq_true, if_false]

theorem add_pending (env : StackEnv) (stack : CoreWindowStack) (event : DFBInputEvent)
    (hevent : event.type = DIET_AXISMOTION ∧ (event.axis = DIAI_X ∨ event.axis = DIAI_Y)) :
    motion_pending (WindowStack_Input_Add env stack event) := by
  obtain ⟨htype, haxis⟩ := hevent
  have hne : event.type ≠ 0 := by rw [htype]; decide
  unfold WindowStack_Input_Add motion_pending
  simp only []
  rw [if_pos htype]
  rcases haxis with h | h
  · rw [if_pos h]
    left
    split_ifs <;> exact hne
  · have hx : ¬ event.axis = DIAI_X := by rw [h]; decide
    rw [if_neg hx, if_pos h]
    right
    split_ifs <;> exact hne

theorem listener_balanced (env : ListenerEnv) (refs : Int) (w : InputWorld)
    (event : DFBInputEvent) (hlock : ∀ tick, env.stack_env.lock_fails tick = false)
    (h : Balanced refs w) :
    Balanced refs (dfb_windowstack_inputdevice_listener env w event).2 := by
  obtain ⟨hrefs, hmc⟩ := h
  unfold dfb_windowstack_inputdevice_listener
  simp only []
  split_ifs with h1 h2 h3
  · exact ⟨hrefs, hmc⟩
  · exact ⟨hrefs, hmc⟩
  · have hp := add_pending env.stack_env w.stack.step.step event h3
    unfold listener_motion
    simp only []
    split_ifs
    · refine ⟨?_, fun _ => hp⟩
      show w.context_refs + 1 - 1 = refs + w.cleanups
      omega
    · refine ⟨?_, fun _ => hp⟩
      show w.context_refs + 1 - 1 = refs + w.cleanups
      omega
    · refine ⟨?_, fun _ => hp⟩
      show w.context_refs + 1 = refs + ((w.cleanups + 1 : Nat) : Int)
      push_cast
      omega
  · have hc := flush_cleanup_cleared env.stack_env w.stack.step.step hlock hmc
    unfold listener_dispatch
    simp only []
    rw [hlock]
    simp only [Bool.false_eq_true, if_false]
    generalize WindowStack_Input_Flush env.stack_env w.stack.step.step = flushed at hc
    have hc2 : ∀ d, (if env.stack_env.context_active flushed.step.tick = true then
        { flushed.step.step with dispatched := d } else flushed.step.step).motion_cleanup
          = false := by
      intro d
      split_ifs <;> exact hc
    rw [if_pos (by rw [hc2]; decide)]
    refine ⟨?_, ?_⟩
    · show w.context_refs + 1 - 1 = refs + w.cleanups
      omega
    · intro hm
      have : (if env.stack_env.context_active flushed.step.tick = true then
        { flushed.step.step with dispatched := flushed.step.step.dispatched ++ [event] }
          else flushed.step.step).motion_cleanup = true := hm
      rw [hc2] at this
      exact absurd this (by decide)

theorem input_op_balanced (env : ListenerEnv) (refs : Int) (w : InputWorld) (op : InputOp)
    (hlock : ∀ tick, env.stack_env.lock_fails tick = false) (h : Balanced refs w) :
    Balanced refs (InputOp.apply env w op) := by
  cases op with
  | event e => exact listener_balanced env refs w e hlock h
  | cleanup =>
    unfold InputOp.apply
    split_ifs with h0
    · exact h
    · have hc := flush_cleanup_cleared env.stack_env w.stack hlock h.2
      refine ⟨?_, ?_⟩
      · show w.context_refs - 1 = refs + ((w.cleanups - 1 : Nat) : Int)
        have := h.1
        omega
      · intro hm
        have : (WindowStack_Input_Flush env.stack_env w.stack).motion_cleanup = true := hm
        rw [hc] at this
        exact absurd this (by decide)

/-- While `dfb_windowstack_lock` never fails, the references of the layer context stay
accounted for over every sequence of input reactions: the count never drops
below the count at the start, and once every registered cleanup has run the count
is that of the start. -/
theorem context_refs_balanced_with_lock (env : ListenerEnv) (refs : Int)
    (hlock : ∀ tick, env.stack_env.lock_fails tick = false) (ops : List InputOp) :
    ∀ w : InputWorld, Balanced refs w →
      Balanced refs (run_input_ops env w ops) ∧
      refs ≤ (run_input_ops env w ops).context_refs ∧
      ((run_input_ops env w ops).cleanups = 0 → (run_input_ops env w ops).context_refs = refs) := by
  induction ops with
  | nil =>
    intro w h
    refine ⟨h, ?_, ?_⟩
    · have := h.1
      show refs ≤ w.context_refs
      omega
    · intro h0
      have h1 := h.1
      have h0 : w.cleanups = 0 := h0
      show w.context_refs = refs
      rw [h1, h0]
      simp
  | cons op rest ih =>
    intro w h
    exact ih _ (input_op_balanced env refs w op hlock h)

/-- C14, the code at the failing input: a relative X motion reaches the listener of a
fresh stack whose context has one reference, and its cleanup is registered with
one reference deferred to it. A key press follows; `dfb_windowstack_lock` fails
in the flush and succeeds in the dispatch, so the key press reaches the window
manager while `motion_cleanup` is still set, and the listener returns `RS_OK`
without releasing the reference that it took. After the one registered cleanup
has run, the count is 2, one more than at the start. Without the lock failure the
same sequence ends with the count 1. -/
theorem listener_leaks_reference :
    ((run_input_ops lock_once_env (InputWorld.initial 1)
        [InputOp.event (sample_motion DIAI_X 3)]).context_refs,
      (run_input_ops lock_once_env (InputWorld.initial 1)
        [InputOp.event (sample_motion DIAI_X 3)]).cleanups) = (2, 1) ∧
    (dfb_windowstack_inputdevice_listener lock_once_env
        (run_input_ops lock_once_env (InputWorld.initial 1)
          [InputOp.event (sample_motion DIAI_X 3)]) (sample_key 30)).1 = RS_OK ∧
    ((run_input_ops lock_once_env (InputWorld.initial 1)
        [InputOp.event (sample_motion DIAI_X 3), InputOp.event (sample_key 30)]).context_refs,
      (run_input_ops lock_once_env (InputWorld.initial 1)
        [InputOp.event (sample_motion DIAI_X 3), InputOp.event (sample_key 30)]).cleanups,
      (run_input_ops lock_once_env (InputWorld.initial 1)
        [InputOp.event (sample_motion DIAI_X 3),
          InputOp.event (sample_key 30)]).stack.dispatched) = (3, 1, [sample_key 30]) ∧
    ((run_input_ops lock_once_env (InputWorld.initial 1)
        [InputOp.event (sample_motion DIAI_X 3), InputOp.event (sample_key 30),
          InputOp.cleanup]).context_refs,
      (run_input_ops lock_once_env (InputWorld.initial 1)
        [InputOp.event (sample_motion DIAI_X 3), InputOp.event (sample_key 30),
          InputOp.cleanup]).cleanups,
      (run_input_ops lock_once_env (InputWorld.initial 1)
        [InputOp.event (sample_motion DIAI_X 3), InputOp.event (sample_key 30),
          InputOp.cleanup]).stack.dispatched) = (2, 0, [sample_key 30, sample_motion DIAI_X 3]) ∧
    ((run_input_ops sample_listener_env (InputWorld.initial 1)
        [InputOp.event (sample_motion DIAI_X 3), InputOp.event (sample_key 30),
          InputOp.cleanup]).context_refs,
      (run_input_ops sample_listener_env (InputWorld.initial 1)
        [InputOp.event (sample_motion DIAI_X 3), InputOp.event (sample_key 30),
          InputOp.cleanup]).cleanups) = (1, 0) := by
  refine ⟨by decide!, by decide!, by decide!, by decide!, by decide!⟩

/-! ## The event buffer: posting and reading (C15, C16) -/

theorem size_check (layout : EventLayout) (hl : layout.sane) (size : Nat)
    (hsize : size < 4294967296) :
    (size_t_of_int (wrap_int32 size) < layout.universal_size ∨
      size_t_of_int (wrap_int32 size) > layout.event_size) ↔
    (size < layout.universal_size ∨ size > layout.event_size) := by
  unfold EventLayout.sane at hl
  unfold size_t_of_int wrap_int32
  omega

theorem post_event_malformed (layout : EventLayout) (hl : layout.sane) (alloc_fails : Bool)
    (data : IDirectFBEventBuffer_data) (event : DFBEvent) (hsize : event.size < 4294967296)
    (h : malformed layout event) :
    IDirectFBEventBuffer_PostEvent layout alloc_fails data event = (DFB_INVARG, data) := by
  unfold IDirectFBEventBuffer_PostEvent
  simp only []
  rcases h with ⟨h1, h2, h3, h4, h5, h6⟩ | ⟨hu, hs⟩
  · have : ¬ (event.clazz = DFEC_INPUT ∨ event.clazz = DFEC_WINDOW ∨ event.clazz = DFEC_USER ∨
        event.clazz = DFEC_VIDEOPROVIDER ∨ event.clazz = DFEC_SURFACE) := by
      rintro (h | h | h | h | h) <;> contradiction
    rw [if_neg this, if_neg h6]
  · have : ¬ (event.clazz = DFEC_INPUT ∨ event.clazz = DFEC_WINDOW ∨ event.clazz = DFEC_USER ∨
        event.clazz = DFEC_VIDEOPROVIDER ∨ event.clazz = DFEC_SURFACE) := by
      rw [hu]; decide
    rw [if_neg this, if_pos hu]
    have hc := (size_check layout hl event.size hsize).mpr hs
    by_cases h1 : size_t_of_int (wrap_int32 event.size) < layout.universal_size
    · rw [if_pos h1]
    · rw [if_neg h1]
      have h2 : size_t_of_int (wrap_int32 event.size) > layout.event_size := by
        rcases hc with h | h
        · exact absurd h h1
        · exact h
      rw [if_pos h2]

theorem post_event_accepted (layout : EventLayout) (hl : layout.sane) (alloc_fails : Bool)
    (data : IDirectFBEventBuffer_data) (event : DFBEvent) (hsize : event.size < 4294967296)
    (h : ¬ malformed layout event) :
    IDirectFBEventBuffer_PostEvent layout alloc_fails data event =
      if alloc_fails then (D_OOM, data)
      else (DFB_OK, IDirectFBEventBuffer_AddItem data (copy_event layout default event)) := by
  unfold IDirectFBEventBuffer_PostEvent
  simp only []
  by_cases h1 : event.clazz = DFEC_INPUT ∨ event.clazz = DFEC_WINDOW ∨ event.clazz = DFEC_USER ∨
      event.clazz = DFEC_VIDEOPROVIDER ∨ event.clazz = DFEC_SURFACE
  · rw [if_pos h1]
  · rw [if_neg h1]
    by_cases hu : event.clazz = DFEC_UNIVERSAL
    · rw [if_pos hu]
      have hs : ¬ (event.size < layout.universal_size ∨ event.size > layout.event_size) :=
        fun hs => h (Or.inr ⟨hu, hs⟩)
      have hc := fun hc => hs ((size_check layout hl event.size hsize).mp hc)
      rw [if_neg (fun h => hc (Or.inl h)), if_neg (fun h => hc (Or.inr h))]
    · exfalso
      apply h
      left
      refine ⟨?_, ?_, ?_, ?_, ?_, hu⟩ <;> intro hc <;> apply h1
      · exact Or.inl hc
      · exact Or.inr (Or.inl hc)
      · exact Or.inr (Or.inr (Or.inl hc))
      · exact Or.inr (Or.inr (Or.inr (Or.inl hc)))
      · exact Or.inr (Or.inr (Or.inr (Or.inr hc)))

/-- C16: for sizes that fit the types of the code and an event whose size field is an
`unsigned int`, `IDirectFBEventBuffer_PostEvent` returns `DFB_INVARG` exactly
when the class is none of the six known ones, or the class is universal and the
size is below `sizeof(DFBUniversalEvent)` or above `sizeof(DFBEvent)`; it then
leaves the data of the buffer, queue and statistics included, as it was. Every
other event is accepted: with memory available the call returns `DFB_OK`,
otherwise the out of memory code. -/
theorem post_event_invarg_iff (layout : EventLayout) (alloc_fails : Bool)
    (data : IDirectFBEventBuffer_data) (event : DFBEvent)
    (hl : layout.sane) (hsize : event.size < 4294967296) :
    ((IDirectFBEventBuffer_PostEvent layout alloc_fails data event).1 = DFB_INVARG ↔
      malformed layout event) ∧
    (malformed layout event →
      (IDirectFBEventBuffer_PostEvent layout alloc_fails data event).2 = data) ∧
    (¬ malformed layout event → alloc_fails = false →
      (IDirectFBEventBuffer_PostEvent layout alloc_fails data event).1 = DFB_OK) ∧
    (¬ malformed layout event → alloc_fails = true →
      IDirectFBEventBuffer_PostEvent layout alloc_fails data event = (DFB_NOLOCALMEMORY, data)) := by
  refine ⟨⟨?_, ?_⟩, ?_, ?_, ?_⟩
  · intro h
    by_contra hm
    rw [post_event_accepted layout hl alloc_fails data event hsize hm] at h
    cases alloc_fails
    · exact DFBResult.noConfusion h
    · exact DFBResult.noConfusion h
  · intro hm
    rw [post_event_malformed layout hl alloc_fails data event hsize hm]
  · intro hm
    rw [post_event_malformed layout hl alloc_fails data event hsize hm]
  · intro hm ha
    rw [post_event_accepted layout hl alloc_fails data event hsize hm, ha]
    rfl
  · intro hm ha
    rw [post_event_accepted layout hl alloc_fails data event hsize hm, ha]
    rfl

/-- C16, witness: with the sample sizes a universal event of size 4 is rejected and
leaves a fresh buffer as it was, a universal event of size 8 and a key press are
accepted. -/
theorem post_event_invarg_iff_witness :
    (IDirectFBEventBuffer_PostEvent sample_layout false (IDirectFBEventBuffer_Construct none)
        (sample_universal_event 4 [])).1 = DFB_INVARG ∧
    ((IDirectFBEventBuffer_PostEvent sample_layout false (IDirectFBEventBuffer_Construct none)
        (sample_universal_event 4 [])).2.events = [] ∧
      (IDirectFBEventBuffer_PostEvent sample_layout false (IDirectFBEventBuffer_Construct none)
        (sample_universal_event 8 [])).1 = DFB_OK ∧
      (IDirectFBEventBuffer_PostEvent sample_layout false (IDirectFBEventBuffer_Construct none)
        (sample_input_event 30)).2.events = [sample_input_event 30]) :=
  ⟨(post_event_invarg_iff sample_layout false (IDirectFBEventBuffer_Construct none)
      (sample_universal_event 4 []) (by decide) (by decide)).1.mpr (by decide),
    by decide⟩

theorem add_item_unfiltered (data : IDirectFBEventBuffer_data) (item : DFBEvent)
    (hfilter : data.filter = none) :
    (IDirectFBEventBuffer_AddItem data item).events = data.events ++ [item] ∧
    (IDirectFBEventBuffer_AddItem data item).pipe = data.pipe ∧
    (IDirectFBEventBuffer_AddItem data item).filter = none := by
  obtain ⟨filter, events, pipe, stats, enabled⟩ := data
  have hf : filter = none := hfilter
  subst hf
  exact ⟨rfl, rfl, rfl⟩

theorem post_all_events (layout : EventLayout) (hl : layout.sane) (events : List DFBEvent) :
    ∀ data : IDirectFBEventBuffer_data, data.filter = none →
      (∀ e ∈ events, ¬ malformed layout e ∧ e.size < 4294967296) →
      (post_all layout data events).1 = events.map (fun _ => DFB_OK) ∧
      (post_all layout data events).2.events =
        data.events ++ events.map (copy_event layout default) ∧
      (post_all layout data events).2.pipe = data.pipe := by
  induction events with
  | nil =>
    intro data _ _
    simp [post_all]
  | cons e rest ih =>
    intro data hfilter hvalid
    have he := hvalid e (List.mem_cons_self _ _)
    have hpost := post_event_accepted layout hl false data e he.2 he.1
    simp only [Bool.false_eq_true, if_false] at hpost
    obtain ⟨hev, hpipe, hf⟩ := add_item_unfiltered data (copy_event layout default e) hfilter
    have hrest := ih (IDirectFBEventBuffer_AddItem data (copy_event layout default e)) hf
      (fun x hx => hvalid x (List.mem_cons_of_mem _ hx))
    unfold post_all
    simp only [hpost, List.map_cons]
    refine ⟨?_, ?_, ?_⟩
    · rw [hrest.1]
    · rw [hrest.2.1, hev, List.append_assoc]
      rfl
    · rw [hrest.2.2, hpipe]

theorem copy_event_member (layout : EventLayout) (dst event : DFBEvent)
    (h : known_class event.clazz = true) :
    copy_event layout dst (copy_event layout default event) = copy_event layout default event := by
  unfold copy_event
  by_cases hu : event.clazz = DFEC_UNIVERSAL
  · simp only [hu, if_true, List.take_take, min_self]
  · simp only [hu, if_false, h, if_true]

theorem known_class_of_valid (layout : EventLayout) (event : DFBEvent)
    (h : ¬ malformed layout event) : known_class event.clazz = true := by
  unfold known_class
  by_contra hk
  apply h
  left
  simp only [decide_eq_true_eq, not_or] at hk
  exact hk

theorem get_all_queue (layout : EventLayout) (items : List DFBEvent) :
    ∀ (data : IDirectFBEventBuffer_data) (ret_event : DFBEvent),
      data.pipe = false → data.events = items →
      (∀ item ∈ items, ∀ dst, copy_event layout dst item = item) →
      (get_all layout data ret_event items.length).1 = items.map (fun item => (DFB_OK, item)) ∧
      (get_all layout data ret_event items.length).2.2.events = [] ∧
      (get_all layout data ret_event items.length).2.2.pipe = false := by
  induction items with
  | nil =>
    intro data ret_event hpipe hev _
    exact ⟨rfl, hev, hpipe⟩
  | cons item rest ih =>
    intro data ret_event hpipe hev hcopy
    have hget : IDirectFBEventBuffer_GetEvent layout data ret_event =
        (DFB_OK, item, { data with
          stats := if data.stats_enabled then CollectEventStatistics data.stats item (-1)
            else data.stats,
          events := rest }) := by
      unfold IDirectFBEventBuffer_GetEvent
      rw [hpipe, hev]
      simp only [Bool.false_eq_true, if_false]
      rw [hcopy item (List.mem_cons_self _ _)]
    have hrest := ih { data with
          stats := if data.stats_enabled then CollectEventStatistics data.stats item (-1)
            else data.stats,
          events := rest } item hpipe rfl (fun x hx => hcopy x (List.mem_cons_of_mem _ hx))
    show (get_all layout data ret_event (rest.length + 1)).1 = _ ∧
      (get_all layout data ret_event (rest.length + 1)).2.2.events = [] ∧
      (get_all layout data ret_event (rest.length + 1)).2.2.pipe = false
    unfold get_all
    simp only [hget, List.map_cons]
    exact ⟨by rw [hrest.1], hrest.2.1, hrest.2.2⟩

/-- C15: let an event buffer be out of pipe mode, without a filter and with an empty
queue, and let events that `IDirectFBEventBuffer_PostEvent` accepts be posted one
after the other with memory available. Then every post returns `DFB_OK`, as
many successive `IDirectFBEventBuffer_GetEvent` calls return `DFB_OK` with the
events in the order of the posts (each as the member that its class selects,
which is the event itself unless it is universal), and the next call returns
`DFB_BUFFEREMPTY`. In every state `IDirectFBEventBuffer_PeekEvent` returns what
`IDirectFBEventBuffer_GetEvent` returns and leaves the data as it is. -/
theorem get_returns_posted_in_order (layout : EventLayout) (data : IDirectFBEventBuffer_data)
    (events : List DFBEvent) (ret_event : DFBEvent)
    (hl : layout.sane) (hpipe : data.pipe = false) (hfilter : data.filter = none)
    (hempty : data.events = [])
    (hvalid : ∀ e ∈ events, ¬ malformed layout e ∧ e.size < 4294967296) :
    (post_all layout data events).1 = events.map (fun _ => DFB_OK) ∧
    (get_all layout (post_all layout data events).2 ret_event events.length).1 =
      events.map (fun e => (DFB_OK, copy_event layout default e)) ∧
    (∀ e ∈ events, e.clazz ≠ DFEC_UNIVERSAL → copy_event layout default e = e) ∧
    (IDirectFBEventBuffer_GetEvent layout
        (get_all layout (post_all layout data events).2 ret_event events.length).2.2
        (get_all layout (post_all layout data events).2 ret_event events.length).2.1).1 =
      DFB_BUFFEREMPTY ∧
    (∀ (d : IDirectFBEventBuffer_data) (r : DFBEvent),
      (IDirectFBEventBuffer_PeekEvent layout d r).1 = (IDirectFBEventBuffer_GetEvent layout d r).1 ∧
      (IDirectFBEventBuffer_PeekEvent layout d r).2.1 =
        (IDirectFBEventBuffer_GetEvent layout d r).2.1 ∧
      (IDirectFBEventBuffer_PeekEvent layout d r).2.2 = d) := by
  obtain ⟨hres, hev, hp⟩ := post_all_events layout hl events data hfilter hvalid
  rw [hempty, List.nil_append] at hev
  rw [hpipe] at hp
  have hcopy : ∀ item ∈ events.map (copy_event layout default), ∀ dst,
      copy_event layout dst item = item := by
    intro item hitem dst
    obtain ⟨e, he, rfl⟩ := List.mem_map.mp hitem
    exact copy_event_member layout dst e (known_class_of_valid layout e (hvalid e he).1)
  have hget := get_all_queue layout (events.map (copy_event layout default))
    (post_all layout data events).2 ret_event hp hev hcopy
  rw [List.length_map] at hget
  refine ⟨hres, ?_, ?_, ?_, ?_⟩
  · rw [hget.1, List.map_map]
    rfl
  · intro e he hu
    unfold copy_event
    rw [if_neg hu, if_pos (known_class_of_valid layout e (hvalid e he).1)]
  · unfold IDirectFBEventBuffer_GetEvent
    rw [hget.2.2, hget.2.1]
    rfl
  · intro d r
    unfold IDirectFBEventBuffer_PeekEvent IDirectFBEventBuffer_GetEvent
    cases d.pipe
    · cases d.events <;> exact ⟨rfl, rfl, rfl⟩
    · exact ⟨rfl, rfl, rfl⟩

/-- C15, witness: a key press, a universal event of size 10 and another key press are
posted to a fresh buffer. Three `IDirectFBEventBuffer_GetEvent` calls return
them in this order and the fourth returns `DFB_BUFFEREMPTY`. -/
theorem get_returns_posted_in_order_witness :
    (get_all sample_layout
        (post_all sample_layout (IDirectFBEventBuffer_Construct none)
          [sample_input_event 30, sample_universal_event 10 [1, 2], sample_input_event 31]).2
        default 4).1 =
      [(DFB_OK, sample_input_event 30), (DFB_OK, sample_universal_event 10 [1, 2]),
        (DFB_OK, sample_input_event 31), (DFB_BUFFEREMPTY, sample_input_event 31)] ∧
    (get_all sample_layout
        (post_all sample_layout (IDirectFBEventBuffer_Construct none)
          [sample_input_event 30, sample_universal_event 10 [1, 2], sample_input_event 31]).2
        default 3).1 =
      [sample_input_event 30, sample_universal_event 10 [1, 2], sample_input_event 31].map
        (fun e => (DFB_OK, copy_event sample_layout default e)) :=
  ⟨by decide,
    (get_returns_posted_in_order sample_layout (IDirectFBEventBuffer_Construct none)
      [sample_input_event 30, sample_universal_event 10 [1, 2], sample_input_event 31] default
      (by decide) rfl rfl rfl (by decide)).2.1⟩

/-! ## The event buffer: statistics (C17) -/

theorem clip_axis_stable (c1 c2 p len : Int) (hc2 : in_int_range c2) :
    clip_axis_start c1 (clip_axis_start c1 p) = clip_axis_start c1 p ∧
    clip_axis_length c1 c2 (clip_axis_start c1 p) (clip_axis_length c1 c2 p len) =
      clip_axis_length c1 c2 p len := by
  unfold in_int_range at hc2
  unfold clip_axis_length clip_axis_start int_add int_sub wrap_int32 at *
  simp only [] at *
  split_ifs at * <;> omega

theorem clip_rectangle_axes (clip : DFBRegion) (rect : DFBRectangle) :
    dfb_clip_rectangle clip rect =
      if clip.x1 ≥ int_add rect.x rect.w ∨ clip.x2 < rect.x ∨
          clip.y1 ≥ int_add rect.y rect.h ∨ clip.y2 < rect.y then (false, rect)
      else (true, { x := clip_axis_start clip.x1 rect.x, y := clip_axis_start clip.y1 rect.y,
                    w := clip_axis_length clip.x1 clip.x2 rect.x rect.w,
                    h := clip_axis_length clip.y1 clip.y2 rect.y rect.h }) := by
  unfold dfb_clip_rectangle clip_axis_length clip_axis_start
  simp only []
  split_ifs <;> rfl

/-- C18: for every clip region (its fields being values of `int`) and every rectangle,
applying `dfb_clip_rectangle` with the same clip to its own result leaves the
rectangle as it is, so the second result equals the first; and an application
that returns false leaves the rectangle unchanged. -/
theorem clip_rectangle_idempotent (clip : DFBRegion) (rect : DFBRectangle)
    (hclip : clip.is_int) :
    (dfb_clip_rectangle clip (dfb_clip_rectangle clip rect).2).2 =
      (dfb_clip_rectangle clip rect).2 ∧
    ((dfb_clip_rectangle clip rect).1 = false → (dfb_clip_rectangle clip rect).2 = rect) := by
  obtain ⟨_, _, hx2, hy2⟩ := hclip
  constructor
  · rw [clip_rectangle_axes clip rect]
    by_cases h1 : clip.x1 ≥ int_add rect.x rect.w ∨ clip.x2 < rect.x ∨
        clip.y1 ≥ int_add rect.y rect.h ∨ clip.y2 < rect.y
    · rw [if_pos h1]
      show (dfb_clip_rectangle clip rect).2 = rect
      rw [clip_rectangle_axes clip rect, if_pos h1]
    · rw [if_neg h1]
      dsimp only
      rw [clip_rectangle_axes]
      dsimp only
      split_ifs with h2
      · rfl
      · have hx := clip_axis_stable clip.x1 clip.x2 rect.x rect.w hx2
        have hy := clip_axis_stable clip.y1 clip.y2 rect.y rect.h hy2
        show DFBRectangle.mk _ _ _ _ = DFBRectangle.mk _ _ _ _
        rw [hx.1, hx.2, hy.1, hy.2]
  · intro hfalse
    rw [clip_rectangle_axes clip rect] at hfalse ⊢
    split_ifs at hfalse ⊢ with h1
    rfl

/-- C18, witness: the rectangle at (-5, 3) of size 40 x 4 is clipped by the region from
(0, 0) to (10, 10) to the rectangle at (0, 3) of size 11 x 4, and clipping that
again returns it unchanged. -/
theorem clip_rectangle_idempotent_witness :
    (dfb_clip_rectangle sample_clip { x := -5, y := 3, w := 40, h := 4 } =
        (true, { x := 0, y := 3, w := 11, h := 4 }) ∧
      dfb_clip_rectangle sample_clip { x := 0, y := 3, w := 11, h := 4 } =
        (true, { x := 0, y := 3, w := 11, h := 4 })) ∧
    (dfb_clip_rectangle sample_clip
        (dfb_clip_rectangle sample_clip { x := -5, y := 3, w := 40, h := 4 }).2).2 =
      (dfb_clip_rectangle sample_clip { x := -5, y := 3, w := 40, h := 4 }).2 :=
  ⟨by decide, (clip_rectangle_idempotent sample_clip { x := -5, y := 3, w := 40, h := 4 }
    (by decide)).1⟩

/-! ## Line clipping (C19) -/

theorem region_code_bits (x y cx1 cx2 cy1 cy2 : Int) :
    (REGION_CODE x y cx1 cx2 cy1 cy2 &&& 8 ≠ 0 ↔ y > cy2) ∧
    (REGION_CODE x y cx1 cx2 cy1 cy2 &&& 4 ≠ 0 ↔ y < cy1) ∧
    (REGION_CODE x y cx1 cx2 cy1 cy2 &&& 2 ≠ 0 ↔ x > cx2) ∧
    (REGION_CODE x y cx1 cx2 cy1 cy2 &&& 1 ≠ 0 ↔ x < cx1) ∧
    (REGION_CODE x y cx1 cx2 cy1 cy2 = 0 ↔ ¬ y > cy2 ∧ ¬ y < cy1 ∧ ¬ x > cx2 ∧ ¬ x < cx1) := by
  unfold REGION_CODE
  by_cases h8 : y > cy2 <;> by_cases h4 : y < cy1 <;> by_cases h2 : x > cx2 <;>
    by_cases h1 : x < cx1 <;>
    simp only [h8, h4, h2, h1, if_true, if_false, not_true_eq_false, not_false_eq_true,
      and_self, and_true, and_false, true_and, false_and, iff_true, iff_false] <;> decide

theorem region_codes_share (x1 y1 x2 y2 cx1 cx2 cy1 cy2 : Int) :
    REGION_CODE x1 y1 cx1 cx2 cy1 cy2 &&& REGION_CODE x2 y2 cx1 cx2 cy1 cy2 ≠ 0 ↔
      (x1 < cx1 ∧ x2 < cx1) ∨ (x1 > cx2 ∧ x2 > cx2) ∨ (y1 < cy1 ∧ y2 < cy1) ∨
        (y1 > cy2 ∧ y2 > cy2) := by
  unfold REGION_CODE
  by_cases h8 : y1 > cy2 <;> by_cases h4 : y1 < cy1 <;> by_cases h2 : x1 > cx2 <;>
    by_cases h1 : x1 < cx1 <;> by_cases g8 : y2 > cy2 <;> by_cases g4 : y2 < cy1 <;>
    by_cases g2 : x2 > cx2 <;> by_cases g1 : x2 < cx1 <;>
    simp only [h8, h4, h2, h1, g8, g4, g2, g1, if_true, if_false, and_self, and_true, and_false,
      true_and, false_and, or_self, or_true, or_false, true_or, false_or, iff_true, iff_false] <;>
    decide

theorem tdiv_between_pos (dx k d : Int) (hd : 0 < d) (hk0 : 0 ≤ k) (hkd : k ≤ d) :
    (0 ≤ dx → 0 ≤ Int.tdiv (dx * k) d ∧ Int.tdiv (dx * k) d ≤ dx) ∧
    (dx ≤ 0 → dx ≤ Int.tdiv (dx * k) d ∧ Int.tdiv (dx * k) d ≤ 0) := by
  constructor
  · intro hdx
    have hnum : 0 ≤ dx * k := Int.mul_nonneg hdx hk0
    rw [Int.tdiv_eq_ediv hnum (le_of_lt hd)]
    refine ⟨Int.ediv_nonneg hnum (le_of_lt hd), ?_⟩
    apply Int.ediv_le_of_le_mul hd
    exact Int.mul_le_mul_of_nonneg_left hkd hdx
  · intro hdx
    have hneg : dx * k = -((-dx) * k) := by ring
    have hdx2 : 0 ≤ -dx := by omega
    have hnum : 0 ≤ (-dx) * k := Int.mul_nonneg hdx2 hk0
    rw [hneg, Int.neg_tdiv, Int.tdiv_eq_ediv hnum (le_of_lt hd)]
    have h1 : 0 ≤ (-dx) * k / d := Int.ediv_nonneg hnum (le_of_lt hd)
    have h2 : (-dx) * k / d ≤ -dx := by
      apply Int.ediv_le_of_le_mul hd
      exact Int.mul_le_mul_of_nonneg_left hkd hdx2
    constructor <;> omega

theorem tdiv_between (dx k d : Int) (hd : d ≠ 0)
    (hk : (0 ≤ k ∧ k ≤ d) ∨ (d ≤ k ∧ k ≤ 0)) :
    (0 ≤ dx → 0 ≤ Int.tdiv (dx * k) d ∧ Int.tdiv (dx * k) d ≤ dx) ∧
    (dx ≤ 0 → dx ≤ Int.tdiv (dx * k) d ∧ Int.tdiv (dx * k) d ≤ 0) := by
  rcases hk with ⟨hk0, hkd⟩ | ⟨hkd, hk0⟩
  · have hpos : 0 < d := by omega
    exact tdiv_between_pos dx k d hpos hk0 hkd
  · have hpos : 0 < -d := by omega
    have h := tdiv_between_pos dx (-k) (-d) hpos (by omega) (by omega)
    have heq : Int.tdiv (dx * -k) (-d) = Int.tdiv (dx * k) d := by
      rw [Int.tdiv_neg, Int.mul_neg, Int.neg_tdiv, neg_neg]
    rw [heq] at h
    exact h

theorem wrap_int32_small (v : Int) (h : -2147483648 ≤ v ∧ v < 2147483648) :
    wrap_int32 v = v := by
  unfold wrap_int32
  omega

theorem product_small (a b : Int) (ha : -32768 ≤ a ∧ a ≤ 32768) (hb : -32768 ≤ b ∧ b ≤ 32768) :
    -1073741824 ≤ a * b ∧ a * b ≤ 1073741824 := by
  constructor
  · nlinarith [mul_nonneg (sub_nonneg.mpr ha.2) (sub_nonneg.mpr hb.2),
      mul_nonneg (show (0:Int) ≤ a + 32768 by omega) (show (0:Int) ≤ b + 32768 by omega)]
  · nlinarith [mul_nonneg (sub_nonneg.mpr ha.2) (show (0:Int) ≤ b + 32768 by omega),
      mul_nonneg (show (0:Int) ≤ a + 32768 by omega) (sub_nonneg.mpr hb.2)]

/-- The interpolation of `dfb_clip_line` for small coordinates: when `c` lies between
`q1` and `q2`, which differ, the result exists, is computed without overflow and
lies between `p1` and `p2`. -/
theorem interpolate_small (p1 p2 q1 q2 c : Int)
    (hp1 : small_coordinate p1) (hp2 : small_coordinate p2)
    (hq1 : small_coordinate q1) (hq2 : small_coordinate q2)
    (hc : (q1 ≤ c ∧ c ≤ q2) ∨ (q2 ≤ c ∧ c ≤ q1)) (hne : q1 ≠ q2) :
    ∃ v, (int_div (int_mul (int_sub p2 p1) (int_sub c q1)) (int_sub q2 q1)).map
        (fun q => int_add p1 q) = some v ∧
      ((p1 ≤ v ∧ v ≤ p2) ∨ (p2 ≤ v ∧ v ≤ p1)) ∧ small_coordinate v := by
  unfold small_coordinate at *
  have hdx : int_sub p2 p1 = p2 - p1 := wrap_int32_small _ (by omega)
  have hk : int_sub c q1 = c - q1 := wrap_int32_small _ (by omega)
  have hd : int_sub q2 q1 = q2 - q1 := wrap_int32_small _ (by omega)
  have hprod := product_small (p2 - p1) (c - q1) (by omega) (by omega)
  have hmul : int_mul (int_sub p2 p1) (int_sub c q1) = (p2 - p1) * (c - q1) := by
    rw [hdx, hk]
    exact wrap_int32_small _ (by omega)
  have hd0 : q2 - q1 ≠ 0 := by omega
  have hbetween := tdiv_between (p2 - p1) (c - q1) (q2 - q1) hd0 (by omega)
  have hq : -32768 ≤ Int.tdiv ((p2 - p1) * (c - q1)) (q2 - q1) ∧
      Int.tdiv ((p2 - p1) * (c - q1)) (q2 - q1) ≤ 32768 := by
    rcases le_total 0 (p2 - p1) with h | h
    · have := hbetween.1 h
      omega
    · have := hbetween.2 h
      omega
  refine ⟨p1 + Int.tdiv ((p2 - p1) * (c - q1)) (q2 - q1), ?_, ?_, ?_⟩
  · rw [hmul, hd]
    unfold int_div
    rw [if_neg hd0]
    simp only [Option.map_some']
    rw [wrap_int32_small _ (by omega)]
    unfold int_add
    rcases le_total 0 (p2 - p1) with h | h
    · have := hbetween.1 h
      rw [wrap_int32_small _ (by omega)]
    · have := hbetween.2 h
      rw [wrap_int32_small _ (by omega)]
  · rcases le_total 0 (p2 - p1) with h | h
    · have := hbetween.1 h
      left; omega
    · have := hbetween.2 h
      right; omega
  · rcases le_total 0 (p2 - p1) with h | h
    · have := hbetween.1 h
      omega
    · have := hbetween.2 h
      omega

theorem divide_first_progress (clip line : DFBRegion) (hv : clip.valid) (hcs : clip.small)
    (hls : line.small)
    (hc1 : REGION_CODE line.x1 line.y1 clip.x1 clip.x2 clip.y1 clip.y2 ≠ 0)
    (hshare : ¬ beyond_common_edge clip line) :
    ∃ line', divide_first clip line
        (REGION_CODE line.x1 line.y1 clip.x1 clip.x2 clip.y1 clip.y2) = some line' ∧
      line'.x2 = line.x2 ∧ line'.y2 = line.y2 ∧ line'.small ∧
      (beyond_common_edge clip line' ∨
        outside_count clip line'.x1 line'.y1 < outside_count clip line.x1 line.y1) := by
  obtain ⟨b8, b4, b2, b1, b0⟩ := region_code_bits line.x1 line.y1 clip.x1 clip.x2 clip.y1 clip.y2
  obtain ⟨hx1, hy1, hx2, hy2⟩ := hls
  obtain ⟨hcx1, hcy1, hcx2, hcy2⟩ := hcs
  obtain ⟨hvx, hvy⟩ := hv
  unfold beyond_common_edge at hshare
  unfold divide_first
  by_cases h8 : line.y1 > clip.y2
  · rw [if_pos (b8.mpr h8)]
    obtain ⟨v, hv1, hv2, hv3⟩ := interpolate_small line.x1 line.x2 line.y1 line.y2 clip.y2
      hx1 hx2 hy1 hy2 (by omega) (by omega)
    refine ⟨{ line with x1 := v, y1 := clip.y2 }, ?_, rfl, rfl, ⟨hv3, hcy2, hx2, hy2⟩, ?_⟩
    · unfold line_x_at
      rw [hv1]
      rfl
    · unfold beyond_common_edge outside_count
      dsimp only
      split_ifs <;> omega
  · rw [if_neg (fun h => h8 (b8.mp h))]
    by_cases h4 : line.y1 < clip.y1
    · rw [if_pos (b4.mpr h4)]
      obtain ⟨v, hv1, hv2, hv3⟩ := interpolate_small line.x1 line.x2 line.y1 line.y2 clip.y1
        hx1 hx2 hy1 hy2 (by omega) (by omega)
      refine ⟨{ line with x1 := v, y1 := clip.y1 }, ?_, rfl, rfl, ⟨hv3, hcy1, hx2, hy2⟩, ?_⟩
      · unfold line_x_at
        rw [hv1]
        rfl
      · unfold beyond_common_edge outside_count
        dsimp only
        split_ifs <;> omega
    · rw [if_neg (fun h => h4 (b4.mp h))]
      by_cases h2 : line.x1 > clip.x2
      · rw [if_pos (b2.mpr h2)]
        obtain ⟨v, hv1, hv2, hv3⟩ := interpolate_small line.y1 line.y2 line.x1 line.x2 clip.x2
          hy1 hy2 hx1 hx2 (by omega) (by omega)
        refine ⟨{ line with y1 := v, x1 := clip.x2 }, ?_, rfl, rfl, ⟨hcx2, hv3, hx2, hy2⟩, ?_⟩
        · unfold line_y_at
          rw [hv1]
          rfl
        · unfold beyond_common_edge outside_count
          dsimp only
          split_ifs <;> omega
      · rw [if_neg (fun h => h2 (b2.mp h))]
        have h1 : line.x1 < clip.x1 := by
          by_contra h1
          exact hc1 (b0.mpr ⟨h8, h4, h2, h1⟩)
        rw [if_pos (b1.mpr h1)]
        obtain ⟨v, hv1, hv2, hv3⟩ := interpolate_small line.y1 line.y2 line.x1 line.x2 clip.x1
          hy1 hy2 hx1 hx2 (by omega) (by omega)
        refine ⟨{ line with y1 := v, x1 := clip.x1 }, ?_, rfl, rfl, ⟨hcx1, hv3, hx2, hy2⟩, ?_⟩
        · unfold line_y_at
          rw [hv1]
          rfl
        · unfold beyond_common_edge outside_count
          dsimp only
          split_ifs <;> omega

theorem divide_second_progress (clip line : DFBRegion) (hv : clip.valid) (hcs : clip.small)
    (hls : line.small)
    (hc1 : REGION_CODE line.x1 line.y1 clip.x1 clip.x2 clip.y1 clip.y2 = 0)
    (hc2 : REGION_CODE line.x2 line.y2 clip.x1 clip.x2 clip.y1 clip.y2 ≠ 0) :
    ∃ line', divide_second clip line
        (REGION_CODE line.x2 line.y2 clip.x1 clip.x2 clip.y1 clip.y2) = some line' ∧
      line'.x1 = line.x1 ∧ line'.y1 = line.y1 ∧ line'.small ∧
      outside_count clip line'.x2 line'.y2 < outside_count clip line.x2 line.y2 := by
  obtain ⟨b8, b4, b2, b1, b0⟩ := region_code_bits line.x2 line.y2 clip.x1 clip.x2 clip.y1 clip.y2
  obtain ⟨_, _, _, _, a0⟩ := region_code_bits line.x1 line.y1 clip.x1 clip.x2 clip.y1 clip.y2
  obtain ⟨i8, i4, i2, i1⟩ := a0.mp hc1
  obtain ⟨hx1, hy1, hx2, hy2⟩ := hls
  obtain ⟨hcx1, hcy1, hcx2, hcy2⟩ := hcs
  obtain ⟨hvx, hvy⟩ := hv
  unfold divide_second
  by_cases h8 : line.y2 > clip.y2
  · rw [if_pos (b8.mpr h8)]
    obtain ⟨v, hv1, hv2, hv3⟩ := interpolate_small line.x1 line.x2 line.y1 line.y2 clip.y2
      hx1 hx2 hy1 hy2 (by omega) (by omega)
    refine ⟨{ line with x2 := v, y2 := clip.y2 }, ?_, rfl, rfl, ⟨hx1, hy1, hv3, hcy2⟩, ?_⟩
    · unfold line_x_at
      rw [hv1]
      rfl
    · unfold outside_count
      dsimp only
      split_ifs <;> omega
  · rw [if_neg (fun h => h8 (b8.mp h))]
    by_cases h4 : line.y2 < clip.y1
    · rw [if_pos (b4.mpr h4)]
      obtain ⟨v, hv1, hv2, hv3⟩ := interpolate_small line.x1 line.x2 line.y1 line.y2 clip.y1
        hx1 hx2 hy1 hy2 (by omega) (by omega)
      refine ⟨{ line with x2 := v, y2 := clip.y1 }, ?_, rfl, rfl, ⟨hx1, hy1, hv3, hcy1⟩, ?_⟩
      · unfold line_x_at
        rw [hv1]
        rfl
      · unfold outside_count
        dsimp only
        split_ifs <;> omega
    · rw [if_neg (fun h => h4 (b4.mp h))]
      by_cases h2 : line.x2 > clip.x2
      · rw [if_pos (b2.mpr h2)]
        obtain ⟨v, hv1, hv2, hv3⟩ := interpolate_small line.y1 line.y2 line.x1 line.x2 clip.x2
          hy1 hy2 hx1 hx2 (by omega) (by omega)
        refine ⟨{ line with y2 := v, x2 := clip.x2 }, ?_, rfl, rfl, ⟨hx1, hy1, hcx2, hv3⟩, ?_⟩
        · unfold line_y_at
          rw [hv1]
          rfl
        · unfold outside_count
          dsimp only
          split_ifs <;> omega
      · rw [if_neg (fun h => h2 (b2.mp h))]
        have h1 : line.x2 < clip.x1 := by
          by_contra h1
          exact hc2 (b0.mpr ⟨h8, h4, h2, h1⟩)
        rw [if_pos (b1.mpr h1)]
        obtain ⟨v, hv1, hv2, hv3⟩ := interpolate_small line.y1 line.y2 line.x1 line.x2 clip.x1
          hy1 hy2 hx1 hx2 (by omega) (by omega)
        refine ⟨{ line with y2 := v, x2 := clip.x1 }, ?_, rfl, rfl, ⟨hx1, hy1, hcx1, hv3⟩, ?_⟩
        · unfold line_y_at
          rw [hv1]
          rfl
        · unfold outside_count
          dsimp only
          split_ifs <;> omega

theorem region_code_zero_iff (clip : DFBRegion) (x y : Int) :
    REGION_CODE x y clip.x1 clip.x2 clip.y1 clip.y2 = 0 ↔ outside_count clip x y = 0 := by
  rw [(region_code_bits x y clip.x1 clip.x2 clip.y1 clip.y2).2.2.2.2]
  unfold outside_count
  constructor
  · intro h
    split_ifs <;> omega
  · intro h
    split_ifs at h <;> omega

theorem lor_eq_zero (a b : Nat) (h : a ||| b = 0) : a = 0 ∧ b = 0 := by
  constructor <;> apply Nat.eq_of_testBit_eq <;> intro i
  · have := congrArg (fun n => Nat.testBit n i) h
    simp only [Nat.testBit_lor, Nat.zero_testBit, Bool.or_eq_false_iff] at this
    rw [this.1, Nat.zero_testBit]
  · have := congrArg (fun n => Nat.testBit n i) h
    simp only [Nat.testBit_lor, Nat.zero_testBit, Bool.or_eq_false_iff] at this
    rw [this.2, Nat.zero_testBit]

theorem clip_line_loop_rejects (clip : DFBRegion) (fuel : Nat) (line : DFBRegion)
    (h : beyond_common_edge clip line) :
    clip_line_loop clip fuel line
        (REGION_CODE line.x1 line.y1 clip.x1 clip.x2 clip.y1 clip.y2)
        (REGION_CODE line.x2 line.y2 clip.x1 clip.x2 clip.y1 clip.y2) = some (false, line) := by
  have hshare := (region_codes_share line.x1 line.y1 line.x2 line.y2 clip.x1 clip.x2 clip.y1
    clip.y2).mpr h
  have hor : ¬ (REGION_CODE line.x1 line.y1 clip.x1 clip.x2 clip.y1 clip.y2 |||
      REGION_CODE line.x2 line.y2 clip.x1 clip.x2 clip.y1 clip.y2 = 0) := by
    intro hz
    apply hshare
    rw [(lor_eq_zero _ _ hz).1]
    exact Nat.zero_and _
  unfold clip_line_loop
  rw [if_neg hor, if_pos hshare]

theorem clip_line_loop_returns (clip : DFBRegion) (hv : clip.valid) (hcs : clip.small) :
    ∀ (fuel : Nat) (line : DFBRegion), line.small →
      outside_count clip line.x1 line.y1 + outside_count clip line.x2 line.y2 ≤ fuel →
      ∃ result, clip_line_loop clip fuel line
        (REGION_CODE line.x1 line.y1 clip.x1 clip.x2 clip.y1 clip.y2)
        (REGION_CODE line.x2 line.y2 clip.x1 clip.x2 clip.y1 clip.y2) = some result := by
  intro fuel
  induction fuel with
  | zero =>
    intro line _ hm
    have h1 : outside_count clip line.x1 line.y1 = 0 := by omega
    have h2 : outside_count clip line.x2 line.y2 = 0 := by omega
    refine ⟨(true, line), ?_⟩
    unfold clip_line_loop
    rw [(region_code_zero_iff clip _ _).mpr h1, (region_code_zero_iff clip _ _).mpr h2]
    rfl
  | succ n ih =>
    intro line hls hm
    by_cases hshare : beyond_common_edge clip line
    · exact ⟨_, clip_line_loop_rejects clip _ line hshare⟩
    · have hns : ¬ (REGION_CODE line.x1 line.y1 clip.x1 clip.x2 clip.y1 clip.y2 &&&
          REGION_CODE line.x2 line.y2 clip.x1 clip.x2 clip.y1 clip.y2 ≠ 0) :=
        fun h => hshare ((region_codes_share _ _ _ _ _ _ _ _).mp h)
      unfold clip_line_loop
      by_cases hz : REGION_CODE line.x1 line.y1 clip.x1 clip.x2 clip.y1 clip.y2 |||
          REGION_CODE line.x2 line.y2 clip.x1 clip.x2 clip.y1 clip.y2 = 0
      · rw [if_pos hz]
        exact ⟨_, rfl⟩
      · rw [if_neg hz, if_neg hns]
        dsimp only
        by_cases hc1 : REGION_CODE line.x1 line.y1 clip.x1 clip.x2 clip.y1 clip.y2 ≠ 0
        · rw [if_pos hc1]
          obtain ⟨line', hd, hx2, hy2, hsmall, hprog⟩ :=
            divide_first_progress clip line hv hcs hls hc1 hshare
          rw [hd]
          dsimp only
          rw [← hx2, ← hy2]
          rcases hprog with hdone | hless
          · exact ⟨_, clip_line_loop_rejects clip _ line' hdone⟩
          · apply ih line' hsmall
            rw [hx2, hy2]
            omega
        · rw [if_neg hc1]
          have hc1z : REGION_CODE line.x1 line.y1 clip.x1 clip.x2 clip.y1 clip.y2 = 0 := by
            by_contra h
            exact hc1 h
          have hc2 : REGION_CODE line.x2 line.y2 clip.x1 clip.x2 clip.y1 clip.y2 ≠ 0 := by
            intro h
            apply hz
            rw [hc1z, h]
            rfl
          obtain ⟨line', hd, hx1, hy1, hsmall, hless⟩ :=
            divide_second_progress clip line hv hcs hls hc1z hc2
          rw [hd]
          dsimp only
          rw [← hx1, ← hy1]
          apply ih line' hsmall
          rw [hx1, hy1]
          omega

theorem outside_count_le (clip : DFBRegion) (x y : Int) : outside_count clip x y ≤ 2 := by
  unfold outside_count
  split_ifs <;> omega

/-- For a valid clip region and small coordinates `dfb_clip_line` returns after at most
four divisions. -/
theorem clip_line_returns (clip line : DFBRegion) (fuel : Nat) (hv : clip.valid)
    (hcs : clip.small) (hls : line.small) (hfuel : 4 ≤ fuel) :
    ∃ result, dfb_clip_line fuel clip line = some result := by
  unfold dfb_clip_line
  apply clip_line_loop_returns clip hv hcs fuel line hls
  have h1 := outside_count_le clip line.x1 line.y1
  have h2 := outside_count_le clip line.x2 line.y2
  omega

theorem divide_first_keeps_second (clip line line' : DFBRegion) (code : Nat)
    (h : divide_first clip line code = some line') :
    line'.x2 = line.x2 ∧ line'.y2 = line.y2 := by
  unfold divide_first at h
  split_ifs at h
  · cases hx : line_x_at line clip.y2 <;> rw [hx] at h <;> simp at h
    rw [← h]; exact ⟨rfl, rfl⟩
  · cases hx : line_x_at line clip.y1 <;> rw [hx] at h <;> simp at h
    rw [← h]; exact ⟨rfl, rfl⟩
  · cases hx : line_y_at line clip.x2 <;> rw [hx] at h <;> simp at h
    rw [← h]; exact ⟨rfl, rfl⟩
  · cases hx : line_y_at line clip.x1 <;> rw [hx] at h <;> simp at h
    rw [← h]; exact ⟨rfl, rfl⟩
  · simp at h
    rw [← h]; exact ⟨rfl, rfl⟩

theorem divide_second_keeps_first (clip line line' : DFBRegion) (code : Nat)
    (h : divide_second clip line code = some line') :
    line'.x1 = line.x1 ∧ line'.y1 = line.y1 := by
  unfold divide_second at h
  split_ifs at h
  · cases hx : line_x_at line clip.y2 <;> rw [hx] at h <;> simp at h
    rw [← h]; exact ⟨rfl, rfl⟩
  · cases hx : line_x_at line clip.y1 <;> rw [hx] at h <;> simp at h
    rw [← h]; exact ⟨rfl, rfl⟩
  · cases hx : line_y_at line clip.x2 <;> rw [hx] at h <;> simp at h
    rw [← h]; exact ⟨rfl, rfl⟩
  · cases hx : line_y_at line clip.x1 <;> rw [hx] at h <;> simp at h
    rw [← h]; exact ⟨rfl, rfl⟩
  · simp at h
    rw [← h]; exact ⟨rfl, rfl⟩

theorem point_inside_of_code (clip : DFBRegion) (x y : Int)
    (h : REGION_CODE x y clip.x1 clip.x2 clip.y1 clip.y2 = 0) : point_inside clip x y := by
  have := (region_code_bits x y clip.x1 clip.x2 clip.y1 clip.y2).2.2.2.2.mp h
  unfold point_inside
  omega

theorem clip_line_loop_visible (clip : DFBRegion) :
    ∀ (fuel : Nat) (line line' : DFBRegion),
      clip_line_loop clip fuel line
        (REGION_CODE line.x1 line.y1 clip.x1 clip.x2 clip.y1 clip.y2)
        (REGION_CODE line.x2 line.y2 clip.x1 clip.x2 clip.y1 clip.y2) = some (true, line') →
      point_inside clip line'.x1 line'.y1 ∧ point_inside clip line'.x2 line'.y2 := by
  intro fuel
  induction fuel with
  | zero =>
    intro line line' h
    unfold clip_line_loop at h
    by_cases hz : REGION_CODE line.x1 line.y1 clip.x1 clip.x2 clip.y1 clip.y2 |||
        REGION_CODE line.x2 line.y2 clip.x1 clip.x2 clip.y1 clip.y2 = 0
    · rw [if_pos hz] at h
      simp only [Option.some.injEq, Prod.mk.injEq, true_and] at h
      rw [← h]
      exact ⟨point_inside_of_code clip _ _ (lor_eq_zero _ _ hz).1,
        point_inside_of_code clip _ _ (lor_eq_zero _ _ hz).2⟩
    · rw [if_neg hz] at h
      by_cases hs : REGION_CODE line.x1 line.y1 clip.x1 clip.x2 clip.y1 clip.y2 &&&
          REGION_CODE line.x2 line.y2 clip.x1 clip.x2 clip.y1 clip.y2 ≠ 0
      · rw [if_pos hs] at h
        simp at h
      · rw [if_neg hs] at h
        simp at h
  | succ n ih =>
    intro line line' h
    unfold clip_line_loop at h
    by_cases hz : REGION_CODE line.x1 line.y1 clip.x1 clip.x2 clip.y1 clip.y2 |||
        REGION_CODE line.x2 line.y2 clip.x1 clip.x2 clip.y1 clip.y2 = 0
    · rw [if_pos hz] at h
      simp only [Option.some.injEq, Prod.mk.injEq, true_and] at h
      rw [← h]
      exact ⟨point_inside_of_code clip _ _ (lor_eq_zero _ _ hz).1,
        point_inside_of_code clip _ _ (lor_eq_zero _ _ hz).2⟩
    · rw [if_neg hz] at h
      by_cases hs : REGION_CODE line.x1 line.y1 clip.x1 clip.x2 clip.y1 clip.y2 &&&
          REGION_CODE line.x2 line.y2 clip.x1 clip.x2 clip.y1 clip.y2 ≠ 0
      · rw [if_pos hs] at h
        simp at h
      · rw [if_neg hs] at h
        dsimp only at h
        by_cases hc1 : REGION_CODE line.x1 line.y1 clip.x1 clip.x2 clip.y1 clip.y2 ≠ 0
        · rw [if_pos hc1] at h
          cases hd : divide_first clip line
              (REGION_CODE line.x1 line.y1 clip.x1 clip.x2 clip.y1 clip.y2) with
          | none => rw [hd] at h; simp at h
          | some l1 =>
            rw [hd] at h
            dsimp only at h
            obtain ⟨hx2, hy2⟩ := divide_first_keeps_second clip line l1 _ hd
            rw [← hx2, ← hy2] at h
            exact ih l1 line' h
        · rw [if_neg hc1] at h
          cases hd : divide_second clip line
              (REGION_CODE line.x2 line.y2 clip.x1 clip.x2 clip.y1 clip.y2) with
          | none => rw [hd] at h; simp at h
          | some l1 =>
            rw [hd] at h
            dsimp only at h
            obtain ⟨hx1, hy1⟩ := divide_second_keeps_first clip line l1 _ hd
            rw [← hx1, ← hy1] at h
            exact ih l1 line' h

theorem clip_line_loop_mono (clip : DFBRegion) :
    ∀ (fuel : Nat) (line : DFBRegion) (code1 code2 : Nat) (result : Bool × DFBRegion),
      clip_line_loop clip fuel line code1 code2 = some result →
      clip_line_loop clip (fuel + 1) line code1 code2 = some result := by
  intro fuel
  induction fuel with
  | zero =>
    intro line code1 code2 result h
    unfold clip_line_loop at h ⊢
    by_cases hz : code1 ||| code2 = 0
    · rw [if_pos hz] at h ⊢
      exact h
    · rw [if_neg hz] at h ⊢
      by_cases hs : code1 &&& code2 ≠ 0
      · rw [if_pos hs] at h ⊢
        exact h
      · rw [if_neg hs] at h
        simp at h
  | succ n ih =>
    intro line code1 code2 result h
    unfold clip_line_loop at h ⊢
    by_cases hz : code1 ||| code2 = 0
    · rw [if_pos hz] at h ⊢
      exact h
    · rw [if_neg hz] at h ⊢
      by_cases hs : code1 &&& code2 ≠ 0
      · rw [if_pos hs] at h ⊢
        exact h
      · rw [if_neg hs] at h ⊢
        dsimp only at h ⊢
        by_cases hc1 : code1 ≠ 0
        · rw [if_pos hc1] at h ⊢
          cases hd : divide_first clip line code1 with
          | none => rw [hd] at h; simp at h
          | some l1 =>
            rw [hd] at h
            exact ih _ _ _ _ h
        · rw [if_neg hc1] at h ⊢
          cases hd : divide_second clip line code2 with
          | none => rw [hd] at h; simp at h
          | some l1 =>
            rw [hd] at h
            exact ih _ _ _ _ h

theorem clip_line_mono (clip line : DFBRegion) (result : Bool × DFBRegion) (fuel more : Nat)
    (h : dfb_clip_line fuel clip line = some result) :
    dfb_clip_line (fuel + more) clip line = some result := by
  induction more with
  | zero => exact h
  | succ k ih => exact clip_line_loop_mono clip _ _ _ _ _ ih

/-- C19, counterexample to the claim as worded: the clip region from (0, 0) to (10, 10)
is valid, and no point of the segment from (-16, 1) to (4, -1) lies inside it, nor
within half a pixel of it. Still `dfb_clip_line` returns true, with the line
reduced to the corner (0, 0): the truncating division places the first end point
at (0, 0) where the segment passes (0, -3/5). -/
theorem clip_line_reports_outside_line :
    sample_clip.valid ∧ segment_outside sample_clip line_past_corner ∧
    (∀ t : ℚ, 0 ≤ t → t ≤ 1 →
      ¬ near_clip sample_clip (line_past_corner.x1 + t * (line_past_corner.x2 - line_past_corner.x1))
        (line_past_corner.y1 + t * (line_past_corner.y2 - line_past_corner.y1))) ∧
    (∀ fuel, dfb_clip_line (2 + fuel) sample_clip line_past_corner =
      some (true, { x1 := 0, y1 := 0, x2 := 0, y2 := 0 })) := by
  refine ⟨by decide, ?_, ?_, ?_⟩
  · intro t _ _ h
    simp only [inside_clip, sample_clip, line_past_corner] at h
    obtain ⟨h1, _, h3, _⟩ := h
    push_cast at h1 h3
    linarith
  · intro t _ _ h
    simp only [near_clip, sample_clip, line_past_corner] at h
    obtain ⟨h1, _, h3, _⟩ := h
    push_cast at h1 h3
    linarith
  · intro fuel
    exact clip_line_mono sample_clip line_past_corner _ 2 fuel (by decide)

/-! ## Triangle clipping (C20) -/

theorem point_ne_of_fields (a : DFBPoint) (x y : Int) (h : x ≠ a.x ∨ y ≠ a.y) :
    a ≠ { x := x, y := y } := by
  intro heq
  rw [heq] at h
  rcases h with h | h <;> exact h rfl

theorem append_vertex_good (p : List DFBPoint) (x y : Int) (hne : p ≠ [])
    (hchain : List.Chain' (fun a b => a ≠ b) p) :
    append_vertex p x y ≠ [] ∧ List.Chain' (fun a b => a ≠ b) (append_vertex p x y) ∧
    (append_vertex p x y).head? = p.head? ∧ (append_vertex p x y).length ≤ p.length + 1 := by
  unfold append_vertex
  cases hlast : p.getLast? with
  | none =>
    rw [List.getLast?_eq_none_iff] at hlast
    exact absurd hlast hne
  | some last =>
    dsimp only
    split_ifs with hd
    · refine ⟨by simp, ?_, List.head?_append_of_ne_nil _ hne, by simp⟩
      apply List.Chain'.append hchain (List.chain'_singleton _)
      intro a ha b hb
      rw [hlast] at ha
      simp only [Option.mem_def, Option.some.injEq, List.head?_cons] at ha hb
      rw [← ha, ← hb]
      exact point_ne_of_fields last x y hd
    · exact ⟨hne, hchain, rfl, by omega⟩

theorem edge_vertices_good (edges : List DFBRegion) :
    ∀ p : List DFBPoint, p ≠ [] → List.Chain' (fun a b => a ≠ b) p →
      edge_vertices p edges ≠ [] ∧ List.Chain' (fun a b => a ≠ b) (edge_vertices p edges) ∧
      (edge_vertices p edges).length ≤ p.length + 2 * edges.length := by
  induction edges with
  | nil =>
    intro p hne hchain
    exact ⟨hne, hchain, by simp [edge_vertices]⟩
  | cons edge rest ih =>
    intro p hne hchain
    obtain ⟨h1, h2, _, h4⟩ := append_vertex_good p edge.x1 edge.y1 hne hchain
    obtain ⟨g1, g2, _, g4⟩ := append_vertex_good _ edge.x2 edge.y2 h1 h2
    obtain ⟨k1, k2, k3⟩ := ih _ g1 g2
    refine ⟨k1, k2, ?_⟩
    show (edge_vertices (append_vertex (append_vertex p edge.x1 edge.y1) edge.x2 edge.y2)
      rest).length ≤ _
    simp only [List.length_cons]
    omega

theorem wrap_removed (p : List DFBPoint) (hne : p ≠ [])
    (hchain : List.Chain' (fun a b => a ≠ b) p) (n : Nat)
    (hn : n = if (p.getLastD default).x = (p.headD default).x ∧
      (p.getLastD default).y = (p.headD default).y then p.length - 1 else p.length) :
    n ≤ p.length ∧ List.Chain' (fun a b => a ≠ b) (p.take n) ∧
    (2 ≤ n → (p.take n).getLast? ≠ (p.take n).head?) := by
  rcases List.eq_nil_or_concat p with hnil | ⟨q, l, hp⟩
  · exact absurd hnil hne
  · rw [List.concat_eq_append] at hp
    subst hp
    rw [List.getLastD_concat] at hn
    obtain ⟨hq, _, hql⟩ := List.chain'_append.mp hchain
    split_ifs at hn with hsame
    · have hlen : n = q.length := by
        rw [hn]
        simp
      rw [hlen, List.take_left]
      refine ⟨by simp, hq, ?_⟩
      intro h2
      rcases List.eq_nil_or_concat q with hnil | ⟨r, m, hr⟩
      · rw [hnil] at h2
        simp at h2
      · rw [List.concat_eq_append] at hr
        have hqne : q ≠ [] := by rw [hr]; simp
        have hhead : (q ++ [l]).headD default = q.headD default := by
          rw [List.headD_eq_head?, List.headD_eq_head?, List.head?_append_of_ne_nil _ hqne]
        rw [hhead] at hsame
        have hml : m ≠ l := by
          apply hql m _ l (by simp)
          rw [hr, List.getLast?_concat]
          rfl
        rw [hr, List.getLast?_concat]
        rw [hr] at hsame hqne
        cases hh : (r ++ [m]).head? with
        | none =>
          rw [List.head?_eq_none_iff] at hh
          exact absurd hh hqne
        | some first =>
          rw [List.headD_eq_head?, hh] at hsame
          simp only [Option.getD_some] at hsame
          intro heq
          simp only [Option.some.injEq] at heq
          apply hml
          rw [heq]
          cases l
          cases first
          simp only [DFBPoint.mk.injEq]
          exact ⟨hsame.1.symm, hsame.2.symm⟩
    · have hlen : n = (q ++ [l]).length := hn
      rw [hlen, List.take_length]
      refine ⟨le_refl _, hchain, ?_⟩
      intro _
      rw [List.getLast?_concat]
      cases hh : (q ++ [l]).head? with
      | none => simp
      | some first =>
        rw [List.headD_eq_head?, hh] at hsame
        simp only [Option.getD_some] at hsame
        intro heq
        simp only [Option.some.injEq] at heq
        apply hsame
        rw [heq]
        exact ⟨rfl, rfl⟩

theorem clip_edges_length (fuel : Nat) (intersect : DFBRegion → DFBRegion → Option DFBPoint)
    (clip : DFBRegion) (todo : List DFBRegion) :
    ∀ (done edges : List DFBRegion), clip_edges fuel intersect clip done todo = some edges →
      edges.length ≤ done.length + todo.length := by
  induction todo with
  | nil =>
    intro done edges h
    simp only [clip_edges, Option.some.injEq] at h
    rw [← h]
    simp
  | cons reg rest ih =>
    intro done edges h
    unfold clip_edges at h
    cases he : clip_edge fuel intersect clip reg with
    | none => rw [he] at h; simp at h
    | some e =>
      rw [he] at h
      cases e with
      | none =>
        have := ih done edges h
        simp only [List.length_cons]
        omega
      | some edge =>
        have := ih (done ++ [edge]) edges h
        simp only [List.length_append, List.length_singleton, List.length_cons, List.length_nil] at this ⊢
        omega

theorem clip_edge_returns (fuel : Nat) (intersect : DFBRegion → DFBRegion → Option DFBPoint)
    (clip reg : DFBRegion) (h : ∃ result, dfb_clip_line fuel clip reg = some result) :
    ∃ edge, clip_edge fuel intersect clip reg = some edge := by
  obtain ⟨⟨visible, line⟩, h⟩ := h
  unfold clip_edge
  rw [h]
  cases visible with
  | true => exact ⟨_, rfl⟩
  | false =>
    dsimp only
    cases intersect { x1 := clip.x1, y1 := clip.y1, x2 := clip.x2, y2 := clip.y2 } reg <;>
      cases intersect { x1 := clip.x2, y1 := clip.y1, x2 := clip.x1, y2 := clip.y2 } reg <;>
      exact ⟨_, rfl⟩

theorem clip_edges_returns (fuel : Nat) (intersect : DFBRegion → DFBRegion → Option DFBPoint)
    (clip : DFBRegion) (todo : List DFBRegion)
    (h : ∀ reg ∈ todo, ∃ result, dfb_clip_line fuel clip reg = some result) :
    ∀ done : List DFBRegion, ∃ edges, clip_edges fuel intersect clip done todo = some edges := by
  induction todo with
  | nil =>
    intro done
    exact ⟨done, rfl⟩
  | cons reg rest ih =>
    intro done
    obtain ⟨e, he⟩ := clip_edge_returns fuel intersect clip reg (h reg (List.mem_cons_self _ _))
    have hrest := ih (fun r hr => h r (List.mem_cons_of_mem _ hr))
    unfold clip_edges
    rw [he]
    cases e with
    | none => exact hrest done
    | some edge => exact hrest (done ++ [edge])

/-- C20: whenever `dfb_clip_triangle` returns, for any clip region, any triangle and any
behaviour of `dfb_line_segment_intersect`, the vertex list that it reports (the
first `num` of the at most six entries written to `p`) has no two consecutive
vertices that are equal and, when it holds at least two vertices, its last vertex
differs from its first; and the return value is true exactly when `num` is at
least 3. It does return for a valid clip region and coordinates of at most 16384
in absolute value, given fuel for four divisions per edge. -/
theorem clip_triangle_vertices (fuel : Nat)
    (intersect : DFBRegion → DFBRegion → Option DFBPoint) (clip : DFBRegion)
    (tri : DFBTriangle) :
    (∀ (ret : Bool) (p : List DFBPoint) (num : Nat),
      dfb_clip_triangle fuel intersect clip tri = some (ret, p, num) →
      num ≤ p.length ∧ p.length ≤ 6 ∧
      List.Chain' (fun a b => a ≠ b) (p.take num) ∧
      (2 ≤ num → (p.take num).getLast? ≠ (p.take num).head?) ∧
      (ret = true ↔ 3 ≤ num)) ∧
    (clip.valid → clip.small → tri.small → 4 ≤ fuel →
      ∃ result, dfb_clip_triangle fuel intersect clip tri = some result) := by
  constructor
  · intro ret p num h
    unfold dfb_clip_triangle at h
    cases hce : clip_edges fuel intersect clip []
        [{ x1 := tri.x1, y1 := tri.y1, x2 := tri.x2, y2 := tri.y2 },
          { x1 := tri.x2, y1 := tri.y2, x2 := tri.x3, y2 := tri.y3 },
          { x1 := tri.x3, y1 := tri.y3, x2 := tri.x1, y2 := tri.y1 }] with
    | none => rw [hce] at h; simp at h
    | some edges =>
      rw [hce] at h
      have hlen := clip_edges_length fuel intersect clip _ _ _ hce
      cases edges with
      | nil =>
        simp only [Option.some.injEq, Prod.mk.injEq] at h
        obtain ⟨h1, h2, h3⟩ := h
        subst h1 h2 h3
        simp
      | cons first rest =>
        simp only [Option.some.injEq, Prod.mk.injEq] at h
        obtain ⟨h1, h2, h3⟩ := h
        have hstart : (if first.x2 ≠ first.x1 ∨ first.y2 ≠ first.y1 then
            [({ x := first.x1, y := first.y1 } : DFBPoint)] ++ [{ x := first.x2, y := first.y2 }]
            else [{ x := first.x1, y := first.y1 }]) ≠ [] ∧
            List.Chain' (fun a b => a ≠ b) (if first.x2 ≠ first.x1 ∨ first.y2 ≠ first.y1 then
            [({ x := first.x1, y := first.y1 } : DFBPoint)] ++ [{ x := first.x2, y := first.y2 }]
            else [{ x := first.x1, y := first.y1 }]) ∧
            (if first.x2 ≠ first.x1 ∨ first.y2 ≠ first.y1 then
            [({ x := first.x1, y := first.y1 } : DFBPoint)] ++ [{ x := first.x2, y := first.y2 }]
            else [{ x := first.x1, y := first.y1 }]).length ≤ 2 := by
          split_ifs with hd
          · refine ⟨by simp, ?_, by simp⟩
            simp only [List.singleton_append, List.chain'_cons, List.chain'_singleton, and_true]
            exact point_ne_of_fields _ _ _ hd
          · exact ⟨by simp, List.chain'_singleton _, by simp⟩
        obtain ⟨s1, s2, s3⟩ := hstart
        obtain ⟨g1, g2, g3⟩ := edge_vertices_good rest _ s1 s2
        rw [h2] at g1 g2 g3 h1 h3
        rw [h3] at h1
        have hw := wrap_removed p g1 g2 num h3.symm
        simp only [List.length_cons, List.length_nil] at hlen
        refine ⟨hw.1, by omega, hw.2.1, hw.2.2, ?_⟩
        rw [← h1]
        simp
  · intro hv hcs hts hfuel
    obtain ⟨t1, t2, t3, t4, t5, t6⟩ := hts
    have hedges : ∀ reg ∈ [({ x1 := tri.x1, y1 := tri.y1, x2 := tri.x2, y2 := tri.y2 } : DFBRegion),
        { x1 := tri.x2, y1 := tri.y2, x2 := tri.x3, y2 := tri.y3 },
        { x1 := tri.x3, y1 := tri.y3, x2 := tri.x1, y2 := tri.y1 }],
        ∃ result, dfb_clip_line fuel clip reg = some result := by
      intro reg hreg
      simp only [List.mem_cons, List.mem_singleton, List.not_mem_nil, or_false] at hreg
      rcases hreg with rfl | rfl | rfl
      · exact clip_line_returns clip _ fuel hv hcs ⟨t1, t2, t3, t4⟩ hfuel
      · exact clip_line_returns clip _ fuel hv hcs ⟨t3, t4, t5, t6⟩ hfuel
      · exact clip_line_returns clip _ fuel hv hcs ⟨t5, t6, t1, t2⟩ hfuel
    obtain ⟨edges, he⟩ := clip_edges_returns fuel intersect clip _ hedges []
    unfold dfb_clip_triangle
    rw [he]
    cases edges with
    | nil => exact ⟨_, rfl⟩
    | cons first rest => exact ⟨_, rfl⟩

/-- C20, witness: the triangle (2, 2), (8, 2), (5, 8) inside the sample clip region gives
the written vertices (2, 2), (8, 2), (5, 8), (2, 2), of which the first three are
reported, and the return value true; the triangle of S6 outside its clip region
gives no vertex and the return value false. -/
theorem clip_triangle_vertices_witness :
    (dfb_clip_triangle 4 no_intersection sample_clip
        { x1 := 2, y1 := 2, x2 := 8, y2 := 2, x3 := 5, y3 := 8 } =
      some (true, [{ x := 2, y := 2 }, { x := 8, y := 2 }, { x := 5, y := 8 },
        { x := 2, y := 2 }], 3) ∧
      dfb_clip_triangle 4 no_intersection { x1 := 10, y1 := 10, x2 := 20, y2 := 20 }
        { x1 := 0, y1 := 0, x2 := 5, y2 := 5, x3 := 0, y3 := 5 } = some (false, [], 0)) ∧
    (3 ≤ 4 ∧ 4 ≤ 6 ∧
      List.Chain' (fun a b => a ≠ b)
        (([{ x := 2, y := 2 }, { x := 8, y := 2 }, { x := 5, y := 8 },
          { x := 2, y := 2 }] : List DFBPoint).take 3) ∧
      (2 ≤ 3 → (([{ x := 2, y := 2 }, { x := 8, y := 2 }, { x := 5, y := 8 },
          { x := 2, y := 2 }] : List DFBPoint).take 3).getLast? ≠
        (([{ x := 2, y := 2 }, { x := 8, y := 2 }, { x := 5, y := 8 },
          { x := 2, y := 2 }] : List DFBPoint).take 3).head?) ∧
      (true = true ↔ 3 ≤ 3)) :=
  ⟨by decide,
    (clip_triangle_vertices 4 no_intersection sample_clip
      { x1 := 2, y1 := 2, x2 := 8, y2 := 2, x3 := 5, y3 := 8 }).1 true
      [{ x := 2, y := 2 }, { x := 8, y := 2 }, { x := 5, y := 8 }, { x := 2, y := 2 }] 3
      (by decide)⟩

/-! ## Triangle clipping: all edges outside (C21) -/

theorem clip_edge_redundant (fuel : Nat) (intersect : DFBRegion → DFBRegion → Option DFBPoint)
    (clip reg line : DFBRegion) (hline : dfb_clip_line fuel clip reg = some (false, line))
    (h1 : intersect (first_diagonal clip) reg = none)
    (h2 : intersect (second_diagonal clip) reg = none) :
    clip_edge fuel intersect clip reg = some none := by
  unfold first_diagonal at h1
  unfold second_diagonal at h2
  unfold clip_edge
  rw [hline]
  dsimp only
  rw [h1, h2]
  rfl

theorem clip_edges_all_redundant (fuel : Nat)
    (intersect : DFBRegion → DFBRegion → Option DFBPoint) (clip : DFBRegion)
    (todo : List DFBRegion)
    (h : ∀ reg ∈ todo, clip_edge fuel intersect clip reg = some none) :
    ∀ done : List DFBRegion, clip_edges fuel intersect clip done todo = some done := by
  induction todo with
  | nil => intro done; rfl
  | cons reg rest ih =>
    intro done
    unfold clip_edges
    rw [h reg (List.mem_cons_self _ _)]
    exact ih (fun r hr => h r (List.mem_cons_of_mem _ hr)) done

/-- C21: when `dfb_clip_line` rejects each of the three edges of the triangle and the
intersection test finds a point on neither diagonal of the clip region for any
of them, `dfb_clip_triangle` writes no vertex, reports the vertex count 0 and
returns false. -/
theorem clip_triangle_all_edges_outside (fuel : Nat)
    (intersect : DFBRegion → DFBRegion → Option DFBPoint) (clip : DFBRegion) (tri : DFBTriangle)
    (hrejected : ∀ reg ∈ triangle_edges tri,
      ∃ line, dfb_clip_line fuel clip reg = some (false, line))
    (hdiagonals : ∀ reg ∈ triangle_edges tri,
      intersect (first_diagonal clip) reg = none ∧ intersect (second_diagonal clip) reg = none) :
    dfb_clip_triangle fuel intersect clip tri = some (false, [], 0) := by
  have hall : ∀ reg ∈ triangle_edges tri, clip_edge fuel intersect clip reg = some none := by
    intro reg hreg
    obtain ⟨line, hline⟩ := hrejected reg hreg
    exact clip_edge_redundant fuel intersect clip reg line hline (hdiagonals reg hreg).1
      (hdiagonals reg hreg).2
  have hedges := clip_edges_all_redundant fuel intersect clip (triangle_edges tri) hall []
  unfold triangle_edges at hedges
  unfold dfb_clip_triangle
  rw [hedges]

/-- C21, witness (S6): for the clip region from (10, 10) to (20, 20) and the triangle
(0, 0), (5, 5), (0, 5) every edge lies left of the clip region and is rejected
even without fuel; with no intersection found on the diagonals the function
reports 0 vertices and returns false. -/
theorem clip_triangle_all_edges_outside_witness :
    (∀ reg ∈ triangle_edges triangle_s6, beyond_common_edge clip_s6 reg) ∧
    dfb_clip_triangle 0 no_intersection clip_s6 triangle_s6 = some (false, [], 0) :=
  ⟨by decide,
    clip_triangle_all_edges_outside 0 no_intersection clip_s6 triangle_s6
      (fun reg hreg => ⟨reg, clip_line_loop_rejects clip_s6 0 reg
        ((by decide : ∀ reg ∈ triangle_edges triangle_s6, beyond_common_edge clip_s6 reg)
          reg hreg)⟩)
      (fun _ _ => ⟨rfl, rfl⟩)⟩

/-! ## Line clipping is total (C28) -/

theorem clip_line_while_agrees (clip : DFBRegion) :
    ∀ (rounds : Nat) (line : DFBRegion) (code1 code2 : Nat) (result : Bool × DFBRegion),
      clip_line_while clip rounds line code1 code2 = some result →
      clip_line_loop clip rounds line code1 code2 = some result := by
  intro rounds
  induction rounds with
  | zero =>
    intro line code1 code2 result h
    unfold clip_line_while at h
    unfold clip_line_loop
    by_cases hz : code1 ||| code2 = 0
    · rw [if_pos hz] at h ⊢
      exact h
    · rw [if_neg hz] at h
      simp at h
  | succ n ih =>
    intro line code1 code2 result h
    unfold clip_line_while at h
    unfold clip_line_loop
    by_cases hz : code1 ||| code2 = 0
    · rw [if_pos hz] at h ⊢
      exact h
    · rw [if_neg hz] at h ⊢
      dsimp only at h ⊢
      by_cases hs : code1 &&& code2 ≠ 0
      · rw [if_pos hs] at h ⊢
        exact h
      · rw [if_neg hs] at h ⊢
        by_cases hc1 : code1 ≠ 0
        · rw [if_pos hc1] at h ⊢
          cases hd : divide_first clip line code1 with
          | none => rw [hd] at h; simp at h
          | some l1 =>
            rw [hd] at h
            exact ih _ _ _ _ h
        · rw [if_neg hc1] at h ⊢
          cases hd : divide_second clip line code2 with
          | none => rw [hd] at h; simp at h
          | some l1 =>
            rw [hd] at h
            exact ih _ _ _ _ h

theorem outside_count_pos_of_code (clip : DFBRegion) (x y : Int)
    (h : REGION_CODE x y clip.x1 clip.x2 clip.y1 clip.y2 ≠ 0) : 1 ≤ outside_count clip x y := by
  by_contra hlt
  have hz : outside_count clip x y = 0 := by omega
  exact h ((region_code_zero_iff clip x y).mpr hz)

theorem outside_count_second_of_beyond (clip line : DFBRegion)
    (h : beyond_common_edge clip line) : 1 ≤ outside_count clip line.x2 line.y2 := by
  unfold beyond_common_edge at h
  unfold outside_count
  split_ifs <;> omega

theorem clip_line_while_rejects (clip : DFBRegion) (rounds : Nat) (line : DFBRegion)
    (h : beyond_common_edge clip line) :
    clip_line_while clip (rounds + 1) line
        (REGION_CODE line.x1 line.y1 clip.x1 clip.x2 clip.y1 clip.y2)
        (REGION_CODE line.x2 line.y2 clip.x1 clip.x2 clip.y1 clip.y2) = some (false, line) := by
  have hshare := (region_codes_share line.x1 line.y1 line.x2 line.y2 clip.x1 clip.x2 clip.y1
    clip.y2).mpr h
  have hor : ¬ (REGION_CODE line.x1 line.y1 clip.x1 clip.x2 clip.y1 clip.y2 |||
      REGION_CODE line.x2 line.y2 clip.x1 clip.x2 clip.y1 clip.y2 = 0) := by
    intro hz
    apply hshare
    rw [(lor_eq_zero _ _ hz).1]
    exact Nat.zero_and _
  unfold clip_line_while
  rw [if_neg hor]
  dsimp only
  rw [if_pos hshare]

theorem clip_line_while_returns (clip : DFBRegion) (hv : clip.valid) (hcs : clip.small) :
    ∀ (rounds : Nat) (line : DFBRegion), line.small →
      outside_count clip line.x1 line.y1 + outside_count clip line.x2 line.y2 ≤ rounds →
      ∃ result, clip_line_while clip rounds line
        (REGION_CODE line.x1 line.y1 clip.x1 clip.x2 clip.y1 clip.y2)
        (REGION_CODE line.x2 line.y2 clip.x1 clip.x2 clip.y1 clip.y2) = some result := by
  intro rounds
  induction rounds with
  | zero =>
    intro line _ hm
    have h1 : outside_count clip line.x1 line.y1 = 0 := by omega
    have h2 : outside_count clip line.x2 line.y2 = 0 := by omega
    refine ⟨(true, line), ?_⟩
    unfold clip_line_while
    rw [(region_code_zero_iff clip _ _).mpr h1, (region_code_zero_iff clip _ _).mpr h2]
    rfl
  | succ n ih =>
    intro line hls hm
    by_cases hshare : beyond_common_edge clip line
    · exact ⟨_, clip_line_while_rejects clip n line hshare⟩
    · have hns : ¬ (REGION_CODE line.x1 line.y1 clip.x1 clip.x2 clip.y1 clip.y2 &&&
          REGION_CODE line.x2 line.y2 clip.x1 clip.x2 clip.y1 clip.y2 ≠ 0) :=
        fun h => hshare ((region_codes_share _ _ _ _ _ _ _ _).mp h)
      unfold clip_line_while
      by_cases hz : REGION_CODE line.x1 line.y1 clip.x1 clip.x2 clip.y1 clip.y2 |||
          REGION_CODE line.x2 line.y2 clip.x1 clip.x2 clip.y1 clip.y2 = 0
      · rw [if_pos hz]
        exact ⟨_, rfl⟩
      · rw [if_neg hz]
        dsimp only
        rw [if_neg hns]
        by_cases hc1 : REGION_CODE line.x1 line.y1 clip.x1 clip.x2 clip.y1 clip.y2 ≠ 0
        · rw [if_pos hc1]
          obtain ⟨line', hd, hx2, hy2, hsmall, hprog⟩ :=
            divide_first_progress clip line hv hcs hls hc1 hshare
          rw [hd]
          dsimp only
          rw [← hx2, ← hy2]
          by_cases hless : outside_count clip line'.x1 line'.y1 <
              outside_count clip line.x1 line.y1
          · apply ih line' hsmall
            rw [hx2, hy2]
            omega
          · have hdone : beyond_common_edge clip line' := by
              rcases hprog with h | h
              · exact h
              · exact absurd h hless
            have hp1 := outside_count_pos_of_code clip _ _ hc1
            have hp2 := outside_count_second_of_beyond clip line' hdone
            rw [hx2, hy2] at hp2
            obtain ⟨k, hk⟩ : ∃ k, n = k + 1 := ⟨n - 1, by omega⟩
            rw [hk]
            exact ⟨_, clip_line_while_rejects clip k line' hdone⟩
        · rw [if_neg hc1]
          have hc1z : REGION_CODE line.x1 line.y1 clip.x1 clip.x2 clip.y1 clip.y2 = 0 := by
            by_contra h
            exact hc1 h
          have hc2 : REGION_CODE line.x2 line.y2 clip.x1 clip.x2 clip.y1 clip.y2 ≠ 0 := by
            intro h
            apply hz
            rw [hc1z, h]
            rfl
          obtain ⟨line', hd, hx1, hy1, hsmall, hless⟩ :=
            divide_second_progress clip line hv hcs hls hc1z hc2
          rw [hd]
          dsimp only
          rw [← hx1, ← hy1]
          apply ih line' hsmall
          rw [hx1, hy1]
          omega

/-- C28: for a clip region with `x1 <= x2` and `y1 <= y2` and coordinates of at most
16384 in absolute value, with which no product overflows, `dfb_clip_line` is
total: the body of its loop runs at most four times and no division by zero
occurs, so that the function has a result, the same for every larger bound; and
when it returns true, both end points of the resulting line lie inside the clip
region. -/
theorem clip_line_total (clip line : DFBRegion) (hv : clip.valid) (hcs : clip.small)
    (hls : line.small) :
    ∃ (visible : Bool) (clipped : DFBRegion),
      dfb_clip_line_rounds 4 clip line = some (visible, clipped) ∧
      (∀ fuel, 4 ≤ fuel → dfb_clip_line fuel clip line = some (visible, clipped)) ∧
      (visible = true →
        point_inside clip clipped.x1 clipped.y1 ∧ point_inside clip clipped.x2 clipped.y2) := by
  have h1 := outside_count_le clip line.x1 line.y1
  have h2 := outside_count_le clip line.x2 line.y2
  obtain ⟨⟨visible, clipped⟩, hres⟩ := clip_line_while_returns clip hv hcs 4 line hls (by omega)
  have hloop : dfb_clip_line 4 clip line = some (visible, clipped) :=
    clip_line_while_agrees clip 4 line _ _ _ hres
  refine ⟨visible, clipped, hres, ?_, ?_⟩
  · intro fuel hfuel
    obtain ⟨k, hk⟩ : ∃ k, fuel = 4 + k := ⟨fuel - 4, by omega⟩
    rw [hk]
    exact clip_line_mono clip line _ 4 k hloop
  · intro hvis
    rw [hvis] at hloop
    exact clip_line_loop_visible clip 4 line clipped hloop

/-- C28, witness: the line from (-3, -1) to (20, 14) crosses the sample clip region; its
loop runs four times, three rounds being too few, and leaves the line from (0, 1)
to (10, 7), which lies inside. -/
theorem clip_line_total_witness :
    (dfb_clip_line_rounds 4 sample_clip { x1 := -3, y1 := -1, x2 := 20, y2 := 14 } =
        some (true, { x1 := 0, y1 := 1, x2 := 10, y2 := 7 }) ∧
      dfb_clip_line_rounds 3 sample_clip { x1 := -3, y1 := -1, x2 := 20, y2 := 14 } = none) ∧
    ∃ (visible : Bool) (clipped : DFBRegion),
      dfb_clip_line_rounds 4 sample_clip { x1 := -3, y1 := -1, x2 := 20, y2 := 14 } =
        some (visible, clipped) ∧
      (∀ fuel, 4 ≤ fuel →
        dfb_clip_line fuel sample_clip { x1 := -3, y1 := -1, x2 := 20, y2 := 14 } =
          some (visible, clipped)) ∧
      (visible = true →
        point_inside sample_clip clipped.x1 clipped.y1 ∧
          point_inside sample_clip clipped.x2 clipped.y2) :=
  ⟨by decide,
    clip_line_total sample_clip { x1 := -3, y1 := -1, x2 := 20, y2 := 14 } (by decide)
      (by decide) (by decide)⟩

/-! ## Clipping of a flipped or rotated blit (C22, C29) -/

theorem rotate_bit_of_flags (flags : Nat) (horizontal vertical rotate : Bool)
    (hflags : flags &&& (DSBLIT_FLIP_HORIZONTAL ||| DSBLIT_FLIP_VERTICAL ||| DSBLIT_ROTATE90) =
      flip_rotate_flags horizontal vertical rotate) :
    flags &&& DSBLIT_ROTATE90 = if rotate then DSBLIT_ROTATE90 else 0 := by
  have hmask : (DSBLIT_FLIP_HORIZONTAL ||| DSBLIT_FLIP_VERTICAL ||| DSBLIT_ROTATE90) &&&
      DSBLIT_ROTATE90 = DSBLIT_ROTATE90 := by decide
  have h : flags &&& DSBLIT_ROTATE90 =
      flip_rotate_flags horizontal vertical rotate &&& DSBLIT_ROTATE90 := by
    rw [← hflags, Nat.land_assoc, hmask]
  rw [h]
  cases horizontal <;> cases vertical <;> cases rotate <;> decide

theorem destination_region (drect : DFBRectangle) (hd : drect.small) :
    DFB_REGION_INIT_FROM_RECTANGLE drect =
      { x1 := drect.x, y1 := drect.y, x2 := drect.x + drect.w - 1,
        y2 := drect.y + drect.h - 1 } := by
  obtain ⟨⟨h1, h2⟩, ⟨h3, h4⟩, h5, h6, h7, h8⟩ := hd
  unfold DFB_REGION_INIT_FROM_RECTANGLE int_sub int_add wrap_int32
  simp only [DFBRegion.mk.injEq, true_and]
  constructor <;> omega

theorem intersect_destination (clip : DFBRegion) (drect : DFBRectangle)
    (hmeet : destination_meets_clip clip drect) :
    dfb_region_region_intersect
        { x1 := drect.x, y1 := drect.y, x2 := drect.x + drect.w - 1,
          y2 := drect.y + drect.h - 1 } clip = (true, clipped_destination clip drect) := by
  obtain ⟨h1, h2, h3, h4⟩ := hmeet
  unfold dfb_region_region_intersect clipped_destination
  rw [if_neg (by dsimp only; omega)]
  simp only [Prod.mk.injEq, DFBRegion.mk.injEq, true_and]
  refine ⟨?_, ?_, ?_, ?_⟩ <;> split_ifs <;> omega

theorem int_shift (origin a b : Int) (ho : small_coordinate origin)
    (ha : -65536 ≤ a ∧ a ≤ 65536) (hb : -65536 ≤ b ∧ b ≤ 65536) :
    int_add origin (int_sub a b) = origin + (a - b) := by
  obtain ⟨h1, h2⟩ := ho
  unfold int_add int_sub wrap_int32
  omega

theorem int_size (a b : Int) (ha : -65536 ≤ a ∧ a ≤ 65536) (hb : -65536 ≤ b ∧ b ≤ 65536) :
    int_add (int_sub a b) 1 = a - b + 1 := by
  unfold int_add int_sub wrap_int32
  omega

theorem clipped_destination_bounds (clip : DFBRegion) (drect : DFBRectangle) (hclip : clip.small)
    (hd : drect.small) :
    (-65536 ≤ (clipped_destination clip drect).x1 ∧ (clipped_destination clip drect).x1 ≤ 65536) ∧
    (-65536 ≤ (clipped_destination clip drect).y1 ∧ (clipped_destination clip drect).y1 ≤ 65536) ∧
    (-65536 ≤ (clipped_destination clip drect).x2 ∧ (clipped_destination clip drect).x2 ≤ 65536) ∧
    (-65536 ≤ (clipped_destination clip drect).y2 ∧
      (clipped_destination clip drect).y2 ≤ 65536) := by
  obtain ⟨⟨h1, h2⟩, ⟨h3, h4⟩, h5, h6, h7, h8⟩ := hd
  obtain ⟨⟨c1, c2⟩, ⟨c3, c4⟩, ⟨c5, c6⟩, c7, c8⟩ := hclip
  unfold clipped_destination
  dsimp only
  omega

theorem blit_flipped_rotated_result (clip : DFBRegion) (srect drect : DFBRectangle)
    (flags : Nat) (horizontal vertical rotate : Bool)
    (hflags : flags &&& (DSBLIT_FLIP_HORIZONTAL ||| DSBLIT_FLIP_VERTICAL ||| DSBLIT_ROTATE90) =
      flip_rotate_flags horizontal vertical rotate)
    (hclip : clip.small) (hsx : small_coordinate srect.x) (hsy : small_coordinate srect.y)
    (hd : drect.small) (hmeet : destination_meets_clip clip drect) :
    dfb_clip_blit_flipped_rotated clip srect drect flags =
      ({ x := srect.x + (spec_source_shift clip drect horizontal vertical rotate).1,
         y := srect.y + (spec_source_shift clip drect horizontal vertical rotate).2,
         w := if rotate then clipped_height clip drect else clipped_width clip drect,
         h := if rotate then clipped_width clip drect else clipped_height clip drect },
       { x := (clipped_destination clip drect).x1, y := (clipped_destination clip drect).y1,
         w := clipped_width clip drect, h := clipped_height clip drect }) := by
  have hrot := rotate_bit_of_flags flags horizontal vertical rotate hflags
  obtain ⟨b1, b2, b3, b4⟩ := clipped_destination_bounds clip drect hclip hd
  have hdx : -65536 ≤ drect.x ∧ drect.x ≤ 65536 := by
    obtain ⟨⟨h1, h2⟩, _⟩ := hd
    omega
  have hdy : -65536 ≤ drect.y ∧ drect.y ≤ 65536 := by
    obtain ⟨_, ⟨h1, h2⟩, _⟩ := hd
    omega
  have hdx2 : -65536 ≤ drect.x + drect.w - 1 ∧ drect.x + drect.w - 1 ≤ 65536 := by
    obtain ⟨⟨h1, h2⟩, ⟨h3, h4⟩, h5, h6, h7, h8⟩ := hd
    omega
  have hdy2 : -65536 ≤ drect.y + drect.h - 1 ∧ drect.y + drect.h - 1 ≤ 65536 := by
    obtain ⟨⟨h1, h2⟩, ⟨h3, h4⟩, h5, h6, h7, h8⟩ := hd
    omega
  unfold dfb_clip_blit_flipped_rotated
  rw [destination_region drect hd]
  dsimp only
  rw [intersect_destination clip drect hmeet, hflags, hrot]
  unfold dfb_rectangle_from_region
  dsimp only
  rw [int_size _ _ b3 b1, int_size _ _ b4 b2, int_shift _ _ _ hsx b1 hdx,
    int_shift _ _ _ hsy b2 hdy, int_shift _ _ _ hsx hdx2 b3, int_shift _ _ _ hsy hdy2 b4,
    int_shift _ _ _ hsx hdy2 b4, int_shift _ _ _ hsy b1 hdx, int_shift _ _ _ hsx b2 hdy,
    int_shift _ _ _ hsy hdx2 b3]
  cases horizontal <;> cases vertical <;> cases rotate <;>
    simp [flip_rotate_flags, DSBLIT_NOFX, DSBLIT_FLIP_HORIZONTAL, DSBLIT_FLIP_VERTICAL,
      DSBLIT_ROTATE90, spec_source_shift, cut_left, cut_top, cut_right, cut_bottom,
      clipped_width, clipped_height]


theorem blit_unclipped_result (clip : DFBRegion) (srect drect : DFBRectangle) (flags : Nat)
    (horizontal vertical rotate : Bool)
    (hflags : flags &&& (DSBLIT_FLIP_HORIZONTAL ||| DSBLIT_FLIP_VERTICAL ||| DSBLIT_ROTATE90) =
      flip_rotate_flags horizontal vertical rotate)
    (hassert : blit_sizes_asserted srect drect flags)
    (hsx : small_coordinate srect.x) (hsy : small_coordinate srect.y) (hd : drect.small)
    (hmeet : ¬ destination_meets_clip clip drect) :
    dfb_clip_blit_flipped_rotated clip srect drect flags = (srect, drect) := by
  have hrot := rotate_bit_of_flags flags horizontal vertical rotate hflags
  have hmiss : ∀ dest : DFBRegion,
      dest = { x1 := drect.x, y1 := drect.y, x2 := drect.x + drect.w - 1,
               y2 := drect.y + drect.h - 1 } →
      dfb_region_region_intersect dest clip = (false, dest) := by
    intro dest hdest
    unfold dfb_region_region_intersect
    rw [if_pos]
    unfold destination_meets_clip at hmeet
    rw [hdest]
    dsimp only
    omega
  have hdx : -65536 ≤ drect.x ∧ drect.x ≤ 65536 := by
    obtain ⟨⟨h1, h2⟩, _⟩ := hd
    omega
  have hdy : -65536 ≤ drect.y ∧ drect.y ≤ 65536 := by
    obtain ⟨_, ⟨h1, h2⟩, _⟩ := hd
    omega
  have hdx2 : -65536 ≤ drect.x + drect.w - 1 ∧ drect.x + drect.w - 1 ≤ 65536 := by
    obtain ⟨⟨h1, h2⟩, ⟨h3, h4⟩, h5, h6, h7, h8⟩ := hd
    omega
  have hdy2 : -65536 ≤ drect.y + drect.h - 1 ∧ drect.y + drect.h - 1 ≤ 65536 := by
    obtain ⟨⟨h1, h2⟩, ⟨h3, h4⟩, h5, h6, h7, h8⟩ := hd
    omega
  obtain ⟨_, hsize⟩ := hassert
  rw [hrot] at hsize
  unfold dfb_clip_blit_flipped_rotated
  rw [destination_region drect hd]
  dsimp only
  rw [hmiss _ rfl, hflags, hrot]
  unfold dfb_rectangle_from_region
  dsimp only
  rw [int_size _ _ hdx2 hdx, int_size _ _ hdy2 hdy, int_shift _ _ _ hsx hdx hdx,
    int_shift _ _ _ hsy hdy hdy, int_shift _ _ _ hsx hdx2 hdx2, int_shift _ _ _ hsy hdy2 hdy2,
    int_shift _ _ _ hsx hdy2 hdy2, int_shift _ _ _ hsy hdx hdx, int_shift _ _ _ hsx hdy hdy,
    int_shift _ _ _ hsy hdx2 hdx2]
  obtain ⟨sx, sy, sw, sh⟩ := srect
  obtain ⟨dx, dy, dw, dh⟩ := drect
  cases horizontal <;> cases vertical <;> cases rotate <;>
    simp_all [flip_rotate_flags, DSBLIT_NOFX, DSBLIT_FLIP_HORIZONTAL, DSBLIT_FLIP_VERTICAL,
      DSBLIT_ROTATE90] <;>
    omega

/-- C29: for each of the eight combinations of flips and rotation, when the sizes of source
and destination match as asserted, the clip region has `x1 <= x2` and `y1 <= y2`
and the coordinates are at most 16384 in absolute value: if the destination
rectangle has a pixel in common with the clip, the source rectangle that
`dfb_clip_blit_flipped_rotated` produces has a positive size and lies within the
original source rectangle; if it has none, both rectangles are left unchanged. -/
theorem clip_blit_source_within (clip : DFBRegion) (srect drect : DFBRectangle) (flags : Nat)
    (horizontal vertical rotate : Bool)
    (hflags : flags &&& (DSBLIT_FLIP_HORIZONTAL ||| DSBLIT_FLIP_VERTICAL ||| DSBLIT_ROTATE90) =
      flip_rotate_flags horizontal vertical rotate)
    (hassert : blit_sizes_asserted srect drect flags) (hvalid : clip.valid)
    (hclip : clip.small) (hsx : small_coordinate srect.x) (hsy : small_coordinate srect.y)
    (hd : drect.small) :
    (destination_meets_clip clip drect →
      srect.x ≤ (dfb_clip_blit_flipped_rotated clip srect drect flags).1.x ∧
      (dfb_clip_blit_flipped_rotated clip srect drect flags).1.x +
          (dfb_clip_blit_flipped_rotated clip srect drect flags).1.w ≤ srect.x + srect.w ∧
      srect.y ≤ (dfb_clip_blit_flipped_rotated clip srect drect flags).1.y ∧
      (dfb_clip_blit_flipped_rotated clip srect drect flags).1.y +
          (dfb_clip_blit_flipped_rotated clip srect drect flags).1.h ≤ srect.y + srect.h ∧
      1 ≤ (dfb_clip_blit_flipped_rotated clip srect drect flags).1.w ∧
      1 ≤ (dfb_clip_blit_flipped_rotated clip srect drect flags).1.h) ∧
    (¬ destination_meets_clip clip drect →
      dfb_clip_blit_flipped_rotated clip srect drect flags = (srect, drect)) := by
  refine ⟨fun hmeet => ?_, fun hmeet =>
    blit_unclipped_result clip srect drect flags horizontal vertical rotate hflags hassert hsx hsy
      hd hmeet⟩
  have hrot := rotate_bit_of_flags flags horizontal vertical rotate hflags
  rw [blit_flipped_rotated_result clip srect drect flags horizontal vertical rotate hflags hclip
    hsx hsy hd hmeet]
  obtain ⟨_, hsize⟩ := hassert
  rw [hrot] at hsize
  have hsizes : (rotate = true → srect.w = drect.h ∧ srect.h = drect.w) ∧
      (rotate = false → srect.w = drect.w ∧ srect.h = drect.h) := by
    cases rotate <;> simp_all [DSBLIT_ROTATE90]
  clear hsize hrot hflags
  obtain ⟨m1, m2, m3, m4⟩ := hmeet
  obtain ⟨v1, v2⟩ := hvalid
  obtain ⟨⟨h1, h2⟩, ⟨h3, h4⟩, h5, h6, h7, h8⟩ := hd
  cases horizontal <;> cases vertical <;> cases rotate <;>
    simp only [spec_source_shift, cut_left, cut_top, cut_right, cut_bottom, clipped_width,
      clipped_height, clipped_destination, if_true, if_false, Bool.false_eq_true, max_def,
      min_def, true_implies, false_implies, and_true, true_and, reduceCtorEq] at hsizes ⊢ <;>
    split_ifs <;> omega

/-- C29, witness: under a vertical flip the sample destination moves the source origin by
(2, 6) and leaves an 11 by 11 source inside the 17 by 20 original; a destination
beside the clip leaves both rectangles as they were. -/
theorem clip_blit_source_within_witness :
    (blit_sizes_asserted sample_source sample_destination DSBLIT_FLIP_VERTICAL ∧
      destination_meets_clip sample_clip sample_destination ∧
      (dfb_clip_blit_flipped_rotated sample_clip sample_source sample_destination
          DSBLIT_FLIP_VERTICAL).1 = { x := 102, y := 206, w := 11, h := 11 } ∧
      ¬ destination_meets_clip sample_clip { x := 20, y := -3, w := 17, h := 20 }) ∧
    ((destination_meets_clip sample_clip sample_destination →
      sample_source.x ≤ (dfb_clip_blit_flipped_rotated sample_clip sample_source
        sample_destination DSBLIT_FLIP_VERTICAL).1.x ∧
      (dfb_clip_blit_flipped_rotated sample_clip sample_source sample_destination
            DSBLIT_FLIP_VERTICAL).1.x +
          (dfb_clip_blit_flipped_rotated sample_clip sample_source sample_destination
            DSBLIT_FLIP_VERTICAL).1.w ≤ sample_source.x + sample_source.w ∧
      sample_source.y ≤ (dfb_clip_blit_flipped_rotated sample_clip sample_source
        sample_destination DSBLIT_FLIP_VERTICAL).1.y ∧
      (dfb_clip_blit_flipped_rotated sample_clip sample_source sample_destination
            DSBLIT_FLIP_VERTICAL).1.y +
          (dfb_clip_blit_flipped_rotated sample_clip sample_source sample_destination
            DSBLIT_FLIP_VERTICAL).1.h ≤ sample_source.y + sample_source.h ∧
      1 ≤ (dfb_clip_blit_flipped_rotated sample_clip sample_source sample_destination
        DSBLIT_FLIP_VERTICAL).1.w ∧
      1 ≤ (dfb_clip_blit_flipped_rotated sample_clip sample_source sample_destination
        DSBLIT_FLIP_VERTICAL).1.h) ∧
    (¬ destination_meets_clip sample_clip sample_destination →
      dfb_clip_blit_flipped_rotated sample_clip sample_source sample_destination
        DSBLIT_FLIP_VERTICAL = (sample_source, sample_destination))) :=
  ⟨by decide,
    clip_blit_source_within sample_clip sample_source sample_destination DSBLIT_FLIP_VERTICAL
      false true false (by decide) (by decide) (by decide) (by decide) (by decide) (by decide)
      (by decide)⟩

/-! ## Triangle clipping stays within its arrays (C30) -/

theorem checked_bind_ok {α β : Type} (value : α) (f : α → Checked β) :
    (Checked.ok value).bind f = f value := rfl

theorem checked_bind_no_line_result {α β : Type} (f : α → Checked β) :
    (Checked.no_line_result : Checked α).bind f = Checked.no_line_result := rfl

theorem array_read_in_bounds {α : Type} (a : List α) (i : Int) (h0 : 0 ≤ i)
    (h1 : i < a.length) : ∃ value, array_read a i = Checked.ok value ∧
      a[i.toNat]? = some value := by
  unfold array_read
  rw [if_pos h0]
  have hlt : i.toNat < a.length := by omega
  rw [List.getElem?_eq_getElem hlt]
  exact ⟨_, rfl, rfl⟩

theorem array_write_in_bounds {α : Type} (a : List α) (i : Int) (value : α) (h0 : 0 ≤ i)
    (h1 : i < a.length) : array_write a i value = Checked.ok (a.set i.toNat value) := by
  unfold array_write
  rw [if_pos]
  constructor
  · exact h0
  · omega

theorem array_memmove_edges (a b c : DFBRegion) (i num_edges : Int) (h0 : 0 ≤ i)
    (h1 : i < num_edges) (h2 : num_edges ≤ 3) :
    ∃ edges, array_memmove [a, b, c] i (i + 1) (num_edges - i - 1) = Checked.ok edges ∧
      edges.length = 3 ∧
      ∀ k : Nat, i ≤ k → (k : Int) < num_edges - 1 → edges[k]? = [a, b, c][k + 1]? := by
  have hi : i = 0 ∨ i = 1 ∨ i = 2 := by omega
  have hn : num_edges = 1 ∨ num_edges = 2 ∨ num_edges = 3 := by omega
  rcases hi with hi | hi | hi <;> rcases hn with hn | hn | hn <;> subst hi <;> subst hn <;>
    first
    | omega
    | (refine ⟨_, by simp [array_memmove]; rfl, by simp, ?_⟩
       intro k hk1 hk2
       have hk : k = 0 ∨ k = 1 := by omega
       rcases hk with hk | hk <;> subst hk <;> first | omega | simp)


theorem clip_edges_checked_safe (fuel : Nat)
    (intersect : DFBRegion → DFBRegion → Option DFBPoint) (clip : DFBRegion)
    (good : DFBRegion → Prop) :
    ∀ (steps : Nat) (edges : List DFBRegion) (num_edges i : Int),
      edges.length = 3 → 0 ≤ i → i ≤ num_edges → num_edges ≤ 3 → num_edges - i ≤ steps →
      (∀ (k : Nat) (edge : DFBRegion), i ≤ k → (k : Int) < num_edges →
        edges[k]? = some edge → good edge) →
      clip_edges_checked fuel intersect clip steps edges num_edges i ≠ Checked.out_of_bounds ∧
      clip_edges_checked fuel intersect clip steps edges num_edges i ≠ Checked.unfinished ∧
      (∀ result num, clip_edges_checked fuel intersect clip steps edges num_edges i =
          Checked.ok (result, num) → result.length = 3 ∧ 0 ≤ num ∧ num ≤ 3) ∧
      ((∀ edge, good edge → ∃ result, dfb_clip_line fuel clip edge = some result) →
        ∃ value, clip_edges_checked fuel intersect clip steps edges num_edges i =
          Checked.ok value) := by
  intro steps
  induction steps with
  | zero =>
    intro edges num_edges i hlen h0 h1 h2 h3 _
    have hdone : ¬ i < num_edges := by
      simp only [Nat.cast_zero] at h3
      omega
    unfold clip_edges_checked
    rw [if_pos hdone]
    refine ⟨fun h => Checked.noConfusion h, fun h => Checked.noConfusion h, ?_, fun _ => ⟨_, rfl⟩⟩
    intro result num h
    simp only [Checked.ok.injEq, Prod.mk.injEq] at h
    obtain ⟨ha, hb⟩ := h
    subst ha
    subst hb
    exact ⟨hlen, by omega, h2⟩
  | succ n ih =>
    intro edges num_edges i hlen h0 h1 h2 h3 hgood
    unfold clip_edges_checked
    by_cases hdone : ¬ i < num_edges
    · rw [if_pos hdone]
      refine ⟨fun h => Checked.noConfusion h, fun h => Checked.noConfusion h, ?_,
        fun _ => ⟨_, rfl⟩⟩
      intro result num h
      simp only [Checked.ok.injEq, Prod.mk.injEq] at h
      obtain ⟨ha, hb⟩ := h
      subst ha
      subst hb
      exact ⟨hlen, by omega, h2⟩
    · rw [if_neg hdone]
      have hlt : i < num_edges := by omega
      obtain ⟨reg, hreg, hregget⟩ := array_read_in_bounds edges i h0 (by omega)
      have hreggood : good reg := hgood i.toNat reg (by omega) (by omega) hregget
      dsimp only
      rw [hreg]
      simp only [Checked.bind]
      cases hedge : clip_edge fuel intersect clip reg with
      | none =>
        dsimp only
        refine ⟨fun h => Checked.noConfusion h, fun h => Checked.noConfusion h,
          fun _ _ h => Checked.noConfusion h, ?_⟩
        intro hall
        obtain ⟨e, he⟩ := clip_edge_returns fuel intersect clip reg (hall reg hreggood)
        rw [hedge] at he
        exact Option.noConfusion he
      | some treated =>
        cases treated with
        | some edge =>
          dsimp only
          rw [array_write_in_bounds edges i edge h0 (by omega)]
          simp only [Checked.bind]
          apply ih _ num_edges (i + 1) (by simp [hlen]) (by omega) (by omega) h2
          · push_cast at h3
            omega
          · intro k e hk1 hk2 hke
            rw [List.getElem?_set_ne (by omega)] at hke
            exact hgood k e (by omega) hk2 hke
        | none =>
          dsimp only
          obtain ⟨a, b, c, habc⟩ : ∃ a b c, edges = [a, b, c] := by
            match edges, hlen with
            | [a, b, c], _ => exact ⟨a, b, c, rfl⟩
          subst habc
          obtain ⟨moved, hmoved, hmlen, hmget⟩ := array_memmove_edges a b c i num_edges h0 hlt h2
          rw [hmoved]
          simp only [Checked.bind]
          apply ih _ (num_edges - 1) (i - 1 + 1) hmlen (by omega) (by omega) (by omega)
          · push_cast at h3
            omega
          · intro k e hk1 hk2 hke
            rw [hmget k (by omega) hk2] at hke
            exact hgood (k + 1) e (by omega) (by push_cast; omega) hke

theorem append_vertex_checked_safe (p : List DFBPoint) (n x y : Int) (hlen : p.length = 6)
    (h1 : 1 ≤ n) (h2 : n ≤ 5) :
    ∃ q m, append_vertex_checked p n x y = Checked.ok (q, m) ∧ q.length = 6 ∧ n ≤ m ∧
      m ≤ n + 1 := by
  obtain ⟨last, hlast, _⟩ := array_read_in_bounds p (n - 1) (by omega) (by omega)
  unfold append_vertex_checked
  rw [hlast]
  simp only [Checked.bind]
  by_cases hd : x ≠ last.x ∨ y ≠ last.y
  · rw [if_pos hd, array_write_in_bounds p n _ (by omega) (by omega)]
    exact ⟨_, _, rfl, by simp [hlen], by omega, by omega⟩
  · rw [if_neg hd]
    exact ⟨_, _, rfl, hlen, by omega, by omega⟩

theorem edge_vertices_checked_safe (edges : List DFBRegion) (num_edges : Int)
    (hlen : edges.length = 3) (hnum : num_edges ≤ 3) :
    ∀ (steps : Nat) (i : Int) (p : List DFBPoint) (n : Int),
      p.length = 6 → 1 ≤ i → i ≤ num_edges → 1 ≤ n → n ≤ 2 * i → num_edges - i ≤ steps →
      ∃ q m, edge_vertices_checked edges num_edges steps i p n = Checked.ok (q, m) ∧
        q.length = 6 ∧ 1 ≤ m ∧ m ≤ 2 * num_edges := by
  intro steps
  induction steps with
  | zero =>
    intro i p n hp h1 h2 h3 h4 h5
    have hdone : ¬ i < num_edges := by
      simp only [Nat.cast_zero] at h5
      omega
    unfold edge_vertices_checked
    rw [if_pos hdone]
    exact ⟨_, _, rfl, hp, h3, by omega⟩
  | succ k ih =>
    intro i p n hp h1 h2 h3 h4 h5
    unfold edge_vertices_checked
    by_cases hdone : ¬ i < num_edges
    · rw [if_pos hdone]
      exact ⟨_, _, rfl, hp, h3, by omega⟩
    · rw [if_neg hdone]
      obtain ⟨edge, hedge, _⟩ := array_read_in_bounds edges i (by omega) (by omega)
      dsimp only
      rw [hedge]
      simp only [Checked.bind]
      obtain ⟨q1, m1, hq1, hl1, ha1, hb1⟩ :=
        append_vertex_checked_safe p n edge.x1 edge.y1 hp h3 (by omega)
      rw [hq1]
      dsimp only
      obtain ⟨q2, m2, hq2, hl2, ha2, hb2⟩ :=
        append_vertex_checked_safe q1 m1 edge.x2 edge.y2 hl1 (by omega) (by omega)
      rw [hq2]
      dsimp only
      apply ih (i + 1) q2 m2 hl2 (by omega) (by omega) (by omega) (by omega)
      push_cast at h5
      omega

theorem clip_triangle_checked_safe (fuel : Nat)
    (intersect : DFBRegion → DFBRegion → Option DFBPoint) (clip : DFBRegion) (tri : DFBTriangle)
    (p : List DFBPoint) (hp : p.length = 6) :
    dfb_clip_triangle_checked fuel intersect clip tri p ≠ Checked.out_of_bounds ∧
    dfb_clip_triangle_checked fuel intersect clip tri p ≠ Checked.unfinished ∧
    (∀ ret q num, dfb_clip_triangle_checked fuel intersect clip tri p = Checked.ok (ret, q, num) →
      q.length = 6 ∧ 0 ≤ num ∧ num ≤ 6) ∧
    ((∀ edge ∈ triangle_edges tri, ∃ result, dfb_clip_line fuel clip edge = some result) →
      ∃ value, dfb_clip_triangle_checked fuel intersect clip tri p = Checked.ok value) := by
  obtain ⟨s1, s2, s3, s4⟩ := clip_edges_checked_safe fuel intersect clip
    (fun edge => edge ∈ triangle_edges tri) 3 (triangle_edges tri) 3 0 rfl (by omega) (by omega)
    (by omega) (by simp) (fun k edge _ _ h => List.getElem?_mem h)
  have hunfold : dfb_clip_triangle_checked fuel intersect clip tri p =
      (clip_edges_checked fuel intersect clip 3 (triangle_edges tri) 3 0).bind fun en =>
        if en.2 < 1 then Checked.ok (false, p, 0)
        else
          (array_read en.1 0).bind fun first =>
            (array_write p 0 { x := first.x1, y := first.y1 }).bind fun p =>
              (if first.x2 ≠ first.x1 ∨ first.y2 ≠ first.y1 then
                  (array_write p 1 { x := first.x2, y := first.y2 }).bind fun p =>
                    Checked.ok (p, (2 : Int))
                else Checked.ok (p, (1 : Int))).bind fun pn =>
                (edge_vertices_checked en.1 en.2 2 1 pn.1 pn.2).bind fun pn =>
                  (array_read pn.1 (pn.2 - 1)).bind fun last =>
                    (array_read pn.1 0).bind fun head =>
                      Checked.ok (decide ((if last.x = head.x ∧ last.y = head.y then pn.2 - 1
                        else pn.2) ≥ 3), pn.1,
                        if last.x = head.x ∧ last.y = head.y then pn.2 - 1 else pn.2) := rfl
  rw [hunfold]
  cases hfirst : clip_edges_checked fuel intersect clip 3 (triangle_edges tri) 3 0 with
  | out_of_bounds => exact absurd hfirst s1
  | unfinished => exact absurd hfirst s2
  | no_line_result =>
    rw [checked_bind_no_line_result]
    refine ⟨fun h => Checked.noConfusion h, fun h => Checked.noConfusion h,
      fun _ _ _ h => Checked.noConfusion h, ?_⟩
    intro hall
    obtain ⟨v, hv⟩ := s4 (fun edge hedge => hall edge hedge)
    rw [hfirst] at hv
    exact Checked.noConfusion hv
  | ok en =>
    obtain ⟨edges, num_edges⟩ := en
    obtain ⟨hlen, hn0, hn3⟩ := s3 edges num_edges hfirst
    simp only [checked_bind_ok]
    by_cases hnone : num_edges < 1
    · rw [if_pos hnone]
      refine ⟨fun h => Checked.noConfusion h, fun h => Checked.noConfusion h, ?_,
        fun _ => ⟨_, rfl⟩⟩
      intro ret q num h
      simp only [Checked.ok.injEq, Prod.mk.injEq] at h
      obtain ⟨_, hq, hnum⟩ := h
      subst hq
      subst hnum
      exact ⟨hp, by omega, by omega⟩
    · rw [if_neg hnone]
      obtain ⟨first, hfirstread, _⟩ := array_read_in_bounds edges 0 (by omega) (by omega)
      rw [hfirstread, checked_bind_ok, array_write_in_bounds p 0 _ (by omega) (by omega),
        checked_bind_ok]
      have hstart : ∃ q m, (if first.x2 ≠ first.x1 ∨ first.y2 ≠ first.y1 then
          (array_write (p.set (0 : Int).toNat { x := first.x1, y := first.y1 }) 1
            { x := first.x2, y := first.y2 }).bind fun p => Checked.ok (p, (2 : Int))
          else Checked.ok (p.set (0 : Int).toNat { x := first.x1, y := first.y1 }, (1 : Int))) =
          Checked.ok (q, m) ∧ q.length = 6 ∧ 1 ≤ m ∧ m ≤ 2 := by
        by_cases hd : first.x2 ≠ first.x1 ∨ first.y2 ≠ first.y1
        · rw [if_pos hd, array_write_in_bounds _ 1 _ (by omega) (by simp [hp])]
          exact ⟨_, _, rfl, by simp [hp], by omega, by omega⟩
        · rw [if_neg hd]
          exact ⟨_, _, rfl, by simp [hp], by omega, by omega⟩
      obtain ⟨q, m, hqm, hql, hm1, hm2⟩ := hstart
      rw [hqm, checked_bind_ok]
      dsimp only
      obtain ⟨q2, m2, hq2, hl2, hm21, hm22⟩ := edge_vertices_checked_safe edges num_edges hlen hn3
        2 1 q m hql (by omega) (by omega) hm1 (by omega) (by push_cast; omega)
      rw [hq2, checked_bind_ok]
      dsimp only
      obtain ⟨last, hlast, _⟩ := array_read_in_bounds q2 (m2 - 1) (by omega) (by omega)
      obtain ⟨head, hhead, _⟩ := array_read_in_bounds q2 0 (by omega) (by omega)
      rw [hlast, checked_bind_ok, hhead, checked_bind_ok]
      refine ⟨fun h => Checked.noConfusion h, fun h => Checked.noConfusion h, ?_,
        fun _ => ⟨_, rfl⟩⟩
      intro ret r num h
      simp only [Checked.ok.injEq, Prod.mk.injEq] at h
      obtain ⟨_, hr, hnum⟩ := h
      subst hr
      rw [← hnum]
      refine ⟨hl2, ?_, ?_⟩ <;> split_ifs <;> omega

/-- C30: for every clip region and triangle, whatever the segment intersection test
returns and whatever bound the line clipping has, a run of `dfb_clip_triangle`
with checked accesses to `edges[3]` and to the six points of `p` never leaves an
array and never exceeds the bounds of its loops, and when it ends, `p` still has
six entries and the count lies between 0 and 6; with a clip region with
`x1 <= x2` and `y1 <= y2` and coordinates of at most 16384 in absolute value it
does end with a result. -/
theorem clip_triangle_in_bounds (fuel : Nat)
    (intersect : DFBRegion → DFBRegion → Option DFBPoint) (clip : DFBRegion) (tri : DFBTriangle)
    (p : List DFBPoint) (hp : p.length = 6) :
    dfb_clip_triangle_checked fuel intersect clip tri p ≠ Checked.out_of_bounds ∧
    dfb_clip_triangle_checked fuel intersect clip tri p ≠ Checked.unfinished ∧
    (∀ ret q num, dfb_clip_triangle_checked fuel intersect clip tri p = Checked.ok (ret, q, num) →
      q.length = 6 ∧ 0 ≤ num ∧ num ≤ 6) ∧
    (clip.valid → clip.small → tri.small → 4 ≤ fuel →
      ∃ value, dfb_clip_triangle_checked fuel intersect clip tri p = Checked.ok value) := by
  obtain ⟨s1, s2, s3, s4⟩ := clip_triangle_checked_safe fuel intersect clip tri p hp
  refine ⟨s1, s2, s3, ?_⟩
  intro hv hcs hts hfuel
  apply s4
  intro edge hedge
  obtain ⟨t1, t2, t3, t4, t5, t6⟩ := hts
  refine clip_line_returns clip edge fuel hv hcs ?_ hfuel
  simp only [triangle_edges, List.mem_cons, List.mem_singleton, List.not_mem_nil, or_false]
    at hedge
  rcases hedge with h | h | h <;> subst h <;> exact ⟨by assumption, by assumption, by assumption,
    by assumption⟩

/-- C30, witness: the triangle (-8, -8), (14, 5), (5, 12) sticks out of the sample clip
region at all three corners; all six entries of `p` are written and the count is
6. -/
theorem clip_triangle_in_bounds_witness :
    dfb_clip_triangle_checked 4 no_intersection sample_clip
        { x1 := -8, y1 := -8, x2 := 14, y2 := 5, x3 := 5, y3 := 12 } six_points =
      Checked.ok (true, [{ x := 5, y := 0 }, { x := 10, y := 2 }, { x := 10, y := 8 },
        { x := 8, y := 10 }, { x := 4, y := 10 }, { x := 0, y := 4 }], 6) ∧
    dfb_clip_triangle_checked 4 no_intersection sample_clip
        { x1 := -8, y1 := -8, x2 := 14, y2 := 5, x3 := 5, y3 := 12 } six_points ≠
      Checked.out_of_bounds ∧
    dfb_clip_triangle_checked 4 no_intersection sample_clip
        { x1 := -8, y1 := -8, x2 := 14, y2 := 5, x3 := 5, y3 := 12 } six_points ≠
      Checked.unfinished ∧
    (∀ ret q num, dfb_clip_triangle_checked 4 no_intersection sample_clip
        { x1 := -8, y1 := -8, x2 := 14, y2 := 5, x3 := 5, y3 := 12 } six_points =
          Checked.ok (ret, q, num) → q.length = 6 ∧ 0 ≤ num ∧ num ≤ 6) ∧
    (sample_clip.valid → sample_clip.small →
      DFBTriangle.small { x1 := -8, y1 := -8, x2 := 14, y2 := 5, x3 := 5, y3 := 12 } → 4 ≤ 4 →
      ∃ value, dfb_clip_triangle_checked 4 no_intersection sample_clip
        { x1 := -8, y1 := -8, x2 := 14, y2 := 5, x3 := 5, y3 := 12 } six_points =
          Checked.ok value) :=
  ⟨by decide!,
    clip_triangle_in_bounds 4 no_intersection sample_clip
      { x1 := -8, y1 := -8, x2 := 14, y2 := 5, x3 := 5, y3 := 12 } six_points (by decide)⟩

/-! ## The update aggregator: what the bounding region and the stored regions enclose -/

theorem region_encloses_refl (a : DFBRegion) : region_encloses a a := by
  unfold region_encloses
  omega

theorem region_encloses_trans (a b c : DFBRegion) (h1 : region_encloses a b)
    (h2 : region_encloses b c) : region_encloses a c := by
  unfold region_encloses at *
  omega

theorem region_encloses_antisymm (a b : DFBRegion) (h1 : region_encloses a b)
    (h2 : region_encloses b a) : a = b := by
  unfold region_encloses at *
  obtain ⟨a1, a2, a3, a4⟩ := a
  obtain ⟨b1, b2, b3, b4⟩ := b
  simp only [DFBRegion.mk.injEq]
  dsimp only at h1 h2
  omega

theorem union_encloses_left (a b : DFBRegion) :
    region_encloses (dfb_region_region_union a b) a := by
  unfold region_encloses dfb_region_region_union
  dsimp only
  refine ⟨?_, ?_, ?_, ?_⟩ <;> split_ifs <;> omega

theorem union_encloses_right (a b : DFBRegion) :
    region_encloses (dfb_region_region_union a b) b := by
  unfold region_encloses dfb_region_region_union
  dsimp only
  refine ⟨?_, ?_, ?_, ?_⟩ <;> split_ifs <;> omega

theorem union_least (other a b : DFBRegion) (h1 : region_encloses other a)
    (h2 : region_encloses other b) : region_encloses other (dfb_region_region_union a b) := by
  unfold region_encloses dfb_region_region_union at *
  dsimp only
  refine ⟨?_, ?_, ?_, ?_⟩ <;> split_ifs <;> omega

theorem updates_combine_some (region : DFBRegion) :
    ∀ (stored combined : List DFBRegion), updates_combine region stored = some combined →
      combined.length = stored.length ∧
      (∀ r ∈ stored, ∃ c ∈ combined, region_encloses c r) ∧
      (∃ c ∈ combined, region_encloses c region) ∧
      (∀ c ∈ combined, c ∈ stored ∨ ∃ r ∈ stored, c = dfb_region_region_union r region) := by
  intro stored
  induction stored with
  | nil =>
    intro combined h
    simp [updates_combine] at h
  | cons first rest ih =>
    intro combined h
    unfold updates_combine at h
    by_cases hc : (dfb_region_region_extends first region ||
        dfb_region_region_intersects first region) = true
    · rw [if_pos hc] at h
      simp only [Option.some.injEq] at h
      subst h
      refine ⟨by simp, ?_, ?_, ?_⟩
      · intro r hr
        rcases List.mem_cons.mp hr with h | h
        · exact ⟨_, List.mem_cons_self _ _, by rw [h]; exact union_encloses_left first region⟩
        · exact ⟨r, List.mem_cons_of_mem _ h, region_encloses_refl r⟩
      · exact ⟨_, List.mem_cons_self _ _, union_encloses_right first region⟩
      · intro c hc
        rcases List.mem_cons.mp hc with h | h
        · exact Or.inr ⟨first, List.mem_cons_self _ _, h⟩
        · exact Or.inl (List.mem_cons_of_mem _ h)
    · rw [if_neg hc] at h
      cases hrest : updates_combine region rest with
      | none => rw [hrest] at h; simp at h
      | some tail =>
        rw [hrest] at h
        simp only [Option.some.injEq] at h
        subst h
        obtain ⟨i1, i2, ⟨c, hc1, hc2⟩, i4⟩ := ih tail hrest
        refine ⟨by simp [i1], ?_, ⟨c, List.mem_cons_of_mem _ hc1, hc2⟩, ?_⟩
        · intro r hr
          rcases List.mem_cons.mp hr with h | h
          · exact ⟨first, List.mem_cons_self _ _, by rw [h]; exact region_encloses_refl first⟩
          · obtain ⟨c, hc1, hc2⟩ := i2 r h
            exact ⟨c, List.mem_cons_of_mem _ hc1, hc2⟩
        · intro c hc
          rcases List.mem_cons.mp hc with h | h
          · exact Or.inl (by rw [h]; exact List.mem_cons_self _ _)
          · rcases i4 c h with h | ⟨r, hr1, hr2⟩
            · exact Or.inl (List.mem_cons_of_mem _ h)
            · exact Or.inr ⟨r, List.mem_cons_of_mem _ hr1, hr2⟩

theorem updates_combine_none (region : DFBRegion) :
    ∀ (stored : List DFBRegion), updates_combine region stored = none →
      ∀ r ∈ stored, dfb_region_region_extends r region = false ∧
        dfb_region_region_intersects r region = false := by
  intro stored
  induction stored with
  | nil =>
    intro _ r hr
    simp at hr
  | cons first rest ih =>
    intro h r hr
    unfold updates_combine at h
    by_cases hc : (dfb_region_region_extends first region ||
        dfb_region_region_intersects first region) = true
    · rw [if_pos hc] at h
      simp at h
    · rw [if_neg hc] at h
      cases hrest : updates_combine region rest with
      | some tail => rw [hrest] at h; simp at h
      | none =>
        rcases List.mem_cons.mp hr with h1 | h1
        · rw [h1]
          simpa using hc
        · exact ih hrest r h1

theorem updates_track_fresh (updates : DFBUpdates) (h : updates.regions = []) :
    UpdatesTrack updates [] := by
  refine ⟨by simp [h], ?_, ?_, ?_, ?_, ?_⟩
  · intro r hr
    simp at hr
  · intro _ hne
    exact absurd rfl hne
  · intro stored hs
    rw [h] at hs
    simp at hs
  · intro _ hne
    exact absurd h hne
  · intro r hr
    simp at hr

theorem updates_track_add (updates : DFBUpdates) (added : List DFBRegion) (region : DFBRegion)
    (h : UpdatesTrack updates added) :
    UpdatesTrack (dfb_updates_add updates region) (added ++ [region]) := by
  obtain ⟨t0, t1, t2, t3, t4, t5⟩ := h
  unfold dfb_updates_add
  by_cases hzero : updates.num_regions = 0
  · rw [if_pos hzero]
    have hnil : updates.regions = [] := by
      unfold DFBUpdates.num_regions at hzero
      exact List.length_eq_zero.mp (by omega)
    have hadded : added = [] := t0.mp hnil
    subst hadded
    refine ⟨by simp, ?_, ?_, ?_, ?_, ?_⟩
    · intro r hr
      simp only [List.nil_append, List.mem_singleton] at hr
      rw [hr]
      exact region_encloses_refl _
    · intro other _ hall
      exact hall region (by simp)
    · intro stored hs
      simp only [List.mem_singleton] at hs
      rw [hs]
      exact region_encloses_refl _
    · intro other _ hall
      exact hall region (by simp)
    · intro r hr
      simp only [List.nil_append, List.mem_singleton] at hr
      rw [hr]
      exact ⟨region, by simp, region_encloses_refl _⟩
  · rw [if_neg hzero]
    have hne : updates.regions ≠ [] := by
      intro hnil
      apply hzero
      unfold DFBUpdates.num_regions
      rw [hnil]
      rfl
    have haddedne : added ≠ [] := fun hn => hne (t0.mpr hn)
    have hb1 : ∀ r ∈ added ++ [region],
        region_encloses (dfb_region_region_union updates.bounding region) r := by
      intro r hr
      rcases List.mem_append.mp hr with h | h
      · exact region_encloses_trans _ _ _ (union_encloses_left _ _) (t1 r h)
      · simp only [List.mem_singleton] at h
        rw [h]
        exact union_encloses_right _ _
    have hb2 : ∀ other, added ++ [region] ≠ [] →
        (∀ r ∈ added ++ [region], region_encloses other r) →
        region_encloses other (dfb_region_region_union updates.bounding region) := by
      intro other _ hall
      apply union_least
      · exact t2 other haddedne (fun r hr => hall r (List.mem_append_left _ hr))
      · exact hall region (by simp)
    cases hcomb : updates_combine region updates.regions with
    | some combined =>
      obtain ⟨c1, c2, ⟨c, hc1, hc2⟩, c4⟩ := updates_combine_some region _ _ hcomb
      have hcne : combined ≠ [] := by
        intro hn
        rw [hn] at c1
        exact hne (List.length_eq_zero.mp c1.symm)
      refine ⟨by simp [hcne], hb1, hb2, ?_, ?_, ?_⟩
      · intro stored hs
        rcases c4 stored hs with h | ⟨r, hr1, hr2⟩
        · exact region_encloses_trans _ _ _ (union_encloses_left _ _) (t3 stored h)
        · rw [hr2]
          apply union_least
          · exact region_encloses_trans _ _ _ (union_encloses_left _ _) (t3 r hr1)
          · exact union_encloses_right _ _
      · intro other _ hall
        apply union_least
        · apply t4 other hne
          intro stored hs
          obtain ⟨c', hc'1, hc'2⟩ := c2 stored hs
          exact region_encloses_trans _ _ _ (hall c' hc'1) hc'2
        · exact region_encloses_trans _ _ _ (hall c hc1) hc2
      · intro r hr
        rcases List.mem_append.mp hr with h | h
        · obtain ⟨stored, hs1, hs2⟩ := t5 r h
          obtain ⟨c', hc'1, hc'2⟩ := c2 stored hs1
          exact ⟨c', hc'1, region_encloses_trans _ _ _ hc'2 hs2⟩
        · simp only [List.mem_singleton] at h
          rw [h]
          exact ⟨c, hc1, hc2⟩
    | none =>
      dsimp only
      by_cases hfull : updates.num_regions = updates.max_regions
      · rw [if_pos hfull]
        refine ⟨by simp, hb1, hb2, ?_, ?_, ?_⟩
        · intro stored hs
          simp only [List.mem_singleton] at hs
          rw [hs]
          exact region_encloses_refl _
        · intro other _ hall
          exact hall _ (by simp)
        · intro r hr
          exact ⟨_, by simp, hb1 r hr⟩
      · rw [if_neg hfull]
        refine ⟨by simp, hb1, hb2, ?_, ?_, ?_⟩
        · intro stored hs
          rcases List.mem_append.mp hs with h | h
          · exact region_encloses_trans _ _ _ (union_encloses_left _ _) (t3 stored h)
          · simp only [List.mem_singleton] at h
            rw [h]
            exact union_encloses_right _ _
        · intro other _ hall
          apply union_least
          · exact t4 other hne (fun stored hs => hall stored (List.mem_append_left _ hs))
          · exact hall region (by simp)
        · intro r hr
          rcases List.mem_append.mp hr with h | h
          · obtain ⟨stored, hs1, hs2⟩ := t5 r h
            exact ⟨stored, List.mem_append_left _ hs1, hs2⟩
          · simp only [List.mem_singleton] at h
            rw [h]
            exact ⟨region, by simp, region_encloses_refl _⟩

theorem updates_track_add_all (regions : List DFBRegion) :
    ∀ (updates : DFBUpdates) (added : List DFBRegion), UpdatesTrack updates added →
      UpdatesTrack (updates_add_all updates regions) (added ++ regions) := by
  induction regions with
  | nil =>
    intro updates added h
    simpa [updates_add_all] using h
  | cons region rest ih =>
    intro updates added h
    have hstep := ih _ _ (updates_track_add updates added region h)
    simpa [updates_add_all] using hstep

theorem updates_track_since (updates : DFBUpdates) (h : updates.regions = [])
    (regions : List DFBRegion) : UpdatesTrack (updates_add_all updates regions) regions := by
  simpa using updates_track_add_all regions updates [] (updates_track_fresh updates h)

/-! ## The update aggregator: ranges, counts and rectangles -/

theorem union_modest (a b : DFBRegion) (ha : a.modest) (hb : b.modest) :
    (dfb_region_region_union a b).modest := by
  unfold DFBRegion.modest dfb_region_region_union at *
  dsimp only
  refine ⟨?_, ?_, ?_, ?_, ?_, ?_⟩ <;> split_ifs <;> omega

theorem updates_add_modest (updates : DFBUpdates) (region : DFBRegion) (hregion : region.modest)
    (hstored : ∀ stored ∈ updates.regions, stored.modest)
    (hbounding : updates.regions ≠ [] → updates.bounding.modest) :
    (∀ stored ∈ (dfb_updates_add updates region).regions, stored.modest) ∧
    (dfb_updates_add updates region).bounding.modest := by
  unfold dfb_updates_add
  by_cases hzero : updates.num_regions = 0
  · rw [if_pos hzero]
    refine ⟨?_, hregion⟩
    intro stored hs
    simp only [List.mem_singleton] at hs
    rw [hs]
    exact hregion
  · rw [if_neg hzero]
    have hne : updates.regions ≠ [] := by
      intro hnil
      apply hzero
      unfold DFBUpdates.num_regions
      rw [hnil]
      rfl
    have hb := union_modest _ _ (hbounding hne) hregion
    cases hcomb : updates_combine region updates.regions with
    | some combined =>
      obtain ⟨_, _, _, c4⟩ := updates_combine_some region _ _ hcomb
      refine ⟨?_, hb⟩
      intro stored hs
      rcases c4 stored hs with h | ⟨r, hr1, hr2⟩
      · exact hstored stored h
      · rw [hr2]
        exact union_modest _ _ (hstored r hr1) hregion
    | none =>
      dsimp only
      by_cases hfull : updates.num_regions = updates.max_regions
      · rw [if_pos hfull]
        refine ⟨?_, hb⟩
        intro stored hs
        simp only [List.mem_singleton] at hs
        rw [hs]
        exact hb
      · rw [if_neg hfull]
        refine ⟨?_, hb⟩
        intro stored hs
        rcases List.mem_append.mp hs with h | h
        · exact hstored stored h
        · simp only [List.mem_singleton] at h
          rw [h]
          exact hregion

theorem updates_add_all_modest (regions : List DFBRegion) :
    ∀ (updates : DFBUpdates), (∀ r ∈ regions, r.modest) →
      (∀ stored ∈ updates.regions, stored.modest) →
      (updates.regions ≠ [] → updates.bounding.modest) →
      (∀ stored ∈ (updates_add_all updates regions).regions, stored.modest) ∧
      ((updates_add_all updates regions).regions ≠ [] →
        (updates_add_all updates regions).bounding.modest) := by
  induction regions with
  | nil =>
    intro updates _ h1 h2
    exact ⟨h1, h2⟩
  | cons region rest ih =>
    intro updates hall h1 h2
    obtain ⟨g1, g2⟩ := updates_add_modest updates region (hall region (List.mem_cons_self _ _))
      h1 h2
    exact ih (dfb_updates_add updates region) (fun r hr => hall r (List.mem_cons_of_mem _ hr)) g1
      (fun _ => g2)

theorem updates_add_count (updates : DFBUpdates) (region : DFBRegion)
    (hmax : 1 ≤ updates.max_regions) (hnum : updates.num_regions ≤ updates.max_regions) :
    (dfb_updates_add updates region).max_regions = updates.max_regions ∧
    1 ≤ (dfb_updates_add updates region).num_regions ∧
    (dfb_updates_add updates region).num_regions ≤ updates.max_regions := by
  unfold dfb_updates_add
  by_cases hzero : updates.num_regions = 0
  · rw [if_pos hzero]
    refine ⟨rfl, ?_, ?_⟩ <;> (simp [DFBUpdates.num_regions]; try omega)
  · rw [if_neg hzero]
    have hpos : 1 ≤ updates.num_regions := by
      unfold DFBUpdates.num_regions at *
      omega
    cases hcomb : updates_combine region updates.regions with
    | some combined =>
      obtain ⟨c1, _⟩ := updates_combine_some region _ _ hcomb
      unfold DFBUpdates.num_regions at *
      dsimp only
      rw [c1]
      exact ⟨rfl, hpos, hnum⟩
    | none =>
      dsimp only
      by_cases hfull : updates.num_regions = updates.max_regions
      · rw [if_pos hfull]
        refine ⟨rfl, ?_, ?_⟩ <;> (simp [DFBUpdates.num_regions]; try omega)
      · rw [if_neg hfull]
        unfold DFBUpdates.num_regions at *
        refine ⟨rfl, ?_, ?_⟩ <;> (simp; try omega)

theorem updates_add_all_count (regions : List DFBRegion) :
    ∀ (updates : DFBUpdates), 1 ≤ updates.max_regions →
      updates.num_regions ≤ updates.max_regions →
      (updates_add_all updates regions).max_regions = updates.max_regions ∧
      (updates_add_all updates regions).num_regions ≤ updates.max_regions := by
  induction regions with
  | nil =>
    intro updates _ h
    exact ⟨rfl, h⟩
  | cons region rest ih =>
    intro updates hmax hnum
    obtain ⟨g1, _, g3⟩ := updates_add_count updates region hmax hnum
    obtain ⟨k1, k2⟩ := ih (dfb_updates_add updates region) (by rw [g1]; exact hmax)
      (by rw [g1]; exact g3)
    rw [g1] at k1 k2
    exact ⟨k1, k2⟩

theorem updates_rectangle_exact (region : DFBRegion) (h : region.modest) :
    updates_rectangle region =
      { x := region.x1, y := region.y1, w := region.x2 - region.x1 + 1,
        h := region.y2 - region.y1 + 1 } := by
  unfold DFBRegion.modest at h
  unfold updates_rectangle int_add int_sub wrap_int32
  simp only [DFBRectangle.mk.injEq, true_and]
  constructor <;> omega

theorem updates_rectangle_covers (stored region : DFBRegion) (h : stored.modest)
    (henc : region_encloses stored region) :
    rectangle_covers (updates_rectangle stored) region := by
  rw [updates_rectangle_exact stored h]
  unfold rectangle_covers region_encloses at *
  dsimp only
  omega

theorem rectangle_union_first (region : DFBRegion) (h : region.modest) :
    dfb_rectangle_union { x := 0, y := 0, w := 0, h := 0 } (updates_rectangle region) =
      updates_rectangle region := by
  rw [updates_rectangle_exact region h]
  unfold DFBRegion.modest at h
  unfold dfb_rectangle_union
  dsimp only
  rw [if_neg (by omega)]
  simp

theorem rectangle_union_axis (p1 p2 q1 q2 : Int)
    (hp : -1073741823 ≤ p1 ∧ p1 ≤ p2 ∧ p2 ≤ 1073741823)
    (hq : -1073741823 ≤ q1 ∧ q1 ≤ q2 ∧ q2 ≤ 1073741823) :
    (if p1 < q1 then p1 else q1) = (if p1 > q1 then q1 else p1) ∧
    int_sub
        (if int_add p1 (p2 - p1 + 1) > int_add q1 (q2 - q1 + 1) then int_add p1 (p2 - p1 + 1)
         else int_add q1 (q2 - q1 + 1)) (if p1 < q1 then p1 else q1) =
      (if p2 < q2 then q2 else p2) - (if p1 > q1 then q1 else p1) + 1 := by
  have e1 : int_add p1 (p2 - p1 + 1) = p2 + 1 := by
    unfold int_add wrap_int32
    omega
  have e2 : int_add q1 (q2 - q1 + 1) = q2 + 1 := by
    unfold int_add wrap_int32
    omega
  rw [e1, e2]
  unfold int_sub wrap_int32
  constructor <;> split_ifs <;> omega

theorem rectangle_union_regions (a b : DFBRegion) (ha : a.modest) (hb : b.modest) :
    dfb_rectangle_union (updates_rectangle a) (updates_rectangle b) =
      updates_rectangle (dfb_region_region_union a b) := by
  rw [updates_rectangle_exact a ha, updates_rectangle_exact b hb,
    updates_rectangle_exact _ (union_modest a b ha hb)]
  unfold DFBRegion.modest at ha hb
  have h1 : ¬ (b.x2 - b.x1 + 1 = 0 ∨ b.y2 - b.y1 + 1 = 0) := by omega
  have h2 : a.x2 - a.x1 + 1 ≠ 0 := by omega
  have h3 : a.y2 - a.y1 + 1 ≠ 0 := by omega
  obtain ⟨x1, x2⟩ := rectangle_union_axis a.x1 a.x2 b.x1 b.x2 (by omega) (by omega)
  obtain ⟨y1, y2⟩ := rectangle_union_axis a.y1 a.y2 b.y1 b.y2 (by omega) (by omega)
  unfold dfb_rectangle_union dfb_region_region_union
  dsimp only
  rw [if_neg h1, if_pos h2]
  dsimp only
  rw [if_pos h3, x2, x1, y2, y1]

/-! ## The update aggregator: bounding region and returned rectangles (C23, C24, C27) -/

theorem union_fold_least (rest : List DFBRegion) :
    ∀ first : DFBRegion,
      region_encloses (rest.foldl dfb_region_region_union first) first ∧
      (∀ r ∈ rest, region_encloses (rest.foldl dfb_region_region_union first) r) ∧
      (∀ other, region_encloses other first → (∀ r ∈ rest, region_encloses other r) →
        region_encloses other (rest.foldl dfb_region_region_union first)) := by
  induction rest with
  | nil =>
    intro first
    refine ⟨region_encloses_refl _, ?_, fun _ h _ => h⟩
    intro r hr
    simp at hr
  | cons next rest ih =>
    intro first
    obtain ⟨i1, i2, i3⟩ := ih (dfb_region_region_union first next)
    refine ⟨?_, ?_, ?_⟩
    · exact region_encloses_trans _ _ _ i1 (union_encloses_left _ _)
    · intro r hr
      rcases List.mem_cons.mp hr with h | h
      · rw [h]
        exact region_encloses_trans _ _ _ i1 (union_encloses_right _ _)
      · exact i2 r h
    · intro other h1 h2
      apply i3 other
      · exact union_least _ _ _ h1 (h2 next (List.mem_cons_self _ _))
      · exact fun r hr => h2 r (List.mem_cons_of_mem _ hr)

theorem rectangles_union_fold (rest : List DFBRegion) :
    ∀ first : DFBRegion, first.modest → (∀ r ∈ rest, r.modest) →
      (rest.map updates_rectangle).foldl dfb_rectangle_union (updates_rectangle first) =
        updates_rectangle (rest.foldl dfb_region_region_union first) := by
  induction rest with
  | nil =>
    intro first _ _
    rfl
  | cons next rest ih =>
    intro first hf hall
    have hn := hall next (List.mem_cons_self _ _)
    simp only [List.map_cons, List.foldl_cons]
    rw [rectangle_union_regions first next hf hn]
    exact ih _ (union_modest _ _ hf hn) (fun r hr => hall r (List.mem_cons_of_mem _ hr))

theorem rectangles_union_stored (updates : DFBUpdates) (added : List DFBRegion)
    (htrack : UpdatesTrack updates added) (hne : updates.regions ≠ [])
    (hmodest : ∀ stored ∈ updates.regions, stored.modest) :
    rectangles_union (updates.regions.map updates_rectangle) =
      updates_rectangle updates.bounding := by
  obtain ⟨_, _, _, t3, t4, _⟩ := htrack
  cases hregions : updates.regions with
  | nil => exact absurd hregions hne
  | cons first rest =>
    rw [hregions] at t3 t4 hmodest
    have hf := hmodest first (List.mem_cons_self _ _)
    unfold rectangles_union
    simp only [List.map_cons, List.foldl_cons]
    rw [rectangle_union_first first hf,
      rectangles_union_fold rest first hf (fun r hr => hmodest r (List.mem_cons_of_mem _ hr))]
    obtain ⟨i1, i2, i3⟩ := union_fold_least rest first
    have hsame : rest.foldl dfb_region_region_union first = updates.bounding := by
      apply region_encloses_antisymm
      · apply t4 _ (by simp)
        intro stored hs
        rcases List.mem_cons.mp hs with h | h
        · rw [h]
          exact i1
        · exact i2 stored h
      · exact i3 _ (t3 first (List.mem_cons_self _ _))
          (fun r hr => t3 r (List.mem_cons_of_mem _ hr))
    rw [hsame]

theorem get_rectangles_cases (updates : DFBUpdates) (hne : updates.regions ≠ [])
    (hnum : updates.num_regions ≤ updates.max_regions)
    (hrange : updates.max_regions < 2147483648) :
    ∃ rects, dfb_updates_get_rectangles updates = some rects ∧
      (rects = updates.regions.map updates_rectangle ∨
        rects = [updates_rectangle updates.bounding]) := by
  have hpos : 1 ≤ updates.num_regions := by
    unfold DFBUpdates.num_regions
    have := List.length_pos.mpr hne
    omega
  unfold dfb_updates_get_rectangles
  rw [if_neg (by omega)]
  by_cases hone : updates.num_regions ≠ 1
  · rw [if_pos hone]
    dsimp only
    have hd : int_add (int_add (int_sub updates.max_regions updates.num_regions) 1) 1 ≠ 0 := by
      unfold int_add int_sub wrap_int32
      omega
    unfold int_div
    rw [if_neg hd]
    dsimp only
    split_ifs
    · exact ⟨_, rfl, Or.inl rfl⟩
    · exact ⟨_, rfl, Or.inr rfl⟩
  · rw [if_neg hone]
    exact ⟨_, rfl, Or.inr rfl⟩

/-- C23: after `dfb_updates_init` or `dfb_updates_reset` and any sequence of one or more
calls of `dfb_updates_add`, the bounding region of the aggregator encloses every
region added since then, and every region that encloses them all encloses the
bounding region: it is the smallest region enclosing the added ones. -/
theorem updates_bounding_encloses_added (updates : DFBUpdates) (max_regions : Int)
    (first : DFBRegion) (rest : List DFBRegion) :
    ((∀ r ∈ first :: rest, region_encloses
        (updates_add_all (dfb_updates_init updates max_regions) (first :: rest)).bounding r) ∧
      (∀ other, (∀ r ∈ first :: rest, region_encloses other r) → region_encloses other
        (updates_add_all (dfb_updates_init updates max_regions) (first :: rest)).bounding)) ∧
    ((∀ r ∈ first :: rest, region_encloses
        (updates_add_all (dfb_updates_reset updates) (first :: rest)).bounding r) ∧
      (∀ other, (∀ r ∈ first :: rest, region_encloses other r) → region_encloses other
        (updates_add_all (dfb_updates_reset updates) (first :: rest)).bounding)) := by
  constructor
  · obtain ⟨_, t1, t2, _⟩ := updates_track_since (dfb_updates_init updates max_regions) rfl
      (first :: rest)
    exact ⟨t1, fun other h => t2 other (by simp) h⟩
  · obtain ⟨_, t1, t2, _⟩ := updates_track_since (dfb_updates_reset updates) rfl (first :: rest)
    exact ⟨t1, fun other h => t2 other (by simp) h⟩

/-- C23, example: three scattered regions added after `dfb_updates_reset` to an aggregator
with room for two leave the bounding region from (0, 0) to (21, 11). -/
theorem updates_bounding_encloses_added_witness :
    (updates_add_all (dfb_updates_reset { stale_updates with max_regions := 2 })
        scattered_regions).bounding = { x1 := 0, y1 := 0, x2 := 21, y2 := 11 } ∧
    ((∀ r ∈ scattered_regions, region_encloses
        (updates_add_all (dfb_updates_init stale_updates 2) scattered_regions).bounding r) ∧
      (∀ other, (∀ r ∈ scattered_regions, region_encloses other r) → region_encloses other
        (updates_add_all (dfb_updates_init stale_updates 2) scattered_regions).bounding)) ∧
    ((∀ r ∈ scattered_regions, region_encloses
        (updates_add_all (dfb_updates_reset stale_updates) scattered_regions).bounding r) ∧
      (∀ other, (∀ r ∈ scattered_regions, region_encloses other r) → region_encloses other
        (updates_add_all (dfb_updates_reset stale_updates) scattered_regions).bounding)) :=
  ⟨by decide,
    updates_bounding_encloses_added stale_updates 2 { x1 := 0, y1 := 0, x2 := 1, y2 := 1 }
      [{ x1 := 10, y1 := 10, x2 := 11, y2 := 11 }, { x1 := 20, y1 := 0, x2 := 21, y2 := 1 }]⟩

/-- C24: for an aggregator with room for at least one region, after one or more calls of
`dfb_updates_add` with regions with `x1 <= x2`, `y1 <= y2` and coordinates below
2^30 in absolute value, `dfb_updates_get_rectangles` returns the stored list or
the single bounding rectangle, and the union of either, taken with
`dfb_rectangle_union`, is the rectangle of the bounding region. -/
theorem rectangles_union_is_bounding (updates : DFBUpdates) (regions : List DFBRegion)
    (hfresh : updates.regions = []) (hmax : 1 ≤ updates.max_regions)
    (hrange : updates.max_regions < 2147483648) (hmodest : ∀ r ∈ regions, r.modest)
    (hne : regions ≠ []) :
    rectangles_union ((updates_add_all updates regions).regions.map updates_rectangle) =
      updates_rectangle (updates_add_all updates regions).bounding ∧
    rectangles_union [updates_rectangle (updates_add_all updates regions).bounding] =
      updates_rectangle (updates_add_all updates regions).bounding ∧
    ∃ rects, dfb_updates_get_rectangles (updates_add_all updates regions) = some rects ∧
      (rects = (updates_add_all updates regions).regions.map updates_rectangle ∨
        rects = [updates_rectangle (updates_add_all updates regions).bounding]) ∧
      rectangles_union rects = updates_rectangle (updates_add_all updates regions).bounding := by
  have htrack := updates_track_since updates hfresh regions
  have hstoredne : (updates_add_all updates regions).regions ≠ [] :=
    fun h => hne (htrack.empty_iff.mp h)
  obtain ⟨m1, m2⟩ := updates_add_all_modest regions updates hmodest
    (by rw [hfresh]; simp) (fun h => absurd hfresh h)
  obtain ⟨c1, c2⟩ := updates_add_all_count regions updates hmax
    (by unfold DFBUpdates.num_regions; rw [hfresh]; simpa using by omega)
  have hlist := rectangles_union_stored _ regions htrack hstoredne m1
  have hsingle : rectangles_union
      [updates_rectangle (updates_add_all updates regions).bounding] =
      updates_rectangle (updates_add_all updates regions).bounding :=
    rectangle_union_first _ (m2 hstoredne)
  obtain ⟨rects, hget, hcases⟩ := get_rectangles_cases (updates_add_all updates regions)
    hstoredne (by rw [c1]; exact c2) (by rw [c1]; exact hrange)
  refine ⟨hlist, hsingle, rects, hget, hcases, ?_⟩
  rcases hcases with h | h
  · rw [h]
    exact hlist
  · rw [h]
    exact hsingle

/-- C24, witness: with room for four regions the three scattered regions are returned as a
list of three rectangles, whose union is the bounding rectangle of 22 by 12
pixels. -/
theorem rectangles_union_is_bounding_witness :
    (dfb_updates_get_rectangles
        (updates_add_all (dfb_updates_init stale_updates 4) scattered_regions) =
      some [{ x := 0, y := 0, w := 2, h := 2 }, { x := 10, y := 10, w := 2, h := 2 },
        { x := 20, y := 0, w := 2, h := 2 }] ∧
      updates_rectangle
          (updates_add_all (dfb_updates_init stale_updates 4) scattered_regions).bounding =
        { x := 0, y := 0, w := 22, h := 12 }) ∧
    (rectangles_union ((updates_add_all (dfb_updates_init stale_updates 4)
        scattered_regions).regions.map updates_rectangle) =
      updates_rectangle
        (updates_add_all (dfb_updates_init stale_updates 4) scattered_regions).bounding ∧
    rectangles_union [updates_rectangle
        (updates_add_all (dfb_updates_init stale_updates 4) scattered_regions).bounding] =
      updates_rectangle
        (updates_add_all (dfb_updates_init stale_updates 4) scattered_regions).bounding ∧
    ∃ rects, dfb_updates_get_rectangles
        (updates_add_all (dfb_updates_init stale_updates 4) scattered_regions) = some rects ∧
      (rects = (updates_add_all (dfb_updates_init stale_updates 4)
          scattered_regions).regions.map updates_rectangle ∨
        rects = [updates_rectangle
          (updates_add_all (dfb_updates_init stale_updates 4) scattered_regions).bounding]) ∧
      rectangles_union rects = updates_rectangle
        (updates_add_all (dfb_updates_init stale_updates 4) scattered_regions).bounding) :=
  ⟨by decide,
    rectangles_union_is_bounding (dfb_updates_init stale_updates 4) scattered_regions rfl
      (by decide) (by decide) (by decide) (by decide)⟩

/-- C27: for an aggregator with room for at least one region, after `dfb_updates_init` or
`dfb_updates_reset` and any sequence of calls of `dfb_updates_add` with regions
with `x1 <= x2`, `y1 <= y2` and coordinates below 2^30 in absolute value, every
region added since then lies in a stored region, and `dfb_updates_get_rectangles`
returns rectangles of which one covers it. -/
theorem updates_keep_added (updates : DFBUpdates) (regions : List DFBRegion)
    (hfresh : updates.regions = []) (hmax : 1 ≤ updates.max_regions)
    (hrange : updates.max_regions < 2147483648) (hmodest : ∀ r ∈ regions, r.modest) :
    (∀ r ∈ regions, ∃ stored ∈ (updates_add_all updates regions).regions,
      region_encloses stored r) ∧
    ∃ rects, dfb_updates_get_rectangles (updates_add_all updates regions) = some rects ∧
      ∀ r ∈ regions, ∃ rect ∈ rects, rectangle_covers rect r := by
  have htrack := updates_track_since updates hfresh regions
  refine ⟨htrack.added_stored, ?_⟩
  by_cases hne : regions = []
  · subst hne
    refine ⟨[], ?_, ?_⟩
    · unfold dfb_updates_get_rectangles DFBUpdates.num_regions
      simp [updates_add_all, hfresh]
    · intro r hr
      simp at hr
  · have hstoredne : (updates_add_all updates regions).regions ≠ [] :=
      fun h => hne (htrack.empty_iff.mp h)
    obtain ⟨m1, m2⟩ := updates_add_all_modest regions updates hmodest
      (by rw [hfresh]; simp) (fun h => absurd hfresh h)
    obtain ⟨c1, c2⟩ := updates_add_all_count regions updates hmax
      (by unfold DFBUpdates.num_regions; rw [hfresh]; simpa using by omega)
    obtain ⟨rects, hget, hcases⟩ := get_rectangles_cases (updates_add_all updates regions)
      hstoredne (by rw [c1]; exact c2) (by rw [c1]; exact hrange)
    refine ⟨rects, hget, ?_⟩
    intro r hr
    rcases hcases with h | h
    · obtain ⟨stored, hs1, hs2⟩ := htrack.added_stored r hr
      exact ⟨updates_rectangle stored, by rw [h]; exact List.mem_map_of_mem _ hs1,
        updates_rectangle_covers stored r (m1 stored hs1) hs2⟩
    · exact ⟨_, by rw [h]; simp,
        updates_rectangle_covers _ r (m2 hstoredne) (htrack.bounding_encloses_added r hr)⟩

/-- C27, witness: with room for two regions the third scattered region makes the
aggregator collapse to the bounding region from (0, 0) to (21, 11), whose
rectangle is returned and covers all three. -/
theorem updates_keep_added_witness :
    ((updates_add_all (dfb_updates_init stale_updates 2) scattered_regions).regions =
        [{ x1 := 0, y1 := 0, x2 := 21, y2 := 11 }] ∧
      dfb_updates_get_rectangles
          (updates_add_all (dfb_updates_init stale_updates 2) scattered_regions) =
        some [{ x := 0, y := 0, w := 22, h := 12 }] ∧
      (dfb_updates_reset (updates_add_all (dfb_updates_init stale_updates 2)
        scattered_regions)).regions = []) ∧
    ((∀ r ∈ scattered_regions, ∃ stored ∈
        (updates_add_all (dfb_updates_init stale_updates 2) scattered_regions).regions,
      region_encloses stored r) ∧
    ∃ rects, dfb_updates_get_rectangles
        (updates_add_all (dfb_updates_init stale_updates 2) scattered_regions) = some rects ∧
      ∀ r ∈ scattered_regions, ∃ rect ∈ rects, rectangle_covers rect r) :=
  ⟨by decide,
    updates_keep_added (dfb_updates_init stale_updates 2) scattered_regions rfl (by decide)
      (by decide) (by decide)⟩

/-! ## The update aggregator: number and overlap of the stored regions (C25) -/

theorem no_common_pixel (stored region : DFBRegion)
    (h : dfb_region_region_intersects stored region = false) :
    ¬ ∃ x y : Int, point_inside stored x y ∧ point_inside region x y := by
  rintro ⟨x, y, h1, h2⟩
  unfold point_inside at h1 h2
  unfold dfb_region_region_intersects at h
  simp only [Bool.and_eq_false_iff, decide_eq_false_iff_not] at h
  omega

/-- C25, counterexample: with room for four regions, the regions from (0, 0) to (1, 1) and
from (5, 0) to (6, 1) are stored apart; the region from (1, 0) to (5, 1) is then
united with the first one, which grows to (0, 0)-(5, 1) and shares the pixel
(5, 0) with the second one. -/
theorem updates_store_overlapping_regions :
    (updates_add_all (dfb_updates_init stale_updates 4) bridging_regions).regions =
      [{ x1 := 0, y1 := 0, x2 := 5, y2 := 1 }, { x1 := 5, y1 := 0, x2 := 6, y2 := 1 }] ∧
    point_inside { x1 := 0, y1 := 0, x2 := 5, y2 := 1 } 5 0 ∧
    point_inside { x1 := 5, y1 := 0, x2 := 6, y2 := 1 } 5 0 := by
  decide

/-- C25, amended: after `dfb_updates_init` or `dfb_updates_reset` of an aggregator with
room for at least one region and any sequence of calls of `dfb_updates_add`, the
number of stored regions never exceeds `max_regions`, and a region that a
further call appends as a new entry shares no pixel with a region stored before;
a stored region that grows by a union may come to overlap another one. -/
theorem updates_count_bounded (updates : DFBUpdates) (regions : List DFBRegion)
    (hfresh : updates.regions = []) (hmax : 1 ≤ updates.max_regions) :
    (updates_add_all updates regions).max_regions = updates.max_regions ∧
    (updates_add_all updates regions).num_regions ≤ updates.max_regions ∧
    ∀ region : DFBRegion,
      (dfb_updates_add (updates_add_all updates regions) region).regions.length =
        (updates_add_all updates regions).regions.length + 1 →
      ∀ stored ∈ (updates_add_all updates regions).regions,
        ¬ ∃ x y : Int, point_inside stored x y ∧ point_inside region x y := by
  obtain ⟨c1, c2⟩ := updates_add_all_count regions updates hmax
    (by unfold DFBUpdates.num_regions; rw [hfresh]; simpa using by omega)
  refine ⟨c1, c2, ?_⟩
  intro region hlen stored hs
  generalize updates_add_all updates regions = state at hlen hs
  unfold dfb_updates_add at hlen
  by_cases hzero : state.num_regions = 0
  · have hnil : state.regions = [] := by
      unfold DFBUpdates.num_regions at hzero
      exact List.length_eq_zero.mp (by omega)
    rw [hnil] at hs
    simp at hs
  · rw [if_neg hzero] at hlen
    have hpos : 1 ≤ state.regions.length := by
      unfold DFBUpdates.num_regions at hzero
      omega
    cases hcomb : updates_combine region state.regions with
    | some combined =>
      rw [hcomb] at hlen
      obtain ⟨k1, _⟩ := updates_combine_some region _ _ hcomb
      dsimp only at hlen
      omega
    | none =>
      rw [hcomb] at hlen
      dsimp only at hlen
      by_cases hfull : state.num_regions = state.max_regions
      · rw [if_pos hfull] at hlen
        simp only [List.length_singleton] at hlen
        omega
      · exact no_common_pixel stored region (updates_combine_none region _ hcomb stored hs).2

/-- C25, witness: with room for four regions the second bridging region is appended to the
first one, with which it shares no pixel, and with room for two regions the three
scattered regions leave a single stored region. -/
theorem updates_count_bounded_witness :
    ((dfb_updates_add (updates_add_all (dfb_updates_init stale_updates 4)
          [{ x1 := 0, y1 := 0, x2 := 1, y2 := 1 }]) { x1 := 5, y1 := 0, x2 := 6, y2 := 1 }).regions =
        [{ x1 := 0, y1 := 0, x2 := 1, y2 := 1 }, { x1 := 5, y1 := 0, x2 := 6, y2 := 1 }] ∧
      (updates_add_all (dfb_updates_init stale_updates 2) scattered_regions).num_regions = 1) ∧
    ((updates_add_all (dfb_updates_init stale_updates 4)
        [{ x1 := 0, y1 := 0, x2 := 1, y2 := 1 }]).max_regions =
      (dfb_updates_init stale_updates 4).max_regions ∧
    (updates_add_all (dfb_updates_init stale_updates 4)
        [{ x1 := 0, y1 := 0, x2 := 1, y2 := 1 }]).num_regions ≤
      (dfb_updates_init stale_updates 4).max_regions ∧
    ∀ region : DFBRegion,
      (dfb_updates_add (updates_add_all (dfb_updates_init stale_updates 4)
          [{ x1 := 0, y1 := 0, x2 := 1, y2 := 1 }]) region).regions.length =
        (updates_add_all (dfb_updates_init stale_updates 4)
          [{ x1 := 0, y1 := 0, x2 := 1, y2 := 1 }]).regions.length + 1 →
      ∀ stored ∈ (updates_add_all (dfb_updates_init stale_updates 4)
          [{ x1 := 0, y1 := 0, x2 := 1, y2 := 1 }]).regions,
        ¬ ∃ x y : Int, point_inside stored x y ∧ point_inside region x y) :=
  ⟨by decide,
    updates_count_bounded (dfb_updates_init stale_updates 4)
      [{ x1 := 0, y1 := 0, x2 := 1, y2 := 1 }] rfl (by decide)⟩

/-! ## The update aggregator: areas -/

theorem region_area_exact (r : DFBRegion) (hm : r.modest)
    (ha : exact_area r < 2147483648) : region_area r = exact_area r ∧ 1 ≤ exact_area r := by
  unfold DFBRegion.modest at hm
  have hw : int_add (int_sub r.x2 r.x1) 1 = r.x2 - r.x1 + 1 := by
    unfold int_add int_sub wrap_int32
    omega
  have hh : int_add (int_sub r.y2 r.y1) 1 = r.y2 - r.y1 + 1 := by
    unfold int_add int_sub wrap_int32
    omega
  have hpos : 1 ≤ exact_area r := by
    unfold exact_area
    have h1 : 1 ≤ r.x2 - r.x1 + 1 := by omega
    have h2 : 1 ≤ r.y2 - r.y1 + 1 := by omega
    nlinarith
  refine ⟨?_, hpos⟩
  unfold region_area
  rw [hw, hh]
  unfold exact_area at ha hpos ⊢
  unfold int_mul wrap_int32
  omega

theorem exact_area_mono (outer inner : DFBRegion) (hi : inner.modest)
    (henc : region_encloses outer inner) :
    1 ≤ exact_area inner ∧ exact_area inner ≤ exact_area outer := by
  unfold DFBRegion.modest at hi
  unfold region_encloses at henc
  unfold exact_area
  have h1 : 1 ≤ inner.x2 - inner.x1 + 1 := by omega
  have h2 : 1 ≤ inner.y2 - inner.y1 + 1 := by omega
  have h3 : inner.x2 - inner.x1 + 1 ≤ outer.x2 - outer.x1 + 1 := by omega
  have h4 : inner.y2 - inner.y1 + 1 ≤ outer.y2 - outer.y1 + 1 := by omega
  constructor
  · nlinarith
  · exact Int.mul_le_mul h3 h4 (by omega) (by omega)

theorem exact_total_bounds (bound : Int) (regions : List DFBRegion)
    (h : ∀ r ∈ regions, 1 ≤ exact_area r ∧ exact_area r ≤ bound) :
    0 ≤ exact_total regions ∧ exact_total regions ≤ regions.length * bound := by
  induction regions with
  | nil => simp [exact_total]
  | cons first rest ih =>
    obtain ⟨i1, i2⟩ := ih (fun r hr => h r (List.mem_cons_of_mem _ hr))
    obtain ⟨f1, f2⟩ := h first (List.mem_cons_self _ _)
    unfold exact_total at *
    simp only [List.map_cons, List.sum_cons, List.length_cons]
    push_cast
    constructor
    · omega
    · nlinarith

theorem exact_total_nonneg (regions : List DFBRegion)
    (h : ∀ r ∈ regions, 1 ≤ exact_area r) : 0 ≤ exact_total regions := by
  induction regions with
  | nil => simp [exact_total]
  | cons first rest ih =>
    have i1 := ih (fun r hr => h r (List.mem_cons_of_mem _ hr))
    have f1 := h first (List.mem_cons_self _ _)
    unfold exact_total at *
    simp only [List.map_cons, List.sum_cons]
    omega

theorem total_fold_exact (regions : List DFBRegion) :
    ∀ acc : Int, (∀ r ∈ regions, region_area r = exact_area r ∧ 1 ≤ exact_area r) → 0 ≤ acc →
      acc + exact_total regions < 2147483648 →
      regions.foldl (fun total r => int_add total (region_area r)) acc =
        acc + exact_total regions := by
  induction regions with
  | nil =>
    intro acc _ _ _
    simp [exact_total]
  | cons first rest ih =>
    intro acc h hacc hsum
    obtain ⟨f1, f2⟩ := h first (List.mem_cons_self _ _)
    have hrest : 0 ≤ exact_total rest :=
      exact_total_nonneg rest (fun r hr => (h r (List.mem_cons_of_mem _ hr)).2)
    have hcons : exact_total (first :: rest) = exact_area first + exact_total rest := by
      simp [exact_total]
    rw [hcons] at hsum ⊢
    have hstep : int_add acc (region_area first) = acc + exact_area first := by
      rw [f1]
      unfold int_add wrap_int32
      omega
    simp only [List.foldl_cons]
    rw [hstep, ih (acc + exact_area first) (fun r hr => h r (List.mem_cons_of_mem _ hr))
      (by omega) (by omega)]
    omega

theorem quotient_exact (bounding n : Int) (hb : 0 ≤ bounding) (hn : 1 ≤ n)
    (hprod : bounding * n < 2147483648) (hd : n + 1 < 2147483648) :
    int_div (int_mul bounding (int_add (n - 1) 1)) (int_add (int_add (n - 1) 1) 1) =
      some (bounding * n / (n + 1)) := by
  have hn1 : int_add (n - 1) 1 = n := by
    unfold int_add wrap_int32
    omega
  have hd1 : int_add n 1 = n + 1 := by
    unfold int_add wrap_int32
    omega
  have hnonneg : 0 ≤ bounding * n := Int.mul_nonneg hb (by omega)
  have hmul : int_mul bounding n = bounding * n := by
    unfold int_mul wrap_int32
    omega
  rw [hn1, hd1, hmul]
  unfold int_div
  rw [if_neg (by omega), Int.tdiv_eq_ediv hnonneg (by omega)]
  have hq0 : 0 ≤ bounding * n / (n + 1) := Int.ediv_nonneg hnonneg (by omega)
  have hq1 : bounding * n / (n + 1) ≤ bounding * n :=
    Int.ediv_le_self _ hnonneg
  unfold wrap_int32
  congr 1
  omega

/-! ## The update aggregator: the area heuristic (C26) -/

theorem get_rectangles_by_area (updates : DFBUpdates) (added : List DFBRegion)
    (htrack : UpdatesTrack updates added) (hne : updates.regions ≠ [])
    (hnum : updates.num_regions ≤ updates.max_regions)
    (hstored : ∀ stored ∈ updates.regions, stored.modest) (hbounding : updates.bounding.modest)
    (harea : exact_area updates.bounding * updates.max_regions < 2147483648) :
    dfb_updates_get_rectangles updates = some
      (if exact_total updates.regions < spec_area_bound updates then
        updates.regions.map updates_rectangle
       else [updates_rectangle updates.bounding]) := by
  obtain ⟨_, _, _, t3, t4, _⟩ := htrack
  have hpos : 1 ≤ updates.num_regions := by
    unfold DFBUpdates.num_regions
    have := List.length_pos.mpr hne
    omega
  have hB := (exact_area_mono updates.bounding updates.bounding hbounding
    (region_encloses_refl _)).1
  have hmaxB : updates.max_regions ≤ exact_area updates.bounding * updates.max_regions := by
    nlinarith
  have hBmax : exact_area updates.bounding ≤ exact_area updates.bounding * updates.max_regions := by
    nlinarith
  have hareas : ∀ r ∈ updates.regions,
      1 ≤ exact_area r ∧ exact_area r ≤ exact_area updates.bounding :=
    fun r hr => exact_area_mono updates.bounding r (hstored r hr) (t3 r hr)
  by_cases hone : updates.num_regions ≠ 1
  · have htotal := exact_total_bounds (exact_area updates.bounding) updates.regions hareas
    have hlen : (updates.regions.length : Int) * exact_area updates.bounding ≤
        exact_area updates.bounding * updates.max_regions := by
      unfold DFBUpdates.num_regions at hnum
      nlinarith
    have hfold := total_fold_exact updates.regions 0
      (fun r hr => region_area_exact r (hstored r hr) (by have := (hareas r hr).2; omega))
      (by omega) (by omega)
    have hbound := (region_area_exact updates.bounding hbounding (by omega)).1
    have hn : 1 ≤ updates.max_regions - updates.num_regions + 1 := by omega
    have hprod : exact_area updates.bounding * (updates.max_regions - updates.num_regions + 1) <
        2147483648 := by
      nlinarith
    have hsub : int_sub updates.max_regions updates.num_regions =
        updates.max_regions - updates.num_regions + 1 - 1 := by
      unfold int_sub wrap_int32
      omega
    have hquot := quotient_exact (exact_area updates.bounding)
      (updates.max_regions - updates.num_regions + 1) (by omega) hn hprod (by omega)
    unfold dfb_updates_get_rectangles
    rw [if_neg (by omega), if_pos hone]
    dsimp only
    unfold dfb_updates_stat
    rw [if_neg (by omega)]
    dsimp only
    rw [hfold, hbound, hsub, hquot]
    dsimp only
    unfold spec_area_bound
    rw [Int.zero_add]
    split_ifs <;> rfl
  · have hlen : updates.regions.length = 1 := by
      unfold DFBUpdates.num_regions at hone
      omega
    obtain ⟨stored, hs⟩ := List.length_eq_one.mp hlen
    have hsame : stored = updates.bounding := by
      apply region_encloses_antisymm
      · apply t4 stored hne
        intro r hr
        rw [hs] at hr
        simp only [List.mem_singleton] at hr
        rw [hr]
        exact region_encloses_refl _
      · exact t3 stored (by rw [hs]; simp)
    unfold dfb_updates_get_rectangles
    rw [if_neg (by omega), if_neg hone, hs, hsame]
    simp

/-- C26: for an aggregator with room for at least one region, after any sequence of calls
of `dfb_updates_add` with regions with `x1 <= x2`, `y1 <= y2` and coordinates
below 2^30 in absolute value, such that the area of the bounding box times
`max_regions` fits an `int`, `dfb_updates_get_rectangles` returns no rectangle
for an empty aggregator, the stored list when
`total < bounding * n / (n + 1)` with the division of integers, which is when
`(total + 1) * (n + 1) <= bounding * n`, and otherwise the single bounding
rectangle. -/
theorem get_rectangles_heuristic (updates : DFBUpdates) (regions : List DFBRegion)
    (hfresh : updates.regions = []) (hmax : 1 ≤ updates.max_regions)
    (hmodest : ∀ r ∈ regions, r.modest)
    (harea : exact_area (updates_add_all updates regions).bounding * updates.max_regions <
      2147483648) :
    dfb_updates_get_rectangles (updates_add_all updates regions) = some
      (if (updates_add_all updates regions).regions = [] then []
       else if exact_total (updates_add_all updates regions).regions <
           spec_area_bound (updates_add_all updates regions) then
         (updates_add_all updates regions).regions.map updates_rectangle
       else [updates_rectangle (updates_add_all updates regions).bounding]) ∧
    ((updates_add_all updates regions).regions.map updates_rectangle).length =
      (updates_add_all updates regions).regions.length ∧
    (exact_total (updates_add_all updates regions).regions <
        spec_area_bound (updates_add_all updates regions) ↔
      (exact_total (updates_add_all updates regions).regions + 1) *
          (updates.max_regions - (updates_add_all updates regions).num_regions + 1 + 1) ≤
        exact_area (updates_add_all updates regions).bounding *
          (updates.max_regions - (updates_add_all updates regions).num_regions + 1)) := by
  have htrack := updates_track_since updates hfresh regions
  obtain ⟨c1, c2⟩ := updates_add_all_count regions updates hmax
    (by unfold DFBUpdates.num_regions; rw [hfresh]; simpa using by omega)
  obtain ⟨m1, m2⟩ := updates_add_all_modest regions updates hmodest
    (by rw [hfresh]; simp) (fun h => absurd hfresh h)
  refine ⟨?_, by simp, ?_⟩
  · by_cases hnil : (updates_add_all updates regions).regions = []
    · rw [if_pos hnil]
      unfold dfb_updates_get_rectangles DFBUpdates.num_regions
      rw [hnil]
      rfl
    · rw [if_neg hnil]
      exact get_rectangles_by_area _ regions htrack hnil (by rw [c1]; exact c2) m1 (m2 hnil)
        (by rw [c1]; exact harea)
  · unfold spec_area_bound
    rw [c1]
    have hd : 0 < updates.max_regions - (updates_add_all updates regions).num_regions + 1 + 1 := by
      omega
    rw [Int.lt_iff_add_one_le, Int.le_ediv_iff_mul_le hd]

/-- C26, witness: with room for two regions and two stored regions of one pixel, four
pixels apart, the total is 2, the bounding box has 5 pixels and `n` is 1; the
quotient `5 * 1 / 2` is 2, so that the single bounding rectangle is returned;
with the second pixel one further away the quotient is 3 and the list is
returned. -/
theorem get_rectangles_heuristic_witness :
    (dfb_updates_get_rectangles (updates_add_all (dfb_updates_init stale_updates 2)
        pixel_regions) = some [{ x := 0, y := 0, w := 5, h := 1 }] ∧
      dfb_updates_stat (updates_add_all (dfb_updates_init stale_updates 2) pixel_regions) =
        (2, 5) ∧
      dfb_updates_get_rectangles (updates_add_all (dfb_updates_init stale_updates 2)
          [{ x1 := 0, y1 := 0, x2 := 0, y2 := 0 }, { x1 := 5, y1 := 0, x2 := 5, y2 := 0 }]) =
        some [{ x := 0, y := 0, w := 1, h := 1 }, { x := 5, y := 0, w := 1, h := 1 }] ∧
      dfb_updates_get_rectangles (dfb_updates_init stale_updates 2) = some []) ∧
    (dfb_updates_get_rectangles (updates_add_all (dfb_updates_init stale_updates 2)
        pixel_regions) = some
      (if (updates_add_all (dfb_updates_init stale_updates 2) pixel_regions).regions = [] then []
       else if exact_total (updates_add_all (dfb_updates_init stale_updates 2)
             pixel_regions).regions <
           spec_area_bound (updates_add_all (dfb_updates_init stale_updates 2)
             pixel_regions) then
         (updates_add_all (dfb_updates_init stale_updates 2)
           pixel_regions).regions.map updates_rectangle
       else [updates_rectangle (updates_add_all (dfb_updates_init stale_updates 2)
         pixel_regions).bounding]) ∧
    ((updates_add_all (dfb_updates_init stale_updates 2)
        pixel_regions).regions.map updates_rectangle).length =
      (updates_add_all (dfb_updates_init stale_updates 2) pixel_regions).regions.length ∧
    (exact_total (updates_add_all (dfb_updates_init stale_updates 2) pixel_regions).regions <
        spec_area_bound (updates_add_all (dfb_updates_init stale_updates 2) pixel_regions) ↔
      (exact_total (updates_add_all (dfb_updates_init stale_updates 2)
            pixel_regions).regions + 1) *
          ((dfb_updates_init stale_updates 2).max_regions -
            (updates_add_all (dfb_updates_init stale_updates 2)
              pixel_regions).num_regions + 1 + 1) ≤
        exact_area (updates_add_all (dfb_updates_init stale_updates 2)
            pixel_regions).bounding *
          ((dfb_updates_init stale_updates 2).max_regions -
            (updates_add_all (dfb_updates_init stale_updates 2)
              pixel_regions).num_regions + 1))) :=
  ⟨by decide,
    get_rectangles_heuristic (dfb_updates_init stale_updates 2) pixel_regions rfl (by decide)
      (by decide) (by decide)⟩

/-! ## Triangle clipping: the checked embedding agrees with the list embedding -/

theorem take_set_succ {α : Type} (q : List α) (n : Nat) (v : α) (h : n < q.length) :
    (q.set n v).take (n + 1) = q.take n ++ [v] := by
  rw [List.take_succ, List.getElem?_set_self h]
  congr 1
  rw [List.set_eq_take_append_cons_drop, if_pos h]
  have hlen : (List.take n q).length = n := by
    rw [List.length_take]
    omega
  rw [List.take_append_eq_append_take, hlen]
  simp

theorem get_of_take {α : Type} (q l : List α) (h : q.take l.length = l) (k : Nat)
    (hk : k < l.length) : q[k]? = l[k]? := by
  rw [← List.getElem?_take_of_lt hk, h]

theorem append_vertex_length (l : List DFBPoint) (x y : Int) :
    append_vertex l x y ≠ [] ∧ l.length ≤ (append_vertex l x y).length ∧
      (append_vertex l x y).length ≤ l.length + 1 := by
  unfold append_vertex
  cases hlast : l.getLast? with
  | none => simp
  | some last =>
    dsimp only
    split_ifs with h
    · simp
    · refine ⟨?_, by omega, by omega⟩
      intro hnil
      rw [hnil] at hlast
      simp at hlast

theorem append_vertex_checked_agrees (q l : List DFBPoint) (x y : Int) (hq : q.length = 6)
    (hne : l ≠ []) (hlen : l.length ≤ 5) (htake : q.take l.length = l) :
    ∃ q', append_vertex_checked q l.length x y =
        Checked.ok (q', ((append_vertex l x y).length : Int)) ∧
      q'.length = 6 ∧ q'.take (append_vertex l x y).length = append_vertex l x y := by
  have hpos : 1 ≤ l.length := List.length_pos.mpr hne
  obtain ⟨last, hlast⟩ : ∃ last, l.getLast? = some last := by
    cases h : l.getLast? with
    | none => exact absurd (List.getLast?_eq_none_iff.mp h) hne
    | some last => exact ⟨last, rfl⟩
  have hidx : ((l.length : Int) - 1).toNat = l.length - 1 := by omega
  have hread : array_read q ((l.length : Int) - 1) = Checked.ok last := by
    unfold array_read
    rw [if_pos (by omega), hidx, get_of_take q l htake _ (by omega), ← List.getLast?_eq_getElem?,
      hlast]
  unfold append_vertex_checked append_vertex
  rw [hread, checked_bind_ok, hlast]
  dsimp only
  by_cases hd : x ≠ last.x ∨ y ≠ last.y
  · rw [if_pos hd, if_pos hd, array_write_in_bounds q _ _ (by omega) (by omega), checked_bind_ok,
      Int.toNat_ofNat]
    refine ⟨q.set l.length { x := x, y := y }, ?_, ?_, ?_⟩
    · simp
    · rw [List.length_set]
      exact hq
    · rw [List.length_append, List.length_singleton, take_set_succ q l.length _ (by omega),
        htake]
  · rw [if_neg hd, if_neg hd]
    exact ⟨q, rfl, hq, htake⟩

theorem edge_vertices_checked_agrees (edges : List DFBRegion) (num_edges : Int) :
    ∀ (rest : List DFBRegion) (steps i : Nat) (q l : List DFBPoint),
      q.length = 6 → l ≠ [] → l.length + 2 * rest.length ≤ 6 → q.take l.length = l →
      (i : Int) + rest.length = num_edges →
      (∀ k, k < rest.length → edges[i + k]? = rest[k]?) → rest.length ≤ steps →
      ∃ q', edge_vertices_checked edges num_edges steps i q l.length =
          Checked.ok (q', ((edge_vertices l rest).length : Int)) ∧
        q'.length = 6 ∧ q'.take (edge_vertices l rest).length = edge_vertices l rest := by
  intro rest
  induction rest with
  | nil =>
    intro steps i q l hq _ _ htake hnum _ _
    have hdone : ¬ (i : Int) < num_edges := by
      simp only [List.length_nil, Nat.cast_zero] at hnum
      omega
    unfold edge_vertices_checked
    rw [if_pos hdone]
    exact ⟨q, rfl, hq, htake⟩
  | cons edge rest ih =>
    intro steps i q l hq hne hlen htake hnum hget hsteps
    simp only [List.length_cons] at hlen hnum hsteps
    push_cast at hnum
    obtain ⟨s, hs⟩ : ∃ s, steps = s + 1 := ⟨steps - 1, by omega⟩
    subst hs
    have hlt : (i : Int) < num_edges := by omega
    have hedge : array_read edges (i : Int) = Checked.ok edge := by
      have h0 := hget 0 (by simp)
      simp only [Nat.add_zero, List.getElem?_cons_zero] at h0
      unfold array_read
      rw [if_pos (by omega), Int.toNat_ofNat, h0]
    obtain ⟨a1, a2, a3⟩ := append_vertex_length l edge.x1 edge.y1
    obtain ⟨b1, b2, b3⟩ := append_vertex_length (append_vertex l edge.x1 edge.y1) edge.x2 edge.y2
    obtain ⟨q1, hq1, hl1, ht1⟩ := append_vertex_checked_agrees q l edge.x1 edge.y1 hq hne
      (by omega) htake
    obtain ⟨q2, hq2, hl2, ht2⟩ := append_vertex_checked_agrees q1 _ edge.x2 edge.y2 hl1 a1
      (by omega) ht1
    unfold edge_vertices_checked
    rw [if_neg (by omega)]
    dsimp only
    rw [hedge, checked_bind_ok, hq1, checked_bind_ok]
    dsimp only
    rw [hq2, checked_bind_ok]
    dsimp only
    have hnext := ih s (i + 1) q2 _ hl2 b1 (by omega) ht2 (by push_cast; omega)
      (fun k hk => by
        have h := hget (k + 1) (by simp; omega)
        simp only [List.getElem?_cons_succ] at h
        rw [← h]
        congr 1
        omega)
      (by omega)
    push_cast at hnext
    exact hnext

theorem clip_edges_checked_agrees (fuel : Nat)
    (intersect : DFBRegion → DFBRegion → Option DFBPoint) (clip e0 e1 e2 : DFBRegion) :
    (clip_edges fuel intersect clip [] [e0, e1, e2] = none →
      clip_edges_checked fuel intersect clip 3 [e0, e1, e2] 3 0 = Checked.no_line_result) ∧
    (∀ l, clip_edges fuel intersect clip [] [e0, e1, e2] = some l →
      ∃ edges, clip_edges_checked fuel intersect clip 3 [e0, e1, e2] 3 0 =
          Checked.ok (edges, (l.length : Int)) ∧
        edges.length = 3 ∧ edges.take l.length = l) := by
  rcases h0 : clip_edge fuel intersect clip e0 with _ | _ | r0 <;>
  rcases h1 : clip_edge fuel intersect clip e1 with _ | _ | r1 <;>
  rcases h2 : clip_edge fuel intersect clip e2 with _ | _ | r2 <;>
  simp [clip_edges, clip_edges_checked, array_read, array_write, array_memmove, Checked.bind,
    h0, h1, h2]

theorem clip_triangle_checked_agrees (fuel : Nat)
    (intersect : DFBRegion → DFBRegion → Option DFBPoint) (clip : DFBRegion) (tri : DFBTriangle)
    (p : List DFBPoint) (hp : p.length = 6) :
    (dfb_clip_triangle fuel intersect clip tri = none →
      dfb_clip_triangle_checked fuel intersect clip tri p = Checked.no_line_result) ∧
    (∀ ret l num, dfb_clip_triangle fuel intersect clip tri = some (ret, l, num) →
      ∃ q, dfb_clip_triangle_checked fuel intersect clip tri p = Checked.ok (ret, q, (num : Int)) ∧
        q.length = 6 ∧ q.take l.length = l) := by
  obtain ⟨a1, a2⟩ := clip_edges_checked_agrees fuel intersect clip
    { x1 := tri.x1, y1 := tri.y1, x2 := tri.x2, y2 := tri.y2 }
    { x1 := tri.x2, y1 := tri.y2, x2 := tri.x3, y2 := tri.y3 }
    { x1 := tri.x3, y1 := tri.y3, x2 := tri.x1, y2 := tri.y1 }
  have hunfold : dfb_clip_triangle_checked fuel intersect clip tri p =
      (clip_edges_checked fuel intersect clip 3
        [{ x1 := tri.x1, y1 := tri.y1, x2 := tri.x2, y2 := tri.y2 },
          { x1 := tri.x2, y1 := tri.y2, x2 := tri.x3, y2 := tri.y3 },
          { x1 := tri.x3, y1 := tri.y3, x2 := tri.x1, y2 := tri.y1 }] 3 0).bind fun en =>
        if en.2 < 1 then Checked.ok (false, p, 0)
        else
          (array_read en.1 0).bind fun first =>
            (array_write p 0 { x := first.x1, y := first.y1 }).bind fun p =>
              (if first.x2 ≠ first.x1 ∨ first.y2 ≠ first.y1 then
                  (array_write p 1 { x := first.x2, y := first.y2 }).bind fun p =>
                    Checked.ok (p, (2 : Int))
                else Checked.ok (p, (1 : Int))).bind fun pn =>
                (edge_vertices_checked en.1 en.2 2 1 pn.1 pn.2).bind fun pn =>
                  (array_read pn.1 (pn.2 - 1)).bind fun last =>
                    (array_read pn.1 0).bind fun head =>
                      Checked.ok (decide ((if last.x = head.x ∧ last.y = head.y then pn.2 - 1
                        else pn.2) ≥ 3), pn.1,
                        if last.x = head.x ∧ last.y = head.y then pn.2 - 1 else pn.2) := rfl
  rw [hunfold]
  unfold dfb_clip_triangle
  cases hedges : clip_edges fuel intersect clip []
      [{ x1 := tri.x1, y1 := tri.y1, x2 := tri.x2, y2 := tri.y2 },
        { x1 := tri.x2, y1 := tri.y2, x2 := tri.x3, y2 := tri.y3 },
        { x1 := tri.x3, y1 := tri.y3, x2 := tri.x1, y2 := tri.y1 }] with
  | none =>
    refine ⟨fun _ => ?_, fun _ _ _ h => Option.noConfusion h⟩
    rw [a1 hedges]
    rfl
  | some edges =>
    refine ⟨fun h => ?_, ?_⟩
    · cases edges <;> simp at h
    obtain ⟨stored, hstored, hslen, hstake⟩ := a2 edges hedges
    rw [hstored, checked_bind_ok]
    dsimp only
    cases edges with
    | nil =>
      intro ret l num h
      simp only [Option.some.injEq, Prod.mk.injEq] at h
      obtain ⟨h1, h2, h3⟩ := h
      subst h1
      subst h2
      subst h3
      simp only [List.length_nil, Nat.cast_zero]
      rw [if_pos (by omega)]
      exact ⟨p, rfl, hp, rfl⟩
    | cons first rest =>
      intro ret l num h
      have hrest : rest.length ≤ 2 := by
        have hl := congrArg List.length hstake
        rw [List.length_take] at hl
        simp only [List.length_cons] at hl
        omega
      simp only [List.length_cons] at hstake ⊢
      rw [if_neg (by push_cast; omega)]
      have hfirst : array_read stored 0 = Checked.ok first := by
        have h0 := get_of_take stored (first :: rest) (by simpa using hstake) 0 (by simp)
        simp only [List.getElem?_cons_zero] at h0
        unfold array_read
        rw [if_pos (by omega)]
        simp only [Int.toNat_zero]
        rw [h0]
      rw [hfirst, checked_bind_ok, array_write_in_bounds p 0 _ (by omega) (by omega),
        checked_bind_ok]
      simp only [Int.toNat_zero]
      have hstart : ∃ q0 l0, (if first.x2 ≠ first.x1 ∨ first.y2 ≠ first.y1 then
            (array_write (p.set 0 { x := first.x1, y := first.y1 }) 1
              { x := first.x2, y := first.y2 }).bind fun p => Checked.ok (p, (2 : Int))
            else Checked.ok (p.set 0 { x := first.x1, y := first.y1 }, (1 : Int))) =
            Checked.ok (q0, ((l0 : List DFBPoint).length : Int)) ∧
          l0 = (if first.x2 ≠ first.x1 ∨ first.y2 ≠ first.y1 then
            [({ x := first.x1, y := first.y1 } : DFBPoint)] ++ [{ x := first.x2, y := first.y2 }]
            else [{ x := first.x1, y := first.y1 }]) ∧
          q0.length = 6 ∧ q0.take l0.length = l0 ∧ l0 ≠ [] ∧ l0.length ≤ 2 := by
        have ht1 : (p.set 0 { x := first.x1, y := first.y1 }).take 1 =
            [({ x := first.x1, y := first.y1 } : DFBPoint)] := by
          rw [take_set_succ p 0 _ (by omega)]
          rfl
        by_cases hd : first.x2 ≠ first.x1 ∨ first.y2 ≠ first.y1
        · rw [if_pos hd, if_pos hd, array_write_in_bounds _ 1 _ (by omega) (by simp [hp]),
            checked_bind_ok]
          refine ⟨_, _, rfl, rfl, by simp [hp], ?_, by simp, by simp⟩
          have := take_set_succ (p.set 0 { x := first.x1, y := first.y1 }) 1
            ({ x := first.x2, y := first.y2 } : DFBPoint) (by simp [hp])
          rw [ht1] at this
          exact this
        · rw [if_neg hd, if_neg hd]
          exact ⟨_, _, rfl, rfl, by simp [hp], ht1, by simp, by simp⟩
      obtain ⟨q0, l0, hq0, hl0, hq0len, hq0take, hl0ne, hl0len⟩ := hstart
      rw [hq0, checked_bind_ok]
      dsimp only
      obtain ⟨q1, hq1, hq1len, hq1take⟩ := edge_vertices_checked_agrees stored
        ((rest.length + 1 : Nat) : Int) rest 2 1 q0 l0 hq0len hl0ne (by omega) hq0take
        (by push_cast; omega)
        (fun k hk => by
          have hk' := get_of_take stored (first :: rest) (by simpa using hstake) (1 + k)
            (by simp; omega)
          rw [hk']
          rw [Nat.add_comm 1 k, List.getElem?_cons_succ])
        hrest
      simp only [Nat.cast_one] at hq1
      rw [hq1, checked_bind_ok]
      dsimp only
      obtain ⟨e1, e2, e3⟩ := edge_vertices_good rest l0 hl0ne (by
        rw [hl0]
        split_ifs with hd
        · apply List.Chain'.cons
          · intro hsame
            simp only [DFBPoint.mk.injEq] at hsame
            rcases hd with hd | hd
            · exact hd hsame.1.symm
            · exact hd hsame.2.symm
          · exact List.chain'_singleton _
        · exact List.chain'_singleton _)
      have hLpos : 1 ≤ (edge_vertices l0 rest).length := List.length_pos.mpr e1
      obtain ⟨last, hlast⟩ : ∃ last, (edge_vertices l0 rest).getLast? = some last := by
        cases hc : (edge_vertices l0 rest).getLast? with
        | none => exact absurd (List.getLast?_eq_none_iff.mp hc) e1
        | some last => exact ⟨last, rfl⟩
      obtain ⟨head, hhead⟩ : ∃ head, (edge_vertices l0 rest).head? = some head := by
        cases hc : (edge_vertices l0 rest).head? with
        | none => exact absurd (List.head?_eq_none_iff.mp hc) e1
        | some head => exact ⟨head, rfl⟩
      have hidx : (((edge_vertices l0 rest).length : Int) - 1).toNat =
          (edge_vertices l0 rest).length - 1 := by omega
      have hreadlast : array_read q1 (((edge_vertices l0 rest).length : Int) - 1) =
          Checked.ok last := by
        unfold array_read
        rw [if_pos (by omega), hidx, get_of_take q1 _ hq1take _ (by omega),
          ← List.getLast?_eq_getElem?, hlast]
      have hreadhead : array_read q1 0 = Checked.ok head := by
        unfold array_read
        rw [if_pos (by omega)]
        simp only [Int.toNat_zero]
        rw [get_of_take q1 _ hq1take 0 (by omega), ← List.head?_eq_getElem?, hhead]
      rw [hreadlast, checked_bind_ok, hreadhead, checked_bind_ok]
      dsimp only at h
      rw [← hl0] at h
      rw [List.getLastD_eq_getLast?, List.headD_eq_head?, hlast, hhead] at h
      simp only [Option.getD_some, Option.some.injEq, Prod.mk.injEq] at h
      obtain ⟨h1, h2, h3⟩ := h
      subst h1
      subst h2
      subst h3
      refine ⟨q1, ?_, hq1len, hq1take⟩
      by_cases hsame : last.x = head.x ∧ last.y = head.y
      · simp only [if_pos hsame, Checked.ok.injEq, Prod.mk.injEq, decide_eq_decide, true_and]
        omega
      · simp only [if_neg hsame, Checked.ok.injEq, Prod.mk.injEq, decide_eq_decide, true_and,
          and_true, ge_iff_le]
        exact Nat.ofNat_le_cast

/-! ## Line clipping: segments that keep clear of the clip region (C19) -/

theorem tdiv_remainder_pos (a b : Int) (hb : 0 < b) :
    -b < a - b * Int.tdiv a b ∧ a - b * Int.tdiv a b < b := by
  rcases le_total 0 a with ha | ha
  · rw [Int.tdiv_eq_ediv ha (le_of_lt hb)]
    have h1 := Int.emod_add_ediv a b
    have h2 := Int.emod_nonneg a (ne_of_gt hb)
    have h3 := Int.emod_lt_of_pos a hb
    constructor <;> linarith
  · have hneg : a = -(-a) := by ring
    have ha' : 0 ≤ -a := by omega
    rw [hneg, Int.neg_tdiv, Int.tdiv_eq_ediv ha' (le_of_lt hb)]
    have h1 := Int.emod_add_ediv (-a) b
    have h2 := Int.emod_nonneg (-a) (ne_of_gt hb)
    have h3 := Int.emod_lt_of_pos (-a) hb
    constructor <;> linarith

theorem quotient_close (a b q : ℚ) (hb : 0 < b) (h1 : -b < a - b * q) (h2 : a - b * q < b) :
    |q - a / b| < 1 := by
  have hr : a / b * b = a := div_mul_cancel₀ a (ne_of_gt hb)
  rw [abs_lt]
  constructor
  · apply lt_of_mul_lt_mul_right _ (le_of_lt hb)
    linarith
  · apply lt_of_mul_lt_mul_right _ (le_of_lt hb)
    linarith

theorem tdiv_close (a b : Int) (hb : b ≠ 0) :
    |((Int.tdiv a b : Int) : ℚ) - (a : ℚ) / (b : ℚ)| < 1 := by
  rcases lt_or_gt_of_ne hb with hneg | hpos
  · have hb' : 0 < -b := by omega
    obtain ⟨h1, h2⟩ := tdiv_remainder_pos (-a) (-b) hb'
    rw [Int.neg_tdiv_neg] at h1 h2
    have h1q : ((-(-b) : Int) : ℚ) < ((-a - -b * Int.tdiv a b : Int) : ℚ) := by exact_mod_cast h1
    have h2q : ((-a - -b * Int.tdiv a b : Int) : ℚ) < ((-b : Int) : ℚ) := by exact_mod_cast h2
    push_cast at h1q h2q
    have hbneg : (b : ℚ) < 0 := by exact_mod_cast hneg
    have := quotient_close (-(a : ℚ)) (-(b : ℚ)) (Int.tdiv a b : ℚ) (by linarith) (by linarith)
      (by linarith)
    rwa [neg_div_neg_eq] at this
  · obtain ⟨h1, h2⟩ := tdiv_remainder_pos a b hpos
    have h1q : ((-b : Int) : ℚ) < ((a - b * Int.tdiv a b : Int) : ℚ) := by exact_mod_cast h1
    have h2q : ((a - b * Int.tdiv a b : Int) : ℚ) < ((b : Int) : ℚ) := by exact_mod_cast h2
    push_cast at h1q h2q
    have hbpos : (0 : ℚ) < b := by exact_mod_cast hpos
    exact quotient_close (a : ℚ) (b : ℚ) (Int.tdiv a b : ℚ) hbpos h1q h2q

theorem interpolate_close (p1 p2 q1 q2 c : Int)
    (hp1 : small_coordinate p1) (hp2 : small_coordinate p2)
    (hq1 : small_coordinate q1) (hq2 : small_coordinate q2)
    (hc : (q1 ≤ c ∧ c ≤ q2) ∨ (q2 ≤ c ∧ c ≤ q1)) (hne : q1 ≠ q2) :
    ∃ v, (int_div (int_mul (int_sub p2 p1) (int_sub c q1)) (int_sub q2 q1)).map
        (fun q => int_add p1 q) = some v ∧ small_coordinate v ∧
      ∃ t err : ℚ, 0 ≤ t ∧ t ≤ 1 ∧ |err| < 1 ∧
        (v : ℚ) = p1 + t * (p2 - p1) + err ∧ (c : ℚ) = q1 + t * (q2 - q1) := by
  obtain ⟨v, hv1, _, hv3⟩ := interpolate_small p1 p2 q1 q2 c hp1 hp2 hq1 hq2 hc hne
  refine ⟨v, hv1, hv3, ?_⟩
  unfold small_coordinate at *
  have hdx : int_sub p2 p1 = p2 - p1 := wrap_int32_small _ (by omega)
  have hk : int_sub c q1 = c - q1 := wrap_int32_small _ (by omega)
  have hd : int_sub q2 q1 = q2 - q1 := wrap_int32_small _ (by omega)
  have hprod := product_small (p2 - p1) (c - q1) (by omega) (by omega)
  have hmul : int_mul (int_sub p2 p1) (int_sub c q1) = (p2 - p1) * (c - q1) := by
    rw [hdx, hk]
    exact wrap_int32_small _ (by omega)
  have hd0 : q2 - q1 ≠ 0 := by omega
  have hbetween := tdiv_between (p2 - p1) (c - q1) (q2 - q1) hd0 (by omega)
  have hq : -32768 ≤ Int.tdiv ((p2 - p1) * (c - q1)) (q2 - q1) ∧
      Int.tdiv ((p2 - p1) * (c - q1)) (q2 - q1) ≤ 32768 := by
    rcases le_total 0 (p2 - p1) with h | h
    · have := hbetween.1 h
      omega
    · have := hbetween.2 h
      omega
  have hv : v = p1 + Int.tdiv ((p2 - p1) * (c - q1)) (q2 - q1) := by
    rw [hmul, hd] at hv1
    unfold int_div at hv1
    rw [if_neg hd0] at hv1
    simp only [Option.map_some', Option.some.injEq] at hv1
    rw [wrap_int32_small _ (by omega)] at hv1
    unfold int_add at hv1
    rw [wrap_int32_small _ (by omega)] at hv1
    exact hv1.symm
  have hdq : ((q2 : ℚ) - q1) ≠ 0 := by
    have : ((q2 - q1 : Int) : ℚ) ≠ 0 := by exact_mod_cast hd0
    push_cast at this
    exact this
  have hclose := tdiv_close ((p2 - p1) * (c - q1)) (q2 - q1) hd0
  push_cast at hclose
  refine ⟨((c : ℚ) - q1) / (q2 - q1),
    (Int.tdiv ((p2 - p1) * (c - q1)) (q2 - q1) : ℚ) - ((p2 : ℚ) - p1) * (c - q1) / (q2 - q1),
    ?_, ?_, hclose, ?_, ?_⟩
  · rcases hc with ⟨h1, h2⟩ | ⟨h1, h2⟩
    · apply div_nonneg
      · have : (q1 : ℚ) ≤ c := by exact_mod_cast h1
        linarith
      · have : (q1 : ℚ) ≤ q2 := by exact_mod_cast (le_trans h1 h2)
        linarith
    · apply div_nonneg_of_nonpos
      · have : (c : ℚ) ≤ q1 := by exact_mod_cast h2
        linarith
      · have : (q2 : ℚ) ≤ q1 := by exact_mod_cast (le_trans h1 h2)
        linarith
  · rcases hc with ⟨h1, h2⟩ | ⟨h1, h2⟩
    · have hpos : (0 : ℚ) < q2 - q1 := by
        have : (q1 : ℚ) < q2 := by exact_mod_cast (lt_of_le_of_ne (le_trans h1 h2) hne)
        linarith
      rw [div_le_one hpos]
      have : (c : ℚ) ≤ q2 := by exact_mod_cast h2
      linarith
    · have hneg : (q2 : ℚ) - q1 < 0 := by
        have : (q2 : ℚ) < q1 := by
          exact_mod_cast (lt_of_le_of_ne (le_trans h1 h2) (fun h => hne h.symm))
        linarith
      rw [div_le_one_of_neg hneg]
      have : (q2 : ℚ) ≤ c := by exact_mod_cast h1
      linarith
  · rw [hv]
    push_cast
    field_simp
    ring
  · field_simp

theorem divide_first_near (clip line : DFBRegion) (hv : clip.valid) (hcs : clip.small)
    (hls : line.small)
    (hc1 : REGION_CODE line.x1 line.y1 clip.x1 clip.x2 clip.y1 clip.y2 ≠ 0)
    (hshare : ¬ beyond_common_edge clip line) :
    ∃ line', divide_first clip line
        (REGION_CODE line.x1 line.y1 clip.x1 clip.x2 clip.y1 clip.y2) = some line' ∧
      ∃ t ex ey : ℚ, 0 ≤ t ∧ t ≤ 1 ∧ |ex| < 1 ∧ |ey| < 1 ∧
        (line'.x1 : ℚ) = line.x1 + t * (line.x2 - line.x1) + ex ∧
        (line'.y1 : ℚ) = line.y1 + t * (line.y2 - line.y1) + ey ∧
        ((ey = 0 ∧ clip.y1 ≤ line'.y1 ∧ line'.y1 ≤ clip.y2 ∧
            (line.y1 < clip.y1 ∨ clip.y2 < line.y1)) ∨
          (ex = 0 ∧ clip.x1 ≤ line'.x1 ∧ line'.x1 ≤ clip.x2 ∧
            clip.y1 ≤ line.y1 ∧ line.y1 ≤ clip.y2)) := by
  obtain ⟨b8, b4, b2, b1, b0⟩ := region_code_bits line.x1 line.y1 clip.x1 clip.x2 clip.y1 clip.y2
  obtain ⟨hx1, hy1, hx2, hy2⟩ := hls
  obtain ⟨hcx1, hcy1, hcx2, hcy2⟩ := hcs
  obtain ⟨hvx, hvy⟩ := hv
  unfold beyond_common_edge at hshare
  unfold divide_first
  by_cases h8 : line.y1 > clip.y2
  · rw [if_pos (b8.mpr h8)]
    obtain ⟨v, hv1, _, t, err, ht0, ht1, herr, hval, hc⟩ := interpolate_close line.x1 line.x2
      line.y1 line.y2 clip.y2 hx1 hx2 hy1 hy2 (by omega) (by omega)
    refine ⟨{ line with x1 := v, y1 := clip.y2 }, ?_, t, err, 0, ht0, ht1, herr, by simp, hval,
      by simpa using hc, Or.inl ⟨rfl, hvy, le_refl _, Or.inr h8⟩⟩
    unfold line_x_at
    rw [hv1]
    rfl
  · rw [if_neg (fun h => h8 (b8.mp h))]
    by_cases h4 : line.y1 < clip.y1
    · rw [if_pos (b4.mpr h4)]
      obtain ⟨v, hv1, _, t, err, ht0, ht1, herr, hval, hc⟩ := interpolate_close line.x1 line.x2
        line.y1 line.y2 clip.y1 hx1 hx2 hy1 hy2 (by omega) (by omega)
      refine ⟨{ line with x1 := v, y1 := clip.y1 }, ?_, t, err, 0, ht0, ht1, herr, by simp, hval,
        by simpa using hc, Or.inl ⟨rfl, le_refl _, hvy, Or.inl h4⟩⟩
      unfold line_x_at
      rw [hv1]
      rfl
    · rw [if_neg (fun h => h4 (b4.mp h))]
      by_cases h2 : line.x1 > clip.x2
      · rw [if_pos (b2.mpr h2)]
        obtain ⟨v, hv1, _, t, err, ht0, ht1, herr, hval, hc⟩ := interpolate_close line.y1
          line.y2 line.x1 line.x2 clip.x2 hy1 hy2 hx1 hx2 (by omega) (by omega)
        refine ⟨{ line with y1 := v, x1 := clip.x2 }, ?_, t, 0, err, ht0, ht1, by simp, herr,
          by simpa using hc, hval, Or.inr ⟨rfl, hvx, le_refl _, by omega, by omega⟩⟩
        unfold line_y_at
        rw [hv1]
        rfl
      · rw [if_neg (fun h => h2 (b2.mp h))]
        have h1 : line.x1 < clip.x1 := by
          by_contra hn
          exact hc1 (b0.mpr ⟨h8, h4, h2, hn⟩)
        rw [if_pos (b1.mpr h1)]
        obtain ⟨v, hv1, _, t, err, ht0, ht1, herr, hval, hc⟩ := interpolate_close line.y1
          line.y2 line.x1 line.x2 clip.x1 hy1 hy2 hx1 hx2 (by omega) (by omega)
        refine ⟨{ line with y1 := v, x1 := clip.x1 }, ?_, t, 0, err, ht0, ht1, by simp, herr,
          by simpa using hc, hval, Or.inr ⟨rfl, le_refl _, hvx, by omega, by omega⟩⟩
        unfold line_y_at
        rw [hv1]
        rfl

theorem clip_line_loop_keeps_first (clip : DFBRegion) :
    ∀ (fuel : Nat) (line final : DFBRegion) (code2 : Nat),
      clip_line_loop clip fuel line 0 code2 = some (true, final) →
      final.x1 = line.x1 ∧ final.y1 = line.y1 := by
  intro fuel
  induction fuel with
  | zero =>
    intro line final code2 h
    unfold clip_line_loop at h
    by_cases hz : 0 ||| code2 = 0
    · rw [if_pos hz] at h
      simp only [Option.some.injEq, Prod.mk.injEq, true_and] at h
      rw [← h]
      exact ⟨rfl, rfl⟩
    · rw [if_neg hz, if_neg (by simp)] at h
      simp at h
  | succ n ih =>
    intro line final code2 h
    unfold clip_line_loop at h
    by_cases hz : 0 ||| code2 = 0
    · rw [if_pos hz] at h
      simp only [Option.some.injEq, Prod.mk.injEq, true_and] at h
      rw [← h]
      exact ⟨rfl, rfl⟩
    · rw [if_neg hz, if_neg (by simp)] at h
      dsimp only at h
      rw [if_neg (by simp)] at h
      cases hd : divide_second clip line code2 with
      | none => rw [hd] at h; simp at h
      | some line' =>
        rw [hd] at h
        obtain ⟨k1, k2⟩ := divide_second_keeps_first clip line line' code2 hd
        obtain ⟨i1, i2⟩ := ih line' final _ h
        exact ⟨by rw [i1, k1], by rw [i2, k2]⟩

theorem clip_line_loop_round (clip : DFBRegion) (fuel : Nat) (line final : DFBRegion)
    (hc1 : REGION_CODE line.x1 line.y1 clip.x1 clip.x2 clip.y1 clip.y2 ≠ 0)
    (h : clip_line_loop clip fuel line
        (REGION_CODE line.x1 line.y1 clip.x1 clip.x2 clip.y1 clip.y2)
        (REGION_CODE line.x2 line.y2 clip.x1 clip.x2 clip.y1 clip.y2) = some (true, final)) :
    ¬ beyond_common_edge clip line ∧
    ∃ less line', divide_first clip line
        (REGION_CODE line.x1 line.y1 clip.x1 clip.x2 clip.y1 clip.y2) = some line' ∧
      clip_line_loop clip less line'
        (REGION_CODE line'.x1 line'.y1 clip.x1 clip.x2 clip.y1 clip.y2)
        (REGION_CODE line.x2 line.y2 clip.x1 clip.x2 clip.y1 clip.y2) = some (true, final) := by
  have hshare : ¬ beyond_common_edge clip line := by
    intro hb
    rw [clip_line_loop_rejects clip fuel line hb] at h
    simp at h
  refine ⟨hshare, ?_⟩
  have hns : ¬ (REGION_CODE line.x1 line.y1 clip.x1 clip.x2 clip.y1 clip.y2 &&&
      REGION_CODE line.x2 line.y2 clip.x1 clip.x2 clip.y1 clip.y2 ≠ 0) :=
    fun hh => hshare ((region_codes_share _ _ _ _ _ _ _ _).mp hh)
  have hor : ¬ (REGION_CODE line.x1 line.y1 clip.x1 clip.x2 clip.y1 clip.y2 |||
      REGION_CODE line.x2 line.y2 clip.x1 clip.x2 clip.y1 clip.y2 = 0) :=
    fun hz => hc1 (lor_eq_zero _ _ hz).1
  unfold clip_line_loop at h
  rw [if_neg hor, if_neg hns] at h
  cases fuel with
  | zero => simp at h
  | succ n =>
    dsimp only at h
    rw [if_pos hc1] at h
    cases hd : divide_first clip line
        (REGION_CODE line.x1 line.y1 clip.x1 clip.x2 clip.y1 clip.y2) with
    | none => rw [hd] at h; simp at h
    | some line' =>
      rw [hd] at h
      exact ⟨n, line', rfl, h⟩

theorem clip_line_first_near (clip line : DFBRegion) (hv : clip.valid) (hcs : clip.small)
    (hls : line.small) (fuel : Nat) (final : DFBRegion)
    (h : dfb_clip_line fuel clip line = some (true, final)) :
    near_segment line final.x1 final.y1 := by
  unfold dfb_clip_line at h
  by_cases hc1 : REGION_CODE line.x1 line.y1 clip.x1 clip.x2 clip.y1 clip.y2 = 0
  · rw [hc1] at h
    obtain ⟨k1, k2⟩ := clip_line_loop_keeps_first clip fuel line final _ h
    refine ⟨0, le_refl _, by norm_num, ?_, ?_⟩
    · rw [k1]
      simp
    · rw [k2]
      simp
  · obtain ⟨hshare, n1, line1, hd1, h1⟩ := clip_line_loop_round clip fuel line final hc1 h
    obtain ⟨l1, hl1, hx2, hy2, hsmall1, hprog1⟩ := divide_first_progress clip line hv hcs hls hc1
      hshare
    obtain ⟨l1', hl1', t, ex, ey, ht0, ht1, hex, hey, hxq, hyq, hkind⟩ :=
      divide_first_near clip line hv hcs hls hc1 hshare
    have e1 : l1 = line1 := by
      rw [hl1] at hd1
      exact Option.some.inj hd1
    have e1' : l1' = line1 := by
      rw [hl1'] at hd1
      exact Option.some.inj hd1
    rw [e1] at hx2 hy2 hsmall1 hprog1
    rw [e1'] at hxq hyq hkind
    clear hl1 hl1' e1 e1'
    rw [← hx2, ← hy2] at h1
    by_cases hc2 : REGION_CODE line1.x1 line1.y1 clip.x1 clip.x2 clip.y1 clip.y2 = 0
    · rw [hc2] at h1
      obtain ⟨k1, k2⟩ := clip_line_loop_keeps_first clip n1 line1 final _ h1
      refine ⟨t, ht0, ht1, ?_, ?_⟩
      · rw [k1, hxq]
        ring_nf
        exact hex
      · rw [k2, hyq]
        ring_nf
        exact hey
    · obtain ⟨hshare1, n2, line2, hd2, h2⟩ := clip_line_loop_round clip n1 line1 final hc2 h1
      obtain ⟨l2, hl2, gx2, gy2, hsmall2, hprog2⟩ := divide_first_progress clip line1 hv hcs hsmall1
        hc2 hshare1
      obtain ⟨l2', hl2', t', ex', ey', ht0', ht1', hex', hey', hxq', hyq', hkind'⟩ :=
        divide_first_near clip line1 hv hcs hsmall1 hc2 hshare1
      have e2 : l2 = line2 := by
        rw [hl2] at hd2
        exact Option.some.inj hd2
      have e2' : l2' = line2 := by
        rw [hl2'] at hd2
        exact Option.some.inj hd2
      rw [e2] at gx2 gy2 hsmall2 hprog2
      rw [e2'] at hxq' hyq' hkind'
      clear hl2 hl2' e2 e2'
      rw [← gx2, ← gy2] at h2
      have hcount1 : outside_count clip line1.x1 line1.y1 < outside_count clip line.x1 line.y1 := by
        rcases hprog1 with hb | hlt
        · exact absurd hb hshare1
        · exact hlt
      by_cases hc3 : REGION_CODE line2.x1 line2.y1 clip.x1 clip.x2 clip.y1 clip.y2 = 0
      · rw [hc3] at h2
        obtain ⟨k1, k2⟩ := clip_line_loop_keeps_first clip n2 line2 final _ h2
        have hx2q : (line1.x2 : ℚ) = line.x2 := by exact_mod_cast hx2
        have hy2q : (line1.y2 : ℚ) = line.y2 := by exact_mod_cast hy2
        have hs0 : 0 ≤ 1 - t' := by linarith
        have hs1 : 1 - t' ≤ 1 := by linarith
        have hmix : ∀ e : ℚ, |e| < 1 → |(1 - t') * e| < 1 := by
          intro e he
          rw [abs_mul, abs_of_nonneg hs0]
          calc (1 - t') * |e| ≤ 1 * |e| := by
                apply mul_le_mul_of_nonneg_right hs1 (abs_nonneg e)
            _ = |e| := one_mul _
            _ < 1 := he
        refine ⟨t + t' * (1 - t), by nlinarith, by nlinarith, ?_, ?_⟩
        · rw [k1, hxq', hx2q, hxq]
          rcases hkind' with ⟨hz, _, _, hout⟩ | ⟨hz, _, _, _, _⟩
          · rcases hkind with ⟨_, hin1, hin2, _⟩ | ⟨hzz, _, _, _, _⟩
            · omega
            · rw [hzz]
              have : (line.x1 : ℚ) + (t + t' * (1 - t)) * (line.x2 - line.x1) =
                  line.x1 + t * (line.x2 - line.x1) + 0 +
                    t' * (line.x2 - (line.x1 + t * (line.x2 - line.x1) + 0)) := by ring
              rw [this]
              ring_nf
              exact hex'
          · rw [hz]
            have : (line.x1 : ℚ) + t * (line.x2 - line.x1) + ex +
                t' * (line.x2 - (line.x1 + t * (line.x2 - line.x1) + ex)) + 0 -
                (line.x1 + (t + t' * (1 - t)) * (line.x2 - line.x1)) = (1 - t') * ex := by ring
            rw [this]
            exact hmix ex hex
        · rw [k2, hyq', hy2q, hyq]
          rcases hkind' with ⟨hz, _, _, hout⟩ | ⟨hz, hinx1, hinx2, hiny1, hiny2⟩
          · rw [hz]
            have : (line.y1 : ℚ) + t * (line.y2 - line.y1) + ey +
                t' * (line.y2 - (line.y1 + t * (line.y2 - line.y1) + ey)) + 0 -
                (line.y1 + (t + t' * (1 - t)) * (line.y2 - line.y1)) = (1 - t') * ey := by ring
            rw [this]
            exact hmix ey hey
          · rcases hkind with ⟨hzz, _, _, _⟩ | ⟨_, hin1, hin2, _, _⟩
            · rw [hzz]
              have : (line.y1 : ℚ) + t * (line.y2 - line.y1) + 0 +
                  t' * (line.y2 - (line.y1 + t * (line.y2 - line.y1) + 0)) + ey' -
                  (line.y1 + (t + t' * (1 - t)) * (line.y2 - line.y1)) = ey' := by ring
              rw [this]
              exact hey'
            · exfalso
              apply hc2
              rw [(region_code_bits line1.x1 line1.y1 clip.x1 clip.x2 clip.y1 clip.y2).2.2.2.2]
              omega
      · obtain ⟨hshare2, _⟩ := clip_line_loop_round clip n2 line2 final hc3 h2
        have hcount2 : outside_count clip line2.x1 line2.y1 < outside_count clip line1.x1 line1.y1 := by
          rcases hprog2 with hb | hlt
          · exact absurd hb hshare2
          · exact hlt
        have hle := outside_count_le clip line.x1 line.y1
        exfalso
        apply hc3
        rw [region_code_zero_iff]
        omega

/-- C19 (amended): `dfb_clip_line` returns false, and leaves the line as it is, for every
line whose end points both lie beyond the same edge of the clip region, and
whenever it returns true, both end points of the line that it leaves lie inside
the clip region. For a clip region with `x1 <= x2` and `y1 <= y2` and coordinates
of at most 16384 in absolute value it returns, and it returns false for every
line whose segment keeps clear of the clip region by a pixel, whichever edges the
end points lie beyond; when it returns true, the first end point that it leaves
lies less than one pixel, in x and in y, from a point of the segment. -/
theorem clip_line_rejects_clear_segment (fuel : Nat) (clip line : DFBRegion) :
    (beyond_common_edge clip line → dfb_clip_line fuel clip line = some (false, line)) ∧
    (∀ line', dfb_clip_line fuel clip line = some (true, line') →
      point_inside clip line'.x1 line'.y1 ∧ point_inside clip line'.x2 line'.y2) ∧
    (clip.valid → clip.small → line.small → 4 ≤ fuel →
      (∃ result, dfb_clip_line fuel clip line = some result) ∧
      (segment_clear clip line → ∃ line', dfb_clip_line fuel clip line = some (false, line')) ∧
      (∀ line', dfb_clip_line fuel clip line = some (true, line') →
        near_segment line line'.x1 line'.y1)) := by
  refine ⟨fun h => clip_line_loop_rejects clip fuel line h,
    fun line' h => clip_line_loop_visible clip fuel line line' h, ?_⟩
  intro hv hcs hls hfuel
  have hnear : ∀ line', dfb_clip_line fuel clip line = some (true, line') →
      near_segment line line'.x1 line'.y1 :=
    fun line' h => clip_line_first_near clip line hv hcs hls fuel line' h
  obtain ⟨⟨visible, line'⟩, hres⟩ := clip_line_returns clip line fuel hv hcs hls hfuel
  refine ⟨⟨_, hres⟩, ?_, hnear⟩
  intro hclear
  cases visible with
  | false => exact ⟨line', hres⟩
  | true =>
    exfalso
    obtain ⟨⟨i1, i2, i3, i4⟩, _⟩ := clip_line_loop_visible clip fuel line line' hres
    obtain ⟨t, ht0, ht1, hx, hy⟩ := hnear line' hres
    have j1 : (clip.x1 : ℚ) ≤ line'.x1 := by exact_mod_cast i1
    have j2 : (line'.x1 : ℚ) ≤ clip.x2 := by exact_mod_cast i2
    have j3 : (clip.y1 : ℚ) ≤ line'.y1 := by exact_mod_cast i3
    have j4 : (line'.y1 : ℚ) ≤ clip.y2 := by exact_mod_cast i4
    rw [abs_lt] at hx hy
    rcases hclear t ht0 ht1 with h | h | h | h <;> linarith

/-- C19, witness: the segment from (-100, 5) to (5, -100) keeps clear of the sample clip
region, as the sum of the coordinates is -95 at each of its points, while its
end points lie beyond different edges; the first division moves the first end
point to (0, -95), above the region like the second one, and the function
returns false. -/
theorem clip_line_rejects_clear_segment_witness :
    (¬ beyond_common_edge sample_clip line_clear_of_corner ∧
      dfb_clip_line 4 sample_clip line_clear_of_corner =
        some (false, { x1 := 0, y1 := -95, x2 := 5, y2 := -100 })) ∧
    segment_clear sample_clip line_clear_of_corner ∧
    ∃ line', dfb_clip_line 4 sample_clip line_clear_of_corner = some (false, line') :=
  have hclear : segment_clear sample_clip line_clear_of_corner := by
    intro t _ _
    simp only [sample_clip, line_clear_of_corner]
    push_cast
    by_contra hn
    push_neg at hn
    obtain ⟨h1, _, h3, _⟩ := hn
    linarith
  ⟨by decide, hclear,
    ((clip_line_rejects_clear_segment 4 sample_clip line_clear_of_corner).2.2 (by decide)
      (by decide) (by decide) (by decide)).2.1 hclear⟩

/-! ## Clipping of a flipped or rotated blit: a destination beside the clip (C22) -/

theorem blit_beside_result (clip : DFBRegion) (srect drect : DFBRectangle) (flags : Nat)
    (horizontal vertical rotate : Bool)
    (hflags : flags &&& (DSBLIT_FLIP_HORIZONTAL ||| DSBLIT_FLIP_VERTICAL ||| DSBLIT_ROTATE90) =
      flip_rotate_flags horizontal vertical rotate)
    (hsx : small_coordinate srect.x) (hsy : small_coordinate srect.y) (hd : drect.small)
    (hmeet : ¬ destination_meets_clip clip drect) :
    dfb_clip_blit_flipped_rotated clip srect drect flags =
      ({ x := srect.x, y := srect.y, w := if rotate then drect.h else drect.w,
         h := if rotate then drect.w else drect.h }, drect) := by
  have hrot := rotate_bit_of_flags flags horizontal vertical rotate hflags
  have hmiss : ∀ dest : DFBRegion,
      dest = { x1 := drect.x, y1 := drect.y, x2 := drect.x + drect.w - 1,
               y2 := drect.y + drect.h - 1 } →
      dfb_region_region_intersect dest clip = (false, dest) := by
    intro dest hdest
    unfold dfb_region_region_intersect
    rw [if_pos]
    unfold destination_meets_clip at hmeet
    rw [hdest]
    dsimp only
    omega
  have hdx : -65536 ≤ drect.x ∧ drect.x ≤ 65536 := by
    obtain ⟨⟨h1, h2⟩, _⟩ := hd
    omega
  have hdy : -65536 ≤ drect.y ∧ drect.y ≤ 65536 := by
    obtain ⟨_, ⟨h1, h2⟩, _⟩ := hd
    omega
  have hdx2 : -65536 ≤ drect.x + drect.w - 1 ∧ drect.x + drect.w - 1 ≤ 65536 := by
    obtain ⟨⟨h1, h2⟩, ⟨h3, h4⟩, h5, h6, h7, h8⟩ := hd
    omega
  have hdy2 : -65536 ≤ drect.y + drect.h - 1 ∧ drect.y + drect.h - 1 ≤ 65536 := by
    obtain ⟨⟨h1, h2⟩, ⟨h3, h4⟩, h5, h6, h7, h8⟩ := hd
    omega
  unfold dfb_clip_blit_flipped_rotated
  rw [destination_region drect hd]
  dsimp only
  rw [hmiss _ rfl, hflags, hrot]
  unfold dfb_rectangle_from_region
  dsimp only
  rw [int_size _ _ hdx2 hdx, int_size _ _ hdy2 hdy, int_shift _ _ _ hsx hdx hdx,
    int_shift _ _ _ hsy hdy hdy, int_shift _ _ _ hsx hdx2 hdx2, int_shift _ _ _ hsy hdy2 hdy2,
    int_shift _ _ _ hsx hdy2 hdy2, int_shift _ _ _ hsy hdx hdx, int_shift _ _ _ hsx hdy hdy,
    int_shift _ _ _ hsy hdx2 hdx2]
  obtain ⟨sx, sy, sw, sh⟩ := srect
  obtain ⟨dx, dy, dw, dh⟩ := drect
  cases horizontal <;> cases vertical <;> cases rotate <;>
    simp_all [flip_rotate_flags, DSBLIT_NOFX, DSBLIT_FLIP_HORIZONTAL, DSBLIT_FLIP_VERTICAL,
      DSBLIT_ROTATE90] <;>
    omega

/-- C22 (amended): for each of the eight combinations of horizontal flip, vertical flip and
rotation by 90 degrees, a destination rectangle of positive size and coordinates
of at most 16384 in absolute value: when the destination has a pixel in common
with the clip, `dfb_clip_blit_flipped_rotated` sets it to its intersection with
the clip, moves the source origin by the pair of cuts that the table of the
specification gives for the combination, and sets the source size to the size of
the clipped destination, width and height swapped under rotation; when it has
none, the destination and the source origin stay as they are and the source size
becomes the size of the destination, swapped under rotation. -/
theorem clip_blit_flipped_rotated_table (clip : DFBRegion) (srect drect : DFBRectangle)
    (flags : Nat) (horizontal vertical rotate : Bool)
    (hflags : flags &&& (DSBLIT_FLIP_HORIZONTAL ||| DSBLIT_FLIP_VERTICAL ||| DSBLIT_ROTATE90) =
      flip_rotate_flags horizontal vertical rotate)
    (hclip : clip.small) (hsx : small_coordinate srect.x) (hsy : small_coordinate srect.y)
    (hd : drect.small) :
    (destination_meets_clip clip drect →
      dfb_clip_blit_flipped_rotated clip srect drect flags =
        ({ x := srect.x + (spec_source_shift clip drect horizontal vertical rotate).1,
           y := srect.y + (spec_source_shift clip drect horizontal vertical rotate).2,
           w := if rotate then clipped_height clip drect else clipped_width clip drect,
           h := if rotate then clipped_width clip drect else clipped_height clip drect },
         { x := (clipped_destination clip drect).x1, y := (clipped_destination clip drect).y1,
           w := clipped_width clip drect, h := clipped_height clip drect })) ∧
    (¬ destination_meets_clip clip drect →
      dfb_clip_blit_flipped_rotated clip srect drect flags =
        ({ x := srect.x, y := srect.y, w := if rotate then drect.h else drect.w,
           h := if rotate then drect.w else drect.h }, drect)) :=
  ⟨fun hmeet => blit_flipped_rotated_result clip srect drect flags horizontal vertical rotate
      hflags hclip hsx hsy hd hmeet,
    fun hmeet => blit_beside_result clip srect drect flags horizontal vertical rotate hflags hsx
      hsy hd hmeet⟩

/-- C22, witness: under rotation with horizontal flip, the sample destination, which loses
2 columns on the left and 3 rows at the top, moves the source origin by (3, 2) and
leaves an 11 by 11 rectangle on both sides. -/
theorem clip_blit_flipped_rotated_table_witness :
    (destination_meets_clip sample_clip sample_destination ∧
      dfb_clip_blit_flipped_rotated sample_clip sample_source_rotated sample_destination
          (DSBLIT_ROTATE90 ||| DSBLIT_FLIP_HORIZONTAL ||| 1) =
        ({ x := 103, y := 202, w := 11, h := 11 }, { x := 0, y := 0, w := 11, h := 11 })) ∧
    dfb_clip_blit_flipped_rotated sample_clip sample_source_rotated sample_destination
        (DSBLIT_ROTATE90 ||| DSBLIT_FLIP_HORIZONTAL ||| 1) =
      ({ x := sample_source_rotated.x +
             (spec_source_shift sample_clip sample_destination true false true).1,
         y := sample_source_rotated.y +
             (spec_source_shift sample_clip sample_destination true false true).2,
         w := if true = true then clipped_height sample_clip sample_destination
              else clipped_width sample_clip sample_destination,
         h := if true = true then clipped_width sample_clip sample_destination
              else clipped_height sample_clip sample_destination },
       { x := (clipped_destination sample_clip sample_destination).x1,
         y := (clipped_destination sample_clip sample_destination).y1,
         w := clipped_width sample_clip sample_destination,
         h := clipped_height sample_clip sample_destination }) :=
  ⟨by decide,
    (clip_blit_flipped_rotated_table sample_clip sample_source_rotated sample_destination
      (DSBLIT_ROTATE90 ||| DSBLIT_FLIP_HORIZONTAL ||| 1) true false true (by decide) (by decide)
      (by decide) (by decide) (by decide)).1 (by decide)⟩

/-- C22, counterexample to the claim as worded: the destination rectangle of 17 by 20
pixels at (20, -3) lies right of the sample clip region and has no pixel in
common with it, so that its intersection with the clip is empty; the function
ignores the result of `dfb_region_region_intersect` and leaves the destination
rectangle as it is. -/
theorem clip_blit_keeps_destination_beside_clip :
    ¬ destination_meets_clip sample_clip { x := 20, y := -3, w := 17, h := 20 } ∧
    dfb_region_region_intersect
        (DFB_REGION_INIT_FROM_RECTANGLE { x := 20, y := -3, w := 17, h := 20 }) sample_clip =
      (false, { x1 := 20, y1 := -3, x2 := 36, y2 := 16 }) ∧
    dfb_clip_blit_flipped_rotated sample_clip sample_source { x := 20, y := -3, w := 17, h := 20 }
        DSBLIT_NOFX =
      (sample_source, { x := 20, y := -3, w := 17, h := 20 }) := by
  decide

end DirectFB
